import Mathlib

/-! A shallow embedding of the `rubymarshal` decoder.

The Go package `internal/rubymarshal` decodes Ruby's binary marshal format
into caller supplied destinations through `reflect`.  This file embeds the
decoder as pure Lean functions over an explicit decoder state and proves
properties of it.

Modelling conventions.

* A byte is a `Fin 256`; a Go `string` and a `[]byte` are lists of bytes.
* `bytes.Buffer` is the list of its unread bytes.
* Go `int` is the 64-bit two's-complement integer.  Inside `parseInt` the
  bit operations are carried out on 64-bit patterns (naturals below `2^64`)
  and the result is read back as a signed number.
* A `panic` is an explicit outcome that carries the decoder state and the
  destination contents at the point where the panic was raised.  Memory
  exhaustion and stack exhaustion of the Go runtime are not modelled.
* `reflect.Value` arguments of `parseType` are always of kind `Ptr`: every
  call site passes `reflect.ValueOf(&x)`, `v.Addr()`, `reflect.New(t)`, or an
  element of a slice of pointers, and `Decode` rejects every other kind
  before it calls `parseType`.
-/

namespace Rubymarshal

/-! ## Bytes, kinds, types and values -/

abbrev Byte := Fin 256

/-- A Go `string` (an arbitrary sequence of bytes). -/
abbrev GoString := List Byte

/-- The `reflect.Kind` of a value.  Kinds on which the decoder never
branches are gathered under `other`, which carries the result of
`Kind.String()`. -/
inductive Kind : Type
  | invalid | bool | int | int32 | int64 | float64 | string
  | interface | slice | map | struct | ptr
  | other (name : String)
  deriving DecidableEq

/-- The text `reflect.Kind.String()` returns. -/
def Kind.name : Kind → String
  | .invalid => "invalid"
  | .bool => "bool"
  | .int => "int"
  | .int32 => "int32"
  | .int64 => "int64"
  | .float64 => "float64"
  | .string => "string"
  | .interface => "interface"
  | .slice => "slice"
  | .map => "map"
  | .struct => "struct"
  | .ptr => "ptr"
  | .other n => n

mutual
/-- Go types as seen through `reflect.Type`.  Basic types are the unnamed
predeclared ones, `iface` is `interface{}`, and a struct type is a named type
of package `pkg`. -/
inductive GoType : Type
  | bool | int | int32 | int64 | float64 | string
  | iface
  | slice (elem : GoType)
  | map (key elem : GoType)
  | ptr (elem : GoType)
  | struct (pkg name : String) (fields : Fields)
  | other (kind : String)
/-- The declared fields of a struct type, in declaration order: Go name,
the value of the `ruby:"..."` tag (empty when absent), whether the name is
exported, and the field type. -/
inductive Fields : Type
  | nil
  | cons (name : String) (tag : GoString) (exported : Bool) (type : GoType)
      (rest : Fields)
end

/-- The kind `reflect.Type.Kind()` reports. -/
def GoType.kind : GoType → Kind
  | .bool => .bool
  | .int => .int
  | .int32 => .int32
  | .int64 => .int64
  | .float64 => .float64
  | .string => .string
  | .iface => .interface
  | .slice _ => .slice
  | .map _ _ => .map
  | .ptr _ => .ptr
  | .struct _ _ _ => .struct
  | .other k => .other k

/-- The text `reflect.Type.String()` returns. -/
def GoType.typeString : GoType → String
  | .bool => "bool"
  | .int => "int"
  | .int32 => "int32"
  | .int64 => "int64"
  | .float64 => "float64"
  | .string => "string"
  | .iface => "interface \x7b\x7d"
  | .slice e => "[]" ++ e.typeString
  | .map k e => "map[" ++ k.typeString ++ "]" ++ e.typeString
  | .ptr e => "*" ++ e.typeString
  | .struct pkg name _ => pkg ++ "." ++ name
  | .other k => k

/-- The text `reflect.Type.Name()` returns (empty for unnamed types). -/
def GoType.typeName : GoType → String
  | .bool => "bool"
  | .int => "int"
  | .int32 => "int32"
  | .int64 => "int64"
  | .float64 => "float64"
  | .string => "string"
  | .struct _ name _ => name
  | _ => ""

mutual
/-- Identity of types. -/
def GoType.beq : GoType → GoType → Bool
  | .bool, .bool => true
  | .int, .int => true
  | .int32, .int32 => true
  | .int64, .int64 => true
  | .float64, .float64 => true
  | .string, .string => true
  | .iface, .iface => true
  | .slice a, .slice b => GoType.beq a b
  | .map a b, .map c d => GoType.beq a c && GoType.beq b d
  | .ptr a, .ptr b => GoType.beq a b
  | .struct p n f, .struct q m g => p == q && n == m && Fields.beq f g
  | .other a, .other b => a == b
  | _, _ => false
/-- Identity of field lists. -/
def Fields.beq : Fields → Fields → Bool
  | .nil, .nil => true
  | .cons n t e ty r, .cons n2 t2 e2 ty2 r2 =>
    n == n2 && t == t2 && e == e2 && GoType.beq ty ty2 && Fields.beq r r2
  | _, _ => false
end

/-- Go values.  `nil` is the nil interface, the nil pointer, and the zero
`reflect.Value`; `sliceNil` and `mapNil` are the nil slice and the nil map.
A `float64` is its IEEE-754 bit pattern.  A map is an association list with
distinct keys.  `iface dyn v` is a non-nil interface value whose dynamic type
is `dyn`. -/
inductive GoValue : Type
  | nil
  | bool (b : Bool)
  | int (n : Int)
  | float64 (bits : Nat)
  | string (s : GoString)
  | sliceNil
  | slice (elems : List GoValue)
  | mapNil
  | map (entries : List (GoValue × GoValue))
  | struct (fields : List GoValue)
  | ptr (target : GoValue)
  | iface (dyn : GoType) (v : GoValue)
  | other

mutual
/-- The zero value of a type (`reflect.Zero`). -/
def GoType.zero : GoType → GoValue
  | .bool => .bool false
  | .int => .int 0
  | .int32 => .int 0
  | .int64 => .int 0
  | .float64 => .float64 0
  | .string => .string []
  | .iface => .nil
  | .slice _ => .sliceNil
  | .map _ _ => .mapNil
  | .ptr _ => .nil
  | .struct _ _ f => .struct (Fields.zero f)
  | .other _ => .other
/-- The zero values of the fields of a struct type. -/
def Fields.zero : Fields → List GoValue
  | .nil => []
  | .cons _ _ _ ty r => GoType.zero ty :: Fields.zero r
end

/-! ## Errors and panics -/

/-- The values the decoder panics with. -/
inductive Panic : Type
  /-- The `io.EOF` of `MustReadByte` and of `bytes.Buffer.Read`. -/
  | eof
  /-- A `rubyError`: expected symbol type '"' but got '<ivarKind>'. -/
  | ivarKind (got : Byte)
  /-- A `rubyError`: expected type 'T' but got '<boolKind>'. -/
  | ivarBool (got : Byte)
  /-- A `rubyError`: ruby: unknown object fields <names> for struct <type>. -/
  | unknownFields (names : List GoString) (structType : String)
  /-- A `rubyError`: hash: expected string or int type but got <%T>. -/
  | hashKey (got : String)
  /-- A `rubyError`: hash: unable to map ruby hashmap to struct (<type>) as key
  type is: <%T>. -/
  | hashStructKey (structType got : String)
  /-- A string panic: hash: unhandled inner type: <kind>. -/
  | hashInnerType (kind : String)
  /-- A string panic: Unhandled user defined type: <className>. -/
  | unhandledUserDefined (className : GoString)
  /-- An `errors.New` panic: unimplemented type: '<kind>' (byte: <n>). -/
  | unimplementedType (kind : Byte)
  /-- An `errors.New` panic: expected symbol type ':' or ';' but got
  '<symKind>'. -/
  | expectedSymbol (symKind : Byte)
  /-- A panic of the Go runtime or of package `reflect`. -/
  | runtime (what : String)
  /-- A panic raised by a user defined load callback. -/
  | callback (what : String)
  /-- The nesting budget of the model ran out (never with the budget
  `parseType` supplies). -/
  | fuel
  deriving DecidableEq

/-- Values of type `error` that the decoder returns or latches. -/
inductive GoError : Type
  /-- A `*unexpectedType`. -/
  | unexpectedType (got expected : String)
  /-- A `*invalidFloat64` (the `Err` of `strconv` is not modelled). -/
  | invalidFloat64 (value : GoString)
  /-- The `errors.New` of the struct branches: `<struct> struct has field
  "<field>" with type <type>, but expected <expected>`. -/
  | fieldContext (structName fieldName fieldType expected : String)
  /-- An `errors.New` with a fixed text. -/
  | text (msg : String)
  /-- A recovered `*rubyError` panic value. -/
  | rubyError (p : Panic)
  deriving DecidableEq

/-- Whether the panic value is a `*rubyError`. -/
def Panic.isRubyError : Panic → Bool
  | .ivarKind _ => true
  | .ivarBool _ => true
  | .unknownFields _ _ => true
  | .hashKey _ => true
  | .hashStructKey _ _ => true
  | _ => false

/-! ## Destinations and the decoder state -/

/-- A `reflect.Value` of kind `Ptr` with element type `elemType`.  When
`isNil` the pointer is nil and `Elem()` is the zero `Value`; otherwise
`cur` is what the pointer points at.  `ro` tells that the value was reached
through an unexported struct field, so that `Elem().CanSet()` is false. -/
structure RValue where
  elemType : GoType
  isNil : Bool
  ro : Bool
  cur : GoValue

/-- The `reflect.ValueOf(&x)` of a variable `x` of type `t` holding `v`. -/
def RValue.addrOf (t : GoType) (v : GoValue) : RValue :=
  { elemType := t, isNil := false, ro := false, cur := v }

/-- The `reflect.ValueOf(&x)` of a fresh `var x interface{}`. -/
def RValue.emptyInterface : RValue := RValue.addrOf .iface .nil

/-- The result of `val.Elem().Kind()`. -/
def RValue.elemKind (val : RValue) : Kind :=
  if val.isNil then .invalid else val.elemType.kind

/-- The result of `val.Elem().CanSet()`. -/
def RValue.canSet (val : RValue) : Bool := !val.isNil && !val.ro

/-- What a user defined load callback does: it may panic (with a value that
is not a `*rubyError`, a type private to the package), and it leaves the
pointee of its `reflect.Value` argument holding `cur`. -/
structure CallbackResult where
  panic : Option String
  cur : GoValue

/-- The decoder state.  `topValue` is only read by a debugging printer and
is left out. -/
structure Decoder where
  r : List Byte
  symbols : List GoString
  userDefinedLoadMap : GoString → Option (List Byte → RValue → CallbackResult)
  savedError : Option GoError

def NewDecoder (byteData : List Byte) : Decoder :=
  { r := byteData, symbols := [], userDefinedLoadMap := fun _ => none,
    savedError := none }

/-- The method `AddUserDefinedLoad`: it panics (`none`) when a callback is
already registered under the class name. -/
def Decoder.AddUserDefinedLoad (d : Decoder) (className : GoString)
    (callback : List Byte → RValue → CallbackResult) : Option Decoder :=
  match d.userDefinedLoadMap className with
  | some _ => none
  | none =>
    some { d with userDefinedLoadMap := fun n =>
      if n = className then some callback else d.userDefinedLoadMap n }

def supportedMajorVersion : Nat := 4
def supportedMinorVersion : Nat := 8

def typeNull : Byte := 0x30
def typeTrue : Byte := 0x54
def typeFalse : Byte := 0x46
def typeArray : Byte := 0x5B
def typeObject : Byte := 0x6F
def typeSymbol : Byte := 0x3A
def typeSymbolLink : Byte := 0x3B
def typeFixNum : Byte := 0x69
def typeIVar : Byte := 0x49
def typeString : Byte := 0x22
def typeUserDefined : Byte := 0x75
def typeHash : Byte := 0x7B
def typeFloat : Byte := 0x66

def devMode : Bool := true

/-- The outcome of a decoding step: the panic it raised, if any, the decoder
state it left, and the value it produced (for `parseType`, the contents of
the destination). -/
structure Res (α : Type) where
  panic : Option Panic
  d : Decoder
  val : α

/-- The step `saveError`: latch the first error. -/
def Decoder.saveError (d : Decoder) (err : GoError) : Decoder :=
  match d.savedError with
  | none => { d with savedError := some err }
  | some _ => d

/-- The step `MustReadByte`. -/
def Decoder.MustReadByte (d : Decoder) : Res Byte :=
  match d.r with
  | [] => { panic := some .eof, d := d, val := 0 }
  | b :: rest => { panic := none, d := { d with r := rest }, val := b }

/-! ## The integer codec -/

/-- The Go conversion `int(int8(b))`. -/
def int8 (b : Byte) : Int :=
  if b.val < 128 then (b.val : Int) else (b.val : Int) - 256

/-- The signed reading of a 64-bit pattern. -/
def toInt64 (x : Nat) : Int :=
  if x % 2 ^ 64 < 2 ^ 63 then ((x % 2 ^ 64 : Nat) : Int)
  else ((x % 2 ^ 64 : Nat) : Int) - 2 ^ 64

/-- The 64-bit pattern of a signed integer. -/
def ofInt64 (n : Int) : Nat := (n % 2 ^ 64).toNat

/-- The step `bytes.Buffer.ReadByte` with its error discarded, as in
`n, _ := d.r.ReadByte()`: at the end of the buffer the byte is 0 and nothing
is consumed. -/
def readByteOrZero (r : List Byte) : Byte × List Byte :=
  match r with
  | [] => (0, [])
  | b :: rest => (b, rest)

/-- The loop of the positive branch of `parseInt`, run for `todo` more
rounds from index `i`; `result` is a 64-bit pattern. -/
def parseIntPos : Nat → Nat → Nat → List Byte → Nat × List Byte
  | 0, _, result, r => (result, r)
  | todo + 1, i, result, r =>
    let n := (readByteOrZero r).1
    parseIntPos todo (i + 1) (result ||| ((n.val <<< (8 * i)) % 2 ^ 64))
      (readByteOrZero r).2

/-- The loop of the negative branch of `parseInt`. -/
def parseIntNeg : Nat → Nat → Nat → List Byte → Nat × List Byte
  | 0, _, result, r => (result, r)
  | todo + 1, i, result, r =>
    let n := (readByteOrZero r).1
    let cleared := result &&& (((0xff <<< (8 * i)) % 2 ^ 64) ^^^ (2 ^ 64 - 1))
    parseIntNeg todo (i + 1) (cleared ||| ((n.val <<< (8 * i)) % 2 ^ 64))
      (readByteOrZero r).2

/-- The function `parseInt`, on the unread bytes. -/
def parseIntBytes (r : List Byte) : Int × List Byte :=
  let b := (readByteOrZero r).1
  let r1 := (readByteOrZero r).2
  let c := int8 b
  if c = 0 then (0, r1)
  else if 5 < c ∧ c < 128 then (c - 5, r1)
  else if -129 < c ∧ c < -5 then (c + 5, r1)
  else if int8 b > 0 then
    let out := parseIntPos (int8 b).toNat 0 0 r1
    (toInt64 out.1, out.2)
  else
    let out := parseIntNeg (-c).toNat 0 (ofInt64 (-1)) r1
    (toInt64 out.1, out.2)

/-- The method `Decoder.parseInt`: it never panics. -/
def Decoder.parseInt (d : Decoder) : Int × Decoder :=
  ((parseIntBytes d.r).1, { d with r := (parseIntBytes d.r).2 })

/-! ## Strings and symbols -/

def Res.ok {α : Type} (d : Decoder) (a : α) : Res α :=
  { panic := none, d := d, val := a }

def Res.fail {α : Type} (p : Panic) (d : Decoder) (a : α) : Res α :=
  { panic := some p, d := d, val := a }

/-- The method `Decoder.parseString`.  `make([]byte, len)` panics on a
negative length; `bytes.Buffer.Read` reports `io.EOF` only when no byte is
left, and otherwise fills a prefix of the zeroed buffer with what is left. -/
def Decoder.parseString (d : Decoder) : Res GoString :=
  let len := d.parseInt.1
  let d1 := d.parseInt.2
  if len = 0 then Res.ok d1 []
  else if len < 0 then Res.fail (.runtime "makeslice: len out of range") d1 []
  else
    match d1.r with
    | [] => Res.fail .eof d1 []
    | _ :: _ =>
      Res.ok { d1 with r := d1.r.drop len.toNat }
        (d1.r.take len.toNat ++ List.replicate (len.toNat - d1.r.length) 0)

/-- The method `Decoder.parseSymbol`. -/
def Decoder.parseSymbol (d : Decoder) : Res GoString :=
  let s := d.parseString
  match s.panic with
  | some _ => s
  | none => Res.ok { s.d with symbols := s.d.symbols ++ [s.val] } s.val

/-- The method `Decoder.parseIndexAndLookupSymbol`: indexing the symbol
slice panics when the index is out of range. -/
def Decoder.parseIndexAndLookupSymbol (d : Decoder) : Res GoString :=
  let index := d.parseInt.1
  let d1 := d.parseInt.2
  if index < 0 then Res.fail (.runtime "index out of range") d1 []
  else
    match d1.symbols.get? index.toNat with
    | some symbol => Res.ok d1 symbol
    | none => Res.fail (.runtime "index out of range") d1 []

/-- The method `Decoder.parseSymbolOrSymbolLink`. -/
def Decoder.parseSymbolOrSymbolLink (d : Decoder) : Res GoString :=
  let k := d.MustReadByte
  match k.panic with
  | some p => Res.fail p k.d []
  | none =>
    if k.val = typeSymbol then k.d.parseSymbol
    else if k.val = typeSymbolLink then k.d.parseIndexAndLookupSymbol
    else Res.fail (.expectedSymbol k.val) k.d []

/-! ## Helpers of the binder -/

mutual
/-- Equality of map keys (Go `==`).  Two `float64` keys are equal when both
are zeros or when their patterns agree and are not a NaN; pointers are
compared through what they point at. -/
def GoValue.keyEq : GoValue → GoValue → Bool
  | .nil, .nil => true
  | .bool a, .bool b => a == b
  | .int a, .int b => a == b
  | .float64 a, .float64 b =>
    (a % 2 ^ 63 == 0 && b % 2 ^ 63 == 0) ||
      (a == b && !(2047 * 2 ^ 52 < a % 2 ^ 63))
  | .string a, .string b => a == b
  | .struct a, .struct b => GoValue.keyEqList a b
  | .ptr a, .ptr b => GoValue.keyEq a b
  | .iface s a, .iface t b => GoType.beq s t && GoValue.keyEq a b
  | _, _ => false
/-- Equality of the field lists of two struct keys. -/
def GoValue.keyEqList : List GoValue → List GoValue → Bool
  | [], [] => true
  | a :: as, b :: bs => GoValue.keyEq a b && GoValue.keyEqList as bs
  | _, _ => false
end

/-- The assignment `m[k] = v` on the entries of a map. -/
def mapSet : List (GoValue × GoValue) → GoValue → GoValue →
    List (GoValue × GoValue)
  | [], k, v => [(k, v)]
  | (k0, v0) :: rest, k, v =>
    if GoValue.keyEq k0 k then (k0, v) :: rest
    else (k0, v0) :: mapSet rest k v

/-- The removal `delete(m, k)` on the entries of a map. -/
def mapDelete : List (GoValue × GoValue) → GoValue →
    List (GoValue × GoValue)
  | [], _ => []
  | (k0, v0) :: rest, k =>
    if GoValue.keyEq k0 k then rest else (k0, v0) :: mapDelete rest k

/-- The read `m[k]` on the entries of a map. -/
def mapGet : List (GoValue × GoValue) → GoValue → Option GoValue
  | [], _ => none
  | (k0, v0) :: rest, k =>
    if GoValue.keyEq k0 k then some v0 else mapGet rest k

/-- The entries of a map value (a nil map has none). -/
def GoValue.entries : GoValue → List (GoValue × GoValue)
  | .map es => es
  | _ => []

/-- The fields of a struct value. -/
def GoValue.structFields : GoValue → List GoValue
  | .struct fs => fs
  | _ => []

/-- The dynamic type of what an interface holds, as `%T` prints it. -/
def GoValue.dynTypeString : GoValue → String
  | .iface t _ => t.typeString
  | _ => "<nil>"

/-- The kind of `reflect.ValueOf(&x).Elem().Elem()` for an interface
variable `x` holding the value. -/
def GoValue.dynKind : GoValue → Kind
  | .iface t _ => t.kind
  | _ => .invalid

/-- The effect of `val.Elem().Set(reflect.ValueOf(x))` for an `x` of type
`dyn`: the new contents of the pointee, or `none` when `reflect` panics
(zero or unsettable `Value`, or a type `x` is not assignable to). -/
def RValue.set (val : RValue) (dyn : GoType) (x : GoValue) : Option GoValue :=
  if !val.canSet then none
  else if GoType.beq val.elemType dyn then some x
  else if val.elemType.kind = .interface then some (.iface dyn x)
  else none

/-- The conversion behind `SetInt` on an `int32`: keep the low 32 bits. -/
def wrapInt32 (n : Int) : Int :=
  if n % 2 ^ 32 < 2 ^ 31 then n % 2 ^ 32 else n % 2 ^ 32 - 2 ^ 32

/-- The decimal digits of a natural number (`fuel` bounds the digits). -/
def itoaNat : Nat → Nat → GoString
  | 0, _ => []
  | fuel + 1, n =>
    if n < 10 then [Fin.ofNat (48 + n)]
    else itoaNat fuel (n / 10) ++ [Fin.ofNat (48 + n % 10)]

/-- The function `strconv.Itoa`. -/
def itoa (n : Int) : GoString :=
  if n < 0 then (0x2D : Byte) :: itoaNat (n.natAbs + 1) n.natAbs
  else itoaNat (n.toNat + 1) n.toNat

/-- The prefix of a string before its first zero byte, as computed by the
`range` loop of the float case. -/
def truncateAtZero : GoString → GoString
  | [] => []
  | c :: rest => if c = 0 then [] else c :: truncateAtZero rest

/-- A `reflect.StructField` with the single-element `Index` it has as a direct
field. -/
structure StructField where
  name : String
  type : GoType
  exported : Bool
  index : Nat

/-- The assignment `structLookup[lookupName] = structField`. -/
def lookupSet : List (GoString × StructField) → GoString → StructField →
    List (GoString × StructField)
  | [], k, v => [(k, v)]
  | (k0, v0) :: rest, k, v =>
    if k0 = k then (k0, v) :: rest else (k0, v0) :: lookupSet rest k v

/-- The read `structLookup[fieldName]`. -/
def lookupGet : List (GoString × StructField) → GoString → Option StructField
  | [], _ => none
  | (k0, v0) :: rest, k => if k0 = k then some v0 else lookupGet rest k

/-- The loop of `getStructFieldMapFromType` from field index `i` on. -/
def fieldMapFrom : Fields → Nat → List (GoString × StructField) →
    List (GoString × StructField)
  | .nil, _, acc => acc
  | .cons name tag exported type rest, i, acc =>
    if tag ≠ [] then
      fieldMapFrom rest (i + 1)
        (lookupSet acc tag
          { name := name, type := type, exported := exported, index := i })
    else fieldMapFrom rest (i + 1) acc

/-- The function `getStructFieldMapFromType`. -/
def getStructFieldMapFromType (structType : GoType) :
    List (GoString × StructField) :=
  match structType with
  | .struct _ _ fields => fieldMapFrom fields 0 []
  | _ => []

/-- The step `bytes.Buffer.Next(n)` for `n ≥ 0`. -/
def bufferNext (r : List Byte) (n : Nat) : List Byte × List Byte :=
  (r.take n, r.drop n)

/-! ## The loops of `parseType`

Each loop takes the recursive call of `parseType` as `rec` and runs its body
a given number of times, stopping at the first panic. -/

/-- The type of `parseType`: the decoder state and the destination go in,
the outcome carries the new contents of the destination. -/
abbrev Rec := Decoder → RValue → Res GoValue

/-- The skip loop of the array case: each element is parsed into the same
`emptyInterface` variable, whose contents are `e`. -/
def skipValues (rec : Rec) : Nat → Decoder → GoValue → Res GoValue
  | 0, d, e => Res.ok d e
  | n + 1, d, e =>
    let r := rec d (RValue.addrOf .iface e)
    match r.panic with
    | some _ => r
    | none => skipValues rec n r.d r.val

/-- The skip loop of the object case for an unsettable destination. -/
def skipFields (rec : Rec) : Nat → Decoder → GoValue → Res GoValue
  | 0, d, e => Res.ok d e
  | n + 1, d, e =>
    let s := d.parseSymbolOrSymbolLink
    match s.panic with
    | some p => Res.fail p s.d e
    | none =>
      let r := rec s.d (RValue.addrOf .iface e)
      match r.panic with
      | some _ => r
      | none => skipFields rec n r.d r.val

/-- The skip loop of the hash case for an unsettable destination. -/
def skipPairs (rec : Rec) : Nat → Decoder → GoValue → Res GoValue
  | 0, d, e => Res.ok d e
  | n + 1, d, e =>
    let k := rec d (RValue.addrOf .iface e)
    match k.panic with
    | some _ => k
    | none =>
      let v := rec k.d (RValue.addrOf .iface k.val)
      match v.panic with
      | some _ => v
      | none => skipPairs rec n v.d v.val

/-- The loop of the array case for an interface destination; the value is
the slice `arr`, whose elements not yet assigned are nil. -/
def parseArrayItems (rec : Rec) : Nat → Decoder → Res (List GoValue)
  | 0, d => Res.ok d []
  | n + 1, d =>
    let r := rec d RValue.emptyInterface
    match r.panic with
    | some p => Res.fail p r.d (List.replicate (n + 1) GoValue.nil)
    | none =>
      let rest := parseArrayItems rec n r.d
      { panic := rest.panic, d := rest.d, val := r.val :: rest.val }

/-- The body of the loops of the array case for a slice destination with
element type `elem`, at an element holding `e`.  When `elem` is a pointer
type the element itself, a nil pointer, is handed to `parseType` and stays
nil; otherwise the address of the element is. -/
def sliceElemStep (rec : Rec) (elem : GoType) (d : Decoder) (e : GoValue) :
    Res GoValue :=
  match elem with
  | .ptr t =>
    let q := rec d { elemType := t, isNil := true, ro := false, cur := .nil }
    { panic := q.panic, d := q.d, val := e }
  | _ => rec d (RValue.addrOf elem e)

/-- The loops of the array case for a slice destination, over the elements
not yet visited. -/
def parseSliceElems (rec : Rec) (elem : GoType) :
    List GoValue → Decoder → Res (List GoValue)
  | [], d => Res.ok d []
  | e :: es, d =>
    let r := sliceElemStep rec elem d e
    match r.panic with
    | some p => Res.fail p r.d (r.val :: es)
    | none =>
      let rest := parseSliceElems rec elem es r.d
      { panic := rest.panic, d := rest.d, val := r.val :: rest.val }

/-- The loop of the object case for an interface destination; `obj` holds
the entries of the map built so far. -/
def parseObjectFields (rec : Rec) :
    Nat → Decoder → List (GoValue × GoValue) → Res (List (GoValue × GoValue))
  | 0, d, obj => Res.ok d obj
  | n + 1, d, obj =>
    let s := d.parseSymbolOrSymbolLink
    match s.panic with
    | some p => Res.fail p s.d obj
    | none =>
      let r := rec s.d RValue.emptyInterface
      match r.panic with
      | some p => Res.fail p r.d obj
      | none => parseObjectFields rec n r.d (mapSet obj (.string s.val) r.val)

/-- The `reflect.Value` of `val.FieldByIndex(structField.Index).Addr()` for
a settable struct `val` whose fields hold `fields`: it is read-only when the
field is not exported. -/
def fieldAddr (structField : StructField) (fields : List GoValue) : RValue :=
  { elemType := structField.type, isNil := false,
    ro := !structField.exported,
    cur := fields.getD structField.index .nil }

/-- The body shared by the struct loops of the object and hash cases, once
the field name is known; the state is the fields of the struct and the
unknown names met so far.  The pointer comparison `prevErr != err` of the
source is a comparison of the latched errors: a latched `*unexpectedType` is
never replaced by another `*unexpectedType`. -/
def structFieldStep (rec : Rec) (refType : GoType) (fieldName : GoString)
    (d : Decoder) (st : List GoValue × List GoString) :
    Res (List GoValue × List GoString) :=
  match lookupGet (getStructFieldMapFromType refType) fieldName with
  | some structField =>
    let prevErr := d.savedError
    let r := rec d (fieldAddr structField st.1)
    let fields := st.1.set structField.index r.val
    match r.panic with
    | some p => Res.fail p r.d (fields, st.2)
    | none =>
      match r.d.savedError with
      | some (.unexpectedType got expected) =>
        if prevErr ≠ some (.unexpectedType got expected) then
          Res.ok
            { r.d with savedError := some (.fieldContext refType.typeName
                structField.name structField.type.typeString expected) }
            (fields, st.2)
        else Res.ok r.d (fields, st.2)
      | _ => Res.ok r.d (fields, st.2)
  | none =>
    let r := rec d RValue.emptyInterface
    { panic := r.panic, d := r.d, val := (st.1, st.2 ++ [fieldName]) }

/-- The loop of the object case for a struct destination. -/
def parseStructFields (rec : Rec) (refType : GoType) :
    Nat → Decoder → List GoValue × List GoString →
    Res (List GoValue × List GoString)
  | 0, d, st => Res.ok d st
  | n + 1, d, st =>
    let s := d.parseSymbolOrSymbolLink
    match s.panic with
    | some p => Res.fail p s.d st
    | none =>
      let r := structFieldStep rec refType s.val s.d st
      match r.panic with
      | some _ => r
      | none => parseStructFields rec refType n r.d r.val

/-- The loop of the hash case for an interface destination. -/
def parseHashPairs (rec : Rec) :
    Nat → Decoder → List (GoValue × GoValue) → Res (List (GoValue × GoValue))
  | 0, d, hash => Res.ok d hash
  | n + 1, d, hash =>
    let k := rec d RValue.emptyInterface
    match k.panic with
    | some p => Res.fail p k.d hash
    | none =>
      let v := rec k.d RValue.emptyInterface
      match v.panic with
      | some p => Res.fail p v.d hash
      | none =>
        match k.val with
        | .iface .int (.int key) =>
          parseHashPairs rec n v.d (mapSet hash (.string (itoa key)) v.val)
        | .iface .string (.string key) =>
          parseHashPairs rec n v.d (mapSet hash (.string key) v.val)
        | key => Res.fail (.hashKey key.dynTypeString) v.d hash

/-- The effect of `val.SetMapIndex(keyUnderlying, valueUnderlying)` on the
entries of a map of type `map[keyT]elemT`, where `key` is what the key
interface holds and `value` is what `subValue` points at; `none` when
`reflect` panics. -/
def setMapIndex (keyT elemT : GoType) (es : List (GoValue × GoValue))
    (key value : GoValue) : Option (List (GoValue × GoValue)) :=
  match key with
  | .iface dyn kv =>
    if !GoType.beq dyn keyT then none
    else if elemT.kind = .ptr then
      match value with
      | .ptr _ => none
      | _ => some (mapDelete es kv)
    else some (mapSet es kv value)
  | _ => none

/-- The loop of the hash case for a map destination. -/
def parseMapPairs (rec : Rec) (keyT elemT : GoType) :
    Nat → Decoder → List (GoValue × GoValue) → Res (List (GoValue × GoValue))
  | 0, d, es => Res.ok d es
  | n + 1, d, es =>
    let k := rec d RValue.emptyInterface
    match k.panic with
    | some p => Res.fail p k.d es
    | none =>
      let v := rec k.d (RValue.addrOf elemT elemT.zero)
      match v.panic with
      | some p => Res.fail p v.d es
      | none =>
        if k.val.dynKind ≠ keyT.kind then
          parseMapPairs rec keyT elemT n
            (v.d.saveError (.unexpectedType k.val.dynKind.name
              (GoType.map keyT elemT).typeString)) es
        else
          match setMapIndex keyT elemT es k.val v.val with
          | none => Res.fail (.runtime "reflect.Value.SetMapIndex") v.d es
          | some es1 => parseMapPairs rec keyT elemT n v.d es1

/-- The loop of the hash case for a struct destination. -/
def parseHashStructFields (rec : Rec) (refType : GoType) :
    Nat → Decoder → List GoValue × List GoString →
    Res (List GoValue × List GoString)
  | 0, d, st => Res.ok d st
  | n + 1, d, st =>
    let k := rec d RValue.emptyInterface
    match k.panic with
    | some p => Res.fail p k.d st
    | none =>
      match k.val with
      | .iface .string (.string fieldName) =>
        let r := structFieldStep rec refType fieldName k.d st
        match r.panic with
        | some _ => r
        | none => parseHashStructFields rec refType n r.d r.val
      | key =>
        Res.fail (.hashStructKey refType.typeString key.dynTypeString) k.d st

/-! ## The cases of `parseType` -/

/-- The outcome of `val.Set(reflect.ValueOf(x))` as an outcome of
`parseType`. -/
def setOrPanic (d : Decoder) (val : RValue) (dyn : GoType) (x : GoValue) :
    Res GoValue :=
  match val.set dyn x with
  | some v => Res.ok d v
  | none => Res.fail (.runtime "reflect.Value.Set") d val.cur

/-- Case `typeNull`. -/
def parseTypeNull (d : Decoder) (val : RValue) : Res GoValue :=
  if !val.canSet then Res.ok d val.cur
  else if val.elemKind = .interface ∨ val.elemKind = .struct ∨
      val.elemKind = .string ∨ val.elemKind = .int ∨ val.elemKind = .int32 ∨
      val.elemKind = .int64 then
    Res.ok d val.elemType.zero
  else
    Res.ok (d.saveError (.unexpectedType val.elemKind.name
      "pointer, struct, interface, string or integer")) val.cur

/-- Cases `typeTrue` and `typeFalse`. -/
def parseTypeBool (b : Bool) (d : Decoder) (val : RValue) : Res GoValue :=
  if !val.canSet then Res.ok d val.cur
  else if val.elemKind = .interface ∨ val.elemKind = .bool then
    setOrPanic d val .bool (.bool b)
  else Res.ok (d.saveError (.unexpectedType val.elemKind.name "bool")) val.cur

/-- The bit pattern of `math.NaN()`. -/
def float64NaN : Nat := 0x7FF8000000000001

/-- The bit pattern of `math.MaxFloat64`. -/
def float64Max : Nat := 0x7FEFFFFFFFFFFFFF

/-- The bit pattern of `-math.MaxFloat64`. -/
def float64NegMax : Nat := 0xFFEFFFFFFFFFFFFF

/-- The number the float case binds for the payload `str`, or the text it
failed to parse; `parseFloat` stands for `strconv.ParseFloat(_, 64)`. -/
def floatOfString (parseFloat : GoString → Option Nat) (str : GoString) :
    Option Nat :=
  if str = [0x6E, 0x61, 0x6E] then some float64NaN
  else if str = [0x69, 0x6E, 0x66] then some float64Max
  else if str = [0x2D, 0x69, 0x6E, 0x66] then some float64NegMax
  else parseFloat (truncateAtZero str)

/-- Case `typeFloat`. -/
def parseTypeFloat (parseFloat : GoString → Option Nat) (d : Decoder)
    (val : RValue) : Res GoValue :=
  let s := d.parseString
  match s.panic with
  | some p => Res.fail p s.d val.cur
  | none =>
    if !val.canSet then Res.ok s.d val.cur
    else
      match floatOfString parseFloat s.val with
      | none =>
        Res.ok (s.d.saveError (.invalidFloat64 (truncateAtZero s.val))) val.cur
      | some f =>
        if val.elemKind = .interface then
          setOrPanic s.d val .float64 (.float64 f)
        else if val.elemKind = .float64 then Res.ok s.d (.float64 f)
        else
          Res.ok (s.d.saveError (.unexpectedType val.elemKind.name "float64"))
            val.cur

/-- Case `typeFixNum`. -/
def parseTypeFixNum (d : Decoder) (val : RValue) : Res GoValue :=
  let intValue := d.parseInt.1
  let d1 := d.parseInt.2
  if !val.canSet then Res.ok d1 val.cur
  else if val.elemKind = .interface then setOrPanic d1 val .int (.int intValue)
  else if val.elemKind = .int ∨ val.elemKind = .int64 then
    Res.ok d1 (.int intValue)
  else if val.elemKind = .int32 then Res.ok d1 (.int (wrapInt32 intValue))
  else
    Res.ok (d1.saveError (.unexpectedType val.elemKind.name
      "int, int32 or int64")) val.cur

/-- Case `typeSymbol`. -/
def parseTypeSymbol (d : Decoder) (val : RValue) : Res GoValue :=
  let s := d.parseSymbol
  match s.panic with
  | some p => Res.fail p s.d val.cur
  | none => setOrPanic s.d val .string (.string s.val)

/-- Case `typeSymbolLink`. -/
def parseTypeSymbolLink (d : Decoder) (val : RValue) : Res GoValue :=
  let s := d.parseIndexAndLookupSymbol
  match s.panic with
  | some p => Res.fail p s.d val.cur
  | none => setOrPanic s.d val .string (.string s.val)

/-- Case `typeArray`. -/
def parseTypeArray (rec : Rec) (d : Decoder) (val : RValue) : Res GoValue :=
  let size := d.parseInt.1
  let d1 := d.parseInt.2
  match val.isNil, val.elemType with
  | false, .iface =>
    if size = 0 then setOrPanic d1 val (.slice .iface) (.slice [])
    else if size < 0 then
      Res.fail (.runtime "makeslice: len out of range") d1 val.cur
    else
      match val.set (.slice .iface)
        (.slice (List.replicate size.toNat GoValue.nil)) with
      | none => Res.fail (.runtime "reflect.Value.Set") d1 val.cur
      | some _ =>
        let items := parseArrayItems rec size.toNat d1
        { panic := items.panic, d := items.d,
          val := .iface (.slice .iface) (.slice items.val) }
  | false, .slice elem =>
    if size = 0 then
      if !val.canSet then Res.fail (.runtime "reflect.Value.Set") d1 val.cur
      else Res.ok d1 (.slice [])
    else if size < 0 then
      Res.fail (.runtime "reflect.MakeSlice: negative len") d1 val.cur
    else if !val.canSet then
      Res.fail (.runtime "reflect.Value.Set") d1 val.cur
    else
      let elems := parseSliceElems rec elem
        (List.replicate size.toNat elem.zero) d1
      { panic := elems.panic, d := elems.d, val := .slice elems.val }
  | _, _ =>
    let d2 := d1.saveError (.unexpectedType Kind.ptr.name
      "ptr interface or ptr slice")
    let r := skipValues rec size.toNat d2 .nil
    { panic := r.panic, d := r.d, val := val.cur }

/-- The tail shared by the cases `typeString` and `typeIVar`: bind the
string `str`. -/
def bindString (d : Decoder) (val : RValue) (str : GoString) : Res GoValue :=
  if val.elemKind ≠ .interface ∧ val.elemKind ≠ .string then
    Res.ok (d.saveError (.unexpectedType val.elemKind.name Kind.string.name))
      val.cur
  else setOrPanic d val .string (.string str)

/-- Case `typeString`. -/
def parseTypeString (d : Decoder) (val : RValue) : Res GoValue :=
  let s := d.parseString
  match s.panic with
  | some p => Res.fail p s.d val.cur
  | none => bindString s.d val s.val

/-- The metadata of case `typeIVar`: when the count is 1, one symbol or
symbol link followed by the tag `T`. -/
def parseIVarMeta (d : Decoder) : Res Unit :=
  let symbolCharLen := d.parseInt.1
  let d1 := d.parseInt.2
  if symbolCharLen = 1 then
    let s := d1.parseSymbolOrSymbolLink
    match s.panic with
    | some p => Res.fail p s.d ()
    | none =>
      let b := s.d.MustReadByte
      match b.panic with
      | some p => Res.fail p b.d ()
      | none =>
        if b.val ≠ typeTrue then Res.fail (.ivarBool b.val) b.d ()
        else Res.ok b.d ()
  else Res.ok d1 ()

/-- Case `typeIVar`. -/
def parseTypeIVar (d : Decoder) (val : RValue) : Res GoValue :=
  let k := d.MustReadByte
  match k.panic with
  | some p => Res.fail p k.d val.cur
  | none =>
    if k.val ≠ typeString then Res.fail (.ivarKind k.val) k.d val.cur
    else
      let s := k.d.parseString
      match s.panic with
      | some p => Res.fail p s.d val.cur
      | none =>
        let m := parseIVarMeta s.d
        match m.panic with
        | some p => Res.fail p m.d val.cur
        | none => bindString m.d val s.val

/-- The end of the struct branches: fail when unknown fields were met. -/
def finishStruct (refType : GoType)
    (r : Res (List GoValue × List GoString)) : Res GoValue :=
  match r.panic with
  | some p => Res.fail p r.d (.struct r.val.1)
  | none =>
    if r.val.2.length > 0 then
      Res.fail (.unknownFields r.val.2 refType.typeString) r.d
        (.struct r.val.1)
    else Res.ok r.d (.struct r.val.1)

/-- Case `typeObject`. -/
def parseTypeObject (rec : Rec) (d : Decoder) (val : RValue) : Res GoValue :=
  let cls := d.parseSymbolOrSymbolLink
  match cls.panic with
  | some p => Res.fail p cls.d val.cur
  | none =>
    let fieldCount := cls.d.parseInt.1
    let d1 := cls.d.parseInt.2
    if !val.canSet then
      let r := skipFields rec fieldCount.toNat d1 .nil
      { panic := r.panic, d := r.d, val := val.cur }
    else
      match val.elemType with
      | .iface =>
        let r := parseObjectFields rec fieldCount.toNat d1 []
        { panic := r.panic, d := r.d,
          val := .iface (.map .string .iface) (.map r.val) }
      | .struct pkg name fields =>
        finishStruct (.struct pkg name fields)
          (parseStructFields rec (.struct pkg name fields) fieldCount.toNat d1
            (val.cur.structFields, []))
      | t =>
        Res.ok (d1.saveError (.unexpectedType t.typeString Kind.struct.name))
          val.cur

/-- Case `typeHash`. -/
def parseTypeHash (rec : Rec) (d : Decoder) (val : RValue) : Res GoValue :=
  let size := d.parseInt.1
  let d1 := d.parseInt.2
  if !val.canSet then
    let r := skipPairs rec size.toNat d1 .nil
    { panic := r.panic, d := r.d, val := val.cur }
  else
    match val.elemType with
    | .iface =>
      let r := parseHashPairs rec size.toNat d1 []
      { panic := r.panic, d := r.d,
        val := .iface (.map .string .iface) (.map r.val) }
    | .map keyT elemT =>
      let r := parseMapPairs rec keyT elemT size.toNat d1 val.cur.entries
      { panic := r.panic, d := r.d, val := .map r.val }
    | .struct pkg name fields =>
      finishStruct (.struct pkg name fields)
        (parseHashStructFields rec (.struct pkg name fields) size.toNat d1
          (val.cur.structFields, []))
    | .slice _ =>
      Res.ok (d1.saveError (.unexpectedType Kind.slice.name
        "map[string]interface\x7b\x7d or map[string|int]*customStructHere")) val.cur
    | t => Res.fail (.hashInnerType t.kind.name) d1 val.cur

/-- Case `typeUserDefined`.  `bytes.Buffer.Next` panics on a negative
count.  The callback acts on the destination only through
`val.Elem()`. -/
def parseTypeUserDefined (d : Decoder) (val : RValue) : Res GoValue :=
  let cls := d.parseSymbolOrSymbolLink
  match cls.panic with
  | some p => Res.fail p cls.d val.cur
  | none =>
    let byteCount := cls.d.parseInt.1
    let d1 := cls.d.parseInt.2
    if byteCount < 0 then
      Res.fail (.runtime "slice bounds out of range") d1 val.cur
    else
      let d2 := { d1 with r := (bufferNext d1.r byteCount.toNat).2 }
      match d2.userDefinedLoadMap cls.val with
      | none => Res.fail (.unhandledUserDefined cls.val) d2 val.cur
      | some funcCallback =>
        let c := funcCallback (bufferNext d1.r byteCount.toNat).1 val
        { panic := c.panic.map Panic.callback, d := d2, val := c.cur }

/-- The body of `parseType`, with `rec` for its recursive calls. -/
def parseTypeStep (parseFloat : GoString → Option Nat) (rec : Rec)
    (d : Decoder) (val : RValue) : Res GoValue :=
  let k := d.MustReadByte
  match k.panic with
  | some p => Res.fail p k.d val.cur
  | none =>
    if k.val = typeNull then parseTypeNull k.d val
    else if k.val = typeTrue then parseTypeBool true k.d val
    else if k.val = typeFalse then parseTypeBool false k.d val
    else if k.val = typeFloat then parseTypeFloat parseFloat k.d val
    else if k.val = typeFixNum then parseTypeFixNum k.d val
    else if k.val = typeSymbol then parseTypeSymbol k.d val
    else if k.val = typeSymbolLink then parseTypeSymbolLink k.d val
    else if k.val = typeArray then parseTypeArray rec k.d val
    else if k.val = typeString then parseTypeString k.d val
    else if k.val = typeIVar then parseTypeIVar k.d val
    else if k.val = typeObject then parseTypeObject rec k.d val
    else if k.val = typeHash then parseTypeHash rec k.d val
    else if k.val = typeUserDefined then parseTypeUserDefined k.d val
    else Res.fail (.unimplementedType k.val) k.d val.cur

/-- The method `parseType` with a bound `fuel` on the nesting of its
recursive calls. -/
def parseTypeAux (parseFloat : GoString → Option Nat) : Nat → Rec
  | 0 => fun d val => Res.fail .fuel d val.cur
  | fuel + 1 => parseTypeStep parseFloat (parseTypeAux parseFloat fuel)

/-- The method `Decoder.parseType`.  Every call of `parseType` reads its
tag byte first, so the nesting of calls never exceeds the number of unread
bytes. -/
def Decoder.parseType (parseFloat : GoString → Option Nat) (d : Decoder)
    (val : RValue) : Res GoValue :=
  parseTypeAux parseFloat (d.r.length + 1) d val

/-! ## The entry point -/

/-- The argument `v interface{}` of `Decode` as `reflect.ValueOf` sees it:
a value whose kind is not `Ptr`, or a pointer. -/
inductive DecodeArg : Type
  | nonPointer (kind : Kind)
  | pointer (val : RValue)

/-- What a call of `Decode` leaves: the panic that escaped it, the error it
returned, the decoder state, and the contents of the destination. -/
structure DecodeResult where
  panic : Option Panic
  err : Option GoError
  d : Decoder
  cur : GoValue

/-- The method `parseRootTypeAndRecoverPanic`: outside of `devMode` a
`*rubyError` panic is recovered and returned. -/
def Decoder.parseRootTypeAndRecoverPanic (parseFloat : GoString → Option Nat)
    (d : Decoder) (val : RValue) : DecodeResult :=
  let r := d.parseType parseFloat val
  match r.panic with
  | none => { panic := none, err := none, d := r.d, cur := r.val }
  | some p =>
    if !devMode ∧ p.isRubyError then
      { panic := none, err := some (.rubyError p), d := r.d, cur := r.val }
    else { panic := some p, err := none, d := r.d, cur := r.val }

/-- The result of `Decode` when it returns the error `err` before parsing. -/
def DecodeResult.early (d : Decoder) (cur : GoValue) (msg : String) :
    DecodeResult :=
  { panic := none, err := some (.text msg), d := d, cur := cur }

/-- The method `Decoder.Decode`. -/
def Decoder.Decode (parseFloat : GoString → Option Nat) (d : Decoder)
    (v : DecodeArg) : DecodeResult :=
  match v with
  | .nonPointer _ => DecodeResult.early d .nil "pointer required for Decode"
  | .pointer val =>
    if !val.canSet then
      if val.elemType.kind = .struct then
        DecodeResult.early d val.cur
          "pointer must either be not nil or you need to provide a pointer-to-pointer (&ptr)"
      else DecodeResult.early d val.cur "unable to call Set on given type"
    else if val.elemType.kind = .ptr then
      DecodeResult.early d val.cur
        "pointer-to-pointer indirection not implemented"
    else
      match d.r with
      | [] => DecodeResult.early d val.cur "cant decode MAJOR version"
      | major :: r1 =>
        match r1 with
        | [] =>
          DecodeResult.early { d with r := r1 } val.cur
            "cant decode MINOR version"
        | minor :: r2 =>
          let d2 := { d with r := r2 }
          if major.val ≠ supportedMajorVersion ∨
              minor.val > supportedMinorVersion then
            DecodeResult.early d2 val.cur "unsupported marshal version"
          else
            let res := d2.parseRootTypeAndRecoverPanic parseFloat val
            match res.panic, res.err with
            | some _, _ => res
            | none, some _ => res
            | none, none =>
              match res.d.savedError with
              | some e => { res with err := some e }
              | none => res

/-! ## Definitions used in the statements -/

/-- The little-endian reading of a list of bytes: the sum of
`b i * 256 ^ i`. -/
def leValue : List Byte → Nat
  | [] => 0
  | b :: bs => b.val + 256 * leValue bs

/-- The 64-bit pattern whose bits from `8 * i` up to 63 are set. -/
def hiMask (i : Nat) : Nat := (2 ^ 64 - 1) ^^^ (2 ^ (8 * i) - 1)

/-- The decoder state `d1` extends the state `d`: the symbol table only
grew at its end, the unread bytes are a suffix of the former ones, the
callbacks are the same, and the error latch is unchanged or went from empty
to one of the errors the binder records. -/
structure Decoder.Ext (d d1 : Decoder) : Prop where
  symbols : d.symbols <+: d1.symbols
  r : d1.r <:+ d.r
  callbacks : d1.userDefinedLoadMap = d.userDefinedLoadMap
  savedError : d1.savedError = d.savedError ∨
    (d.savedError = none ∧
      ((∃ got expected, d1.savedError = some (.unexpectedType got expected)) ∨
       (∃ value, d1.savedError = some (.invalidFloat64 value)) ∨
       (∃ s f t e, d1.savedError = some (.fieldContext s f t e))))

/-- The outcome `res` of a step started in state `d` is sound for the
nesting budget `F`: its state extends `d`, and the budget was not exhausted
if fewer than `F` bytes were unread. -/
structure Res.Sound {α : Type} (F : Nat) (d : Decoder) (res : Res α) :
    Prop where
  ext : d.Ext res.d
  budget : d.r.length < F → res.panic ≠ some .fuel

/-- The recursive call `rec` is sound for the budget `F`. -/
def RecSound (F : Nat) (rec : Rec) : Prop :=
  ∀ d val, (rec d val).Sound F d

/-- The bytes `bs` are a varint for `v`: whatever follows them, `parseInt`
reads exactly them and returns `v`. -/
def EncodesInt (bs : List Byte) (v : Int) : Prop :=
  ∀ rest, parseIntBytes (bs ++ rest) = (v, rest)

/-- The wire form of a sequence of fixnums, each given by its varint and
its value: the tag `i` and the varint, one after the other. -/
def fixnumsWire : List (List Byte × Int) → List Byte
  | [] => []
  | e :: es => typeFixNum :: (e.1 ++ fixnumsWire es)

/-- The key under which the hash case for a dynamic destination stores a
pair: the decimal text of an `int` key, a `string` key itself, and none for
a key of any other dynamic type. -/
def hashKeyString : GoValue → Option GoString
  | .iface .int (.int key) => some (itoa key)
  | .iface .string (.string key) => some key
  | _ => none

/-- The pairs (what the key interface holds, what the value interface holds)
that the loop of the hash case for a dynamic destination decodes, in wire
order, up to the first panic; a pair whose key is not an `int` or a `string`
is the last one. -/
def hashPairsRead (rec : Rec) : Nat → Decoder → List (GoValue × GoValue)
  | 0, _ => []
  | n + 1, d =>
    let k := rec d RValue.emptyInterface
    match k.panic with
    | some _ => []
    | none =>
      let v := rec k.d RValue.emptyInterface
      match v.panic with
      | some _ => []
      | none =>
        match hashKeyString k.val with
        | some _ => (k.val, v.val) :: hashPairsRead rec n v.d
        | none => [(k.val, v.val)]

/-- The pairs (field name, what the value interface holds) that the loop of
the object case for a dynamic destination decodes, in wire order, up to the
first panic. -/
def objectFieldsRead (rec : Rec) : Nat → Decoder → List (GoString × GoValue)
  | 0, _ => []
  | n + 1, d =>
    let s := d.parseSymbolOrSymbolLink
    match s.panic with
    | some _ => []
    | none =>
      let r := rec s.d RValue.emptyInterface
      match r.panic with
      | some _ => []
      | none => (s.val, r.val) :: objectFieldsRead rec n r.d

/-- The pairs of `hashPairsRead` under the keys they are stored with. -/
def storedPairs : List (GoValue × GoValue) → List (GoString × GoValue)
  | [] => []
  | p :: ps =>
    match hashKeyString p.1 with
    | some s => (s, p.2) :: storedPairs ps
    | none => storedPairs ps

/-- The entries of a `map[string]interface{}` after storing the pairs in
order, starting from the entries `m`. -/
def storePairs : List (GoValue × GoValue) → List (GoString × GoValue) →
    List (GoValue × GoValue)
  | m, [] => m
  | m, p :: ps => storePairs (mapSet m (.string p.1) p.2) ps

/-- The value of the last pair stored under the key `s`, if any. -/
def lastUnder (s : GoString) : List (GoString × GoValue) → Option GoValue
  | [] => none
  | p :: ps =>
    match lastUnder s ps with
    | some w => some w
    | none => if p.1 = s then some p.2 else none

/-- The keys of the entries are all strings. -/
def StringKeyed (m : List (GoValue × GoValue)) : Prop :=
  ∀ p ∈ m, ∃ s : GoString, p.1 = .string s

/-- The number a string of decimal digits denotes. -/
def decimalValue (s : GoString) : Nat :=
  s.foldl (fun acc b => 10 * acc + (b.val - 48)) 0

/-- What one round of a struct loop did: the field name read, the struct
field it was looked up as (none for an unknown name), the decoder state
before the value was parsed, and the outcome of parsing the value. -/
structure FieldEvent where
  name : GoString
  field : Option StructField
  before : Decoder
  res : Res GoValue

/-- The round `structFieldStep` makes for the field name `fieldName`. -/
def structFieldEvent (rec : Rec) (refType : GoType) (fieldName : GoString)
    (d : Decoder) (fields : List GoValue) : FieldEvent :=
  match lookupGet (getStructFieldMapFromType refType) fieldName with
  | some structField =>
    { name := fieldName, field := some structField, before := d,
      res := rec d (fieldAddr structField fields) }
  | none =>
    { name := fieldName, field := none, before := d,
      res := rec d RValue.emptyInterface }

/-- How the struct loop of the hash case reads a field name: a value parsed
into a fresh interface, which has to hold a string. -/
def readHashFieldName (rec : Rec) (refType : GoType) (d : Decoder) :
    Res GoString :=
  let k := rec d RValue.emptyInterface
  match k.panic with
  | some p => Res.fail p k.d []
  | none =>
    match k.val with
    | .iface .string (.string fieldName) => Res.ok k.d fieldName
    | key =>
      Res.fail (.hashStructKey refType.typeString key.dynTypeString) k.d []

/-- The struct loops of the object and hash cases as one loop, over the
way `readName` a field name is read. -/
def structLoop (readName : Decoder → Res GoString) (rec : Rec)
    (refType : GoType) :
    Nat → Decoder → List GoValue × List GoString →
    Res (List GoValue × List GoString)
  | 0, d, st => Res.ok d st
  | n + 1, d, st =>
    let s := readName d
    match s.panic with
    | some p => Res.fail p s.d st
    | none =>
      let r := structFieldStep rec refType s.val s.d st
      match r.panic with
      | some _ => r
      | none => structLoop readName rec refType n r.d r.val

/-- The rounds a struct loop makes, in wire order, up to and including the
first one whose value panics. -/
def structEvents (readName : Decoder → Res GoString) (rec : Rec)
    (refType : GoType) :
    Nat → Decoder → List GoValue × List GoString → List FieldEvent
  | 0, _, _ => []
  | n + 1, d, st =>
    let s := readName d
    match s.panic with
    | some _ => []
    | none =>
      let r := structFieldStep rec refType s.val s.d st
      match r.panic with
      | some _ => [structFieldEvent rec refType s.val s.d st.1]
      | none =>
        structFieldEvent rec refType s.val s.d st.1 ::
          structEvents readName rec refType n r.d r.val

/-- The names of the rounds that found no struct field, in order. -/
def unknownNames : List FieldEvent → List GoString
  | [] => []
  | ev :: evs =>
    match ev.field with
    | some _ => unknownNames evs
    | none => ev.name :: unknownNames evs

/-- The fields of a struct after the rounds: each round that found a
struct field leaves what its value parse produced in the slot of the
field. -/
def applyEvents : List GoValue → List FieldEvent → List GoValue
  | fields, [] => fields
  | fields, ev :: evs =>
    match ev.field with
    | some structField =>
      applyEvents (fields.set structField.index ev.res.val) evs
    | none => applyEvents fields evs

/-- The rounds as pairs of the field name and what the value parse left in
the slot. -/
def namedValues : List FieldEvent → List (GoString × GoValue)
  | [] => []
  | ev :: evs => (ev.name, ev.res.val) :: namedValues evs

/-- The tag of the field with index `i` of a field list. -/
def Fields.tagAt : Fields → Nat → Option GoString
  | .nil, _ => none
  | .cons _ tag _ _ _, 0 => some tag
  | .cons _ _ _ _ rest, i + 1 => Fields.tagAt rest i

/-- What the last round bound to the struct field with index `i` left in
its slot, if any round was bound to it. -/
def lastAt (i : Nat) : List FieldEvent → Option GoValue
  | [] => none
  | ev :: evs =>
    match lastAt i evs with
    | some v => some v
    | none =>
      match ev.field with
      | some structField => if structField.index = i then some ev.res.val else none
      | none => none


/-! ## Package `rmvx`: the `Table` type, its loader, and `GetTileset`

An `int32` or `int16` is the integer it denotes; the arithmetic of `int32`
wraps to the low 32 bits.  A runtime panic of an accessor is the outcome
`none`. -/

/-- The conversion to `int16`: keep the low 16 bits. -/
def wrapInt16 (n : Int) : Int :=
  if n % 2 ^ 16 < 2 ^ 15 then n % 2 ^ 16 else n % 2 ^ 16 - 2 ^ 16

/-- The product of two `int32`. -/
def mulInt32 (a b : Int) : Int := wrapInt32 (a * b)

/-- The sum of two `int32`. -/
def addInt32 (a b : Int) : Int := wrapInt32 (a + b)

/-- The struct `Table`. -/
structure Table where
  X : Int
  Y : Int
  Z : Int
  Data : List Int

/-- The index expression `table.Data[i]`: `none` is the panic of an index
out of range. -/
def Table.index (table : Table) (i : Int) : Option Int :=
  if i < 0 then none else table.Data.get? i.toNat

/-- The method `Table.GetInt32`. -/
def Table.GetInt32 (table : Table) (x y z : Int) : Option Int :=
  table.index
    (addInt32 (addInt32 (mulInt32 (mulInt32 table.X table.Y) z) (mulInt32 table.X y)) x)

/-- The method `Table.Get`: its arguments are of type `int` and are
converted to `int32`. -/
def Table.Get (table : Table) (x y z : Int) : Option Int :=
  table.index
    (addInt32
      (addInt32 (mulInt32 (mulInt32 table.X table.Y) (wrapInt32 z))
        (mulInt32 table.X (wrapInt32 y)))
      (wrapInt32 x))

/-- The method `Table.GetWrappedInt32`.  The remainder `%` of Go truncates
towards zero and panics on a zero divisor. -/
def Table.GetWrappedInt32 (table : Table) (x y z : Int) : Option Int :=
  if table.X = 0 then none
  else
    let xWrapped := if Int.tmod x table.X < 0 then addInt32 x table.X else x
    if table.Y = 0 then none
    else
      let yWrapped := if Int.tmod y table.Y < 0 then addInt32 y table.Y else y
      table.GetInt32 xWrapped yWrapped z

/-- The buffer `bs` of `n` zero bytes after `bytes.Buffer.Read(bs)` on the
unread bytes `r`. -/
def readInto (n : Nat) (r : List Byte) : List Byte :=
  r.take n ++ List.replicate (n - r.length) 0

/-- The function `mustReadInt32`: `none` is the panic with `io.EOF`, which
`Read` reports only when no byte is left. -/
def mustReadInt32 (r : List Byte) : Option (Int × List Byte) :=
  match r with
  | [] => none
  | _ :: _ =>
    let bs := readInto 4 r
    some (wrapInt32 (((bs.getD 0 0).val ||| ((bs.getD 1 0).val <<< 8) |||
      ((bs.getD 2 0).val <<< 16) ||| ((bs.getD 3 0).val <<< 24) : Nat) : Int),
      r.drop 4)

/-- The function `mustReadInt16`. -/
def mustReadInt16 (r : List Byte) : Option (Int × List Byte) :=
  match r with
  | [] => none
  | _ :: _ =>
    let bs := readInto 2 r
    some (wrapInt16 (((bs.getD 0 0).val ||| ((bs.getD 1 0).val <<< 8) : Nat) : Int),
      r.drop 2)

/-- The loop of `loadTable` that fills `tableData`: the elements read, or
`none` when `mustReadInt16` panics, and the buffer left. -/
def readTableData : Nat → List Byte → Option (List Int) × List Byte
  | 0, r => (some [], r)
  | n + 1, r =>
    match mustReadInt16 r with
    | none => (none, r)
    | some (v, r1) =>
      match readTableData n r1 with
      | (none, r2) => (none, r2)
      | (some vs, r2) => (some (v :: vs), r2)

/-- What a run of a load callback leaves: the panic it raised, the unread
bytes of its buffer `r`, and the contents of the destination. -/
structure LoadRun where
  panic : Option String
  r : List Byte
  cur : GoValue

/-- The type `rmvx.Table`. -/
def tableType : GoType :=
  .struct "rmvx" "Table"
    (.cons "X" [] true .int32
      (.cons "Y" [] true .int32
        (.cons "Z" [] true .int32
          (.cons "Data" [] true (.slice (.other "int16")) .nil))))

/-- A `Table` as a value of the type `rmvx.Table`. -/
def Table.toValue (table : Table) : GoValue :=
  .struct [.int table.X, .int table.Y, .int table.Z, .slice (table.Data.map GoValue.int)]

/-- The final `switch` of `loadTable`: bind `value` to the destination. -/
def bindTable (val : RValue) (value : Table) (r : List Byte) : LoadRun :=
  if val.elemKind = .ptr ∨ val.elemKind = .interface then
    match val.set (.ptr tableType) (.ptr value.toValue) with
    | some v => { panic := none, r := r, cur := v }
    | none => { panic := some "reflect.Value.Set", r := r, cur := val.cur }
  else if val.elemKind = .struct then
    match val.set tableType value.toValue with
    | some v => { panic := none, r := r, cur := v }
    | none => { panic := some "reflect.Value.Set", r := r, cur := val.cur }
  else
    { panic := some ("LoadTable: unhandled type: " ++ val.elemKind.name), r := r,
      cur := val.cur }

/-- The function `loadTable`, with the buffer it leaves. -/
def loadTableRun (data : List Byte) (val : RValue) : LoadRun :=
  match mustReadInt32 data with
  | none => { panic := some "EOF", r := data, cur := val.cur }
  | some (_, r1) =>
    match mustReadInt32 r1 with
    | none => { panic := some "EOF", r := r1, cur := val.cur }
    | some (x, r2) =>
      match mustReadInt32 r2 with
      | none => { panic := some "EOF", r := r2, cur := val.cur }
      | some (y, r3) =>
        match mustReadInt32 r3 with
        | none => { panic := some "EOF", r := r3, cur := val.cur }
        | some (z, r4) =>
          match mustReadInt32 r4 with
          | none => { panic := some "EOF", r := r4, cur := val.cur }
          | some (sizeInt32, r5) =>
            if sizeInt32 ≠ mulInt32 (mulInt32 x y) z then
              { panic := some "Table: bad file format", r := r5, cur := val.cur }
            else if sizeInt32 < 0 then
              { panic := some "makeslice: len out of range", r := r5, cur := val.cur }
            else
              match readTableData sizeInt32.toNat r5 with
              | (none, r6) => { panic := some "EOF", r := r6, cur := val.cur }
              | (some tableData, r6) =>
                bindTable val { X := x, Y := y, Z := z, Data := tableData } r6

/-- The function `loadTable` as a user defined load callback. -/
def loadTable (data : List Byte) (val : RValue) : CallbackResult :=
  { panic := (loadTableRun data val).panic, cur := (loadTableRun data val).cur }

/-- The struct `Tileset`. -/
structure Tileset where
  ID : Int
  Name : GoString
  Mode : Int
  Note : GoString
  TilesetNames : List GoString
  Flags : Table

/-- The struct `Project`, of which `GetTileset` reads `tilesets` only. -/
structure Project where
  tilesets : List Tileset

/-- What `GetTileset` does: it returns the error, or it returns the element
at an index, or indexing the slice panics. -/
inductive TilesetResult : Type
  | err (msg : String)
  | ok (index : Nat) (tileset : Tileset)
  | indexPanic

/-- The method `Project.GetTileset`. -/
def Project.GetTileset (project : Project) (id : Int) : TilesetResult :=
  if id = 0 ∨ id ≥ project.tilesets.length then
    .err "invalid tileset id given, out of bounds"
  else if id < 0 then .indexPanic
  else
    match project.tilesets.get? id.toNat with
    | some tileset => .ok id.toNat tileset
    | none => .indexPanic

/-! ## Definitions used in the statements about `rmvx` -/

/-- The `int16` elements that the pairs of bytes of `body` denote, read in
little-endian order. -/
def int16sOf : List Byte → List Int
  | b0 :: b1 :: rest => wrapInt16 (leValue [b0, b1]) :: int16sOf rest
  | _ => []

/-- The integer is an `int32`. -/
def IsInt32 (n : Int) : Prop := -2 ^ 31 ≤ n ∧ n < 2 ^ 31

/-! ## Definitions used in the statements about termination and trailing bytes -/

/-- A call of `rec` that returns has read at least one byte. -/
def RecStrict (rec : Rec) : Prop :=
  ∀ d val, (rec d val).panic = none → (rec d val).d.r.length < d.r.length

/-- The outcome `res` of a loop started in state `d` that returns has read
at least `n` bytes. -/
def Res.Used {α : Type} (n : Nat) (d : Decoder) (res : Res α) : Prop :=
  res.panic = none → res.d.r.length + n ≤ d.r.length

/-- The wire form of a symbol (the tag `:`, a length and that many bytes)
or of a symbol link (the tag `;` and an index), which is what a class name
or a field name is. -/
inductive WireName : List Byte → Prop
  | symbol (len : List Byte) (s : GoString) (hl : EncodesInt len s.length) :
      WireName (typeSymbol :: (len ++ s))
  | link (idx : List Byte) (i : Int) (hi : EncodesInt idx i) :
      WireName (typeSymbolLink :: idx)

/-- The members of a list of pairs, in wire order. -/
def flatPairs (pairs : List (List Byte × List Byte)) : List (List Byte) :=
  pairs.flatMap fun p => [p.1, p.2]

/-- The bytes are one complete encoded value of the wire format: a tag
byte followed by what the table of the format lists for the tag, with every
length and count a varint that `parseInt` reads as the number of bytes or of
elements that follow. -/
inductive WireValue : List Byte → Prop
  | null : WireValue [typeNull]
  | isTrue : WireValue [typeTrue]
  | isFalse : WireValue [typeFalse]
  | float (len : List Byte) (s : GoString) (hl : EncodesInt len s.length) :
      WireValue (typeFloat :: (len ++ s))
  | fixnum (bs : List Byte) (n : Int) (hn : EncodesInt bs n) :
      WireValue (typeFixNum :: bs)
  | symbol (len : List Byte) (s : GoString) (hl : EncodesInt len s.length) :
      WireValue (typeSymbol :: (len ++ s))
  | link (idx : List Byte) (i : Int) (hi : EncodesInt idx i) :
      WireValue (typeSymbolLink :: idx)
  | string (len : List Byte) (s : GoString) (hl : EncodesInt len s.length) :
      WireValue (typeString :: (len ++ s))
  | array (cnt : List Byte) (items : List (List Byte))
      (hc : EncodesInt cnt items.length) (hi : ∀ w ∈ items, WireValue w) :
      WireValue (typeArray :: (cnt ++ items.flatten))
  | ivar (len : List Byte) (s : GoString) (cnt : List Byte)
      (pairs : List (List Byte × List Byte)) (hl : EncodesInt len s.length)
      (hc : EncodesInt cnt pairs.length) (hn : ∀ p ∈ pairs, WireName p.1)
      (hv : ∀ p ∈ pairs, WireValue p.2) :
      WireValue (typeIVar :: typeString :: (len ++ (s ++ (cnt ++ (flatPairs pairs).flatten))))
  | hash (cnt : List Byte) (pairs : List (List Byte × List Byte))
      (hc : EncodesInt cnt pairs.length) (hk : ∀ p ∈ pairs, WireValue p.1)
      (hv : ∀ p ∈ pairs, WireValue p.2) :
      WireValue (typeHash :: (cnt ++ (flatPairs pairs).flatten))
  | object (cls cnt : List Byte) (fields : List (List Byte × List Byte))
      (hcls : WireName cls) (hc : EncodesInt cnt fields.length)
      (hn : ∀ p ∈ fields, WireName p.1) (hv : ∀ p ∈ fields, WireValue p.2) :
      WireValue (typeObject :: (cls ++ (cnt ++ (flatPairs fields).flatten)))
  | userDefined (cls len data : List Byte) (hcls : WireName cls)
      (hl : EncodesInt len data.length) :
      WireValue (typeUserDefined :: (cls ++ (len ++ data)))

/-- Every member of the list is a complete encoded value of at most `M`
bytes. -/
def Forest (M : Nat) (ws : List (List Byte)) : Prop :=
  ∀ w ∈ ws, WireValue w ∧ w.length ≤ M

/-- Two outcomes of the same step, run on buffers that differ only in what
follows the values the step may read (`x` for the first, `y` for the
second): the outcomes are the same but for the unread bytes, which are the
same bytes `pre` followed by `x` and by `y`; when the step returned, `pre`
is made of at least `k` complete values. -/
def Sim {α : Type} (M k : Nat) (x y : List Byte) (res1 res2 : Res α) : Prop :=
  ∃ (pre : List (List Byte)) (D : Decoder) (p : Option Panic) (a : α),
    res1 = { panic := p, d := { D with r := pre.flatten ++ x }, val := a } ∧
    res2 = { panic := p, d := { D with r := pre.flatten ++ y }, val := a } ∧
    (p = none → Forest M pre ∧ k ≤ pre.length)

/-- The two calls `rec1` and `rec2` of `parseType` agree, in the sense of
`Sim`, on every complete value of at most `M` bytes, whatever follows it. -/
def UnitSim (M : Nat) (rec1 rec2 : Rec) : Prop :=
  ∀ (D : Decoder) (val : RValue) (w x y : List Byte), WireValue w → w.length ≤ M →
    Sim M 0 x y (rec1 { D with r := w ++ x } val) (rec2 { D with r := w ++ y } val)
/-! ## The integer codec: proofs -/

theorem leValue_lt (bs : List Byte) : leValue bs < 256 ^ bs.length := by
  induction bs with
  | nil => simp [leValue]
  | cons b bs ih =>
    have hb := b.isLt
    simp only [leValue, List.length_cons, pow_succ]
    omega

theorem leValue_eq_sum (bs : List Byte) :
    leValue bs = ∑ i in Finset.range bs.length, (bs.getD i 0).val * 256 ^ i := by
  induction bs with
  | nil => simp [leValue]
  | cons b bs ih =>
    rw [List.length_cons, Finset.sum_range_succ', leValue, ih, Finset.mul_sum]
    simp only [List.getD_cons_zero, pow_zero, mul_one, List.getD_cons_succ, pow_succ]
    rw [Nat.add_comm]
    congr 1
    apply Finset.sum_congr rfl
    intro x _
    ring

theorem shift_byte_mod (b : Byte) (i : Nat) (hi : i < 8) :
    (b.val <<< (8 * i)) % 2 ^ 64 = 2 ^ (8 * i) * b.val := by
  have hb := b.isLt
  rw [Nat.shiftLeft_eq, Nat.mul_comm]
  apply Nat.mod_eq_of_lt
  calc 2 ^ (8 * i) * b.val < 2 ^ (8 * i) * 2 ^ 8 :=
        Nat.mul_lt_mul_of_pos_left (by omega) (Nat.two_pow_pos _)
    _ = 2 ^ (8 * i + 8) := by rw [← pow_add]
    _ ≤ 2 ^ 64 := Nat.pow_le_pow_right (by decide) (by omega)

theorem parseIntPos_spec (bs : List Byte) :
    ∀ (i s : Nat) (rest : List Byte), s < 2 ^ (8 * i) → i + bs.length ≤ 8 →
      parseIntPos bs.length i s (bs ++ rest) =
        (s + 2 ^ (8 * i) * leValue bs, rest) := by
  induction bs with
  | nil => intro i s rest _ _; simp [parseIntPos, leValue]
  | cons b bs ih =>
    intro i s rest hs hlen
    simp only [List.length_cons] at hlen
    have hb := b.isLt
    simp only [List.length_cons, List.cons_append, parseIntPos, readByteOrZero]
    rw [shift_byte_mod b i (by omega), Nat.lor_comm, ← Nat.mul_add_lt_is_or hs]
    rw [ih (i + 1) _ rest _ (by omega)]
    · simp only [leValue, Prod.mk.injEq, and_true]
      have : 2 ^ (8 * (i + 1)) = 2 ^ (8 * i) * 256 := by
        rw [show 8 * (i + 1) = 8 * i + 8 by ring, pow_add]; norm_num
      rw [this]; ring
    · have : 2 ^ (8 * (i + 1)) = 2 ^ (8 * i) * 256 := by
        rw [show 8 * (i + 1) = 8 * i + 8 by ring, pow_add]; norm_num
      rw [this]
      have h1 : 2 ^ (8 * i) * b.val ≤ 2 ^ (8 * i) * 255 := Nat.mul_le_mul_left _ (by omega)
      omega

theorem testBit_byte_high (b : Byte) (k : Nat) (hk : 8 ≤ k) : b.val.testBit k = false := by
  apply Nat.testBit_lt_two_pow
  calc b.val < 2 ^ 8 := b.isLt
    _ ≤ 2 ^ k := Nat.pow_le_pow_right (by decide) hk

theorem testBit_of_lt_pow (s n j : Nat) (hs : s < 2 ^ n) (hj : n ≤ j) : s.testBit j = false := by
  apply Nat.testBit_lt_two_pow
  exact lt_of_lt_of_le hs (Nat.pow_le_pow_right (by decide) hj)

theorem negStep (b : Byte) (i s : Nat) (hi : i < 8) (hs : s < 2 ^ (8 * i)) :
    ((hiMask i ||| s) &&& (((0xff <<< (8 * i)) % 2 ^ 64) ^^^ (2 ^ 64 - 1))) |||
        ((b.val <<< (8 * i)) % 2 ^ 64) =
      hiMask (i + 1) ||| (s + 2 ^ (8 * i) * b.val) := by
  have h255 : (0xff <<< (8 * i)) % 2 ^ 64 = (2 ^ 8 - 1) <<< (8 * i) := by
    have := shift_byte_mod (255 : Byte) i hi
    simp only [Nat.shiftLeft_eq] at this ⊢
    apply Nat.mod_eq_of_lt
    calc 255 * 2 ^ (8 * i) < 2 ^ 8 * 2 ^ (8 * i) :=
          Nat.mul_lt_mul_of_pos_right (by norm_num) (Nat.two_pow_pos _)
      _ = 2 ^ (8 + 8 * i) := by rw [← pow_add]
      _ ≤ 2 ^ 64 := Nat.pow_le_pow_right (by decide) (by omega)
  rw [h255, shift_byte_mod b i hi, Nat.add_comm s, Nat.mul_add_lt_is_or hs]
  apply Nat.eq_of_testBit_eq
  intro j
  simp only [hiMask, Nat.testBit_or, Nat.testBit_and, Nat.testBit_xor,
    Nat.testBit_two_pow_sub_one, Nat.testBit_shiftLeft, Nat.testBit_mul_pow_two]
  by_cases h1 : j < 8 * i
  · have h2 : ¬ (8 * i ≤ j) := by omega
    have h3 : j < 8 * (i + 1) := by omega
    have h4 : j < 64 := by omega
    simp [h1, h2, h3, h4]
  · have hsj : s.testBit j = false := testBit_of_lt_pow s _ j hs (by omega)
    by_cases h2 : j < 8 * (i + 1)
    · have h4 : j < 64 := by omega
      have h5 : j - 8 * i < 8 := by omega
      have h6 : 8 * i ≤ j := by omega
      simp [h1, h2, h4, h5, h6, hsj]
    · have h5 : ¬ (j - 8 * i < 8) := by omega
      have h6 : 8 * i ≤ j := by omega
      have hb : b.val.testBit (j - 8 * i) = false := testBit_byte_high b _ (by omega)
      simp [h1, h2, h5, h6, hsj, hb]

theorem parseIntNeg_spec (bs : List Byte) :
    ∀ (i s : Nat) (rest : List Byte), s < 2 ^ (8 * i) → i + bs.length ≤ 8 →
      parseIntNeg bs.length i (hiMask i ||| s) (bs ++ rest) =
        (hiMask (i + bs.length) ||| (s + 2 ^ (8 * i) * leValue bs), rest) := by
  induction bs with
  | nil => intro i s rest _ _; simp [parseIntNeg, leValue]
  | cons b bs ih =>
    intro i s rest hs hlen
    simp only [List.length_cons] at hlen
    have hb := b.isLt
    have hpow : 2 ^ (8 * (i + 1)) = 2 ^ (8 * i) * 256 := by
      rw [show 8 * (i + 1) = 8 * i + 8 by ring, pow_add]; norm_num
    simp only [List.length_cons, List.cons_append, parseIntNeg, readByteOrZero]
    rw [negStep b i s (by omega) hs, ih (i + 1) _ rest _ (by omega)]
    · simp only [leValue, Prod.mk.injEq, and_true]
      rw [hpow, show i + 1 + bs.length = i + (bs.length + 1) by ring]
      congr 1
      ring
    · rw [hpow]
      have h1 : 2 ^ (8 * i) * b.val ≤ 2 ^ (8 * i) * 255 := Nat.mul_le_mul_left _ (by omega)
      omega

theorem hiMask_lor (n v : Nat) (hn : n ≤ 8) (hv : v < 2 ^ (8 * n)) :
    hiMask n ||| v = 2 ^ 64 - 2 ^ (8 * n) + v := by
  have h : hiMask n = 2 ^ (8 * n) * (2 ^ (64 - 8 * n) - 1) := by
    unfold hiMask
    interval_cases n <;> decide
  rw [h, ← Nat.mul_add_lt_is_or hv, Nat.mul_sub, ← pow_add]
  rw [show 8 * n + (64 - 8 * n) = 64 by omega]
  simp

theorem int8_cases (b : Byte) : (b.val < 128 ∧ int8 b = b.val) ∨ (128 ≤ b.val ∧ int8 b = (b.val : Int) - 256) := by
  unfold int8
  by_cases h : b.val < 128
  · left; simp [h]
  · right; simp [h]; omega


theorem parseIntBytes_small (b : Byte) (rest : List Byte) :
    (int8 b = 0 → parseIntBytes (b :: rest) = (0, rest)) ∧
    (5 < int8 b ∧ int8 b < 128 → parseIntBytes (b :: rest) = (int8 b - 5, rest)) ∧
    (-129 < int8 b ∧ int8 b < -5 → parseIntBytes (b :: rest) = (int8 b + 5, rest)) := by
  refine ⟨?_, ?_, ?_⟩
  · intro h
    simp only [parseIntBytes, readByteOrZero]
    rw [if_pos h]
  · intro h
    simp only [parseIntBytes, readByteOrZero]
    rw [if_neg (by omega), if_pos h]
  · intro h
    simp only [parseIntBytes, readByteOrZero]
    rw [if_neg (by omega), if_neg (by omega), if_pos h]

theorem toInt64_small (v : Nat) (h : v < 2 ^ 63) : toInt64 v = (v : Int) := by
  unfold toInt64
  have h1 : v % 2 ^ 64 = v := Nat.mod_eq_of_lt (by omega)
  rw [h1, if_pos h]

theorem toInt64_high (v : Nat) (h1 : 2 ^ 63 ≤ v) (h2 : v < 2 ^ 64) :
    toInt64 v = (v : Int) - 2 ^ 64 := by
  unfold toInt64
  have h3 : v % 2 ^ 64 = v := Nat.mod_eq_of_lt h2
  rw [h3, if_neg (by omega)]

theorem pow256_le (n : Nat) (hn : n ≤ 5) : (256 : Nat) ^ n ≤ 2 ^ 40 := by
  rw [show (256 : Nat) = 2 ^ 8 by norm_num, ← pow_mul]
  exact Nat.pow_le_pow_right (by decide) (by omega)

theorem parseIntBytes_pos (c : Byte) (bs rest : List Byte)
    (hc : 1 ≤ c.val ∧ c.val ≤ 5) (hlen : bs.length = c.val) :
    parseIntBytes (c :: (bs ++ rest)) = ((leValue bs : Int), rest) := by
  have hlt := leValue_lt bs
  have h40 := pow256_le bs.length (by omega)
  have hc8 : int8 c = (c.val : Int) := by
    rcases int8_cases c with h | h
    · exact h.2
    · omega
  have hspec := parseIntPos_spec bs 0 0 rest (by norm_num) (by omega)
  simp only [Nat.mul_zero, pow_zero, Nat.one_mul, Nat.zero_add] at hspec
  simp only [parseIntBytes, readByteOrZero]
  rw [if_neg (by omega), if_neg (by omega), if_neg (by omega), if_pos (by omega), hc8,
    Int.toNat_ofNat, ← hlen, hspec, toInt64_small _ (by omega)]

theorem parseIntBytes_neg (c : Byte) (bs rest : List Byte)
    (hc : -5 ≤ int8 c ∧ int8 c ≤ -1) (hlen : (bs.length : Int) = -int8 c) :
    parseIntBytes (c :: (bs ++ rest)) = ((leValue bs : Int) - 256 ^ bs.length, rest) := by
  have hlt := leValue_lt bs
  have hn : bs.length ≤ 5 := by omega
  have h40 := pow256_le bs.length hn
  have hpos : 0 < 256 ^ bs.length := by positivity
  have hspec := parseIntNeg_spec bs 0 0 rest (by norm_num) (by omega)
  have hm1 : ofInt64 (-1) = hiMask 0 ||| 0 := by decide
  have h8 : (2 : Nat) ^ (8 * bs.length) = 256 ^ bs.length := by
    rw [pow_mul]; norm_num
  simp only [Nat.mul_zero, pow_zero, Nat.one_mul, Nat.zero_add] at hspec
  rw [hiMask_lor bs.length (leValue bs) (by omega) (by rw [h8]; exact hlt), h8] at hspec
  simp only [parseIntBytes, readByteOrZero]
  rw [if_neg (by omega), if_neg (by omega), if_neg (by omega), if_neg (by omega), ← hlen,
    Int.toNat_ofNat, hm1, hspec, toInt64_high _ (by omega) (by omega)]
  simp only [Prod.mk.injEq, and_true]
  rw [Nat.cast_add, Nat.cast_sub (show 256 ^ bs.length ≤ 2 ^ 64 by omega)]
  push_cast
  ring

/-- C3. `parseInt` on a buffer whose first byte is `b`, read as the signed
8-bit value `c = int8 b`, consumes exactly that byte and returns 0 when
`c = 0`, `c - 5` when `5 < c < 128`, and `c + 5` when `-129 < c < -5`; in
particular the byte `00` gives 0, the byte `06` gives 1 and the byte `FA`
gives -1. -/
theorem parseInt_single_byte (d : Decoder) (b : Byte) (rest : List Byte)
    (hr : d.r = b :: rest) :
    (int8 b = 0 → d.parseInt = (0, { d with r := rest })) ∧
    (5 < int8 b ∧ int8 b < 128 → d.parseInt = (int8 b - 5, { d with r := rest })) ∧
    (-129 < int8 b ∧ int8 b < -5 → d.parseInt = (int8 b + 5, { d with r := rest })) ∧
    parseIntBytes (0x00 :: rest) = (0, rest) ∧
    parseIntBytes (0x06 :: rest) = (1, rest) ∧
    parseIntBytes (0xFA :: rest) = (-1, rest) := by
  have h := parseIntBytes_small b rest
  refine ⟨?_, ?_, ?_, ?_, ?_, ?_⟩
  · intro hc
    simp only [Decoder.parseInt, hr, h.1 hc]
  · intro hc
    simp only [Decoder.parseInt, hr, h.2.1 hc]
  · intro hc
    simp only [Decoder.parseInt, hr, h.2.2 hc]
  · exact (parseIntBytes_small 0x00 rest).1 (by decide)
  · exact (parseIntBytes_small 0x06 rest).2.1 (by decide)
  · exact (parseIntBytes_small 0xFA rest).2.2 (by decide)

theorem parseInt_single_byte_witness :
    (NewDecoder [0x7F, 0x01]).parseInt =
      (122, { NewDecoder [0x7F, 0x01] with r := [0x01] }) :=
  (parseInt_single_byte (NewDecoder [0x7F, 0x01]) 0x7F [0x01] rfl).2.1 (by decide)

/-- C4. For a first byte `c` with `1 ≤ c ≤ 5` followed by `c` bytes `bs`
(and any further bytes `rest`), `parseInt` consumes exactly the `1 + c` bytes
and returns the zero-extended little-endian magnitude of `bs`, the sum of
`bs[i] * 256 ^ i`, which is non-negative and below `256 ^ c`. -/
theorem parseInt_positive_multibyte (d : Decoder) (c : Byte) (bs rest : List Byte)
    (hc : 1 ≤ c.val ∧ c.val ≤ 5) (hlen : bs.length = c.val)
    (hr : d.r = c :: (bs ++ rest)) :
    d.parseInt = ((leValue bs : Int), { d with r := rest }) ∧
    leValue bs = ∑ i in Finset.range c.val, (bs.getD i 0).val * 256 ^ i ∧
    (0 : Int) ≤ leValue bs ∧ (leValue bs : Int) < 256 ^ c.val := by
  have hlt := leValue_lt bs
  refine ⟨?_, ?_, by positivity, ?_⟩
  · simp only [Decoder.parseInt, hr, parseIntBytes_pos c bs rest hc hlen]
  · rw [← hlen]; exact leValue_eq_sum bs
  · rw [← hlen]; exact_mod_cast hlt

theorem parseInt_positive_multibyte_witness :
    (NewDecoder [0x02, 0xC8, 0x07, 0x54]).parseInt =
      (1992, { NewDecoder [0x02, 0xC8, 0x07, 0x54] with r := [0x54] }) :=
  (parseInt_positive_multibyte (NewDecoder [0x02, 0xC8, 0x07, 0x54]) 0x02 [0xC8, 0x07] [0x54]
    (by decide) rfl rfl).1

/-- C5. For a first byte whose signed value `c` satisfies `-5 ≤ c ≤ -1`,
followed by `n = -c` bytes `bs` (and any further bytes `rest`), `parseInt`
consumes exactly the `1 + n` bytes and returns the sign-extended
two's-complement value, the sum of `bs[i] * 256 ^ i` minus `256 ^ n`, which
is negative and at least `-256 ^ n`. -/
theorem parseInt_negative_multibyte (d : Decoder) (c : Byte) (bs rest : List Byte)
    (hc : -5 ≤ int8 c ∧ int8 c ≤ -1) (hlen : (bs.length : Int) = -int8 c)
    (hr : d.r = c :: (bs ++ rest)) :
    d.parseInt = ((leValue bs : Int) - 256 ^ bs.length, { d with r := rest }) ∧
    leValue bs = ∑ i in Finset.range bs.length, (bs.getD i 0).val * 256 ^ i ∧
    (leValue bs : Int) - 256 ^ bs.length < 0 ∧
    -(256 : Int) ^ bs.length ≤ (leValue bs : Int) - 256 ^ bs.length := by
  have hlt := leValue_lt bs
  have hlt2 : (leValue bs : Int) < 256 ^ bs.length := by exact_mod_cast hlt
  refine ⟨?_, leValue_eq_sum bs, by omega, by omega⟩
  simp only [Decoder.parseInt, hr, parseIntBytes_neg c bs rest hc hlen]

theorem parseInt_negative_multibyte_witness :
    (NewDecoder [0xFE, 0xC8, 0x07, 0x54]).parseInt =
      (-63544, { NewDecoder [0xFE, 0xC8, 0x07, 0x54] with r := [0x54] }) :=
  (parseInt_negative_multibyte (NewDecoder [0xFE, 0xC8, 0x07, 0x54]) 0xFE [0xC8, 0x07] [0x54]
    (by decide) (by decide) rfl).1

/-! ## Every step extends the decoder state -/

theorem Decoder.Ext.refl (d : Decoder) : d.Ext d :=
  ⟨List.prefix_refl _, List.suffix_refl _, rfl, Or.inl rfl⟩

theorem Decoder.Ext.trans {d d1 d2 : Decoder} (h1 : d.Ext d1) (h2 : d1.Ext d2) :
    d.Ext d2 := by
  refine ⟨h1.symbols.trans h2.symbols, h2.r.trans h1.r,
    h2.callbacks.trans h1.callbacks, ?_⟩
  rcases h1.savedError with e1 | ⟨n1, k1⟩
  · rcases h2.savedError with e2 | ⟨n2, k2⟩
    · exact Or.inl (e2.trans e1)
    · exact Or.inr ⟨e1 ▸ n2, k2⟩
  · rcases h2.savedError with e2 | ⟨n2, _⟩
    · exact Or.inr ⟨n1, by rw [e2]; exact k1⟩
    · rcases k1 with ⟨_, _, h⟩ | ⟨_, h⟩ | ⟨_, _, _, _, h⟩ <;> rw [h] at n2 <;> cases n2

theorem Decoder.Ext.length_le {d d1 : Decoder} (h : d.Ext d1) :
    d1.r.length ≤ d.r.length := h.r.length_le

/-- Consuming bytes extends the state. -/
theorem Decoder.Ext.ofSuffix (d : Decoder) (r1 : List Byte) (h : r1 <:+ d.r) :
    d.Ext { d with r := r1 } :=
  ⟨List.prefix_refl _, h, rfl, Or.inl rfl⟩

theorem saveError_ext_unexpectedType (d : Decoder) (got expected : String) :
    d.Ext (d.saveError (.unexpectedType got expected)) := by
  unfold Decoder.saveError
  cases h : d.savedError with
  | none => exact ⟨List.prefix_refl _, List.suffix_refl _, rfl,
      Or.inr ⟨h, Or.inl ⟨got, expected, rfl⟩⟩⟩
  | some e => exact Decoder.Ext.refl d

theorem saveError_ext_invalidFloat64 (d : Decoder) (value : GoString) :
    d.Ext (d.saveError (.invalidFloat64 value)) := by
  unfold Decoder.saveError
  cases h : d.savedError with
  | none => exact ⟨List.prefix_refl _, List.suffix_refl _, rfl,
      Or.inr ⟨h, Or.inr (Or.inl ⟨value, rfl⟩)⟩⟩
  | some e => exact Decoder.Ext.refl d

theorem readByteOrZero_suffix (r : List Byte) : (readByteOrZero r).2 <:+ r := by
  cases r with
  | nil => exact List.suffix_refl _
  | cons b rest => exact List.suffix_cons b rest

theorem parseIntPos_suffix : ∀ (todo i result : Nat) (r : List Byte),
    (parseIntPos todo i result r).2 <:+ r
  | 0, _, _, r => List.suffix_refl r
  | todo + 1, i, result, r => by
    simp only [parseIntPos]
    exact (parseIntPos_suffix todo _ _ _).trans (readByteOrZero_suffix r)

theorem parseIntNeg_suffix : ∀ (todo i result : Nat) (r : List Byte),
    (parseIntNeg todo i result r).2 <:+ r
  | 0, _, _, r => List.suffix_refl r
  | todo + 1, i, result, r => by
    simp only [parseIntNeg]
    exact (parseIntNeg_suffix todo _ _ _).trans (readByteOrZero_suffix r)

theorem parseIntBytes_suffix (r : List Byte) : (parseIntBytes r).2 <:+ r := by
  unfold parseIntBytes
  simp only
  split
  · exact readByteOrZero_suffix r
  · split
    · exact readByteOrZero_suffix r
    · split
      · exact readByteOrZero_suffix r
      · split
        · exact (parseIntPos_suffix _ _ _ _).trans (readByteOrZero_suffix r)
        · exact (parseIntNeg_suffix _ _ _ _).trans (readByteOrZero_suffix r)

theorem parseInt_ext (d : Decoder) : d.Ext d.parseInt.2 :=
  Decoder.Ext.ofSuffix d _ (parseIntBytes_suffix d.r)

theorem MustReadByte_ext (d : Decoder) : d.Ext d.MustReadByte.d := by
  unfold Decoder.MustReadByte
  cases h : d.r with
  | nil => exact Decoder.Ext.refl d
  | cons b rest =>
    exact Decoder.Ext.ofSuffix d rest (by rw [h]; exact List.suffix_cons b rest)

theorem MustReadByte_length (d : Decoder) (h : d.MustReadByte.panic = none) :
    d.MustReadByte.d.r.length + 1 = d.r.length := by
  unfold Decoder.MustReadByte at h ⊢
  cases hr : d.r with
  | nil => rw [hr] at h; cases h
  | cons b rest => simp

theorem MustReadByte_ne_fuel (d : Decoder) : d.MustReadByte.panic ≠ some .fuel := by
  unfold Decoder.MustReadByte
  cases d.r <;> simp

theorem parseString_ext (d : Decoder) : d.Ext d.parseString.d := by
  unfold Decoder.parseString
  simp only
  split
  · exact parseInt_ext d
  · split
    · exact parseInt_ext d
    · split
      · exact parseInt_ext d
      · exact (parseInt_ext d).trans
          (Decoder.Ext.ofSuffix _ _ (List.drop_suffix _ _))

theorem parseString_ne_fuel (d : Decoder) : d.parseString.panic ≠ some .fuel := by
  unfold Decoder.parseString
  simp only
  split
  · simp [Res.ok]
  · split
    · simp [Res.fail]
    · split <;> simp [Res.ok, Res.fail]

theorem parseSymbol_ext (d : Decoder) : d.Ext d.parseSymbol.d := by
  unfold Decoder.parseSymbol
  simp only
  split
  · exact parseString_ext d
  · exact (parseString_ext d).trans
      ⟨List.prefix_append _ _, List.suffix_refl _, rfl, Or.inl rfl⟩

theorem parseSymbol_ne_fuel (d : Decoder) : d.parseSymbol.panic ≠ some .fuel := by
  unfold Decoder.parseSymbol
  simp only
  split
  · exact parseString_ne_fuel d
  · simp [Res.ok]

theorem parseIndexAndLookupSymbol_ext (d : Decoder) :
    d.Ext d.parseIndexAndLookupSymbol.d := by
  unfold Decoder.parseIndexAndLookupSymbol
  simp only
  split
  · exact parseInt_ext d
  · split <;> exact parseInt_ext d

theorem parseIndexAndLookupSymbol_ne_fuel (d : Decoder) :
    d.parseIndexAndLookupSymbol.panic ≠ some .fuel := by
  unfold Decoder.parseIndexAndLookupSymbol
  simp only
  split
  · simp [Res.fail]
  · split <;> simp [Res.ok, Res.fail]

theorem parseSymbolOrSymbolLink_ext (d : Decoder) :
    d.Ext d.parseSymbolOrSymbolLink.d := by
  unfold Decoder.parseSymbolOrSymbolLink
  simp only
  split
  · exact MustReadByte_ext d
  · split
    · exact (MustReadByte_ext d).trans (parseSymbol_ext _)
    · split
      · exact (MustReadByte_ext d).trans (parseIndexAndLookupSymbol_ext _)
      · exact MustReadByte_ext d

theorem parseSymbolOrSymbolLink_ne_fuel (d : Decoder) :
    d.parseSymbolOrSymbolLink.panic ≠ some .fuel := by
  unfold Decoder.parseSymbolOrSymbolLink
  simp only
  split
  · next p hp =>
    intro h
    simp only [Res.fail] at h
    exact MustReadByte_ne_fuel d (hp.trans h)
  · split
    · exact parseSymbol_ne_fuel _
    · split
      · exact parseIndexAndLookupSymbol_ne_fuel _
      · simp [Res.fail]

/-! ## Soundness of the loops and cases of `parseType` -/

theorem Res.Sound.of_ext {α : Type} {F : Nat} {d : Decoder} {res : Res α}
    (h : d.Ext res.d) (hp : res.panic ≠ some .fuel) : res.Sound F d :=
  ⟨h, fun _ => hp⟩

theorem Res.Sound.after {α : Type} {F : Nat} {d d1 : Decoder} {res : Res α}
    (h2 : res.Sound F d1) (h1 : d.Ext d1) : res.Sound F d :=
  ⟨h1.trans h2.ext, fun hlt => h2.budget (lt_of_le_of_lt h1.length_le hlt)⟩

theorem Res.Sound.replace {α β : Type} {F : Nat} {d : Decoder} {res : Res α}
    (hs : res.Sound F d) (b : β) :
    ({ panic := res.panic, d := res.d, val := b } : Res β).Sound F d :=
  ⟨hs.ext, hs.budget⟩

theorem Res.Sound.fail_of_panic {α β : Type} {F : Nat} {d : Decoder} {res : Res α}
    {p : Panic} (hs : res.Sound F d) (hp : res.panic = some p) (b : β) :
    (Res.fail p res.d b).Sound F d :=
  ⟨hs.ext, fun hlt => by simpa [Res.fail, hp] using hs.budget hlt⟩

theorem Res.Sound.ok {α : Type} {F : Nat} {d d1 : Decoder} (h : d.Ext d1) (a : α) :
    (Res.ok d1 a).Sound F d :=
  ⟨h, fun _ => by simp [Res.ok]⟩

theorem Res.Sound.fail {α : Type} {F : Nat} {d d1 : Decoder} {p : Panic}
    (h : d.Ext d1) (hp : p ≠ .fuel) (a : α) : (Res.fail p d1 a).Sound F d :=
  ⟨h, fun _ => by simpa [Res.fail] using hp⟩

theorem parseSymbolOrSymbolLink_sound (F : Nat) (d : Decoder) :
    d.parseSymbolOrSymbolLink.Sound F d :=
  Res.Sound.of_ext (parseSymbolOrSymbolLink_ext d) (parseSymbolOrSymbolLink_ne_fuel d)

theorem skipValues_sound {F : Nat} {rec : Rec} (h : RecSound F rec) :
    ∀ (n : Nat) (d : Decoder) (e : GoValue), (skipValues rec n d e).Sound F d := by
  intro n
  induction n with
  | zero => intro d e; exact Res.Sound.ok (Decoder.Ext.refl d) e
  | succ n ih =>
    intro d e
    simp only [skipValues]
    split
    · exact h d _
    · exact (ih _ _).after (h d _).ext

theorem skipFields_sound {F : Nat} {rec : Rec} (h : RecSound F rec) :
    ∀ (n : Nat) (d : Decoder) (e : GoValue), (skipFields rec n d e).Sound F d := by
  intro n
  induction n with
  | zero => intro d e; exact Res.Sound.ok (Decoder.Ext.refl d) e
  | succ n ih =>
    intro d e
    simp only [skipFields]
    split
    · next p hp => exact (parseSymbolOrSymbolLink_sound F d).fail_of_panic hp e
    · split
      · exact (h _ _).after (parseSymbolOrSymbolLink_ext d)
      · exact ((ih _ _).after (h _ _).ext).after (parseSymbolOrSymbolLink_ext d)

theorem skipPairs_sound {F : Nat} {rec : Rec} (h : RecSound F rec) :
    ∀ (n : Nat) (d : Decoder) (e : GoValue), (skipPairs rec n d e).Sound F d := by
  intro n
  induction n with
  | zero => intro d e; exact Res.Sound.ok (Decoder.Ext.refl d) e
  | succ n ih =>
    intro d e
    simp only [skipPairs]
    split
    · exact h d _
    · split
      · exact (h _ _).after (h d _).ext
      · exact ((ih _ _).after (h _ _).ext).after (h d _).ext

theorem parseArrayItems_sound {F : Nat} {rec : Rec} (h : RecSound F rec) :
    ∀ (n : Nat) (d : Decoder), (parseArrayItems rec n d).Sound F d := by
  intro n
  induction n with
  | zero => intro d; exact Res.Sound.ok (Decoder.Ext.refl d) _
  | succ n ih =>
    intro d
    simp only [parseArrayItems]
    split
    · next p hp => exact (h d _).fail_of_panic hp _
    · exact (((ih _).after (h d _).ext).replace _)

theorem sliceElemStep_sound {F : Nat} {rec : Rec} (h : RecSound F rec)
    (elem : GoType) (d : Decoder) (e : GoValue) :
    (sliceElemStep rec elem d e).Sound F d := by
  unfold sliceElemStep
  split
  · exact (h d _).replace e
  · exact h d _

theorem parseSliceElems_sound {F : Nat} {rec : Rec} (h : RecSound F rec)
    (elem : GoType) :
    ∀ (es : List GoValue) (d : Decoder), (parseSliceElems rec elem es d).Sound F d := by
  intro es
  induction es with
  | nil => intro d; exact Res.Sound.ok (Decoder.Ext.refl d) _
  | cons e es ih =>
    intro d
    simp only [parseSliceElems]
    split
    · next p hp => exact (sliceElemStep_sound h elem d e).fail_of_panic hp _
    · exact (((ih _).after (sliceElemStep_sound h elem d e).ext).replace _)

theorem parseObjectFields_sound {F : Nat} {rec : Rec} (h : RecSound F rec) :
    ∀ (n : Nat) (d : Decoder) (obj : List (GoValue × GoValue)),
      (parseObjectFields rec n d obj).Sound F d := by
  intro n
  induction n with
  | zero => intro d obj; exact Res.Sound.ok (Decoder.Ext.refl d) _
  | succ n ih =>
    intro d obj
    simp only [parseObjectFields]
    split
    · next p hp => exact (parseSymbolOrSymbolLink_sound F d).fail_of_panic hp _
    · split
      · next p hp =>
        exact ((h _ _).fail_of_panic hp _).after (parseSymbolOrSymbolLink_ext d)
      · exact ((ih _ _).after (h _ _).ext).after (parseSymbolOrSymbolLink_ext d)

theorem structFieldStep_sound {F : Nat} {rec : Rec} (h : RecSound F rec)
    (refType : GoType) (fieldName : GoString) (d : Decoder)
    (st : List GoValue × List GoString) :
    (structFieldStep rec refType fieldName d st).Sound F d := by
  unfold structFieldStep
  split
  · next structField _ =>
    have hx := (h d (fieldAddr structField st.1)).ext
    dsimp only
    split
    · next p hp => exact (h d _).fail_of_panic hp _
    · split
      · next got expected herr =>
        split
        · next hne =>
          refine ⟨⟨hx.symbols, hx.r, hx.callbacks, ?_⟩, fun _ => by simp [Res.ok]⟩
          rcases hx.savedError with e1 | ⟨n1, _⟩
          · exact absurd (e1.symm.trans herr) hne
          · exact Or.inr ⟨n1, Or.inr (Or.inr ⟨_, _, _, _, rfl⟩)⟩
        · exact Res.Sound.ok hx _
      · exact Res.Sound.ok hx _
  · exact (h d _).replace _

theorem parseStructFields_sound {F : Nat} {rec : Rec} (h : RecSound F rec)
    (refType : GoType) :
    ∀ (n : Nat) (d : Decoder) (st : List GoValue × List GoString),
      (parseStructFields rec refType n d st).Sound F d := by
  intro n
  induction n with
  | zero => intro d st; exact Res.Sound.ok (Decoder.Ext.refl d) _
  | succ n ih =>
    intro d st
    simp only [parseStructFields]
    split
    · next p hp => exact (parseSymbolOrSymbolLink_sound F d).fail_of_panic hp _
    · split
      · exact (structFieldStep_sound h _ _ _ _).after (parseSymbolOrSymbolLink_ext d)
      · exact ((ih _ _).after (structFieldStep_sound h _ _ _ _).ext).after
          (parseSymbolOrSymbolLink_ext d)

theorem parseHashPairs_sound {F : Nat} {rec : Rec} (h : RecSound F rec) :
    ∀ (n : Nat) (d : Decoder) (hash : List (GoValue × GoValue)),
      (parseHashPairs rec n d hash).Sound F d := by
  intro n
  induction n with
  | zero => intro d hash; exact Res.Sound.ok (Decoder.Ext.refl d) _
  | succ n ih =>
    intro d hash
    simp only [parseHashPairs]
    split
    · next p hp => exact (h d _).fail_of_panic hp _
    · split
      · next p hp => exact ((h _ _).fail_of_panic hp _).after (h d _).ext
      · split
        · exact ((ih _ _).after (h _ _).ext).after (h d _).ext
        · exact ((ih _ _).after (h _ _).ext).after (h d _).ext
        · exact Res.Sound.fail ((h d _).ext.trans (h _ _).ext) (by simp) _

theorem parseMapPairs_sound {F : Nat} {rec : Rec} (h : RecSound F rec)
    (keyT elemT : GoType) :
    ∀ (n : Nat) (d : Decoder) (es : List (GoValue × GoValue)),
      (parseMapPairs rec keyT elemT n d es).Sound F d := by
  intro n
  induction n with
  | zero => intro d es; exact Res.Sound.ok (Decoder.Ext.refl d) _
  | succ n ih =>
    intro d es
    simp only [parseMapPairs]
    split
    · next p hp => exact (h d _).fail_of_panic hp _
    · split
      · next p hp => exact ((h _ _).fail_of_panic hp _).after (h d _).ext
      · split
        · exact (((ih _ _).after (saveError_ext_unexpectedType _ _ _)).after
            (h _ _).ext).after (h d _).ext
        · split
          · exact Res.Sound.fail ((h d _).ext.trans (h _ _).ext) (by simp) _
          · exact ((ih _ _).after (h _ _).ext).after (h d _).ext

theorem parseHashStructFields_sound {F : Nat} {rec : Rec} (h : RecSound F rec)
    (refType : GoType) :
    ∀ (n : Nat) (d : Decoder) (st : List GoValue × List GoString),
      (parseHashStructFields rec refType n d st).Sound F d := by
  intro n
  induction n with
  | zero => intro d st; exact Res.Sound.ok (Decoder.Ext.refl d) _
  | succ n ih =>
    intro d st
    simp only [parseHashStructFields]
    split
    · next p hp => exact (h d _).fail_of_panic hp _
    · split
      · split
        · exact (structFieldStep_sound h _ _ _ _).after (h d _).ext
        · exact ((ih _ _).after (structFieldStep_sound h _ _ _ _).ext).after (h d _).ext
      · exact Res.Sound.fail (h d _).ext (by simp) _

theorem setOrPanic_sound {F : Nat} {d d1 : Decoder} (h : d.Ext d1) (val : RValue)
    (dyn : GoType) (x : GoValue) : (setOrPanic d1 val dyn x).Sound F d := by
  unfold setOrPanic
  split
  · exact Res.Sound.ok h _
  · exact Res.Sound.fail h (by simp) _

theorem parseTypeNull_sound (F : Nat) (d : Decoder) (val : RValue) :
    (parseTypeNull d val).Sound F d := by
  unfold parseTypeNull
  split
  · exact Res.Sound.ok (Decoder.Ext.refl d) _
  · split
    · exact Res.Sound.ok (Decoder.Ext.refl d) _
    · exact Res.Sound.ok (saveError_ext_unexpectedType _ _ _) _

theorem parseTypeBool_sound (F : Nat) (b : Bool) (d : Decoder) (val : RValue) :
    (parseTypeBool b d val).Sound F d := by
  unfold parseTypeBool
  split
  · exact Res.Sound.ok (Decoder.Ext.refl d) _
  · split
    · exact setOrPanic_sound (Decoder.Ext.refl d) _ _ _
    · exact Res.Sound.ok (saveError_ext_unexpectedType _ _ _) _

theorem parseString_sound (F : Nat) (d : Decoder) : d.parseString.Sound F d :=
  Res.Sound.of_ext (parseString_ext d) (parseString_ne_fuel d)

theorem parseTypeFloat_sound (F : Nat) (parseFloat : GoString → Option Nat)
    (d : Decoder) (val : RValue) : (parseTypeFloat parseFloat d val).Sound F d := by
  unfold parseTypeFloat
  dsimp only
  split
  · next p hp => exact (parseString_sound F d).fail_of_panic hp _
  · split
    · exact Res.Sound.ok (parseString_ext d) _
    · split
      · exact Res.Sound.ok ((parseString_ext d).trans (saveError_ext_invalidFloat64 _ _)) _
      · split
        · exact setOrPanic_sound (parseString_ext d) _ _ _
        · split
          · exact Res.Sound.ok (parseString_ext d) _
          · exact Res.Sound.ok
              ((parseString_ext d).trans (saveError_ext_unexpectedType _ _ _)) _

theorem parseTypeFixNum_sound (F : Nat) (d : Decoder) (val : RValue) :
    (parseTypeFixNum d val).Sound F d := by
  unfold parseTypeFixNum
  dsimp only
  split
  · exact Res.Sound.ok (parseInt_ext d) _
  · split
    · exact setOrPanic_sound (parseInt_ext d) _ _ _
    · split
      · exact Res.Sound.ok (parseInt_ext d) _
      · split
        · exact Res.Sound.ok (parseInt_ext d) _
        · exact Res.Sound.ok ((parseInt_ext d).trans (saveError_ext_unexpectedType _ _ _)) _

theorem parseTypeSymbol_sound (F : Nat) (d : Decoder) (val : RValue) :
    (parseTypeSymbol d val).Sound F d := by
  unfold parseTypeSymbol
  dsimp only
  split
  · next p hp =>
    exact (Res.Sound.of_ext (parseSymbol_ext d) (parseSymbol_ne_fuel d)).fail_of_panic hp _
  · exact setOrPanic_sound (parseSymbol_ext d) _ _ _

theorem parseTypeSymbolLink_sound (F : Nat) (d : Decoder) (val : RValue) :
    (parseTypeSymbolLink d val).Sound F d := by
  unfold parseTypeSymbolLink
  dsimp only
  split
  · next p hp =>
    exact (Res.Sound.of_ext (parseIndexAndLookupSymbol_ext d)
      (parseIndexAndLookupSymbol_ne_fuel d)).fail_of_panic hp _
  · exact setOrPanic_sound (parseIndexAndLookupSymbol_ext d) _ _ _

theorem parseTypeArray_sound {F : Nat} {rec : Rec} (h : RecSound F rec)
    (d : Decoder) (val : RValue) : (parseTypeArray rec d val).Sound F d := by
  unfold parseTypeArray
  dsimp only
  split
  · split
    · exact setOrPanic_sound (parseInt_ext d) _ _ _
    · split
      · exact Res.Sound.fail (parseInt_ext d) (by simp) _
      · split
        · exact Res.Sound.fail (parseInt_ext d) (by simp) _
        · exact ((parseArrayItems_sound h _ _).after (parseInt_ext d)).replace _
  · split
    · split
      · exact Res.Sound.fail (parseInt_ext d) (by simp) _
      · exact Res.Sound.ok (parseInt_ext d) _
    · split
      · exact Res.Sound.fail (parseInt_ext d) (by simp) _
      · split
        · exact Res.Sound.fail (parseInt_ext d) (by simp) _
        · exact ((parseSliceElems_sound h _ _ _).after (parseInt_ext d)).replace _
  · exact (((skipValues_sound h _ _ _).after (saveError_ext_unexpectedType _ _ _)).after
      (parseInt_ext d)).replace _

theorem bindString_sound {F : Nat} {d d1 : Decoder} (h : d.Ext d1) (val : RValue)
    (str : GoString) : (bindString d1 val str).Sound F d := by
  unfold bindString
  split
  · exact Res.Sound.ok (h.trans (saveError_ext_unexpectedType _ _ _)) _
  · exact setOrPanic_sound h _ _ _

theorem parseTypeString_sound (F : Nat) (d : Decoder) (val : RValue) :
    (parseTypeString d val).Sound F d := by
  unfold parseTypeString
  dsimp only
  split
  · next p hp => exact (parseString_sound F d).fail_of_panic hp _
  · exact bindString_sound (parseString_ext d) _ _

theorem parseIVarMeta_sound (F : Nat) (d : Decoder) : (parseIVarMeta d).Sound F d := by
  unfold parseIVarMeta
  dsimp only
  split
  · split
    · next p hp =>
      exact ((parseSymbolOrSymbolLink_sound F _).fail_of_panic hp _).after (parseInt_ext d)
    · split
      · next p hp =>
        exact Res.Sound.fail
          (((parseInt_ext d).trans (parseSymbolOrSymbolLink_ext _)).trans (MustReadByte_ext _))
          (fun hf => MustReadByte_ne_fuel _ (hf ▸ hp)) _
      · split
        · exact Res.Sound.fail
            (((parseInt_ext d).trans (parseSymbolOrSymbolLink_ext _)).trans
              (MustReadByte_ext _)) (by simp) _
        · exact Res.Sound.ok
            (((parseInt_ext d).trans (parseSymbolOrSymbolLink_ext _)).trans
              (MustReadByte_ext _)) _
  · exact Res.Sound.ok (parseInt_ext d) _

theorem parseTypeIVar_sound (F : Nat) (d : Decoder) (val : RValue) :
    (parseTypeIVar d val).Sound F d := by
  unfold parseTypeIVar
  dsimp only
  split
  · next p hp =>
    exact Res.Sound.fail (MustReadByte_ext d) (fun hf => MustReadByte_ne_fuel _ (hf ▸ hp)) _
  · split
    · exact Res.Sound.fail (MustReadByte_ext d) (by simp) _
    · split
      · next p hp =>
        exact ((parseString_sound F _).fail_of_panic hp _).after (MustReadByte_ext d)
      · split
        · next p hp =>
          exact (((parseIVarMeta_sound F _).fail_of_panic hp _).after
            (parseString_ext _)).after (MustReadByte_ext d)
        · exact bindString_sound
            (((MustReadByte_ext d).trans (parseString_ext _)).trans
              (parseIVarMeta_sound F _).ext) _ _

theorem finishStruct_sound {F : Nat} {d : Decoder} (refType : GoType)
    (r : Res (List GoValue × List GoString)) (h : r.Sound F d) :
    (finishStruct refType r).Sound F d := by
  unfold finishStruct
  split
  · next p hp => exact h.fail_of_panic hp _
  · split
    · exact Res.Sound.fail h.ext (by simp) _
    · exact Res.Sound.ok h.ext _

theorem parseTypeObject_sound {F : Nat} {rec : Rec} (h : RecSound F rec)
    (d : Decoder) (val : RValue) : (parseTypeObject rec d val).Sound F d := by
  unfold parseTypeObject
  dsimp only
  have h1 := parseSymbolOrSymbolLink_ext d
  have h2 := h1.trans (parseInt_ext d.parseSymbolOrSymbolLink.d)
  split
  · next p hp => exact (parseSymbolOrSymbolLink_sound F d).fail_of_panic hp _
  · split
    · exact ((skipFields_sound h _ _ _).after h2).replace _
    · split
      · exact ((parseObjectFields_sound h _ _ _).after h2).replace _
      · exact finishStruct_sound _ _ ((parseStructFields_sound h _ _ _ _).after h2)
      · exact Res.Sound.ok (h2.trans (saveError_ext_unexpectedType _ _ _)) _

theorem parseTypeHash_sound {F : Nat} {rec : Rec} (h : RecSound F rec)
    (d : Decoder) (val : RValue) : (parseTypeHash rec d val).Sound F d := by
  unfold parseTypeHash
  dsimp only
  have h2 := parseInt_ext d
  split
  · exact ((skipPairs_sound h _ _ _).after h2).replace _
  · split
    · exact ((parseHashPairs_sound h _ _ _).after h2).replace _
    · exact ((parseMapPairs_sound h _ _ _ _ _).after h2).replace _
    · exact finishStruct_sound _ _ ((parseHashStructFields_sound h _ _ _ _).after h2)
    · exact Res.Sound.ok (h2.trans (saveError_ext_unexpectedType _ _ _)) _
    · exact Res.Sound.fail h2 (by simp) _

theorem parseTypeUserDefined_sound (F : Nat) (d : Decoder) (val : RValue) :
    (parseTypeUserDefined d val).Sound F d := by
  unfold parseTypeUserDefined
  dsimp only
  have h1 := parseSymbolOrSymbolLink_ext d
  have h2 := h1.trans (parseInt_ext d.parseSymbolOrSymbolLink.d)
  have h3 := h2.trans (Decoder.Ext.ofSuffix d.parseSymbolOrSymbolLink.d.parseInt.2
    (bufferNext d.parseSymbolOrSymbolLink.d.parseInt.2.r
      d.parseSymbolOrSymbolLink.d.parseInt.1.toNat).2 (List.drop_suffix _ _))
  split
  · next p hp => exact (parseSymbolOrSymbolLink_sound F d).fail_of_panic hp _
  · split
    · exact Res.Sound.fail h2 (by simp) _
    · split
      · exact Res.Sound.fail h3 (by simp) _
      · next funcCallback _ =>
        refine ⟨h3, fun _ => ?_⟩
        dsimp only
        cases (funcCallback _ val).panic <;> simp

theorem Res.Sound.ite {α : Type} {F : Nat} {d : Decoder} {c : Prop} [Decidable c]
    {a b : Res α} (ha : a.Sound F d) (hb : b.Sound F d) :
    (if c then a else b).Sound F d := by
  by_cases hc : c
  · rw [if_pos hc]; exact ha
  · rw [if_neg hc]; exact hb

theorem parseTypeStep_sound {F : Nat} {rec : Rec} (h : RecSound F rec)
    (parseFloat : GoString → Option Nat) (d : Decoder) (val : RValue) :
    (parseTypeStep parseFloat rec d val).Sound (F + 1) d := by
  have key : ∀ (res : Res GoValue), res.Sound F d.MustReadByte.d →
      d.MustReadByte.panic = none → res.Sound (F + 1) d := by
    intro res hres hnone
    refine ⟨(MustReadByte_ext d).trans hres.ext, fun hlt => hres.budget ?_⟩
    have := MustReadByte_length d hnone
    omega
  unfold parseTypeStep
  dsimp only
  cases hk : d.MustReadByte.panic with
  | some p =>
    exact Res.Sound.fail (MustReadByte_ext d) (fun hf => MustReadByte_ne_fuel _ (hf ▸ hk)) _
  | none =>
    dsimp only
    refine Res.Sound.ite (key _ (parseTypeNull_sound F _ _) hk) ?_
    refine Res.Sound.ite (key _ (parseTypeBool_sound F _ _ _) hk) ?_
    refine Res.Sound.ite (key _ (parseTypeBool_sound F _ _ _) hk) ?_
    refine Res.Sound.ite (key _ (parseTypeFloat_sound F _ _ _) hk) ?_
    refine Res.Sound.ite (key _ (parseTypeFixNum_sound F _ _) hk) ?_
    refine Res.Sound.ite (key _ (parseTypeSymbol_sound F _ _) hk) ?_
    refine Res.Sound.ite (key _ (parseTypeSymbolLink_sound F _ _) hk) ?_
    refine Res.Sound.ite (key _ (parseTypeArray_sound h _ _) hk) ?_
    refine Res.Sound.ite (key _ (parseTypeString_sound F _ _) hk) ?_
    refine Res.Sound.ite (key _ (parseTypeIVar_sound F _ _) hk) ?_
    refine Res.Sound.ite (key _ (parseTypeObject_sound h _ _) hk) ?_
    refine Res.Sound.ite (key _ (parseTypeHash_sound h _ _) hk) ?_
    refine Res.Sound.ite (key _ (parseTypeUserDefined_sound F _ _) hk) ?_
    exact Res.Sound.fail (MustReadByte_ext d) (by simp) _

theorem parseTypeAux_sound (parseFloat : GoString → Option Nat) :
    ∀ fuel : Nat, RecSound fuel (parseTypeAux parseFloat fuel)
  | 0 => fun d _ => ⟨Decoder.Ext.refl d, fun h => absurd h (Nat.not_lt_zero _)⟩
  | fuel + 1 => fun d val =>
    parseTypeStep_sound (parseTypeAux_sound parseFloat fuel) parseFloat d val

theorem parseType_sound (parseFloat : GoString → Option Nat) (d : Decoder)
    (val : RValue) : (d.parseType parseFloat val).Sound (d.r.length + 1) d :=
  parseTypeAux_sound parseFloat (d.r.length + 1) d val

/-- The budget `parseType` supplies is never exhausted. -/
theorem parseType_ne_fuel (parseFloat : GoString → Option Nat) (d : Decoder)
    (val : RValue) : (d.parseType parseFloat val).panic ≠ some .fuel :=
  (parseType_sound parseFloat d val).budget (Nat.lt_succ_self _)

/-! ## Strings end to end -/

theorem parseString_of_parseInt (d : Decoder) (s rest : GoString)
    (h : parseIntBytes d.r = ((s.length : Int), s ++ rest)) :
    d.parseString = Res.ok { d with r := rest } s := by
  unfold Decoder.parseString Decoder.parseInt
  simp only [h]
  cases s with
  | nil => simp
  | cons b s =>
    have h1 : ¬ (((b :: s).length : Int) = 0) := by simp; omega
    have h2 : ¬ (((b :: s).length : Int) < 0) := by simp; omega
    rw [if_neg h1, if_neg h2]
    simp [Res.ok]

theorem parseIntBytes_short_length (s rest : GoString) (L : Byte)
    (hn : s.length ≤ 122) (hL : L.val = if s.length = 0 then 0 else s.length + 5) :
    parseIntBytes (L :: (s ++ rest)) = ((s.length : Int), s ++ rest) := by
  have h8 : int8 L = (L.val : Int) := by
    rcases int8_cases L with h | h
    · exact h.2
    · split at hL <;> omega
  by_cases h0 : s.length = 0
  · rw [if_pos h0] at hL
    rw [(parseIntBytes_small L _).1 (by omega), h0]
    rfl
  · rw [if_neg h0] at hL
    rw [(parseIntBytes_small L _).2.1 (by omega), h8, hL]
    congr 1
    push_cast
    ring

theorem parseTypeStep_tagString (parseFloat : GoString → Option Nat) (rec : Rec)
    (d : Decoder) (val : RValue) (r1 : List Byte) (h : d.r = typeString :: r1) :
    parseTypeStep parseFloat rec d val = parseTypeString { d with r := r1 } val := by
  unfold parseTypeStep Decoder.MustReadByte
  rw [h]
  dsimp only
  rw [if_neg (by decide), if_neg (by decide), if_neg (by decide), if_neg (by decide),
    if_neg (by decide), if_neg (by decide), if_neg (by decide), if_neg (by decide),
    if_pos rfl]

/-- The outcome of `Decode` on a buffer that holds the header and one string
value, for any destination that passes the checks of `Decode`. -/
theorem Decode_string (parseFloat : GoString → Option Nat) (d : Decoder)
    (val : RValue) (v s rest : List Byte)
    (hset : val.canSet = true) (hptr : val.elemType.kind ≠ .ptr)
    (hr : d.r = [0x04, 0x08, 0x22] ++ v ++ s ++ rest)
    (hv : parseIntBytes (v ++ s ++ rest) = ((s.length : Int), s ++ rest)) :
    d.Decode parseFloat (.pointer val) =
      let res := bindString { d with r := rest } val s
      match res.panic with
      | some p => { panic := some p, err := none, d := res.d, cur := res.val }
      | none => { panic := none, err := res.d.savedError, d := res.d, cur := res.val } := by
  have hps : ({ d with r := v ++ s ++ rest } : Decoder).parseString =
      Res.ok { d with r := rest } s := by
    rw [parseString_of_parseInt _ s rest hv]
  unfold Decoder.Decode
  simp only [hset, hr, Bool.not_true, Bool.false_eq_true, if_false, hptr,
    List.cons_append, List.nil_append, List.append_assoc]
  rw [if_neg (by decide)]
  simp only [Decoder.parseRootTypeAndRecoverPanic, Decoder.parseType, parseTypeAux]
  rw [parseTypeStep_tagString _ _ _ _ _ rfl]
  simp only [parseTypeString]
  simp only [List.append_assoc] at hps
  rw [hps]
  simp only [Res.ok]
  cases hb : (bindString { d with r := rest } val s).panic with
  | some p => simp [devMode]
  | none =>
    simp only
    cases he : (bindString { d with r := rest } val s).d.savedError <;> simp

/-- C1. For every byte string `s` of at most 122 bytes, `Decode` of the
buffer `04 08 22 L` followed by `s`, where `L` is 0 for the empty string and
the length plus 5 otherwise, returns no error, consumes the buffer, and binds
exactly `s`, both to a dynamic (interface) destination and to a declared
string destination. -/
theorem Decode_short_string_binds (parseFloat : GoString → Option Nat)
    (d : Decoder) (s : GoString) (L : Byte) (cur0 : GoValue)
    (hn : s.length ≤ 122)
    (hL : L.val = if s.length = 0 then 0 else s.length + 5)
    (hr : d.r = [0x04, 0x08, 0x22, L] ++ s) (he : d.savedError = none) :
    d.Decode parseFloat (.pointer (RValue.addrOf .iface cur0)) =
        { panic := none, err := none, d := { d with r := [] },
          cur := .iface .string (.string s) } ∧
    d.Decode parseFloat (.pointer (RValue.addrOf .string cur0)) =
        { panic := none, err := none, d := { d with r := [] },
          cur := .string s } := by
  have hv : parseIntBytes ([L] ++ s ++ []) = ((s.length : Int), s ++ []) := by
    simpa using parseIntBytes_short_length s [] L hn hL
  have hr2 : d.r = [0x04, 0x08, 0x22] ++ [L] ++ s ++ [] := by simpa using hr
  constructor
  · rw [Decode_string parseFloat d (RValue.addrOf .iface cur0) [L] s [] rfl
      (by simp [RValue.addrOf, GoType.kind]) hr2 hv]
    simp [bindString, setOrPanic, RValue.set, RValue.canSet, RValue.addrOf,
      RValue.elemKind, GoType.kind, GoType.beq, Res.ok, he]
  · rw [Decode_string parseFloat d (RValue.addrOf .string cur0) [L] s [] rfl
      (by simp [RValue.addrOf, GoType.kind]) hr2 hv]
    simp [bindString, setOrPanic, RValue.set, RValue.canSet, RValue.addrOf,
      RValue.elemKind, GoType.kind, GoType.beq, Res.ok, he]

theorem Decode_short_string_binds_witness :
    (NewDecoder [0x04, 0x08, 0x22, 0x0A, 0x45, 0x56, 0x30, 0x30, 0x31]).Decode
        (fun _ => none) (.pointer (RValue.addrOf .iface .nil)) =
      { panic := none, err := none,
        d := { NewDecoder [0x04, 0x08, 0x22, 0x0A, 0x45, 0x56, 0x30, 0x30, 0x31]
                 with r := [] },
        cur := .iface .string (.string [0x45, 0x56, 0x30, 0x30, 0x31]) } :=
  (Decode_short_string_binds (fun _ => none)
    (NewDecoder [0x04, 0x08, 0x22, 0x0A, 0x45, 0x56, 0x30, 0x30, 0x31])
    [0x45, 0x56, 0x30, 0x30, 0x31] 0x0A .nil (by decide) (by decide) rfl rfl).1

/-- C2. For every string value on the wire (the header `04 08`, the tag
`22`, a length varint `v` that decodes to the length of the payload, and the
payload `s`), `Decode` into an `int`, `int32` or `int64` destination returns
an `unexpectedType` error whose `Expected` field is "string" and leaves the
destination as it was. -/
theorem Decode_string_into_int (parseFloat : GoString → Option Nat)
    (d : Decoder) (t : GoType) (cur0 : GoValue) (v s rest : List Byte)
    (ht : t = .int ∨ t = .int32 ∨ t = .int64)
    (hr : d.r = [0x04, 0x08, 0x22] ++ v ++ s ++ rest)
    (hv : parseIntBytes (v ++ s ++ rest) = ((s.length : Int), s ++ rest))
    (he : d.savedError = none) :
    d.Decode parseFloat (.pointer (RValue.addrOf t cur0)) =
      { panic := none, err := some (.unexpectedType t.kind.name "string"),
        d := { d with r := rest,
                      savedError := some (.unexpectedType t.kind.name "string") },
        cur := cur0 } := by
  rw [Decode_string parseFloat d (RValue.addrOf t cur0) v s rest rfl
    (by rcases ht with ht | ht | ht <;> subst ht <;> simp [RValue.addrOf, GoType.kind]) hr hv]
  rcases ht with ht | ht | ht <;> subst ht <;>
    simp [bindString, RValue.addrOf, RValue.elemKind, GoType.kind, Res.ok,
      Decoder.saveError, he, Kind.name]

theorem Decode_string_into_int_witness :
    (NewDecoder [0x04, 0x08, 0x22, 0x0A, 0x45, 0x56, 0x30, 0x30, 0x31]).Decode
        (fun _ => none) (.pointer (RValue.addrOf .int (.int 7))) =
      { panic := none, err := some (.unexpectedType "int" "string"),
        d := { NewDecoder [0x04, 0x08, 0x22, 0x0A, 0x45, 0x56, 0x30, 0x30, 0x31]
                 with r := [], savedError := some (.unexpectedType "int" "string") },
        cur := .int 7 } :=
  Decode_string_into_int (fun _ => none)
    (NewDecoder [0x04, 0x08, 0x22, 0x0A, 0x45, 0x56, 0x30, 0x30, 0x31])
    .int (.int 7) [0x0A] [0x45, 0x56, 0x30, 0x30, 0x31] [] (Or.inl rfl) rfl (by decide) rfl

/-- C6 (evaluation at the failing input). The object `o :A 1 :B i1` is
consumed whole when the destination is dynamic, but with an `int`
destination the object case records the mismatch and returns after the field
count, leaving the five bytes of the field unread; likewise the hash
`{ i1 i2` with a slice destination leaves its four pair bytes unread. -/
theorem parseType_mismatch_leaves_bytes_unread :
    ((NewDecoder [0x6F, 0x3A, 0x06, 0x41, 0x06, 0x3A, 0x06, 0x42, 0x69, 0x06]).parseType
        (fun _ => none) (RValue.addrOf .iface .nil)).d.r = [] ∧
    ((NewDecoder [0x6F, 0x3A, 0x06, 0x41, 0x06, 0x3A, 0x06, 0x42, 0x69, 0x06]).parseType
        (fun _ => none) (RValue.addrOf .iface .nil)).panic = none ∧
    ((NewDecoder [0x6F, 0x3A, 0x06, 0x41, 0x06, 0x3A, 0x06, 0x42, 0x69, 0x06]).parseType
        (fun _ => none) (RValue.addrOf .int (.int 7))).d.r =
      [0x3A, 0x06, 0x42, 0x69, 0x06] ∧
    ((NewDecoder [0x6F, 0x3A, 0x06, 0x41, 0x06, 0x3A, 0x06, 0x42, 0x69, 0x06]).parseType
        (fun _ => none) (RValue.addrOf .int (.int 7))).panic = none ∧
    ((NewDecoder [0x7B, 0x06, 0x69, 0x06, 0x69, 0x07]).parseType
        (fun _ => none) (RValue.addrOf .iface .nil)).d.r = [] ∧
    ((NewDecoder [0x7B, 0x06, 0x69, 0x06, 0x69, 0x07]).parseType
        (fun _ => none) (RValue.addrOf (.slice .int) .sliceNil)).d.r =
      [0x69, 0x06, 0x69, 0x07] ∧
    ((NewDecoder [0x7B, 0x06, 0x69, 0x06, 0x69, 0x07]).parseType
        (fun _ => none) (RValue.addrOf (.slice .int) .sliceNil)).panic = none := by
  refine ⟨by decide, by decide, by decide, by decide, by decide, by decide, by decide⟩

/-- The error latch after `parseType` holds what it held before, or one of
the errors the binder records. -/
theorem parseType_savedError_none (parseFloat : GoString → Option Nat)
    (d : Decoder) (val : RValue) (he : d.savedError = none) (msg : String) :
    (d.parseType parseFloat val).d.savedError ≠ some (.text msg) := by
  rcases (parseType_sound parseFloat d val).ext.savedError with h | ⟨_, h⟩
  · rw [h, he]; simp
  · rcases h with ⟨_, _, h⟩ | ⟨_, h⟩ | ⟨_, _, _, _, h⟩ <;> rw [h] <;> simp

/-- C7. For a buffer of at least two bytes and a destination that passes
the checks of `Decode` (a settable pointer target that is not itself a
pointer), `Decode` returns the unsupported-version error exactly when the
major byte is not 4 or the minor byte exceeds 8; in that case nothing was
parsed: the two header bytes are consumed, the rest of the decoder state and
the destination are unchanged. -/
theorem Decode_unsupported_version_iff (parseFloat : GoString → Option Nat)
    (d : Decoder) (val : RValue) (major minor : Byte) (rest : List Byte)
    (hset : val.canSet = true) (hptr : val.elemType.kind ≠ .ptr)
    (hr : d.r = major :: minor :: rest) (he : d.savedError = none) :
    (((d.Decode parseFloat (.pointer val)).panic = none ∧
        (d.Decode parseFloat (.pointer val)).err =
          some (.text "unsupported marshal version")) ↔
      (major.val ≠ 4 ∨ minor.val > 8)) ∧
    ((major.val ≠ 4 ∨ minor.val > 8) →
      d.Decode parseFloat (.pointer val) =
        { panic := none, err := some (.text "unsupported marshal version"),
          d := { d with r := rest }, cur := val.cur }) := by
  have hbad : (major.val ≠ 4 ∨ minor.val > 8) →
      d.Decode parseFloat (.pointer val) =
        { panic := none, err := some (.text "unsupported marshal version"),
          d := { d with r := rest }, cur := val.cur } := by
    intro hv
    unfold Decoder.Decode
    simp only [hset, hr, Bool.not_true, Bool.false_eq_true, if_false, hptr,
      supportedMajorVersion, supportedMinorVersion]
    rw [if_pos hv]
    rfl
  refine ⟨⟨?_, fun hv => by rw [hbad hv]; exact ⟨rfl, rfl⟩⟩, hbad⟩
  rintro ⟨_, herr⟩
  by_contra hv
  have hsaved := parseType_savedError_none parseFloat { d with r := rest } val he
    "unsupported marshal version"
  unfold Decoder.Decode at herr
  simp only [hset, hr, Bool.not_true, Bool.false_eq_true, if_false, hptr,
    supportedMajorVersion, supportedMinorVersion] at herr
  rw [if_neg hv] at herr
  simp only [Decoder.parseRootTypeAndRecoverPanic] at herr
  cases hp : (Decoder.parseType parseFloat { d with r := rest } val).panic with
  | some p =>
    simp [hp, devMode] at herr
  | none =>
    simp only [hp] at herr
    cases hs : (Decoder.parseType parseFloat { d with r := rest } val).d.savedError with
    | none => simp [hs] at herr
    | some e =>
      simp only [hs] at herr
      rw [hs] at hsaved
      simp at herr
      exact hsaved (by rw [herr])

theorem Decode_unsupported_version_iff_witness :
    (NewDecoder [0x04, 0x09, 0x30]).Decode (fun _ => none)
        (.pointer (RValue.addrOf .iface (.int 1))) =
      { panic := none, err := some (.text "unsupported marshal version"),
        d := { NewDecoder [0x04, 0x09, 0x30] with r := [0x30] }, cur := .int 1 } :=
  (Decode_unsupported_version_iff (fun _ => none) (NewDecoder [0x04, 0x09, 0x30])
    (RValue.addrOf .iface (.int 1)) 0x04 0x09 [0x30] rfl (by decide) rfl rfl).2
    (Or.inr (by decide))

/-- C8 (evaluation at the failing inputs). `parseInt` on an empty buffer
returns 0 without a panic, `parseInt` on `02 01` (two continuation bytes
announced, one present) returns 1, and `parseString` on `0A 45` (length 5
declared, one byte left) returns the one byte padded with four zero bytes,
without a panic.  Only a non-empty string read from an empty buffer
panics. -/
theorem exhausted_buffer_does_not_abort :
    (NewDecoder []).parseInt.1 = 0 ∧
    (NewDecoder []).parseInt.2.r = [] ∧
    (NewDecoder [0x02, 0x01]).parseInt.1 = 1 ∧
    (NewDecoder [0x02, 0x01]).parseInt.2.r = [] ∧
    (NewDecoder [0x0A, 0x45]).parseString.panic = none ∧
    (NewDecoder [0x0A, 0x45]).parseString.val = [0x45, 0, 0, 0, 0] ∧
    (NewDecoder [0x0A]).parseString.panic = some .eof := by
  refine ⟨by decide, by decide, by decide, by decide, by decide, by decide, by decide⟩

/-- C9. A symbol back-reference reads one varint `i`.  When
`0 ≤ i < length T` it yields `T[i]`, leaves the decoder in the state reached
by reading the varint, and leaves the table `T` as it was; otherwise it
panics (an index out of range), yields no symbol, and leaves the table as it
was.  In particular it panics whenever the table is empty.  The tag `;`
read by `parseSymbolOrSymbolLink` leads to exactly this. -/
theorem parseIndexAndLookupSymbol_spec (d : Decoder) (rest : List Byte) :
    (∀ h : 0 ≤ d.parseInt.1 ∧ d.parseInt.1.toNat < d.symbols.length,
      d.parseIndexAndLookupSymbol =
        Res.ok d.parseInt.2 (d.symbols.get ⟨d.parseInt.1.toNat, h.2⟩)) ∧
    (¬ (0 ≤ d.parseInt.1 ∧ d.parseInt.1.toNat < d.symbols.length) →
      d.parseIndexAndLookupSymbol =
        Res.fail (.runtime "index out of range") d.parseInt.2 []) ∧
    (d.symbols = [] → d.parseIndexAndLookupSymbol.panic ≠ none) ∧
    d.parseInt.2.symbols = d.symbols ∧
    d.parseIndexAndLookupSymbol.d.symbols = d.symbols ∧
    d.parseInt.2.r = (parseIntBytes d.r).2 ∧
    (d.r = typeSymbolLink :: rest →
      d.parseSymbolOrSymbolLink =
        ({ d with r := rest } : Decoder).parseIndexAndLookupSymbol) := by
  have hsym : d.parseInt.2.symbols = d.symbols := rfl
  have hok : ∀ h : 0 ≤ d.parseInt.1 ∧ d.parseInt.1.toNat < d.symbols.length,
      d.parseIndexAndLookupSymbol =
        Res.ok d.parseInt.2 (d.symbols.get ⟨d.parseInt.1.toNat, h.2⟩) := by
    intro h
    unfold Decoder.parseIndexAndLookupSymbol
    dsimp only
    rw [if_neg (by omega), hsym, List.get?_eq_get h.2]
  have hbad : ¬ (0 ≤ d.parseInt.1 ∧ d.parseInt.1.toNat < d.symbols.length) →
      d.parseIndexAndLookupSymbol =
        Res.fail (.runtime "index out of range") d.parseInt.2 [] := by
    intro h
    unfold Decoder.parseIndexAndLookupSymbol
    dsimp only
    by_cases h0 : d.parseInt.1 < 0
    · rw [if_pos h0]
    · rw [if_neg h0, hsym, List.get?_eq_none.mpr (by omega)]
  refine ⟨hok, hbad, ?_, hsym, ?_, rfl, ?_⟩
  · intro hnil
    rw [hbad (by rw [hnil]; simp)]
    simp [Res.fail]
  · by_cases h : 0 ≤ d.parseInt.1 ∧ d.parseInt.1.toNat < d.symbols.length
    · rw [hok h]; rfl
    · rw [hbad h]; rfl
  · intro hr
    unfold Decoder.parseSymbolOrSymbolLink Decoder.MustReadByte
    rw [hr]
    dsimp only
    rw [if_neg (by decide), if_pos rfl]

theorem parseIndexAndLookupSymbol_spec_witness :
    ({ NewDecoder [0x06, 0x30] with symbols := [[0x41], [0x42]] } :
        Decoder).parseIndexAndLookupSymbol =
      Res.ok { NewDecoder [0x30] with symbols := [[0x41], [0x42]] } [0x42] :=
  (parseIndexAndLookupSymbol_spec
    { NewDecoder [0x06, 0x30] with symbols := [[0x41], [0x42]] } []).1
    ⟨by decide, by decide⟩

/-- C10. The symbol table is append-only: when `parseSymbol` returns, its
result is the string `parseString` decoded and the table is the old table
with that string appended; and `parseType` (for every tag, destination and
nesting budget), `parseSymbol`, `parseSymbolOrSymbolLink` and
`parseIndexAndLookupSymbol` all leave the table they started with as a prefix
of the table they end with, whether they return or panic. -/
theorem symbols_append_only (parseFloat : GoString → Option Nat) (d : Decoder)
    (val : RValue) (fuel : Nat) :
    (d.parseSymbol.panic = none →
      d.parseSymbol.val = d.parseString.val ∧
      d.parseString.d.symbols = d.symbols ∧
      d.parseSymbol.d.symbols = d.symbols ++ [d.parseSymbol.val]) ∧
    d.symbols <+: (parseTypeAux parseFloat fuel d val).d.symbols ∧
    d.symbols <+: (d.parseType parseFloat val).d.symbols ∧
    d.symbols <+: d.parseSymbol.d.symbols ∧
    d.symbols <+: d.parseSymbolOrSymbolLink.d.symbols ∧
    d.symbols <+: d.parseIndexAndLookupSymbol.d.symbols := by
  refine ⟨?_, (parseTypeAux_sound parseFloat fuel d val).ext.symbols,
    (parseType_sound parseFloat d val).ext.symbols, (parseSymbol_ext d).symbols,
    (parseSymbolOrSymbolLink_ext d).symbols, (parseIndexAndLookupSymbol_ext d).symbols⟩
  intro hp
  have hstr : d.parseString.d.symbols = d.symbols := by
    unfold Decoder.parseString
    dsimp only
    split
    · rfl
    · split
      · rfl
      · split <;> rfl
  unfold Decoder.parseSymbol at hp ⊢
  dsimp only at hp ⊢
  cases hs : d.parseString.panic with
  | some p =>
    simp only [hs] at hp
    cases hp
  | none => simp [Res.ok, hstr]

theorem symbols_append_only_witness :
    (NewDecoder [0x06, 0x41]).parseSymbol.d.symbols = [] ++ [[0x41]] :=
  ((symbols_append_only (fun _ => none) (NewDecoder [0x06, 0x41])
    RValue.emptyInterface 0).1 (by decide)).2.2

/-! ## The dispatcher on a known tag byte -/

theorem parseTypeStep_cons (parseFloat : GoString → Option Nat) (rec : Rec)
    (d : Decoder) (val : RValue) (k : Byte) (rest : List Byte) (h : d.r = k :: rest) :
    parseTypeStep parseFloat rec d val =
      if k = typeNull then parseTypeNull { d with r := rest } val
      else if k = typeTrue then parseTypeBool true { d with r := rest } val
      else if k = typeFalse then parseTypeBool false { d with r := rest } val
      else if k = typeFloat then parseTypeFloat parseFloat { d with r := rest } val
      else if k = typeFixNum then parseTypeFixNum { d with r := rest } val
      else if k = typeSymbol then parseTypeSymbol { d with r := rest } val
      else if k = typeSymbolLink then parseTypeSymbolLink { d with r := rest } val
      else if k = typeArray then parseTypeArray rec { d with r := rest } val
      else if k = typeString then parseTypeString { d with r := rest } val
      else if k = typeIVar then parseTypeIVar { d with r := rest } val
      else if k = typeObject then parseTypeObject rec { d with r := rest } val
      else if k = typeHash then parseTypeHash rec { d with r := rest } val
      else if k = typeUserDefined then parseTypeUserDefined { d with r := rest } val
      else Res.fail (.unimplementedType k) { d with r := rest } val.cur := by
  unfold parseTypeStep Decoder.MustReadByte
  rw [h]

theorem parseTypeStep_tagFixNum (parseFloat : GoString → Option Nat) (rec : Rec)
    (d : Decoder) (val : RValue) (rest : List Byte) (h : d.r = typeFixNum :: rest) :
    parseTypeStep parseFloat rec d val = parseTypeFixNum { d with r := rest } val := by
  rw [parseTypeStep_cons _ _ _ _ _ _ h, if_neg (by decide), if_neg (by decide),
    if_neg (by decide), if_neg (by decide), if_pos rfl]

theorem parseTypeStep_tagArray (parseFloat : GoString → Option Nat) (rec : Rec)
    (d : Decoder) (val : RValue) (rest : List Byte) (h : d.r = typeArray :: rest) :
    parseTypeStep parseFloat rec d val = parseTypeArray rec { d with r := rest } val := by
  rw [parseTypeStep_cons _ _ _ _ _ _ h, if_neg (by decide), if_neg (by decide),
    if_neg (by decide), if_neg (by decide), if_neg (by decide), if_neg (by decide),
    if_neg (by decide), if_pos rfl]

theorem parseTypeStep_tagObject (parseFloat : GoString → Option Nat) (rec : Rec)
    (d : Decoder) (val : RValue) (rest : List Byte) (h : d.r = typeObject :: rest) :
    parseTypeStep parseFloat rec d val = parseTypeObject rec { d with r := rest } val := by
  rw [parseTypeStep_cons _ _ _ _ _ _ h, if_neg (by decide), if_neg (by decide),
    if_neg (by decide), if_neg (by decide), if_neg (by decide), if_neg (by decide),
    if_neg (by decide), if_neg (by decide), if_neg (by decide), if_neg (by decide),
    if_pos rfl]

theorem parseTypeStep_tagHash (parseFloat : GoString → Option Nat) (rec : Rec)
    (d : Decoder) (val : RValue) (rest : List Byte) (h : d.r = typeHash :: rest) :
    parseTypeStep parseFloat rec d val = parseTypeHash rec { d with r := rest } val := by
  rw [parseTypeStep_cons _ _ _ _ _ _ h, if_neg (by decide), if_neg (by decide),
    if_neg (by decide), if_neg (by decide), if_neg (by decide), if_neg (by decide),
    if_neg (by decide), if_neg (by decide), if_neg (by decide), if_neg (by decide),
    if_neg (by decide), if_pos rfl]

/-- C20. For every tag byte other than the thirteen handled ones,
`parseType` panics with the "unimplemented type" error that carries the
byte; at that point only the tag byte has been consumed, the rest of the
decoder state is as it was, and the destination holds what it held. -/
theorem parseType_unimplemented_tag (parseFloat : GoString → Option Nat)
    (d : Decoder) (val : RValue) (k : Byte) (rest : List Byte) (fuel : Nat)
    (hr : d.r = k :: rest)
    (hk : k ≠ typeNull ∧ k ≠ typeTrue ∧ k ≠ typeFalse ∧ k ≠ typeFloat ∧
      k ≠ typeFixNum ∧ k ≠ typeSymbol ∧ k ≠ typeSymbolLink ∧ k ≠ typeString ∧
      k ≠ typeIVar ∧ k ≠ typeArray ∧ k ≠ typeHash ∧ k ≠ typeObject ∧
      k ≠ typeUserDefined) :
    d.parseType parseFloat val =
        Res.fail (.unimplementedType k) { d with r := rest } val.cur ∧
    parseTypeAux parseFloat (fuel + 1) d val =
        Res.fail (.unimplementedType k) { d with r := rest } val.cur := by
  obtain ⟨h1, h2, h3, h4, h5, h6, h7, h8, h9, h10, h11, h12, h13⟩ := hk
  have key : ∀ rec : Rec, parseTypeStep parseFloat rec d val =
      Res.fail (.unimplementedType k) { d with r := rest } val.cur := by
    intro rec
    rw [parseTypeStep_cons _ _ _ _ _ _ hr, if_neg h1, if_neg h2, if_neg h3, if_neg h4,
      if_neg h5, if_neg h6, if_neg h7, if_neg h10, if_neg h8, if_neg h9, if_neg h12,
      if_neg h11, if_neg h13]
  exact ⟨key _, key _⟩

theorem parseType_unimplemented_tag_witness :
    (NewDecoder [0x6C, 0x2B, 0x07]).parseType (fun _ => none)
        (RValue.addrOf .int (.int 7)) =
      Res.fail (.unimplementedType 0x6C) { NewDecoder [0x6C, 0x2B, 0x07] with r := [0x2B, 0x07] }
        (.int 7) :=
  (parseType_unimplemented_tag (fun _ => none) (NewDecoder [0x6C, 0x2B, 0x07])
    (RValue.addrOf .int (.int 7)) 0x6C [0x2B, 0x07] 0 rfl (by decide)).1

/-! ## Empty containers -/

theorem parseInt_of_bytes (d : Decoder) (v : Int) (rest : List Byte)
    (h : parseIntBytes d.r = (v, rest)) :
    d.parseInt = (v, { d with r := rest }) := by
  simp only [Decoder.parseInt, h]

theorem elemType_of_kind_interface (t : GoType) (h : t.kind = .interface) : t = .iface := by
  cases t <;> simp [GoType.kind] at h ⊢

/-- C15. Zero-length values bind empty containers, not nil ones.  With a
settable destination and a count (or length) varint that decodes to 0: the
array tag binds the empty `[]interface{}` to a dynamic destination and the
empty slice to a slice destination; the hash tag binds the empty
`map[string]interface{}` to a dynamic destination and the empty map to a
map destination that held the nil map; the string tag binds the empty
string to a dynamic and to a string destination.  Each consumes the tag and
the varint only and records no error. -/
theorem parseType_zero_length (parseFloat : GoString → Option Nat) (d : Decoder)
    (v rest : List Byte) (cur0 : GoValue) (elem keyT elemT : GoType)
    (hv : parseIntBytes (v ++ rest) = (0, rest)) :
    (d.r = typeArray :: (v ++ rest) →
      d.parseType parseFloat (RValue.addrOf .iface cur0) =
          Res.ok { d with r := rest } (.iface (.slice .iface) (.slice [])) ∧
      d.parseType parseFloat (RValue.addrOf (.slice elem) cur0) =
          Res.ok { d with r := rest } (.slice [])) ∧
    (d.r = typeHash :: (v ++ rest) →
      d.parseType parseFloat (RValue.addrOf .iface cur0) =
          Res.ok { d with r := rest } (.iface (.map .string .iface) (.map [])) ∧
      d.parseType parseFloat (RValue.addrOf (.map keyT elemT) .mapNil) =
          Res.ok { d with r := rest } (.map [])) ∧
    (d.r = typeString :: (v ++ rest) →
      d.parseType parseFloat (RValue.addrOf .iface cur0) =
          Res.ok { d with r := rest } (.iface .string (.string [])) ∧
      d.parseType parseFloat (RValue.addrOf .string cur0) =
          Res.ok { d with r := rest } (.string [])) ∧
    GoValue.slice [] ≠ GoValue.sliceNil ∧ GoValue.map [] ≠ GoValue.mapNil ∧
    GoValue.iface (.slice .iface) (.slice []) ≠ GoValue.nil ∧
    GoValue.iface (.map .string .iface) (.map []) ≠ GoValue.nil := by
  have hpi : ({ d with r := v ++ rest } : Decoder).parseInt = (0, { d with r := rest }) :=
    parseInt_of_bytes _ 0 rest hv
  refine ⟨?_, ?_, ?_, by simp, by simp, by simp, by simp⟩
  · intro hr
    constructor
    · simp only [Decoder.parseType, parseTypeAux]
      rw [parseTypeStep_tagArray _ _ _ _ _ hr]
      simp [parseTypeArray, hpi, RValue.addrOf, setOrPanic, RValue.set, RValue.canSet,
        GoType.beq, GoType.kind, Res.ok]
    · simp only [Decoder.parseType, parseTypeAux]
      rw [parseTypeStep_tagArray _ _ _ _ _ hr]
      simp [parseTypeArray, hpi, RValue.addrOf, RValue.canSet, Res.ok]
  · intro hr
    constructor
    · simp only [Decoder.parseType, parseTypeAux]
      rw [parseTypeStep_tagHash _ _ _ _ _ hr]
      simp [parseTypeHash, hpi, RValue.addrOf, RValue.canSet, parseHashPairs, Res.ok]
    · simp only [Decoder.parseType, parseTypeAux]
      rw [parseTypeStep_tagHash _ _ _ _ _ hr]
      simp [parseTypeHash, hpi, RValue.addrOf, RValue.canSet, parseMapPairs, Res.ok,
        GoValue.entries]
  · intro hr
    have hps : ({ d with r := v ++ rest } : Decoder).parseString =
        Res.ok { d with r := rest } [] := by
      simp [Decoder.parseString, hpi]
    constructor
    · simp only [Decoder.parseType, parseTypeAux]
      rw [parseTypeStep_tagString _ _ _ _ _ hr]
      simp [parseTypeString, hps, Res.ok, bindString, RValue.addrOf, RValue.elemKind,
        GoType.kind, setOrPanic, RValue.set, RValue.canSet, GoType.beq]
    · simp only [Decoder.parseType, parseTypeAux]
      rw [parseTypeStep_tagString _ _ _ _ _ hr]
      simp [parseTypeString, hps, Res.ok, bindString, RValue.addrOf, RValue.elemKind,
        GoType.kind, setOrPanic, RValue.set, RValue.canSet, GoType.beq]

theorem parseType_zero_length_witness :
    (NewDecoder [0x5B, 0x00, 0x30]).parseType (fun _ => none)
        (RValue.addrOf (.slice .int) .sliceNil) =
      Res.ok { NewDecoder [0x5B, 0x00, 0x30] with r := [0x30] } (.slice []) :=
  ((parseType_zero_length (fun _ => none) (NewDecoder [0x5B, 0x00, 0x30]) [0x00] [0x30]
    .sliceNil .int .int .int (by decide)).1 rfl).2

/-- C19 (evaluation at the failing inputs). A string, a symbol, an
instance-variable string and an empty array, each decoded into a slot that
cannot be set (here: reached through an unexported struct field), make
`reflect` panic in `Set` instead of being skipped, whereas null, a boolean
and an integer are skipped.  The object `o :A 1 :B "C"` decoded into a struct
whose field tagged `B` is an unexported string panics in the same way. -/
theorem parseType_unsettable_string_panics :
    ((NewDecoder [0x22, 0x06, 0x43]).parseType (fun _ => none)
        { elemType := .string, isNil := false, ro := true, cur := .string [] }).panic =
      some (.runtime "reflect.Value.Set") ∧
    ((NewDecoder [0x3A, 0x06, 0x43]).parseType (fun _ => none)
        { elemType := .string, isNil := false, ro := true, cur := .string [] }).panic =
      some (.runtime "reflect.Value.Set") ∧
    ((NewDecoder [0x49, 0x22, 0x06, 0x43, 0x00]).parseType (fun _ => none)
        { elemType := .string, isNil := false, ro := true, cur := .string [] }).panic =
      some (.runtime "reflect.Value.Set") ∧
    ((NewDecoder [0x5B, 0x00]).parseType (fun _ => none)
        { elemType := .iface, isNil := false, ro := true, cur := .nil }).panic =
      some (.runtime "reflect.Value.Set") ∧
    ((NewDecoder [0x30]).parseType (fun _ => none)
        { elemType := .string, isNil := false, ro := true, cur := .string [] }).panic = none ∧
    ((NewDecoder [0x54]).parseType (fun _ => none)
        { elemType := .bool, isNil := false, ro := true, cur := .bool false }).panic = none ∧
    ((NewDecoder [0x69, 0x06]).parseType (fun _ => none)
        { elemType := .int, isNil := false, ro := true, cur := .int 0 }).panic = none ∧
    ((NewDecoder [0x6F, 0x3A, 0x06, 0x41, 0x06, 0x3A, 0x06, 0x42, 0x22, 0x06, 0x43]).parseType
        (fun _ => none)
        (RValue.addrOf (.struct "main" "A" (.cons "b" [0x42] false .string .nil))
          (.struct [.string []]))).panic =
      some (.runtime "reflect.Value.Set") := by
  refine ⟨by decide, by decide, by decide, by decide, by decide, by decide, by decide,
    by decide⟩

/-- C17 (evaluation at the failing input). The array of the object
`o :A 1 :B i1` and the string "xy", decoded into a `[]string`: the object
case latches the mismatch and returns without reading the field, so the second
element is read from the bytes of the field name; `Decode` returns the
latched error without a panic, the second element holds "B" and not "xy", and
the bytes `i1 "xy"` are left unread. -/
theorem Decode_mismatch_stops_traversal :
    ((NewDecoder [0x04, 0x08, 0x5B, 0x07, 0x6F, 0x3A, 0x06, 0x41, 0x06, 0x3A, 0x06, 0x42,
          0x69, 0x06, 0x22, 0x07, 0x78, 0x79]).Decode (fun _ => none)
        (.pointer (RValue.addrOf (.slice .string) .sliceNil))).panic = none ∧
    ((NewDecoder [0x04, 0x08, 0x5B, 0x07, 0x6F, 0x3A, 0x06, 0x41, 0x06, 0x3A, 0x06, 0x42,
          0x69, 0x06, 0x22, 0x07, 0x78, 0x79]).Decode (fun _ => none)
        (.pointer (RValue.addrOf (.slice .string) .sliceNil))).err =
      some (.unexpectedType "string" "struct") ∧
    ((NewDecoder [0x04, 0x08, 0x5B, 0x07, 0x6F, 0x3A, 0x06, 0x41, 0x06, 0x3A, 0x06, 0x42,
          0x69, 0x06, 0x22, 0x07, 0x78, 0x79]).Decode (fun _ => none)
        (.pointer (RValue.addrOf (.slice .string) .sliceNil))).cur =
      .slice [.string [], .string [0x42]] ∧
    ((NewDecoder [0x04, 0x08, 0x5B, 0x07, 0x6F, 0x3A, 0x06, 0x41, 0x06, 0x3A, 0x06, 0x42,
          0x69, 0x06, 0x22, 0x07, 0x78, 0x79]).Decode (fun _ => none)
        (.pointer (RValue.addrOf (.slice .string) .sliceNil))).d.r =
      [0x69, 0x06, 0x22, 0x07, 0x78, 0x79] ∧
    ((NewDecoder [0x04, 0x08, 0x5B, 0x07, 0x22, 0x06, 0x41, 0x22, 0x07, 0x78, 0x79]).Decode
        (fun _ => none) (.pointer (RValue.addrOf (.slice .string) .sliceNil))).cur =
      .slice [.string [0x41], .string [0x78, 0x79]] := by
  refine ⟨by decide, by decide, rfl, by decide, rfl⟩

/-! ## Arrays of fixnums -/

theorem wrapInt32_of_fits (v : Int) (h : -2 ^ 31 ≤ v ∧ v < 2 ^ 31) : wrapInt32 v = v := by
  unfold wrapInt32
  split <;> omega

theorem parseTypeAux_fixnum (parseFloat : GoString → Option Nat) (fuel : Nat)
    (d : Decoder) (val : RValue) (bs rest : List Byte) (v : Int)
    (hv : EncodesInt bs v) (hr : d.r = typeFixNum :: (bs ++ rest)) :
    parseTypeAux parseFloat (fuel + 1) d val =
      parseTypeFixNum { d with r := bs ++ rest } val ∧
    ({ d with r := bs ++ rest } : Decoder).parseInt = (v, { d with r := rest }) :=
  ⟨parseTypeStep_tagFixNum _ _ _ _ _ hr, parseInt_of_bytes _ v rest (hv rest)⟩

theorem parseArrayItems_fixnums (parseFloat : GoString → Option Nat) (fuel : Nat)
    (es : List (List Byte × Int)) (hes : ∀ e ∈ es, EncodesInt e.1 e.2) :
    ∀ (d : Decoder) (rest : List Byte), d.r = fixnumsWire es ++ rest →
      parseArrayItems (parseTypeAux parseFloat (fuel + 1)) es.length d =
        Res.ok { d with r := rest } (es.map fun e => GoValue.iface .int (.int e.2)) := by
  induction es with
  | nil =>
    intro d rest hr
    simp only [fixnumsWire, List.nil_append] at hr
    simp [parseArrayItems, Res.ok, ← hr]
  | cons e es ih =>
    intro d rest hr
    simp only [fixnumsWire, List.cons_append, List.append_assoc] at hr
    obtain ⟨h1, h2⟩ := parseTypeAux_fixnum parseFloat fuel d RValue.emptyInterface e.1
      (fixnumsWire es ++ rest) e.2 (hes e (List.mem_cons_self _ _)) hr
    have hstep : parseTypeAux parseFloat (fuel + 1) d RValue.emptyInterface =
        Res.ok { d with r := fixnumsWire es ++ rest } (.iface .int (.int e.2)) := by
      rw [h1]
      simp [parseTypeFixNum, h2, RValue.emptyInterface, RValue.addrOf, RValue.canSet,
        RValue.elemKind, GoType.kind, setOrPanic, RValue.set, GoType.beq, Res.ok]
    have hrest := ih (fun x hx => hes x (List.mem_cons_of_mem _ hx))
      { d with r := fixnumsWire es ++ rest } rest rfl
    simp only [List.length_cons, parseArrayItems, hstep, Res.ok, hrest, List.map_cons]

theorem parseSliceElems_fixnums (parseFloat : GoString → Option Nat) (fuel : Nat)
    (t : GoType) (conv : Int → Int)
    (ht : (t = .int ∧ conv = id) ∨ (t = .int64 ∧ conv = id) ∨ (t = .int32 ∧ conv = wrapInt32))
    (es : List (List Byte × Int)) (hes : ∀ e ∈ es, EncodesInt e.1 e.2) :
    ∀ (d : Decoder) (rest : List Byte), d.r = fixnumsWire es ++ rest →
      parseSliceElems (parseTypeAux parseFloat (fuel + 1)) t
          (List.replicate es.length t.zero) d =
        Res.ok { d with r := rest } (es.map fun e => GoValue.int (conv e.2)) := by
  induction es with
  | nil =>
    intro d rest hr
    simp only [fixnumsWire, List.nil_append] at hr
    simp [parseSliceElems, Res.ok, ← hr]
  | cons e es ih =>
    intro d rest hr
    simp only [fixnumsWire, List.cons_append, List.append_assoc] at hr
    have hstep : sliceElemStep (parseTypeAux parseFloat (fuel + 1)) t d t.zero =
        Res.ok { d with r := fixnumsWire es ++ rest } (.int (conv e.2)) := by
      obtain ⟨h1, h2⟩ := parseTypeAux_fixnum parseFloat fuel d (RValue.addrOf t t.zero) e.1
        (fixnumsWire es ++ rest) e.2 (hes e (List.mem_cons_self _ _)) hr
      rcases ht with ⟨ht, hc⟩ | ⟨ht, hc⟩ | ⟨ht, hc⟩ <;> subst ht <;> subst hc <;>
        simp only [sliceElemStep] <;> rw [h1] <;>
        simp [parseTypeFixNum, h2, RValue.addrOf, RValue.canSet,
          RValue.elemKind, GoType.kind, Res.ok]
    have hrest := ih (fun x hx => hes x (List.mem_cons_of_mem _ hx))
      { d with r := fixnumsWire es ++ rest } rest rfl
    simp only [List.length_cons, List.replicate_succ, parseSliceElems, hstep, Res.ok, hrest,
      List.map_cons]

theorem parseType_eq_step (parseFloat : GoString → Option Nat) (d : Decoder)
    (val : RValue) (n : Nat) (h : d.r.length = n) :
    d.parseType parseFloat val =
      parseTypeStep parseFloat (parseTypeAux parseFloat n) d val := by
  subst h
  rfl

theorem parseTypeArray_slice (rec : Rec) (d0 d1 : Decoder) (k : Nat) (elem : GoType)
    (cur0 : GoValue) (h : d0.parseInt = ((k : Int), d1)) :
    parseTypeArray rec d0 (RValue.addrOf (.slice elem) cur0) =
      { panic := (parseSliceElems rec elem (List.replicate k elem.zero) d1).panic,
        d := (parseSliceElems rec elem (List.replicate k elem.zero) d1).d,
        val := .slice (parseSliceElems rec elem (List.replicate k elem.zero) d1).val } := by
  cases k with
  | zero =>
    simp only [Nat.cast_zero] at h
    simp [parseTypeArray, h, RValue.addrOf, RValue.canSet, Res.ok, parseSliceElems]
  | succ k =>
    have hne : ¬ (((k + 1 : Nat) : Int) = 0) := by omega
    have hnn : ¬ (((k + 1 : Nat) : Int) < 0) := by omega
    simp only [parseTypeArray, h, RValue.addrOf, if_neg hne, if_neg hnn, RValue.canSet,
      Bool.not_false, Bool.and_self, Bool.not_true, Bool.false_eq_true, if_false,
      Int.toNat_ofNat]

theorem parseTypeArray_iface (rec : Rec) (d0 d1 : Decoder) (k : Nat)
    (cur0 : GoValue) (h : d0.parseInt = ((k : Int), d1)) :
    parseTypeArray rec d0 (RValue.addrOf .iface cur0) =
      { panic := (parseArrayItems rec k d1).panic,
        d := (parseArrayItems rec k d1).d,
        val := .iface (.slice .iface) (.slice (parseArrayItems rec k d1).val) } := by
  cases k with
  | zero =>
    simp only [Nat.cast_zero] at h
    simp [parseTypeArray, h, RValue.addrOf, setOrPanic, RValue.set, RValue.canSet,
      GoType.beq, GoType.kind, Res.ok, parseArrayItems]
  | succ k =>
    have hne : ¬ (((k + 1 : Nat) : Int) = 0) := by omega
    have hnn : ¬ (((k + 1 : Nat) : Int) < 0) := by omega
    simp only [parseTypeArray, h, RValue.addrOf, if_neg hne, if_neg hnn, RValue.set,
      RValue.canSet, Bool.not_false, Bool.and_self, Bool.not_true, Bool.false_eq_true,
      if_false, GoType.beq, GoType.kind, if_true, Int.toNat_ofNat]

/-- C13. For an array on the wire made of the tag `[`, a count varint for
`k`, and `k` fixnums (the tag `i` and a varint each) with values `v 0` ..
`v (k - 1)`: decoding it into a settable `[]int` or `[]int64` (or into a
`[]int32` when the values fit in 32 bits) binds the slice of exactly the `k`
values in wire order, decoding it into a settable dynamic destination binds
the `[]interface{}` of the same `k` integers in the same order, and both
consume exactly the bytes of the array without recording an error. -/
theorem parseType_fixnum_array (parseFloat : GoString → Option Nat) (d : Decoder)
    (kv rest : List Byte) (es : List (List Byte × Int)) (cur0 : GoValue) (t : GoType)
    (hk : EncodesInt kv es.length) (hes : ∀ e ∈ es, EncodesInt e.1 e.2)
    (ht : t = .int ∨ t = .int64 ∨
      (t = .int32 ∧ ∀ e ∈ es, -2 ^ 31 ≤ e.2 ∧ e.2 < 2 ^ 31))
    (hr : d.r = typeArray :: (kv ++ (fixnumsWire es ++ rest))) :
    d.parseType parseFloat (RValue.addrOf (.slice t) cur0) =
        Res.ok { d with r := rest } (.slice (es.map fun e => GoValue.int e.2)) ∧
    d.parseType parseFloat (RValue.addrOf .iface cur0) =
        Res.ok { d with r := rest }
          (.iface (.slice .iface) (.slice (es.map fun e => GoValue.iface .int (.int e.2)))) ∧
    (es.map fun e => GoValue.int e.2).length = es.length := by
  have hlen : d.r.length = (kv ++ (fixnumsWire es ++ rest)).length + 1 := by
    rw [hr]; rfl
  have hpi : ({ d with r := kv ++ (fixnumsWire es ++ rest) } : Decoder).parseInt =
      ((es.length : Int), { d with r := fixnumsWire es ++ rest }) :=
    parseInt_of_bytes _ _ _ (hk _)
  have hconv : ∃ conv : Int → Int,
      ((t = .int ∧ conv = id) ∨ (t = .int64 ∧ conv = id) ∨
        (t = .int32 ∧ conv = wrapInt32)) ∧
      ∀ x ∈ es, conv x.2 = x.2 := by
    rcases ht with h | h | ⟨h, hfit⟩
    · exact ⟨id, Or.inl ⟨h, rfl⟩, fun _ _ => rfl⟩
    · exact ⟨id, Or.inr (Or.inl ⟨h, rfl⟩), fun _ _ => rfl⟩
    · exact ⟨wrapInt32, Or.inr (Or.inr ⟨h, rfl⟩),
        fun x hx => wrapInt32_of_fits _ (hfit x hx)⟩
  obtain ⟨conv, hc, hid⟩ := hconv
  refine ⟨?_, ?_, by simp⟩
  · rw [parseType_eq_step _ _ _ _ hlen]
    rw [parseTypeStep_tagArray _ _ _ _ _ hr, parseTypeArray_slice _ _ _ _ _ _ hpi,
      parseSliceElems_fixnums parseFloat _ t conv hc es hes _ rest rfl]
    simp only [Res.ok]
    congr 2
    exact List.map_congr_left (fun x hx => by rw [hid x hx])
  · rw [parseType_eq_step _ _ _ _ hlen]
    rw [parseTypeStep_tagArray _ _ _ _ _ hr, parseTypeArray_iface _ _ _ _ _ hpi,
      parseArrayItems_fixnums parseFloat _ es hes _ rest rfl]
    simp only [Res.ok]

theorem parseType_fixnum_array_witness :
    (NewDecoder [0x5B, 0x07, 0x69, 0x06, 0x69, 0xFA, 0x30]).parseType (fun _ => none)
        (RValue.addrOf (.slice .int) .sliceNil) =
      Res.ok { NewDecoder [0x5B, 0x07, 0x69, 0x06, 0x69, 0xFA, 0x30] with r := [0x30] }
        (.slice [.int 1, .int (-1)]) :=
  (parseType_fixnum_array (fun _ => none)
    (NewDecoder [0x5B, 0x07, 0x69, 0x06, 0x69, 0xFA, 0x30]) [0x07] [0x30]
    [([0x06], 1), ([0xFA], -1)] .sliceNil .int
    (fun rest => (parseIntBytes_small 0x07 rest).2.1 (by decide))
    (by
      intro e he
      simp only [List.mem_cons, List.mem_singleton, List.not_mem_nil, or_false] at he
      rcases he with rfl | rfl
      · exact fun rest => (parseIntBytes_small 0x06 rest).2.1 (by decide)
      · exact fun rest => (parseIntBytes_small 0xFA rest).2.2 (by decide))
    (Or.inl rfl) rfl).1

/-! ## The error latch -/

/-- Past the header, `Decode` is `parseType` at the root: a panic escapes,
and otherwise the latched error is returned. -/
theorem Decode_eq_parseType (parseFloat : GoString → Option Nat) (d : Decoder)
    (val : RValue) (minor : Byte) (rest : List Byte)
    (hset : val.canSet = true) (hptr : val.elemType.kind ≠ .ptr)
    (hr : d.r = 0x04 :: minor :: rest) (hm : minor.val ≤ 8) :
    d.Decode parseFloat (.pointer val) =
      match (({ d with r := rest } : Decoder).parseType parseFloat val).panic with
      | some p =>
        { panic := some p, err := none,
          d := (({ d with r := rest } : Decoder).parseType parseFloat val).d,
          cur := (({ d with r := rest } : Decoder).parseType parseFloat val).val }
      | none =>
        { panic := none,
          err := (({ d with r := rest } : Decoder).parseType parseFloat val).d.savedError,
          d := (({ d with r := rest } : Decoder).parseType parseFloat val).d,
          cur := (({ d with r := rest } : Decoder).parseType parseFloat val).val } := by
  unfold Decoder.Decode
  simp only [hset, hr, Bool.not_true, Bool.false_eq_true, if_false, hptr,
    supportedMajorVersion, supportedMinorVersion]
  rw [if_neg (by simp; omega)]
  simp only [Decoder.parseRootTypeAndRecoverPanic]
  cases hp : (Decoder.parseType parseFloat { d with r := rest } val).panic with
  | some p => simp [devMode]
  | none =>
    simp only
    cases he : (Decoder.parseType parseFloat { d with r := rest } val).d.savedError <;> simp

theorem saveError_latch (d : Decoder) (err : GoError) :
    (d.savedError = none → (d.saveError err).savedError = some err) ∧
    (∀ e, d.savedError = some e → d.saveError err = d) := by
  constructor
  · intro h; simp [Decoder.saveError, h]
  · intro e h; simp [Decoder.saveError, h]

/-- An error that is latched stays latched through any step that extends
the state. -/
theorem Decoder.Ext.latched {d d1 : Decoder} (h : d.Ext d1) (e : GoError)
    (he : d.savedError = some e) : d1.savedError = some e := by
  rcases h.savedError with h1 | ⟨h1, _⟩
  · rw [h1, he]
  · rw [he] at h1; cases h1

/-- C18. In the struct loops, for a wire field name that the record
declares and whose value is bound without a panic: if no error was latched
before the field and binding it latched a type mismatch, the latch now holds
the rewritten error, which carries the name of the record type, the name of
the field and its type; if an error was latched before the field began to be
bound it is kept as it was; and an error that an inner record rewrote is not
rewritten again, so the innermost record is the one named.  What `parseType`
finds latched it leaves latched, so the error `Decode` returns when nothing
panics is this one. -/
theorem structFieldStep_error_context (parseFloat : GoString → Option Nat)
    (fuel : Nat) (refType : GoType) (fieldName : GoString) (d : Decoder)
    (st : List GoValue × List GoString) (structField : StructField)
    (hl : lookupGet (getStructFieldMapFromType refType) fieldName = some structField)
    (hp : (parseTypeAux parseFloat fuel d (fieldAddr structField st.1)).panic = none) :
    (∀ got expected, d.savedError = none →
      (parseTypeAux parseFloat fuel d (fieldAddr structField st.1)).d.savedError =
        some (.unexpectedType got expected) →
      (structFieldStep (parseTypeAux parseFloat fuel) refType fieldName d st).d.savedError =
        some (.fieldContext refType.typeName structField.name
          structField.type.typeString expected)) ∧
    (∀ e, d.savedError = some e →
      (structFieldStep (parseTypeAux parseFloat fuel) refType fieldName d st).d.savedError =
        some e) ∧
    (∀ s f t e,
      (parseTypeAux parseFloat fuel d (fieldAddr structField st.1)).d.savedError =
        some (.fieldContext s f t e) →
      (structFieldStep (parseTypeAux parseFloat fuel) refType fieldName d st).d.savedError =
        some (.fieldContext s f t e)) ∧
    (∀ (d0 : Decoder) (val : RValue) (e : GoError), d0.savedError = some e →
      (parseTypeAux parseFloat fuel d0 val).d.savedError = some e ∧
      (d0.parseType parseFloat val).d.savedError = some e) ∧
    (∀ (d0 : Decoder) (val : RValue) (minor : Byte) (rest : List Byte),
      val.canSet = true → val.elemType.kind ≠ .ptr → d0.r = 0x04 :: minor :: rest →
      minor.val ≤ 8 → (d0.Decode parseFloat (.pointer val)).panic = none →
      (d0.Decode parseFloat (.pointer val)).err =
        (d0.Decode parseFloat (.pointer val)).d.savedError) := by
  refine ⟨?_, ?_, ?_, ?_, ?_⟩
  · intro got expected hnone herr
    unfold structFieldStep
    simp only [hl, hp, herr, hnone]
    rw [if_pos (by simp)]
    rfl
  · intro e he
    have hx := (parseTypeAux_sound parseFloat fuel d (fieldAddr structField st.1)).ext.latched e he
    unfold structFieldStep
    simp only [hl, hp, hx]
    cases e with
    | unexpectedType got expected =>
      simp only
      rw [if_neg (by simp [he])]
      exact hx
    | invalidFloat64 v => exact hx
    | fieldContext s f t x => exact hx
    | text m => exact hx
    | rubyError p => exact hx
  · intro s f t e herr
    unfold structFieldStep
    simp only [hl, hp, herr]
    exact herr
  · intro d0 val e he
    exact ⟨(parseTypeAux_sound parseFloat fuel d0 val).ext.latched e he,
      (parseType_sound parseFloat d0 val).ext.latched e he⟩
  · intro d0 val minor rest hset hptr hr hm hpanic
    rw [Decode_eq_parseType parseFloat d0 val minor rest hset hptr hr hm] at hpanic ⊢
    cases hq : (Decoder.parseType parseFloat { d0 with r := rest } val).panic with
    | some p => rw [hq] at hpanic; simp at hpanic
    | none => simp

theorem structFieldStep_error_context_witness :
    (structFieldStep (parseTypeAux (fun _ => none) 5)
        (.struct "main" "A" (.cons "X" [0x78] true .int .nil)) [0x78]
        (NewDecoder [0x22, 0x06, 0x43]) ([.int 0], [])).d.savedError =
      some (.fieldContext "A" "X" "int" "string") :=
  (structFieldStep_error_context (fun _ => none) 5
    (.struct "main" "A" (.cons "X" [0x78] true .int .nil)) [0x78]
    (NewDecoder [0x22, 0x06, 0x43]) ([.int 0], [])
    { name := "X", type := .int, exported := true, index := 0 } rfl (by decide)).1
    "int" "string" rfl (by decide)

/-- The record `O` with the fields `In` (a record `I` with the `int` field
`X`) and `S` (an `int`), decoded from `o :O 2 :i o :I 1 :x "C" :s "D"`: both
strings mismatch; the error returned names the inner record `I` and its
field `X`, where the first mismatch arose, and the later mismatch of `S` does
not replace it. -/
theorem Decode_nested_record_mismatch_example :
    ((NewDecoder [0x04, 0x08, 0x6F, 0x3A, 0x06, 0x4F, 0x07, 0x3A, 0x06, 0x69, 0x6F, 0x3A,
          0x06, 0x49, 0x06, 0x3A, 0x06, 0x78, 0x22, 0x06, 0x43, 0x3A, 0x06, 0x73, 0x22, 0x06,
          0x44]).Decode (fun _ => none)
        (.pointer (RValue.addrOf
          (.struct "main" "O"
            (.cons "In" [0x69] true (.struct "main" "I" (.cons "X" [0x78] true .int .nil))
              (.cons "S" [0x73] true .int .nil)))
          (.struct [.struct [.int 0], .int 0])))).err =
      some (.fieldContext "I" "X" "int" "string") ∧
    ((NewDecoder [0x04, 0x08, 0x6F, 0x3A, 0x06, 0x4F, 0x07, 0x3A, 0x06, 0x69, 0x6F, 0x3A,
          0x06, 0x49, 0x06, 0x3A, 0x06, 0x78, 0x22, 0x06, 0x43, 0x3A, 0x06, 0x73, 0x22, 0x06,
          0x44]).Decode (fun _ => none)
        (.pointer (RValue.addrOf
          (.struct "main" "O"
            (.cons "In" [0x69] true (.struct "main" "I" (.cons "X" [0x78] true .int .nil))
              (.cons "S" [0x73] true .int .nil)))
          (.struct [.struct [.int 0], .int 0])))).d.r = [] := by
  refine ⟨by decide, by decide⟩


/-! ## Hashes and objects bound to a dynamic destination -/

theorem keyEq_string_right (k : GoValue) (a : GoString) :
    GoValue.keyEq k (.string a) = true ↔ k = .string a := by
  cases k <;> simp [GoValue.keyEq]

theorem mapGet_mapSet_string (m : List (GoValue × GoValue)) (a b : GoString) (v : GoValue) :
    mapGet (mapSet m (.string a) v) (.string b) =
      if a = b then some v else mapGet m (.string b) := by
  induction m with
  | nil =>
    by_cases h : a = b
    · simp [mapSet, mapGet, h, GoValue.keyEq]
    · simp [mapSet, mapGet, h, GoValue.keyEq]
  | cons p m ih =>
    obtain ⟨k0, v0⟩ := p
    simp only [mapSet]
    by_cases hk : GoValue.keyEq k0 (.string a) = true
    · have hk0 := (keyEq_string_right k0 a).mp hk
      subst hk0
      rw [if_pos hk]
      by_cases h : a = b
      · simp [mapGet, h, GoValue.keyEq]
      · simp [mapGet, h, GoValue.keyEq]
    · rw [if_neg hk]
      simp only [mapGet, ih]
      by_cases hb : GoValue.keyEq k0 (.string b) = true
      · have hk0 := (keyEq_string_right k0 b).mp hb
        subst hk0
        have hab : ¬ a = b := by
          intro hab
          subst hab
          exact hk hb
        rw [if_pos hb, if_pos hb, if_neg hab]
      · rw [if_neg hb, if_neg hb]

theorem mapGet_storePairs (s : GoString) (ps : List (GoString × GoValue)) :
    ∀ m : List (GoValue × GoValue),
      mapGet (storePairs m ps) (.string s) =
        match lastUnder s ps with
        | some w => some w
        | none => mapGet m (.string s) := by
  induction ps with
  | nil => intro m; simp [storePairs, lastUnder]
  | cons p ps ih =>
    intro m
    simp only [storePairs, lastUnder, ih, mapGet_mapSet_string]
    cases lastUnder s ps with
    | some w => rfl
    | none =>
      by_cases h : p.1 = s
      · simp [h]
      · simp [h]

theorem mapSet_stringKeyed (m : List (GoValue × GoValue)) (a : GoString) (v : GoValue)
    (h : StringKeyed m) : StringKeyed (mapSet m (.string a) v) := by
  induction m with
  | nil =>
    intro p hp
    simp only [mapSet, List.mem_singleton] at hp
    exact ⟨a, by rw [hp]⟩
  | cons q m ih =>
    obtain ⟨k0, v0⟩ := q
    have hq := h (k0, v0) (List.mem_cons_self _ _)
    have hm : StringKeyed m := fun p hp => h p (List.mem_cons_of_mem _ hp)
    intro p hp
    simp only [mapSet] at hp
    split at hp
    · rcases List.mem_cons.mp hp with rfl | hp
      · exact hq
      · exact hm p hp
    · rcases List.mem_cons.mp hp with rfl | hp
      · exact hq
      · exact ih hm p hp

theorem storePairs_stringKeyed (ps : List (GoString × GoValue)) :
    ∀ m : List (GoValue × GoValue), StringKeyed m → StringKeyed (storePairs m ps) := by
  induction ps with
  | nil => intro m h; exact h
  | cons p ps ih => intro m h; exact ih _ (mapSet_stringKeyed m p.1 p.2 h)

theorem parseHashPairs_step (rec : Rec) (n : Nat) (d : Decoder)
    (hash : List (GoValue × GoValue))
    (hk : (rec d RValue.emptyInterface).panic = none)
    (hv : (rec (rec d RValue.emptyInterface).d RValue.emptyInterface).panic = none) :
    parseHashPairs rec (n + 1) d hash =
      match hashKeyString (rec d RValue.emptyInterface).val with
      | some s =>
        parseHashPairs rec n (rec (rec d RValue.emptyInterface).d RValue.emptyInterface).d
          (mapSet hash (.string s)
            (rec (rec d RValue.emptyInterface).d RValue.emptyInterface).val)
      | none =>
        Res.fail (.hashKey (rec d RValue.emptyInterface).val.dynTypeString)
          (rec (rec d RValue.emptyInterface).d RValue.emptyInterface).d hash := by
  simp only [parseHashPairs, hk, hv]
  split <;> simp [hashKeyString, *]

theorem parseHashPairs_read (rec : Rec) :
    ∀ (n : Nat) (d : Decoder) (hash : List (GoValue × GoValue)),
      ((parseHashPairs rec n d hash).panic = none →
        (parseHashPairs rec n d hash).val =
            storePairs hash (storedPairs (hashPairsRead rec n d)) ∧
        (hashPairsRead rec n d).length = n ∧
        ∀ p ∈ hashPairsRead rec n d, hashKeyString p.1 ≠ none) ∧
      (∀ p ∈ hashPairsRead rec n d, hashKeyString p.1 = none →
        (parseHashPairs rec n d hash).panic = some (.hashKey p.1.dynTypeString) ∧
        (parseHashPairs rec n d hash).val =
            storePairs hash (storedPairs (hashPairsRead rec n d))) := by
  intro n
  induction n with
  | zero =>
    intro d hash
    simp [parseHashPairs, hashPairsRead, storedPairs, storePairs, Res.ok]
  | succ n ih =>
    intro d hash
    cases hk : (rec d RValue.emptyInterface).panic with
    | some p => simp [parseHashPairs, hashPairsRead, hk, Res.fail]
    | none =>
      cases hv : (rec (rec d RValue.emptyInterface).d RValue.emptyInterface).panic with
      | some p => simp [parseHashPairs, hashPairsRead, hk, hv, Res.fail]
      | none =>
        rw [parseHashPairs_step rec n d hash hk hv]
        simp only [hashPairsRead, hk, hv]
        cases hs : hashKeyString (rec d RValue.emptyInterface).val with
        | none =>
          simp [Res.fail, storedPairs, storePairs, hs]
        | some s =>
          simp only
          obtain ⟨ih1, ih2⟩ := ih (rec (rec d RValue.emptyInterface).d RValue.emptyInterface).d
            (mapSet hash (.string s)
              (rec (rec d RValue.emptyInterface).d RValue.emptyInterface).val)
          constructor
          · intro hp
            obtain ⟨h1, h2, h3⟩ := ih1 hp
            refine ⟨?_, by simp [h2], ?_⟩
            · rw [h1]
              simp [storedPairs, storePairs, hs]
            · intro p hp
              rcases List.mem_cons.mp hp with rfl | hp
              · simp [hs]
              · exact h3 p hp
          · intro p hp hnone
            rcases List.mem_cons.mp hp with rfl | hp
            · simp [hs] at hnone
            · obtain ⟨h1, h2⟩ := ih2 p hp hnone
              refine ⟨h1, ?_⟩
              rw [h2]
              simp [storedPairs, storePairs, hs]

theorem parseObjectFields_read (rec : Rec) :
    ∀ (n : Nat) (d : Decoder) (obj : List (GoValue × GoValue)),
      (parseObjectFields rec n d obj).panic = none →
        (parseObjectFields rec n d obj).val = storePairs obj (objectFieldsRead rec n d) ∧
        (objectFieldsRead rec n d).length = n := by
  intro n
  induction n with
  | zero =>
    intro d obj
    simp [parseObjectFields, objectFieldsRead, storePairs, Res.ok]
  | succ n ih =>
    intro d obj
    cases hs : d.parseSymbolOrSymbolLink.panic with
    | some p => simp [parseObjectFields, hs, Res.fail]
    | none =>
      cases hr : (rec d.parseSymbolOrSymbolLink.d RValue.emptyInterface).panic with
      | some p => simp [parseObjectFields, hs, hr, Res.fail]
      | none =>
        simp only [parseObjectFields, objectFieldsRead, hs, hr]
        intro hp
        obtain ⟨h1, h2⟩ := ih _ _ hp
        exact ⟨by rw [h1]; simp [storePairs], by simp [h2]⟩

theorem lastUnder_isSome_iff (s : GoString) (ps : List (GoString × GoValue)) :
    lastUnder s ps ≠ none ↔ s ∈ ps.map Prod.fst := by
  induction ps with
  | nil => simp [lastUnder]
  | cons p ps ih =>
    simp only [lastUnder, List.map_cons, List.mem_cons]
    cases h : lastUnder s ps with
    | some w =>
      have : s ∈ ps.map Prod.fst := ih.mp (by rw [h]; simp)
      simp [this]
    | none =>
      have hn : ¬ s ∈ ps.map Prod.fst := fun hm => (ih.mpr hm) h
      by_cases hp : p.1 = s
      · simp [hp]
      · have hp2 : ¬ s = p.1 := fun e => hp e.symm
        simp [hp, hp2, hn]

theorem mapGet_storePairs_nil (s : GoString) (ps : List (GoString × GoValue)) :
    mapGet (storePairs [] ps) (.string s) = lastUnder s ps := by
  rw [mapGet_storePairs]
  cases lastUnder s ps <;> simp [mapGet]

/-- C14. With a settable dynamic destination: when the hash case returns,
the destination holds a `map[string]interface{}` whose keys are all strings
and which, under each string `s`, holds the value of the last pair stored
under `s`, where a pair with an `int` key `k` is stored under the decimal
text `itoa k` and a pair with a `string` key under that string; all the
pairs the count announces were read.  When a pair has a key that is neither
an `int` nor a `string`, the hash case panics with the error that names the
type of the key.  When the object case returns, the destination holds a
`map[string]interface{}` that under each field name holds the value of the
last field of that name, and whose keys are exactly the field names read. -/
theorem parseType_hash_object_dynamic (rec : Rec) (d0 d1 d2 : Decoder) (val : RValue)
    (size count : Int) (hset : val.canSet = true) (hty : val.elemType = .iface)
    (hsize : d0.parseInt = (size, d1))
    (hcount : d0.parseSymbolOrSymbolLink.d.parseInt = (count, d2)) :
    ((parseTypeHash rec d0 val).panic = none →
      ∃ entries,
        (parseTypeHash rec d0 val).val = .iface (.map .string .iface) (.map entries) ∧
        StringKeyed entries ∧
        (∀ s, mapGet entries (.string s) =
          lastUnder s (storedPairs (hashPairsRead rec size.toNat d1))) ∧
        (hashPairsRead rec size.toNat d1).length = size.toNat ∧
        ∀ p ∈ hashPairsRead rec size.toNat d1, hashKeyString p.1 ≠ none) ∧
    (∀ p ∈ hashPairsRead rec size.toNat d1, hashKeyString p.1 = none →
      (parseTypeHash rec d0 val).panic = some (.hashKey p.1.dynTypeString)) ∧
    (d0.parseSymbolOrSymbolLink.panic = none →
      (parseTypeObject rec d0 val).panic = none →
      ∃ entries,
        (parseTypeObject rec d0 val).val = .iface (.map .string .iface) (.map entries) ∧
        StringKeyed entries ∧
        (∀ s, mapGet entries (.string s) =
          lastUnder s (objectFieldsRead rec count.toNat d2)) ∧
        (∀ s, mapGet entries (.string s) ≠ none ↔
          s ∈ (objectFieldsRead rec count.toNat d2).map Prod.fst) ∧
        (objectFieldsRead rec count.toNat d2).length = count.toNat) := by
  have hnot : (!val.canSet) = false := by simp [hset]
  have hhash : parseTypeHash rec d0 val =
      { panic := (parseHashPairs rec size.toNat d1 []).panic,
        d := (parseHashPairs rec size.toNat d1 []).d,
        val := .iface (.map .string .iface) (.map (parseHashPairs rec size.toNat d1 []).val) } := by
    simp only [parseTypeHash, hsize, hnot, hty, Bool.false_eq_true, if_false]
  have hsk : StringKeyed [] := fun p hp => absurd hp (List.not_mem_nil p)
  refine ⟨?_, ?_, ?_⟩
  · intro hp
    rw [hhash] at hp ⊢
    obtain ⟨h1, h2, h3⟩ := (parseHashPairs_read rec size.toNat d1 []).1 hp
    refine ⟨_, rfl, ?_, ?_, h2, h3⟩
    · rw [h1]; exact storePairs_stringKeyed _ _ hsk
    · intro s
      simp only [h1]
      exact mapGet_storePairs_nil s _
  · intro p hp hnone
    rw [hhash]
    exact ((parseHashPairs_read rec size.toNat d1 []).2 p hp hnone).1
  · intro hcls hp
    have hobj : parseTypeObject rec d0 val =
        { panic := (parseObjectFields rec count.toNat d2 []).panic,
          d := (parseObjectFields rec count.toNat d2 []).d,
          val := .iface (.map .string .iface)
            (.map (parseObjectFields rec count.toNat d2 []).val) } := by
      simp only [parseTypeObject, hcls, hcount, hnot, hty, Bool.false_eq_true, if_false]
    rw [hobj] at hp ⊢
    obtain ⟨h1, h2⟩ := parseObjectFields_read rec count.toNat d2 [] hp
    refine ⟨_, rfl, ?_, ?_, ?_, h2⟩
    · rw [h1]; exact storePairs_stringKeyed _ _ hsk
    · intro s
      simp only [h1]
      exact mapGet_storePairs_nil s _
    · intro s
      simp only [h1]
      rw [mapGet_storePairs_nil]
      exact lastUnder_isSome_iff s _

theorem parseType_hash_object_dynamic_witness :
    ∃ entries,
      (parseTypeHash (parseTypeAux (fun _ => none) 5)
          (NewDecoder [0x06, 0x69, 0x06, 0x22, 0x06, 0x41]) RValue.emptyInterface).val =
        .iface (.map .string .iface) (.map entries) ∧
      StringKeyed entries ∧
      (∀ s, mapGet entries (.string s) =
        lastUnder s (storedPairs (hashPairsRead (parseTypeAux (fun _ => none) 5) (1 : Int).toNat
          { NewDecoder [0x06, 0x69, 0x06, 0x22, 0x06, 0x41] with
            r := [0x69, 0x06, 0x22, 0x06, 0x41] }))) ∧
      (hashPairsRead (parseTypeAux (fun _ => none) 5) (1 : Int).toNat
          { NewDecoder [0x06, 0x69, 0x06, 0x22, 0x06, 0x41] with
            r := [0x69, 0x06, 0x22, 0x06, 0x41] }).length = (1 : Int).toNat ∧
      ∀ p ∈ hashPairsRead (parseTypeAux (fun _ => none) 5) (1 : Int).toNat
          { NewDecoder [0x06, 0x69, 0x06, 0x22, 0x06, 0x41] with
            r := [0x69, 0x06, 0x22, 0x06, 0x41] }, hashKeyString p.1 ≠ none :=
  (parseType_hash_object_dynamic (parseTypeAux (fun _ => none) 5)
    (NewDecoder [0x06, 0x69, 0x06, 0x22, 0x06, 0x41])
    { NewDecoder [0x06, 0x69, 0x06, 0x22, 0x06, 0x41] with
      r := [0x69, 0x06, 0x22, 0x06, 0x41] }
    (NewDecoder [0x06, 0x69, 0x06, 0x22, 0x06, 0x41]).parseSymbolOrSymbolLink.d.parseInt.2
    RValue.emptyInterface 1
    (NewDecoder [0x06, 0x69, 0x06, 0x22, 0x06, 0x41]).parseSymbolOrSymbolLink.d.parseInt.1
    rfl rfl rfl rfl).1 (by decide)

/-- The hash `{ 1 => "A", "1" => "B" }` bound to a dynamic destination: the
integer key is stored under its decimal text, where the later string key
overwrites it. -/
theorem parseType_hash_dynamic_example :
    ((NewDecoder [0x7B, 0x07, 0x69, 0x06, 0x22, 0x06, 0x41, 0x22, 0x06, 0x31, 0x22, 0x06,
        0x42]).parseType (fun _ => none) RValue.emptyInterface).val =
      .iface (.map .string .iface) (.map [(.string [0x31], .iface .string (.string [0x42]))]) ∧
    ((NewDecoder [0x7B, 0x06, 0x54, 0x22, 0x06, 0x41]).parseType (fun _ => none)
        RValue.emptyInterface).panic = some (.hashKey "bool") := by
  refine ⟨rfl, by decide⟩

/-! ## The decimal text of an integer -/

theorem decimalValue_append_digit (s : GoString) (b : Byte) :
    decimalValue (s ++ [b]) = 10 * decimalValue s + (b.val - 48) := by
  simp [decimalValue, List.foldl_append]

theorem itoaNat_spec : ∀ (fuel n : Nat), n < 10 ^ fuel →
    decimalValue (itoaNat fuel n) = n ∧
    (∀ b ∈ itoaNat fuel n, 48 ≤ b.val ∧ b.val ≤ 57) ∧
    (0 < fuel → itoaNat fuel n ≠ []) ∧
    (0 < n → (itoaNat fuel n).head? ≠ some 48) := by
  intro fuel
  induction fuel with
  | zero => intro n h; simp at h; subst h; simp [itoaNat, decimalValue]
  | succ fuel ih =>
    intro n h
    by_cases h10 : n < 10
    · have hv : (Fin.ofNat (48 + n) : Fin 256).val = 48 + n := by
        simp [Fin.ofNat]; omega
      simp only [itoaNat, if_pos h10]
      refine ⟨?_, ?_, by simp, ?_⟩
      · simp [decimalValue, hv]
      · intro b hb
        simp only [List.mem_singleton] at hb
        subst hb
        rw [hv]; omega
      · intro hn hh
        simp only [List.head?_cons, Option.some.injEq] at hh
        have := congrArg Fin.val hh
        rw [hv] at this
        simp at this
        omega
    · have hdiv : n / 10 < 10 ^ fuel := by
        rw [pow_succ] at h
        omega
      obtain ⟨i1, i2, i3, i4⟩ := ih (n / 10) hdiv
      have hfuel : 0 < fuel := by
        rcases Nat.eq_zero_or_pos fuel with h0 | h0
        · subst h0; simp at hdiv; omega
        · exact h0
      have hv : (Fin.ofNat (48 + n % 10) : Fin 256).val = 48 + n % 10 := by
        simp [Fin.ofNat]; omega
      simp only [itoaNat, if_neg h10]
      refine ⟨?_, ?_, by simp, ?_⟩
      · rw [decimalValue_append_digit, i1, hv]; omega
      · intro b hb
        rcases List.mem_append.mp hb with hb | hb
        · exact i2 b hb
        · simp only [List.mem_singleton] at hb
          subst hb
          rw [hv]; omega
      · intro _
        have hne := i3 hfuel
        cases hl : itoaNat fuel (n / 10) with
        | nil => exact absurd hl hne
        | cons x xs =>
          rw [hl] at i4
          simpa using i4 (by omega)

theorem lt_ten_pow_succ (n : Nat) : n < 10 ^ (n + 1) := by
  have h : n < 2 ^ n := Nat.lt_two_pow n
  calc n < 2 ^ n := h
    _ ≤ 10 ^ n := Nat.pow_le_pow_left (by norm_num) n
    _ ≤ 10 ^ (n + 1) := Nat.pow_le_pow_right (by norm_num) (by omega)

/-- The text `itoa` yields is the decimal text: for `0 ≤ k` the digits of
`k` without a leading zero (the single digit 0 for 0), and for `k < 0` the
sign `-` followed by the digits of `-k`. -/
theorem itoa_spec (k : Int) :
    (0 ≤ k → decimalValue (itoa k) = k.toNat ∧
      (∀ b ∈ itoa k, 48 ≤ b.val ∧ b.val ≤ 57) ∧
      (0 < k → (itoa k).head? ≠ some 48)) ∧
    (k < 0 → ∃ ds, itoa k = 0x2D :: ds ∧ decimalValue ds = k.natAbs ∧
      (∀ b ∈ ds, 48 ≤ b.val ∧ b.val ≤ 57) ∧ ds.head? ≠ some 48) := by
  constructor
  · intro hk
    have h := itoaNat_spec (k.toNat + 1) k.toNat (lt_ten_pow_succ _)
    have hi : itoa k = itoaNat (k.toNat + 1) k.toNat := by
      simp [itoa, not_lt.mpr hk]
    rw [hi]
    exact ⟨h.1, h.2.1, fun hpos => h.2.2.2 (by omega)⟩
  · intro hk
    have h := itoaNat_spec (k.natAbs + 1) k.natAbs (lt_ten_pow_succ _)
    refine ⟨itoaNat (k.natAbs + 1) k.natAbs, by simp [itoa, hk], h.1, h.2.1,
      h.2.2.2 (by omega)⟩

/-! ## The struct loops -/

theorem parseStructFields_eq_structLoop (rec : Rec) (refType : GoType) :
    ∀ (n : Nat) (d : Decoder) (st : List GoValue × List GoString),
      parseStructFields rec refType n d st =
        structLoop Decoder.parseSymbolOrSymbolLink rec refType n d st := by
  intro n
  induction n with
  | zero => intro d st; rfl
  | succ n ih =>
    intro d st
    simp only [parseStructFields, structLoop]
    split
    · rfl
    · split
      · rfl
      · exact ih _ _

theorem parseHashStructFields_eq_structLoop (rec : Rec) (refType : GoType) :
    ∀ (n : Nat) (d : Decoder) (st : List GoValue × List GoString),
      parseHashStructFields rec refType n d st =
        structLoop (readHashFieldName rec refType) rec refType n d st := by
  intro n
  induction n with
  | zero => intro d st; rfl
  | succ n ih =>
    intro d st
    simp only [parseHashStructFields, structLoop, readHashFieldName]
    cases hk : (rec d RValue.emptyInterface).panic with
    | some p => simp [Res.fail]
    | none =>
      simp only
      split
      · next fieldName heq =>
        simp only [Res.ok]
        split
        · rfl
        · exact ih _ _
      · simp [Res.fail]

/-- One round of a struct loop, in terms of its event. -/
theorem structFieldStep_event (rec : Rec) (refType : GoType) (fieldName : GoString)
    (d : Decoder) (st : List GoValue × List GoString) :
    (structFieldStep rec refType fieldName d st).panic =
        (structFieldEvent rec refType fieldName d st.1).res.panic ∧
    (structFieldStep rec refType fieldName d st).d.r =
        (structFieldEvent rec refType fieldName d st.1).res.d.r ∧
    (structFieldStep rec refType fieldName d st).d.symbols =
        (structFieldEvent rec refType fieldName d st.1).res.d.symbols ∧
    (structFieldStep rec refType fieldName d st).val.1 =
        applyEvents st.1 [structFieldEvent rec refType fieldName d st.1] ∧
    (structFieldStep rec refType fieldName d st).val.2 =
        st.2 ++ unknownNames [structFieldEvent rec refType fieldName d st.1] ∧
    (structFieldEvent rec refType fieldName d st.1).name = fieldName ∧
    (structFieldEvent rec refType fieldName d st.1).before = d ∧
    (structFieldEvent rec refType fieldName d st.1).field =
        lookupGet (getStructFieldMapFromType refType) fieldName ∧
    ((structFieldEvent rec refType fieldName d st.1).res.d.savedError = d.savedError →
      (structFieldStep rec refType fieldName d st).d.savedError = d.savedError) := by
  unfold structFieldStep structFieldEvent
  cases hl : lookupGet (getStructFieldMapFromType refType) fieldName with
  | none => simp [applyEvents, unknownNames]
  | some sf =>
    cases hp : (rec d (fieldAddr sf st.1)).panic with
    | some p => simp [Res.fail, applyEvents, unknownNames, hp]
    | none =>
      cases herr : (rec d (fieldAddr sf st.1)).d.savedError with
      | none => simp [Res.ok, applyEvents, unknownNames, hp, herr]
      | some e =>
        cases e with
        | unexpectedType got expected =>
          by_cases hne : d.savedError = some (GoError.unexpectedType got expected)
          · simp [Res.ok, applyEvents, unknownNames, hp, herr, hne]
          · have hne2 : ¬ some (GoError.unexpectedType got expected) = d.savedError :=
              fun h => hne h.symm
            simp [Res.ok, applyEvents, unknownNames, hp, herr, hne, hne2]
        | invalidFloat64 v => simp [Res.ok, applyEvents, unknownNames, hp, herr]
        | fieldContext s f t x => simp [Res.ok, applyEvents, unknownNames, hp, herr]
        | text m => simp [Res.ok, applyEvents, unknownNames, hp, herr]
        | rubyError p => simp [Res.ok, applyEvents, unknownNames, hp, herr]

theorem applyEvents_cons (fields : List GoValue) (ev : FieldEvent) (evs : List FieldEvent) :
    applyEvents fields (ev :: evs) = applyEvents (applyEvents fields [ev]) evs := by
  simp only [applyEvents]
  cases ev.field <;> rfl

theorem unknownNames_cons (ev : FieldEvent) (evs : List FieldEvent) :
    unknownNames (ev :: evs) = unknownNames [ev] ++ unknownNames evs := by
  simp only [unknownNames]
  cases ev.field <;> rfl

/-- What a struct loop that ends without a panic has done, in terms of its
rounds. -/
theorem structLoop_events (readName : Decoder → Res GoString) (rec : Rec)
    (refType : GoType) :
    ∀ (n : Nat) (d : Decoder) (st : List GoValue × List GoString),
      (structLoop readName rec refType n d st).panic = none →
        (structEvents readName rec refType n d st).length = n ∧
        (∀ ev ∈ structEvents readName rec refType n d st,
          ev.res.panic = none ∧
          ev.field = lookupGet (getStructFieldMapFromType refType) ev.name) ∧
        (structLoop readName rec refType n d st).val.1 =
          applyEvents st.1 (structEvents readName rec refType n d st) ∧
        (structLoop readName rec refType n d st).val.2 =
          st.2 ++ unknownNames (structEvents readName rec refType n d st) ∧
        (∀ ev, (structEvents readName rec refType n d st).getLast? = some ev →
          (structLoop readName rec refType n d st).d.r = ev.res.d.r ∧
          (structLoop readName rec refType n d st).d.symbols = ev.res.d.symbols) := by
  intro n
  induction n with
  | zero =>
    intro d st _
    simp [structLoop, structEvents, applyEvents, unknownNames, Res.ok]
  | succ n ih =>
    intro d st
    simp only [structLoop, structEvents]
    cases hs : (readName d).panic with
    | some p => simp [Res.fail]
    | none =>
      simp only
      obtain ⟨e1, e2, e3, e4, e5, e6, e7, e8, e9⟩ :=
        structFieldStep_event rec refType (readName d).val (readName d).d st
      cases hr : (structFieldStep rec refType (readName d).val (readName d).d st).panic with
      | some p => simp [hr]
      | none =>
        simp only
        intro hp
        obtain ⟨h1, h2, h3, h4, h5⟩ := ih _ _ hp
        refine ⟨by simp [h1], ?_, ?_, ?_, ?_⟩
        · intro ev hev
          rcases List.mem_cons.mp hev with rfl | hev
          · exact ⟨by rw [← e1]; exact hr, by rw [e8, e6]⟩
          · exact h2 ev hev
        · rw [h3, e4, ← applyEvents_cons]
        · rw [h4, e5, List.append_assoc, ← unknownNames_cons]
        · intro ev hev
          cases hl : structEvents readName rec refType n
              (structFieldStep rec refType (readName d).val (readName d).d st).d
              (structFieldStep rec refType (readName d).val (readName d).d st).val with
          | nil =>
            rw [hl] at hev h1
            simp only [List.getLast?_singleton, Option.some.injEq] at hev
            subst hev
            have hn : n = 0 := by simpa using h1.symm
            subst hn
            simp only [structLoop, Res.ok]
            exact ⟨e2, e3⟩
          | cons x xs =>
            rw [hl] at hev
            rw [List.getLast?_cons_cons] at hev
            exact h5 ev (by rw [hl]; exact hev)

/-- A struct loop whose rounds are as many as the count and none of whose
values panicked ends without a panic. -/
theorem structLoop_no_panic (readName : Decoder → Res GoString) (rec : Rec)
    (refType : GoType) :
    ∀ (n : Nat) (d : Decoder) (st : List GoValue × List GoString),
      (structEvents readName rec refType n d st).length = n →
      (∀ ev ∈ structEvents readName rec refType n d st, ev.res.panic = none) →
      (structLoop readName rec refType n d st).panic = none := by
  intro n
  induction n with
  | zero => intro d st _ _; rfl
  | succ n ih =>
    intro d st
    simp only [structLoop, structEvents]
    cases hs : (readName d).panic with
    | some p => simp
    | none =>
      simp only
      obtain ⟨e1, _⟩ := structFieldStep_event rec refType (readName d).val (readName d).d st
      cases hr : (structFieldStep rec refType (readName d).val (readName d).d st).panic with
      | some p =>
        simp only
        intro _ hall
        have := hall _ (List.mem_singleton_self _)
        rw [← e1, hr] at this
        cases this
      | none =>
        simp only
        intro hlen hall
        exact ih _ _ (by simpa using hlen) (fun ev hev => hall ev (List.mem_cons_of_mem _ hev))

theorem unknownNames_eq_filter (refType : GoType) (evs : List FieldEvent)
    (h : ∀ ev ∈ evs, ev.field = lookupGet (getStructFieldMapFromType refType) ev.name) :
    unknownNames evs =
      (evs.map fun ev => ev.name).filter
        (fun nm => (lookupGet (getStructFieldMapFromType refType) nm).isNone) := by
  induction evs with
  | nil => rfl
  | cons ev evs ih =>
    have hev := h ev (List.mem_cons_self _ _)
    have ih2 := ih (fun x hx => h x (List.mem_cons_of_mem _ hx))
    simp only [unknownNames, List.map_cons, List.filter_cons]
    cases hf : ev.field with
    | none =>
      rw [hf] at hev
      simp [← hev, ih2]
    | some sf =>
      rw [hf] at hev
      simp [← hev, ih2]

theorem unknownNames_ne_nil_iff (evs : List FieldEvent) :
    unknownNames evs ≠ [] ↔ ∃ ev ∈ evs, ev.field = none := by
  induction evs with
  | nil => simp [unknownNames]
  | cons ev evs ih =>
    simp only [unknownNames]
    cases hf : ev.field with
    | none => simp [hf]
    | some sf =>
      simp only [List.mem_cons, exists_eq_or_imp, hf]
      simp [ih]

/-- The end of a struct loop that did not panic: the unknown-fields panic,
raised in the state the loop ended in, exactly when some round found no
struct field. -/
theorem finishStruct_structLoop (readName : Decoder → Res GoString) (rec : Rec)
    (refType : GoType) (n : Nat) (d : Decoder) (fields0 : List GoValue)
    (hp : (structLoop readName rec refType n d (fields0, [])).panic = none) :
    (unknownNames (structEvents readName rec refType n d (fields0, [])) = [] →
      finishStruct refType (structLoop readName rec refType n d (fields0, [])) =
        Res.ok (structLoop readName rec refType n d (fields0, [])).d
          (.struct (applyEvents fields0
            (structEvents readName rec refType n d (fields0, []))))) ∧
    (unknownNames (structEvents readName rec refType n d (fields0, [])) ≠ [] →
      finishStruct refType (structLoop readName rec refType n d (fields0, [])) =
        Res.fail
          (.unknownFields (unknownNames (structEvents readName rec refType n d (fields0, [])))
            refType.typeString)
          (structLoop readName rec refType n d (fields0, [])).d
          (.struct (applyEvents fields0
            (structEvents readName rec refType n d (fields0, []))))) := by
  obtain ⟨_, _, h3, h4, _⟩ := structLoop_events readName rec refType n d (fields0, []) hp
  simp only [List.nil_append] at h4
  constructor
  · intro hu
    unfold finishStruct
    simp only [hp, h4, hu, h3, List.length_nil, gt_iff_lt, Nat.lt_irrefl, if_false]
  · intro hu
    have hpos : (unknownNames (structEvents readName rec refType n d (fields0, []))).length > 0 :=
      List.length_pos.mpr hu
    unfold finishStruct
    simp only [hp, h4, h3, hpos, if_true]

/-- C11 (counterexample to the claim as stated). The object `o :A 1 :B "C"`
decoded into the record `A` whose field `B` is an `int`: the only wire field
name is in the declared mapping, and yet `Decode` fails, with the type
mismatch it returns. -/
theorem Decode_fails_without_unknown_field :
    ((NewDecoder [0x04, 0x08, 0x6F, 0x3A, 0x06, 0x41, 0x06, 0x3A, 0x06, 0x42, 0x22, 0x06,
          0x43]).Decode (fun _ => none)
        (.pointer (RValue.addrOf (.struct "main" "A" (.cons "B" [0x42] true .int .nil))
          (.struct [.int 0])))).err =
      some (.fieldContext "A" "B" "int" "string") ∧
    ((NewDecoder [0x04, 0x08, 0x6F, 0x3A, 0x06, 0x41, 0x06, 0x3A, 0x06, 0x42, 0x22, 0x06,
          0x43]).Decode (fun _ => none)
        (.pointer (RValue.addrOf (.struct "main" "A" (.cons "B" [0x42] true .int .nil))
          (.struct [.int 0])))).panic = none ∧
    (lookupGet (getStructFieldMapFromType
        (.struct "main" "A" (.cons "B" [0x42] true .int .nil))) [0x42]).isSome = true := by
  refine ⟨by decide, by decide, by decide⟩

/-- C11 (amended). For an object or a hash decoded into a settable record
destination, when all the (name, value) pairs the count announces are parsed
without a panic: `parseType` panics if and only if at least one wire field
name is absent from the declared name-to-field mapping of the record; the
panic is the unknown-fields error, raised in the state the loop ended in
(after the value of the last pair was consumed), and it carries the name of
the record type and the list of all the absent wire names, in wire order. -/
theorem parseType_unknown_fields (rec : Rec) (d0 d1 d2 : Decoder) (val : RValue)
    (pkg name : String) (fields : Fields) (size count : Int)
    (evsO evsH : List FieldEvent)
    (hset : val.canSet = true) (hty : val.elemType = .struct pkg name fields)
    (hsize : d0.parseInt = (size, d1))
    (hcount : d0.parseSymbolOrSymbolLink.d.parseInt = (count, d2))
    (hO : evsO = structEvents Decoder.parseSymbolOrSymbolLink rec (.struct pkg name fields)
      count.toNat d2 (val.cur.structFields, []))
    (hH : evsH = structEvents (readHashFieldName rec (.struct pkg name fields)) rec
      (.struct pkg name fields) size.toNat d1 (val.cur.structFields, [])) :
    (d0.parseSymbolOrSymbolLink.panic = none →
      (parseStructFields rec (.struct pkg name fields) count.toNat d2
        (val.cur.structFields, [])).panic = none →
      evsO.length = count.toNat ∧
      unknownNames evsO = (evsO.map fun ev => ev.name).filter
        (fun nm => (lookupGet (getStructFieldMapFromType (.struct pkg name fields)) nm).isNone) ∧
      ((parseTypeObject rec d0 val).panic ≠ none ↔
        ∃ ev ∈ evsO,
          lookupGet (getStructFieldMapFromType (.struct pkg name fields)) ev.name = none) ∧
      (unknownNames evsO ≠ [] →
        parseTypeObject rec d0 val =
          Res.fail (.unknownFields (unknownNames evsO) (GoType.struct pkg name fields).typeString)
            (parseStructFields rec (.struct pkg name fields) count.toNat d2
              (val.cur.structFields, [])).d
            (.struct (applyEvents val.cur.structFields evsO))) ∧
      (∀ ev, evsO.getLast? = some ev →
        (parseStructFields rec (.struct pkg name fields) count.toNat d2
          (val.cur.structFields, [])).d.r = ev.res.d.r)) ∧
    ((parseHashStructFields rec (.struct pkg name fields) size.toNat d1
        (val.cur.structFields, [])).panic = none →
      evsH.length = size.toNat ∧
      unknownNames evsH = (evsH.map fun ev => ev.name).filter
        (fun nm => (lookupGet (getStructFieldMapFromType (.struct pkg name fields)) nm).isNone) ∧
      ((parseTypeHash rec d0 val).panic ≠ none ↔
        ∃ ev ∈ evsH,
          lookupGet (getStructFieldMapFromType (.struct pkg name fields)) ev.name = none) ∧
      (unknownNames evsH ≠ [] →
        parseTypeHash rec d0 val =
          Res.fail (.unknownFields (unknownNames evsH) (GoType.struct pkg name fields).typeString)
            (parseHashStructFields rec (.struct pkg name fields) size.toNat d1
              (val.cur.structFields, [])).d
            (.struct (applyEvents val.cur.structFields evsH))) ∧
      (∀ ev, evsH.getLast? = some ev →
        (parseHashStructFields rec (.struct pkg name fields) size.toNat d1
          (val.cur.structFields, [])).d.r = ev.res.d.r)) := by
  have hnot : (!val.canSet) = false := by simp [hset]
  have core : ∀ (readName : Decoder → Res GoString) (n : Nat) (d : Decoder)
      (evs : List FieldEvent) (res : Res GoValue),
      evs = structEvents readName rec (.struct pkg name fields) n d (val.cur.structFields, []) →
      res = finishStruct (.struct pkg name fields)
        (structLoop readName rec (.struct pkg name fields) n d (val.cur.structFields, [])) →
      (structLoop readName rec (.struct pkg name fields) n d
        (val.cur.structFields, [])).panic = none →
      evs.length = n ∧
      unknownNames evs = (evs.map fun ev => ev.name).filter
        (fun nm => (lookupGet (getStructFieldMapFromType (.struct pkg name fields)) nm).isNone) ∧
      (res.panic ≠ none ↔
        ∃ ev ∈ evs,
          lookupGet (getStructFieldMapFromType (.struct pkg name fields)) ev.name = none) ∧
      (unknownNames evs ≠ [] →
        res =
          Res.fail (.unknownFields (unknownNames evs) (GoType.struct pkg name fields).typeString)
            (structLoop readName rec (.struct pkg name fields) n d
              (val.cur.structFields, [])).d
            (.struct (applyEvents val.cur.structFields evs))) ∧
      (∀ ev, evs.getLast? = some ev →
        (structLoop readName rec (.struct pkg name fields) n d
          (val.cur.structFields, [])).d.r = ev.res.d.r) := by
    intro readName n d evs res hevs hres hp
    subst hevs
    subst hres
    obtain ⟨h1, h2, _, _, h5⟩ :=
      structLoop_events readName rec (.struct pkg name fields) n d (val.cur.structFields, []) hp
    obtain ⟨f1, f2⟩ :=
      finishStruct_structLoop readName rec (.struct pkg name fields) n d val.cur.structFields hp
    refine ⟨h1, unknownNames_eq_filter _ _ (fun ev hev => (h2 ev hev).2), ?_, f2,
      fun ev hev => (h5 ev hev).1⟩
    have hiff : (∃ ev ∈ structEvents readName rec (.struct pkg name fields) n d
          (val.cur.structFields, []),
        lookupGet (getStructFieldMapFromType (.struct pkg name fields)) ev.name = none) ↔
        unknownNames (structEvents readName rec (.struct pkg name fields) n d
          (val.cur.structFields, [])) ≠ [] := by
      rw [unknownNames_ne_nil_iff]
      constructor
      · rintro ⟨ev, hev, hl⟩
        exact ⟨ev, hev, by rw [(h2 ev hev).2, hl]⟩
      · rintro ⟨ev, hev, hl⟩
        exact ⟨ev, hev, by rw [← (h2 ev hev).2, hl]⟩
    rw [hiff]
    by_cases hu : unknownNames (structEvents readName rec (.struct pkg name fields) n d
        (val.cur.structFields, [])) = []
    · rw [f1 hu]
      simp [Res.ok, hu]
    · rw [f2 hu]
      simp [Res.fail, hu]
  constructor
  · intro hcls hp
    have hobj : parseTypeObject rec d0 val =
        finishStruct (.struct pkg name fields)
          (structLoop Decoder.parseSymbolOrSymbolLink rec (.struct pkg name fields)
            count.toNat d2 (val.cur.structFields, [])) := by
      simp only [parseTypeObject, hcls, hcount, hnot, hty, Bool.false_eq_true, if_false,
        parseStructFields_eq_structLoop]
    rw [parseStructFields_eq_structLoop] at hp ⊢
    exact core _ _ _ evsO _ hO hobj hp
  · intro hp
    have hhash : parseTypeHash rec d0 val =
        finishStruct (.struct pkg name fields)
          (structLoop (readHashFieldName rec (.struct pkg name fields)) rec
            (.struct pkg name fields) size.toNat d1 (val.cur.structFields, [])) := by
      simp only [parseTypeHash, hsize, hnot, hty, Bool.false_eq_true, if_false,
        parseHashStructFields_eq_structLoop]
    rw [parseHashStructFields_eq_structLoop] at hp ⊢
    exact core _ _ _ evsH _ hH hhash hp

theorem parseType_unknown_fields_witness :
    (parseTypeObject (parseTypeAux (fun _ => none) 5)
        (NewDecoder [0x3A, 0x06, 0x41, 0x07, 0x3A, 0x06, 0x5A, 0x69, 0x06, 0x3A, 0x06, 0x59,
          0x30])
        (RValue.addrOf (.struct "main" "A" (.cons "B" [0x42] true .int .nil))
          (.struct [.int 0]))).panic =
      some (.unknownFields [[0x5A], [0x59]] "main.A") :=
  congrArg Res.panic
    (((parseType_unknown_fields (parseTypeAux (fun _ => none) 5)
      (NewDecoder [0x3A, 0x06, 0x41, 0x07, 0x3A, 0x06, 0x5A, 0x69, 0x06, 0x3A, 0x06, 0x59, 0x30])
      _ _
      (RValue.addrOf (.struct "main" "A" (.cons "B" [0x42] true .int .nil))
        (.struct [.int 0]))
      "main" "A" (.cons "B" [0x42] true .int .nil) _ _ _ _ rfl rfl rfl rfl rfl rfl).1
      (by decide) (by decide)).2.2.2.1 (by decide))

/-! ## Records: the frame of the struct loop -/

theorem lookupGet_lookupSet (m : List (GoString × StructField)) (a b : GoString)
    (v : StructField) :
    lookupGet (lookupSet m a v) b = if a = b then some v else lookupGet m b := by
  induction m with
  | nil =>
    by_cases h : a = b <;> simp [lookupSet, lookupGet, h]
  | cons p m ih =>
    obtain ⟨k0, v0⟩ := p
    simp only [lookupSet]
    by_cases hk : k0 = a
    · subst hk
      rw [if_pos rfl]
      by_cases h : k0 = b <;> simp [lookupGet, h]
    · rw [if_neg hk]
      simp only [lookupGet, ih]
      by_cases hb : k0 = b
      · subst hb
        have : ¬ a = k0 := fun e => hk e.symm
        simp [this]
      · simp [hb]

theorem fieldMapFrom_tagAt (full : Fields) :
    ∀ (fs : Fields) (i : Nat) (acc : List (GoString × StructField)),
      (∀ j, Fields.tagAt fs j = Fields.tagAt full (i + j)) →
      (∀ k sf, lookupGet acc k = some sf → Fields.tagAt full sf.index = some k) →
      ∀ k sf, lookupGet (fieldMapFrom fs i acc) k = some sf →
        Fields.tagAt full sf.index = some k
  | .nil, _, _, _, hacc, k, sf, h => hacc k sf h
  | .cons nm tag ex ty rest, i, acc, hfs, hacc, k, sf, h => by
    have hrest : ∀ j, Fields.tagAt rest j = Fields.tagAt full (i + 1 + j) := by
      intro j
      have := hfs (j + 1)
      simp only [Fields.tagAt] at this
      rw [this]
      congr 1
      omega
    have hhead : Fields.tagAt full i = some tag := by
      have := hfs 0
      simp only [Fields.tagAt, Nat.add_zero] at this
      exact this.symm
    simp only [fieldMapFrom] at h
    split at h
    · refine fieldMapFrom_tagAt full rest (i + 1) _ hrest ?_ k sf h
      intro k2 sf2 h2
      rw [lookupGet_lookupSet] at h2
      by_cases hk : tag = k2
      · rw [if_pos hk] at h2
        simp only [Option.some.injEq] at h2
        subst h2
        subst hk
        exact hhead
      · rw [if_neg hk] at h2
        exact hacc k2 sf2 h2
    · exact fieldMapFrom_tagAt full rest (i + 1) acc hrest hacc k sf h

/-- Two wire names that are looked up as struct fields with the same index
are the same name. -/
theorem lookupGet_index_injective (refType : GoType) (a b : GoString)
    (sa sb : StructField)
    (ha : lookupGet (getStructFieldMapFromType refType) a = some sa)
    (hb : lookupGet (getStructFieldMapFromType refType) b = some sb)
    (hi : sa.index = sb.index) : a = b := by
  cases refType with
  | struct pkg name fields =>
    simp only [getStructFieldMapFromType] at ha hb
    have key := fieldMapFrom_tagAt fields fields 0 [] (fun j => by simp)
      (fun k sf h => by simp [lookupGet] at h)
    have h1 := key a sa ha
    have h2 := key b sb hb
    rw [hi, h2] at h1
    exact (Option.some.inj h1).symm
  | _ => simp [getStructFieldMapFromType, lookupGet] at ha

theorem applyEvents_length (evs : List FieldEvent) :
    ∀ fields : List GoValue, (applyEvents fields evs).length = fields.length := by
  induction evs with
  | nil => intro fields; rfl
  | cons ev evs ih =>
    intro fields
    simp only [applyEvents]
    cases ev.field with
    | none => exact ih fields
    | some sf => simp [ih]

theorem applyEvents_getD (i : Nat) (evs : List FieldEvent) :
    ∀ fields : List GoValue, i < fields.length →
      (applyEvents fields evs).getD i .nil =
        match lastAt i evs with
        | some v => v
        | none => fields.getD i .nil := by
  induction evs with
  | nil => intro fields _; simp [applyEvents, lastAt]
  | cons ev evs ih =>
    intro fields hi
    simp only [applyEvents, lastAt]
    cases hf : ev.field with
    | none =>
      simp only
      rw [ih fields hi]
      cases lastAt i evs <;> rfl
    | some sf =>
      simp only
      rw [ih _ (by simpa using hi)]
      cases lastAt i evs with
      | some v => rfl
      | none =>
        by_cases hidx : sf.index = i
        · subst hidx
          simp [List.getElem?_set_self hi]
        · simp [hidx, List.getElem?_set_ne hidx]

theorem lastAt_eq_lastUnder (refType : GoType) (nm : GoString) (sf : StructField)
    (hnm : lookupGet (getStructFieldMapFromType refType) nm = some sf)
    (evs : List FieldEvent)
    (h : ∀ ev ∈ evs, ev.field = lookupGet (getStructFieldMapFromType refType) ev.name) :
    lastAt sf.index evs = lastUnder nm (namedValues evs) := by
  induction evs with
  | nil => rfl
  | cons ev evs ih =>
    have hev := h ev (List.mem_cons_self _ _)
    simp only [lastAt, namedValues, lastUnder]
    rw [ih (fun x hx => h x (List.mem_cons_of_mem _ hx))]
    cases lastUnder nm (namedValues evs) with
    | some v => rfl
    | none =>
      simp only
      by_cases hname : ev.name = nm
      · rw [hname, hnm] at hev
        simp [hev, hname]
      · cases hf : ev.field with
        | none => simp [hname]
        | some sf2 =>
          have hne : ¬ sf2.index = sf.index := by
            intro hidx
            rw [hf] at hev
            exact hname (lookupGet_index_injective refType ev.name nm sf2 sf hev.symm hnm hidx)
          simp [hname, hne]

theorem lastAt_eq_none (i : Nat) (evs : List FieldEvent)
    (h : ∀ ev ∈ evs, ∀ sf, ev.field = some sf → sf.index ≠ i) : lastAt i evs = none := by
  induction evs with
  | nil => rfl
  | cons ev evs ih =>
    simp only [lastAt, ih (fun x hx => h x (List.mem_cons_of_mem _ hx))]
    cases hf : ev.field with
    | none => rfl
    | some sf => simp [h ev (List.mem_cons_self _ _) sf hf]

theorem parseString_savedError (d : Decoder) :
    d.parseString.d.savedError = d.savedError := by
  unfold Decoder.parseString
  dsimp only
  split
  · rfl
  · split
    · rfl
    · split <;> rfl

theorem parseSymbolOrSymbolLink_savedError (d : Decoder) :
    d.parseSymbolOrSymbolLink.d.savedError = d.savedError := by
  have hm : d.MustReadByte.d.savedError = d.savedError := by
    unfold Decoder.MustReadByte
    cases d.r <;> rfl
  unfold Decoder.parseSymbolOrSymbolLink
  dsimp only
  split
  · exact hm
  · split
    · unfold Decoder.parseSymbol
      dsimp only
      split
      · rw [parseString_savedError, hm]
      · simp only [Res.ok]
        rw [parseString_savedError, hm]
    · split
      · unfold Decoder.parseIndexAndLookupSymbol
        dsimp only
        split
        · exact hm
        · split <;> exact hm
      · exact hm

theorem structLoop_savedError (readName : Decoder → Res GoString) (rec : Rec)
    (refType : GoType) (hread : ∀ d, (readName d).d.savedError = d.savedError) :
    ∀ (n : Nat) (d : Decoder) (st : List GoValue × List GoString),
      (∀ ev ∈ structEvents readName rec refType n d st,
        ev.res.d.savedError = ev.before.savedError) →
      (structLoop readName rec refType n d st).d.savedError = d.savedError := by
  intro n
  induction n with
  | zero => intro d st _; rfl
  | succ n ih =>
    intro d st
    simp only [structLoop, structEvents]
    cases hs : (readName d).panic with
    | some p => intro _; exact hread d
    | none =>
      simp only
      obtain ⟨_, _, _, _, _, _, e7, _, e9⟩ :=
        structFieldStep_event rec refType (readName d).val (readName d).d st
      cases hr : (structFieldStep rec refType (readName d).val (readName d).d st).panic with
      | some p =>
        simp only
        intro hall
        have h1 := hall _ (List.mem_singleton_self _)
        rw [e7] at h1
        rw [e9 h1, hread]
      | none =>
        simp only
        intro hall
        have h1 := hall _ (List.mem_cons_self _ _)
        rw [e7] at h1
        rw [ih _ _ (fun ev hev => hall ev (List.mem_cons_of_mem _ hev)), e9 h1, hread]

/-- C12. For an object decoded into a settable record destination, when all
the pairs the count announces are read, every wire field name is in the
declared mapping of the record, and every field value is bound to its slot
without a panic and without latching an error: `parseType` returns without
a panic and leaves the error latch as it was; the slot of each declared name
that occurs in the object holds what the last occurrence of that name bound
to it, a slot whose name does not occur holds what it held, and so does
every slot that no wire name was bound to. -/
theorem parseType_object_into_record (rec : Rec) (d0 d2 : Decoder) (val : RValue)
    (pkg name : String) (fields : Fields) (count : Int) (evs : List FieldEvent)
    (hset : val.canSet = true) (hty : val.elemType = .struct pkg name fields)
    (hcls : d0.parseSymbolOrSymbolLink.panic = none)
    (hcount : d0.parseSymbolOrSymbolLink.d.parseInt = (count, d2))
    (hevs : evs = structEvents Decoder.parseSymbolOrSymbolLink rec (.struct pkg name fields)
      count.toNat d2 (val.cur.structFields, []))
    (hlen : evs.length = count.toNat)
    (hknown : ∀ ev ∈ evs,
      lookupGet (getStructFieldMapFromType (.struct pkg name fields)) ev.name ≠ none)
    (hagree : ∀ ev ∈ evs,
      ev.res.panic = none ∧ ev.res.d.savedError = ev.before.savedError) :
    (parseTypeObject rec d0 val).panic = none ∧
    (parseTypeObject rec d0 val).d.savedError = d0.savedError ∧
    (parseTypeObject rec d0 val).val = .struct (applyEvents val.cur.structFields evs) ∧
    (applyEvents val.cur.structFields evs).length = val.cur.structFields.length ∧
    (∀ nm structField,
      lookupGet (getStructFieldMapFromType (.struct pkg name fields)) nm = some structField →
      structField.index < val.cur.structFields.length →
      (applyEvents val.cur.structFields evs).getD structField.index .nil =
        match lastUnder nm (namedValues evs) with
        | some v => v
        | none => val.cur.structFields.getD structField.index .nil) ∧
    (∀ i, i < val.cur.structFields.length →
      (∀ ev ∈ evs, ∀ structField, ev.field = some structField → structField.index ≠ i) →
      (applyEvents val.cur.structFields evs).getD i .nil =
        val.cur.structFields.getD i .nil) := by
  subst hevs
  have hnot : (!val.canSet) = false := by simp [hset]
  have hp := structLoop_no_panic Decoder.parseSymbolOrSymbolLink rec (.struct pkg name fields)
    count.toNat d2 (val.cur.structFields, []) hlen (fun ev hev => (hagree ev hev).1)
  obtain ⟨_, h2, _, _, _⟩ := structLoop_events Decoder.parseSymbolOrSymbolLink rec
    (.struct pkg name fields) count.toNat d2 (val.cur.structFields, []) hp
  have hu : unknownNames (structEvents Decoder.parseSymbolOrSymbolLink rec
      (.struct pkg name fields) count.toNat d2 (val.cur.structFields, [])) = [] := by
    by_contra hne
    obtain ⟨ev, hev, hf⟩ := (unknownNames_ne_nil_iff _).mp hne
    exact hknown ev hev (by rw [← (h2 ev hev).2, hf])
  have hobj : parseTypeObject rec d0 val =
      Res.ok (structLoop Decoder.parseSymbolOrSymbolLink rec (.struct pkg name fields)
          count.toNat d2 (val.cur.structFields, [])).d
        (.struct (applyEvents val.cur.structFields
          (structEvents Decoder.parseSymbolOrSymbolLink rec (.struct pkg name fields)
            count.toNat d2 (val.cur.structFields, [])))) := by
    rw [← (finishStruct_structLoop Decoder.parseSymbolOrSymbolLink rec
      (.struct pkg name fields) count.toNat d2 val.cur.structFields hp).1 hu]
    simp only [parseTypeObject, hcls, hcount, hnot, hty, Bool.false_eq_true, if_false,
      parseStructFields_eq_structLoop]
  have hd2 : d2.savedError = d0.savedError := by
    have : d2 = d0.parseSymbolOrSymbolLink.d.parseInt.2 := by rw [hcount]
    rw [this]
    exact parseSymbolOrSymbolLink_savedError d0
  refine ⟨by rw [hobj]; rfl, ?_, by rw [hobj]; rfl, applyEvents_length _ _, ?_, ?_⟩
  · rw [hobj]
    simp only [Res.ok]
    rw [structLoop_savedError _ rec _ parseSymbolOrSymbolLink_savedError _ _ _
      (fun ev hev => (hagree ev hev).2), hd2]
  · intro nm sf hnm hidx
    rw [applyEvents_getD _ _ _ hidx,
      lastAt_eq_lastUnder (.struct pkg name fields) nm sf hnm _ (fun ev hev => (h2 ev hev).2)]
  · intro i hi hnone
    rw [applyEvents_getD _ _ _ hi, lastAt_eq_none i _ hnone]

theorem parseType_object_into_record_witness :
    (parseTypeObject (parseTypeAux (fun _ => none) 5)
        (NewDecoder [0x3A, 0x06, 0x41, 0x06, 0x3A, 0x06, 0x42, 0x69, 0x06])
        (RValue.addrOf
          (.struct "main" "A" (.cons "B" [0x42] true .int (.cons "C" [0x43] true .string .nil)))
          (.struct [.int 0, .string [0x78]]))).val =
      .struct [.int 1, .string [0x78]] :=
  (parseType_object_into_record (parseTypeAux (fun _ => none) 5)
    (NewDecoder [0x3A, 0x06, 0x41, 0x06, 0x3A, 0x06, 0x42, 0x69, 0x06]) _
    (RValue.addrOf
      (.struct "main" "A" (.cons "B" [0x42] true .int (.cons "C" [0x43] true .string .nil)))
      (.struct [.int 0, .string [0x78]]))
    "main" "A" (.cons "B" [0x42] true .int (.cons "C" [0x43] true .string .nil)) _ _
    rfl rfl (by decide) rfl rfl (by decide)
    (fun ev hev => by
      have h := List.mem_singleton.mp
        (show ev ∈ [structFieldEvent (parseTypeAux (fun _ => none) 5)
          (.struct "main" "A" (.cons "B" [0x42] true .int (.cons "C" [0x43] true .string .nil)))
          [0x42] { NewDecoder [] with r := [0x69, 0x06], symbols := [[0x41], [0x42]] }
          [.int 0, .string [0x78]]] from hev)
      subst h
      intro hnone
      cases hnone)
    (fun ev hev => by
      have h := List.mem_singleton.mp
        (show ev ∈ [structFieldEvent (parseTypeAux (fun _ => none) 5)
          (.struct "main" "A" (.cons "B" [0x42] true .int (.cons "C" [0x43] true .string .nil)))
          [0x42] { NewDecoder [] with r := [0x69, 0x06], symbols := [[0x41], [0x42]] }
          [.int 0, .string [0x78]]] from hev)
      subst h
      exact ⟨rfl, rfl⟩)).2.2.1
/-! ## Hashes bound to a map destination -/

/-- C16 (evaluation at the failing inputs). With a `map[int]*int`
destination the pair `1 => nil` has a key of the declared kind and is not
inserted: binding nil to the pointer latches a mismatch and `SetMapIndex` is
called with the zero `Value`, which deletes the key.  With a `map[int]*T`
destination and a callback that stores a pointer, as the callbacks of this
repository do for a pointer destination, the pair `1 => u :T` makes
`SetMapIndex` panic.  With the `map[int]int` destination the pair `1 => 2`
is inserted. -/
theorem parseType_map_pointer_elem_not_inserted :
    ((NewDecoder [0x7B, 0x06, 0x69, 0x06, 0x30]).parseType (fun _ => none)
        (RValue.addrOf (.map .int (.ptr .int)) .mapNil)).val = .map [] ∧
    ((NewDecoder [0x7B, 0x06, 0x69, 0x06, 0x30]).parseType (fun _ => none)
        (RValue.addrOf (.map .int (.ptr .int)) .mapNil)).panic = none ∧
    ((NewDecoder [0x7B, 0x06, 0x69, 0x06, 0x30]).parseType (fun _ => none)
        (RValue.addrOf (.map .int (.ptr .int)) .mapNil)).d.savedError =
      some (.unexpectedType "ptr" "pointer, struct, interface, string or integer") ∧
    (({ NewDecoder [0x7B, 0x06, 0x69, 0x06, 0x75, 0x3A, 0x06, 0x54, 0x00] with
          userDefinedLoadMap := fun n =>
            if n = [0x54] then some (fun _ _ => { panic := none, cur := .ptr (.struct []) })
            else none } : Decoder).parseType (fun _ => none)
        (RValue.addrOf (.map .int (.ptr (.struct "main" "T" .nil))) .mapNil)).panic =
      some (.runtime "reflect.Value.SetMapIndex") ∧
    ((NewDecoder [0x7B, 0x06, 0x69, 0x06, 0x69, 0x07]).parseType (fun _ => none)
        (RValue.addrOf (.map .int .int) .mapNil)).val = .map [(.int 1, .int 2)] := by
  refine ⟨rfl, by decide, by decide, by decide, rfl⟩

mutual
theorem goType_beq_refl : ∀ t : GoType, GoType.beq t t = true
  | .bool => rfl
  | .int => rfl
  | .int32 => rfl
  | .int64 => rfl
  | .float64 => rfl
  | .string => rfl
  | .iface => rfl
  | .slice a => by simp [GoType.beq, goType_beq_refl a]
  | .map a b => by simp [GoType.beq, goType_beq_refl a, goType_beq_refl b]
  | .ptr a => by simp [GoType.beq, goType_beq_refl a]
  | .struct p n f => by simp [GoType.beq, fields_beq_refl f]
  | .other k => by simp [GoType.beq]
theorem fields_beq_refl : ∀ f : Fields, Fields.beq f f = true
  | .nil => rfl
  | .cons n t e ty r => by simp [Fields.beq, goType_beq_refl ty, fields_beq_refl r]
end

/-- One round of the loop of the hash case for a `map[keyT]elemT`
destination, when the key and the value are parsed without a panic.  A key
whose kind is not the kind of `keyT` latches a type mismatch and the entries
are left as they were; a key of type `keyT`, when `elemT` is not a pointer
type, is set to the value.  Either way the loop goes on in the state reached
after the value, so both the key and the value are consumed. -/
theorem parseMapPairs_step (rec : Rec) (keyT elemT : GoType) (n : Nat) (d : Decoder)
    (es : List (GoValue × GoValue))
    (hk : (rec d RValue.emptyInterface).panic = none)
    (hv : (rec (rec d RValue.emptyInterface).d (RValue.addrOf elemT elemT.zero)).panic = none) :
    ((rec d RValue.emptyInterface).val.dynKind ≠ keyT.kind →
      parseMapPairs rec keyT elemT (n + 1) d es =
        parseMapPairs rec keyT elemT n
          ((rec (rec d RValue.emptyInterface).d (RValue.addrOf elemT elemT.zero)).d.saveError
            (.unexpectedType (rec d RValue.emptyInterface).val.dynKind.name
              (GoType.map keyT elemT).typeString)) es) ∧
    (∀ kv, (rec d RValue.emptyInterface).val = .iface keyT kv → elemT.kind ≠ .ptr →
      parseMapPairs rec keyT elemT (n + 1) d es =
        parseMapPairs rec keyT elemT n
          (rec (rec d RValue.emptyInterface).d (RValue.addrOf elemT elemT.zero)).d
          (mapSet es kv
            (rec (rec d RValue.emptyInterface).d (RValue.addrOf elemT elemT.zero)).val)) := by
  constructor
  · intro hne
    simp only [parseMapPairs, hk, hv]
    rw [if_pos hne]
  · intro kv hval hptr
    have hkind : ¬ ((rec d RValue.emptyInterface).val.dynKind ≠ keyT.kind) := by
      rw [hval]; simp [GoValue.dynKind]
    simp only [parseMapPairs, hk, hv]
    rw [if_neg hkind, hval]
    simp [setMapIndex, goType_beq_refl, hptr]

/-! ## Destinations that cannot be set -/

/-- With a destination that cannot be set, the cases null, true, false and
integer return without writing and without latching an error, and the object
and hash cases run their skip loops; the string, symbol, instance-variable
and array cases have no such branch. -/
theorem parseType_unsettable_skips (rec : Rec) (d : Decoder) (val : RValue) (b : Bool)
    (h : val.canSet = false) :
    parseTypeNull d val = Res.ok d val.cur ∧
    parseTypeBool b d val = Res.ok d val.cur ∧
    parseTypeFixNum d val = Res.ok d.parseInt.2 val.cur ∧
    parseTypeHash rec d val =
      { panic := (skipPairs rec d.parseInt.1.toNat d.parseInt.2 .nil).panic,
        d := (skipPairs rec d.parseInt.1.toNat d.parseInt.2 .nil).d, val := val.cur } ∧
    (d.parseSymbolOrSymbolLink.panic = none →
      parseTypeObject rec d val =
        { panic := (skipFields rec d.parseSymbolOrSymbolLink.d.parseInt.1.toNat
            d.parseSymbolOrSymbolLink.d.parseInt.2 .nil).panic,
          d := (skipFields rec d.parseSymbolOrSymbolLink.d.parseInt.1.toNat
            d.parseSymbolOrSymbolLink.d.parseInt.2 .nil).d, val := val.cur }) := by
  refine ⟨by simp [parseTypeNull, h], by simp [parseTypeBool, h],
    by simp [parseTypeFixNum, h], by simp [parseTypeHash, h], ?_⟩
  intro hcls
  simp [parseTypeObject, hcls, h]


/-! ## The checks of `Decode` on its destination -/

/-- C21. `Decode` with a destination that is not a pointer, with a pointer
through which nothing can be set (a nil pointer), or with a settable pointer
to a pointer returns one of its four input errors without a panic, and the
decoder is as it was before the call: no byte of the buffer was read, and
the destination holds what it held. -/
theorem Decode_bad_destination (parseFloat : GoString → Option Nat) (d : Decoder)
    (v : DecodeArg)
    (h : (∃ k, v = .nonPointer k) ∨
      (∃ val, v = .pointer val ∧ (val.isNil = true ∨ val.elemType.kind = .ptr))) :
    (d.Decode parseFloat v).d = d ∧
    (d.Decode parseFloat v).d.r = d.r ∧
    (d.Decode parseFloat v).panic = none ∧
    (∀ val, v = .pointer val → (d.Decode parseFloat v).cur = val.cur) ∧
    ((d.Decode parseFloat v).err = some (.text "pointer required for Decode") ∨
     (d.Decode parseFloat v).err = some (.text
       "pointer must either be not nil or you need to provide a pointer-to-pointer (&ptr)") ∨
     (d.Decode parseFloat v).err = some (.text "unable to call Set on given type") ∨
     (d.Decode parseFloat v).err =
       some (.text "pointer-to-pointer indirection not implemented")) := by
  rcases h with ⟨k, rfl⟩ | ⟨val, rfl, hv⟩
  · simp [Decoder.Decode, DecodeResult.early]
  · by_cases hc : val.canSet = true
    · have hnil : val.isNil = false := by
        simp [RValue.canSet] at hc; exact hc.1
      have hp : val.elemType.kind = .ptr := by
        rcases hv with hv | hv
        · rw [hnil] at hv; exact absurd hv (by decide)
        · exact hv
      simp [Decoder.Decode, DecodeResult.early, hc, hp]
    · have hc2 : val.canSet = false := by simpa using hc
      by_cases hs : val.elemType.kind = .struct
      · simp [Decoder.Decode, DecodeResult.early, hc2, hs]
      · simp [Decoder.Decode, DecodeResult.early, hc2, hs]

theorem Decode_bad_destination_witness :
    ((NewDecoder [0x04, 0x08, 0x30]).Decode (fun _ => none)
        (.pointer { elemType := .int, isNil := true, ro := false, cur := .nil })).d.r =
      [0x04, 0x08, 0x30] :=
  (Decode_bad_destination (fun _ => none) (NewDecoder [0x04, 0x08, 0x30])
    (.pointer { elemType := .int, isNil := true, ro := false, cur := .nil })
    (Or.inr ⟨_, rfl, Or.inl rfl⟩)).2.1

/-- The three kinds of rejected destination on the buffer `04 08 30`: a
`string` passed by value, a nil `*Table`, and a pointer to a pointer. -/
theorem Decode_bad_destination_examples :
    ((NewDecoder [0x04, 0x08, 0x30]).Decode (fun _ => none) (.nonPointer .string)).err =
      some (.text "pointer required for Decode") ∧
    ((NewDecoder [0x04, 0x08, 0x30]).Decode (fun _ => none)
        (.pointer { elemType := tableType, isNil := true, ro := false, cur := .nil })).err =
      some (.text
        "pointer must either be not nil or you need to provide a pointer-to-pointer (&ptr)") ∧
    ((NewDecoder [0x04, 0x08, 0x30]).Decode (fun _ => none)
        (.pointer (RValue.addrOf (.ptr .int) .nil))).err =
      some (.text "pointer-to-pointer indirection not implemented") := by
  refine ⟨by decide, by decide, by decide⟩

/-! ## User defined values -/

theorem parseType_tagUserDefined (parseFloat : GoString → Option Nat) (d : Decoder)
    (val : RValue) (rest : List Byte) (h : d.r = typeUserDefined :: rest) :
    d.parseType parseFloat val = parseTypeUserDefined { d with r := rest } val := by
  rw [parseType_eq_step parseFloat d val _ rfl, parseTypeStep_cons _ _ _ _ _ _ h,
    if_neg (by decide), if_neg (by decide),
    if_neg (by decide), if_neg (by decide), if_neg (by decide), if_neg (by decide),
    if_neg (by decide), if_neg (by decide), if_neg (by decide), if_neg (by decide),
    if_neg (by decide), if_neg (by decide), if_pos rfl]

/-- The registry is the same after the class name and the byte count were
read. -/
theorem userDefined_registry (d0 d1 d2 : Decoder) (cls : GoString) (byteCount : Int)
    (hcls : d0.parseSymbolOrSymbolLink = Res.ok d1 cls)
    (hcount : d1.parseInt = (byteCount, d2)) :
    d2.userDefinedLoadMap = d0.userDefinedLoadMap := by
  have h1 := (parseSymbolOrSymbolLink_ext d0).callbacks
  have h2 := (parseInt_ext d1).callbacks
  rw [hcls] at h1
  rw [hcount] at h2
  simp only [Res.ok] at h1
  simp only at h2
  rw [h2, h1]

/-- The case `typeUserDefined` once the class name and a count that is not
negative were read. -/
theorem parseTypeUserDefined_eq (d0 d1 d2 : Decoder) (val : RValue) (cls : GoString)
    (byteCount : Int) (hcls : d0.parseSymbolOrSymbolLink = Res.ok d1 cls)
    (hcount : d1.parseInt = (byteCount, d2)) (hlen : 0 ≤ byteCount) :
    parseTypeUserDefined d0 val =
      match d2.userDefinedLoadMap cls with
      | none =>
        Res.fail (.unhandledUserDefined cls) { d2 with r := d2.r.drop byteCount.toNat }
          val.cur
      | some funcCallback =>
        { panic := (funcCallback (d2.r.take byteCount.toNat) val).panic.map Panic.callback,
          d := { d2 with r := d2.r.drop byteCount.toNat },
          val := (funcCallback (d2.r.take byteCount.toNat) val).cur } := by
  have hnot : ¬ byteCount < 0 := not_lt.mpr hlen
  unfold parseTypeUserDefined
  simp only [hcls, Res.ok, hcount, hnot, if_false, bufferNext]

/-- A negative byte count makes `bytes.Buffer.Next` panic before the
registry is consulted. -/
theorem parseTypeUserDefined_negative_count (d0 d1 d2 : Decoder) (val : RValue)
    (cls : GoString) (byteCount : Int) (hcls : d0.parseSymbolOrSymbolLink = Res.ok d1 cls)
    (hcount : d1.parseInt = (byteCount, d2)) (hlen : byteCount < 0) :
    parseTypeUserDefined d0 val =
      Res.fail (.runtime "slice bounds out of range") d2 val.cur := by
  unfold parseTypeUserDefined
  simp only [hcls, Res.ok, hcount, hlen, if_true]

/-- C22. For a value with the tag `u` whose class name is read (as a symbol
or a symbol link) as `cls` and whose byte count is not negative: when the
registry of the decoder has no callback under `cls`, `parseType` panics with
the text that ends in `cls`, in the state reached after the payload was
skipped, and the destination holds what it held, so no callback acted on it;
when the registry has the callback `f` under `cls`, the outcome of
`parseType` is that of the one call of `f`: its panic, if any, and the
contents `f` left in the destination. -/
theorem parseType_userDefined_handler (parseFloat : GoString → Option Nat)
    (d d1 d2 : Decoder) (val : RValue) (rest : List Byte) (cls : GoString)
    (byteCount : Int) (hr : d.r = typeUserDefined :: rest)
    (hcls : ({ d with r := rest } : Decoder).parseSymbolOrSymbolLink = Res.ok d1 cls)
    (hcount : d1.parseInt = (byteCount, d2)) (hlen : 0 ≤ byteCount) :
    (d.userDefinedLoadMap cls = none →
      d.parseType parseFloat val =
        Res.fail (.unhandledUserDefined cls) { d2 with r := d2.r.drop byteCount.toNat }
          val.cur) ∧
    (∀ f, d.userDefinedLoadMap cls = some f →
      (d.parseType parseFloat val).panic =
        (f (d2.r.take byteCount.toNat) val).panic.map Panic.callback ∧
      (d.parseType parseFloat val).val = (f (d2.r.take byteCount.toNat) val).cur ∧
      ((d.parseType parseFloat val).panic ≠ some (.unhandledUserDefined cls))) := by
  have hreg : d2.userDefinedLoadMap = d.userDefinedLoadMap :=
    userDefined_registry ({ d with r := rest } : Decoder) d1 d2 cls byteCount hcls hcount
  rw [parseType_tagUserDefined parseFloat d val rest hr,
    parseTypeUserDefined_eq _ d1 d2 val cls byteCount hcls hcount hlen]
  constructor
  · intro hnone
    rw [← hreg] at hnone
    simp only [hnone]
  · intro f hf
    rw [← hreg] at hf
    simp only [hf]
    refine ⟨trivial, trivial, ?_⟩
    cases (f (List.take byteCount.toNat d2.r) val).panic <;> simp

theorem parseType_userDefined_handler_witness :
    (NewDecoder [0x75, 0x3A, 0x06, 0x54, 0x00]).parseType (fun _ => none)
        (RValue.addrOf .iface .nil) =
      Res.fail (.unhandledUserDefined [0x54])
        { r := [], symbols := [[0x54]], userDefinedLoadMap := fun _ => none,
          savedError := none } GoValue.nil :=
  (parseType_userDefined_handler (fun _ => none) (NewDecoder [0x75, 0x3A, 0x06, 0x54, 0x00])
    { r := [0x00], symbols := [[0x54]], userDefinedLoadMap := fun _ => none,
      savedError := none }
    { r := [], symbols := [[0x54]], userDefinedLoadMap := fun _ => none,
      savedError := none }
    (RValue.addrOf .iface .nil) [0x3A, 0x06, 0x54, 0x00] [0x54] 0 rfl rfl rfl
    (le_refl 0)).1 rfl

/-- C23. For a value with the tag `u` whose class name `cls` has the
callback `f`, whose byte count is `n ≥ 0`, and for which the `n` bytes `data`
follow the count in the buffer: `f` is applied to `data`, these `n` bytes as
they are, and to the destination `val` that `parseType` was given; the
unread bytes after the call are those after `data`; and nothing else of the
decoder state changes after the count was read. -/
theorem parseType_userDefined_payload (parseFloat : GoString → Option Nat)
    (d d1 d2 : Decoder) (val : RValue) (rest data tail : List Byte) (cls : GoString)
    (byteCount : Int) (f : List Byte → RValue → CallbackResult)
    (hr : d.r = typeUserDefined :: rest)
    (hcls : ({ d with r := rest } : Decoder).parseSymbolOrSymbolLink = Res.ok d1 cls)
    (hcount : d1.parseInt = (byteCount, d2)) (hlen : 0 ≤ byteCount)
    (hdata : d2.r = data ++ tail) (hn : (data.length : Int) = byteCount)
    (hf : d.userDefinedLoadMap cls = some f) :
    d.parseType parseFloat val =
      { panic := (f data val).panic.map Panic.callback,
        d := { d2 with r := tail },
        val := (f data val).cur } ∧
    (d.parseType parseFloat val).d.r = tail ∧
    d2.r.length = (d.parseType parseFloat val).d.r.length + byteCount.toNat := by
  have hlen2 : byteCount.toNat = data.length := by
    rw [← hn]; simp
  have htake : d2.r.take byteCount.toNat = data := by
    rw [hdata, hlen2]; simp
  have hdrop : d2.r.drop byteCount.toNat = tail := by
    rw [hdata, hlen2]; simp
  have hreg : d2.userDefinedLoadMap = d.userDefinedLoadMap :=
    userDefined_registry ({ d with r := rest } : Decoder) d1 d2 cls byteCount hcls hcount
  rw [← hreg] at hf
  rw [parseType_tagUserDefined parseFloat d val rest hr,
    parseTypeUserDefined_eq _ d1 d2 val cls byteCount hcls hcount hlen]
  simp only [hf, htake, hdrop]
  refine ⟨trivial, trivial, ?_⟩
  rw [hdata, hlen2, List.length_append]
  omega

theorem parseType_userDefined_payload_witness :
    (({ r := [0x75, 0x3A, 0x06, 0x54, 0x07, 0xAA, 0xBB, 0x30], symbols := [],
        userDefinedLoadMap := fun n =>
          if n = [0x54] then some (fun data _ => { panic := none, cur := .string data })
          else none,
        savedError := none } : Decoder).parseType (fun _ => none)
      (RValue.addrOf .string (.string []))).d.r = [0x30] :=
  (parseType_userDefined_payload (fun _ => none)
    { r := [0x75, 0x3A, 0x06, 0x54, 0x07, 0xAA, 0xBB, 0x30], symbols := [],
      userDefinedLoadMap := fun n =>
        if n = [0x54] then some (fun data _ => { panic := none, cur := .string data })
        else none,
      savedError := none }
    { r := [0x07, 0xAA, 0xBB, 0x30], symbols := [[0x54]],
      userDefinedLoadMap := fun n =>
        if n = [0x54] then some (fun data _ => { panic := none, cur := .string data })
        else none,
      savedError := none }
    { r := [0xAA, 0xBB, 0x30], symbols := [[0x54]],
      userDefinedLoadMap := fun n =>
        if n = [0x54] then some (fun data _ => { panic := none, cur := .string data })
        else none,
      savedError := none }
    (RValue.addrOf .string (.string [])) [0x3A, 0x06, 0x54, 0x07, 0xAA, 0xBB, 0x30]
    [0xAA, 0xBB] [0x30] [0x54] 2
    (fun data _ => { panic := none, cur := .string data })
    rfl rfl rfl (by decide) rfl rfl rfl).2.1

/-- A callback registered with `AddUserDefinedLoad` for the class `T` that
stores the bytes it is given: the value `u :T` with the two bytes `AA BB`
leaves exactly these in the destination, and the byte after them unread; a
second value of a class without a callback then panics. -/
theorem parseType_userDefined_example :
    (((NewDecoder [0x75, 0x3A, 0x06, 0x54, 0x07, 0xAA, 0xBB, 0x30]).AddUserDefinedLoad [0x54]
        (fun data _ => { panic := none, cur := .string data })).map
      (fun d => (d.parseType (fun _ => none) (RValue.addrOf .string (.string []))).val)) =
      some (.string [0xAA, 0xBB]) ∧
    (((NewDecoder [0x75, 0x3A, 0x06, 0x55, 0x07, 0xAA, 0xBB, 0x30]).AddUserDefinedLoad [0x54]
        (fun data _ => { panic := none, cur := .string data })).map
      (fun d => (d.parseType (fun _ => none) (RValue.addrOf .string (.string []))).panic)) =
      some (some (.unhandledUserDefined [0x55])) := by
  refine ⟨rfl, by decide⟩

/-! ## Strings wrapped in instance variables -/

theorem parseType_tagIVar (parseFloat : GoString → Option Nat) (d : Decoder)
    (val : RValue) (rest : List Byte) (h : d.r = typeIVar :: rest) :
    d.parseType parseFloat val = parseTypeIVar { d with r := rest } val := by
  rw [parseType_eq_step parseFloat d val _ rfl, parseTypeStep_cons _ _ _ _ _ _ h,
    if_neg (by decide), if_neg (by decide),
    if_neg (by decide), if_neg (by decide), if_neg (by decide), if_neg (by decide),
    if_neg (by decide), if_neg (by decide), if_neg (by decide), if_pos rfl]

theorem parseType_tagString (parseFloat : GoString → Option Nat) (d : Decoder)
    (val : RValue) (rest : List Byte) (h : d.r = typeString :: rest) :
    d.parseType parseFloat val = parseTypeString { d with r := rest } val := by
  rw [parseType_eq_step parseFloat d val _ rfl, parseTypeStep_cons _ _ _ _ _ _ h,
    if_neg (by decide), if_neg (by decide),
    if_neg (by decide), if_neg (by decide), if_neg (by decide), if_neg (by decide),
    if_neg (by decide), if_neg (by decide), if_pos rfl]

theorem MustReadByte_cons (d : Decoder) (b : Byte) (rest : List Byte) (h : d.r = b :: rest) :
    d.MustReadByte = Res.ok { d with r := rest } b := by
  unfold Decoder.MustReadByte
  rw [h]
  rfl

/-- The metadata of an instance-variable value with the count 1: a symbol
or symbol link, then one byte that has to be the tag `T`. -/
theorem parseIVarMeta_one (dS dN dY : Decoder) (name : GoString) (b : Byte)
    (rest : List Byte) (hone : dS.parseInt = (1, dN))
    (hsym : dN.parseSymbolOrSymbolLink = Res.ok dY name) (hb : dY.r = b :: rest) :
    parseIVarMeta dS =
      if b ≠ typeTrue then Res.fail (.ivarBool b) { dY with r := rest } ()
      else Res.ok { dY with r := rest } () := by
  unfold parseIVarMeta
  simp only [hone, if_true, hsym, Res.ok, MustReadByte_cons dY b rest hb]

theorem bindString_val (d e : Decoder) (val : RValue) (str : GoString) :
    (bindString d val str).val = (bindString e val str).val ∧
    (bindString d val str).panic = (bindString e val str).panic ∧
    (bindString d val str).d.r = d.r := by
  unfold bindString setOrPanic
  by_cases h : val.elemKind ≠ .interface ∧ val.elemKind ≠ .string
  · rw [if_pos h, if_pos h]
    refine ⟨rfl, rfl, ?_⟩
    simp only [Res.ok, Decoder.saveError]
    cases d.savedError <;> rfl
  · rw [if_neg h, if_neg h]
    cases val.set .string (.string str) <;> simp [Res.ok, Res.fail]

theorem bindString_settable (d : Decoder) (val : RValue) (str : GoString)
    (hset : val.canSet = true) :
    (val.elemType = .string → bindString d val str = Res.ok d (.string str)) ∧
    (val.elemType = .iface → bindString d val str = Res.ok d (.iface .string (.string str))) := by
  have hnil : val.isNil = false := by
    simp [RValue.canSet] at hset; exact hset.1
  constructor
  · intro ht
    simp [bindString, setOrPanic, RValue.set, RValue.elemKind, hnil, ht, hset, GoType.kind,
      GoType.beq]
  · intro ht
    simp [bindString, setOrPanic, RValue.set, RValue.elemKind, hnil, ht, hset, GoType.kind,
      GoType.beq]

/-- C27. The wrapped form is the tag `I`, a string value (the tag `"` and
the payload read as `s`), the count 1, a symbol or symbol link, and one byte
`b`.  When `b` is the tag `T`, parsing the wrapped form binds what parsing
the plain string value binds (the same contents of the destination and the
same panic, if any), leaves unread exactly what follows the `T`, and for a
settable `string` or `interface{}` destination it binds `s` without a panic;
the symbol and the boolean leave no trace in the destination.  When `b` is
not `T`, `parseType` panics with the error that names `b`; and when the byte
after `I` is not the tag `"`, it panics with the error that names that
byte. -/
theorem parseType_ivar_string (parseFloat : GoString → Option Nat)
    (d dS dN dY : Decoder) (val : RValue) (w rest : List Byte) (s name : GoString)
    (b : Byte) (hr : d.r = typeIVar :: typeString :: w)
    (hs : ({ d with r := w } : Decoder).parseString = Res.ok dS s)
    (hone : dS.parseInt = (1, dN))
    (hsym : dN.parseSymbolOrSymbolLink = Res.ok dY name)
    (hb : dY.r = b :: rest) :
    (b = typeTrue →
      d.parseType parseFloat val = bindString { dY with r := rest } val s ∧
      ({ d with r := typeString :: w } : Decoder).parseType parseFloat val =
        bindString dS val s ∧
      (d.parseType parseFloat val).val =
        (({ d with r := typeString :: w } : Decoder).parseType parseFloat val).val ∧
      (d.parseType parseFloat val).panic =
        (({ d with r := typeString :: w } : Decoder).parseType parseFloat val).panic ∧
      (d.parseType parseFloat val).d.r = rest ∧
      (val.canSet = true → val.elemType = .string →
        d.parseType parseFloat val = Res.ok { dY with r := rest } (.string s)) ∧
      (val.canSet = true → val.elemType = .iface →
        d.parseType parseFloat val =
          Res.ok { dY with r := rest } (.iface .string (.string s)))) ∧
    (b ≠ typeTrue →
      d.parseType parseFloat val = Res.fail (.ivarBool b) { dY with r := rest } val.cur) ∧
    (∀ (e : Decoder) (k : Byte) (w1 : List Byte), e.r = typeIVar :: k :: w1 →
      k ≠ typeString →
      e.parseType parseFloat val = Res.fail (.ivarKind k) { e with r := w1 } val.cur) := by
  have hmeta := parseIVarMeta_one dS dN dY name b rest hone hsym hb
  have hivar : d.parseType parseFloat val =
      match (parseIVarMeta dS).panic with
      | some p => Res.fail p (parseIVarMeta dS).d val.cur
      | none => bindString (parseIVarMeta dS).d val s := by
    rw [parseType_tagIVar parseFloat d val _ hr]
    unfold parseTypeIVar
    rw [MustReadByte_cons _ typeString w rfl]
    simp only [Res.ok, ne_eq, not_true_eq_false, if_false]
    rw [hs]
    rfl
  have hplain : ({ d with r := typeString :: w } : Decoder).parseType parseFloat val =
      bindString dS val s := by
    rw [parseType_tagString parseFloat _ val w rfl]
    unfold parseTypeString
    rw [hs]
    rfl
  refine ⟨?_, ?_, ?_⟩
  · intro hT
    have hm : parseIVarMeta dS = Res.ok { dY with r := rest } () := by
      rw [hmeta, if_neg (by simp [hT])]
    have h1 : d.parseType parseFloat val = bindString { dY with r := rest } val s := by
      rw [hivar, hm]; rfl
    have hb3 := bindString_val { dY with r := rest } dS val s
    refine ⟨h1, hplain, ?_, ?_, ?_, ?_, ?_⟩
    · rw [h1, hplain]; exact hb3.1
    · rw [h1, hplain]; exact hb3.2.1
    · rw [h1]; exact hb3.2.2
    · intro hset ht
      rw [h1]; exact (bindString_settable _ val s hset).1 ht
    · intro hset ht
      rw [h1]; exact (bindString_settable _ val s hset).2 ht
  · intro hT
    have hm : parseIVarMeta dS = Res.fail (.ivarBool b) { dY with r := rest } () := by
      rw [hmeta, if_pos hT]
    rw [hivar, hm]; rfl
  · intro e k w1 he hk
    rw [parseType_tagIVar parseFloat e val _ he]
    unfold parseTypeIVar
    rw [MustReadByte_cons _ k w1 rfl]
    simp only [Res.ok, hk, ne_eq, not_false_eq_true, if_true]

theorem parseType_ivar_string_witness :
    (NewDecoder [0x49, 0x22, 0x06, 0x61, 0x06, 0x3A, 0x06, 0x45, 0x54, 0x30]).parseType
        (fun _ => none) (RValue.addrOf .string (.string [])) =
      Res.ok
        { r := [0x30], symbols := [[0x45]], userDefinedLoadMap := fun _ => none,
          savedError := none }
        (.string [0x61]) :=
  ((parseType_ivar_string (fun _ => none)
    (NewDecoder [0x49, 0x22, 0x06, 0x61, 0x06, 0x3A, 0x06, 0x45, 0x54, 0x30])
    { r := [0x06, 0x3A, 0x06, 0x45, 0x54, 0x30], symbols := [],
      userDefinedLoadMap := fun _ => none, savedError := none }
    { r := [0x3A, 0x06, 0x45, 0x54, 0x30], symbols := [],
      userDefinedLoadMap := fun _ => none, savedError := none }
    { r := [0x54, 0x30], symbols := [[0x45]],
      userDefinedLoadMap := fun _ => none, savedError := none }
    (RValue.addrOf .string (.string [])) [0x06, 0x61, 0x06, 0x3A, 0x06, 0x45, 0x54, 0x30]
    [0x30] [0x61] [0x45] 0x54 rfl rfl rfl rfl rfl).1 rfl).2.2.2.2.2.1 rfl rfl

/-- The string `a` wrapped with the pair `:E => true`, decoded into an
`interface{}`, binds what the plain string `"a"` binds and consumes the ten
bytes; with the boolean `F` in place of `T`, and with a symbol in place of
the string, `parseType` panics. -/
theorem Decode_ivar_examples :
    ((NewDecoder [0x04, 0x08, 0x49, 0x22, 0x06, 0x61, 0x06, 0x3A, 0x06, 0x45, 0x54]).Decode
        (fun _ => none) (.pointer (RValue.addrOf .iface .nil))).cur =
      ((NewDecoder [0x04, 0x08, 0x22, 0x06, 0x61]).Decode
        (fun _ => none) (.pointer (RValue.addrOf .iface .nil))).cur ∧
    ((NewDecoder [0x04, 0x08, 0x49, 0x22, 0x06, 0x61, 0x06, 0x3A, 0x06, 0x45, 0x54]).Decode
        (fun _ => none) (.pointer (RValue.addrOf .iface .nil))).cur =
      .iface .string (.string [0x61]) ∧
    ((NewDecoder [0x04, 0x08, 0x49, 0x22, 0x06, 0x61, 0x06, 0x3A, 0x06, 0x45, 0x54]).Decode
        (fun _ => none) (.pointer (RValue.addrOf .iface .nil))).d.r = [] ∧
    ((NewDecoder [0x04, 0x08, 0x49, 0x22, 0x06, 0x61, 0x06, 0x3A, 0x06, 0x45, 0x54]).Decode
        (fun _ => none) (.pointer (RValue.addrOf .iface .nil))).err = none ∧
    ((NewDecoder [0x49, 0x22, 0x06, 0x61, 0x06, 0x3A, 0x06, 0x45, 0x46]).parseType
        (fun _ => none) (RValue.addrOf .iface .nil)).panic = some (.ivarBool 0x46) ∧
    ((NewDecoder [0x49, 0x3A, 0x06, 0x61, 0x06, 0x3A, 0x06, 0x45, 0x54]).parseType
        (fun _ => none) (RValue.addrOf .iface .nil)).panic = some (.ivarKind 0x3A) := by
  refine ⟨rfl, rfl, by decide, by decide, by decide, by decide⟩

/-! ## Floats -/

theorem parseType_tagFloat (parseFloat : GoString → Option Nat) (d : Decoder)
    (val : RValue) (rest : List Byte) (h : d.r = typeFloat :: rest) :
    d.parseType parseFloat val = parseTypeFloat parseFloat { d with r := rest } val := by
  rw [parseType_eq_step parseFloat d val _ rfl, parseTypeStep_cons _ _ _ _ _ _ h,
    if_neg (by decide), if_neg (by decide), if_neg (by decide), if_pos rfl]

/-- The loop of the float case keeps the bytes before the first zero
byte. -/
theorem truncateAtZero_spec (str : GoString) :
    truncateAtZero str = str.takeWhile (fun c => decide (c ≠ 0)) ∧
    (∀ c ∈ truncateAtZero str, c ≠ 0) ∧
    (∃ tail, str = truncateAtZero str ++ tail ∧ (tail = [] ∨ tail.head? = some 0)) ∧
    ((∀ c ∈ str, c ≠ 0) → truncateAtZero str = str) := by
  induction str with
  | nil => simp [truncateAtZero]
  | cons c rest ih =>
    obtain ⟨h1, h2, ⟨tail, h3, h4⟩, h5⟩ := ih
    by_cases hc : c = 0
    · subst hc
      simp [truncateAtZero]
    · refine ⟨?_, ?_, ?_, ?_⟩
      · simp [truncateAtZero, hc, h1]
      · intro x hx
        simp only [truncateAtZero, hc, if_false, List.mem_cons] at hx
        rcases hx with rfl | hx
        · exact hc
        · exact h2 x hx
      · refine ⟨tail, ?_, h4⟩
        simp only [truncateAtZero, hc, if_false, List.cons_append]
        rw [← h3]
      · intro hall
        simp only [truncateAtZero, hc, if_false]
        rw [h5 (fun x hx => hall x (List.mem_cons_of_mem c hx))]

/-- The float case after its payload `str`, not one of the three literals,
was read: everything it does is a function of the text
`truncateAtZero str`. -/
theorem parseTypeFloat_nonliteral (parseFloat : GoString → Option Nat) (d0 dS : Decoder)
    (val : RValue) (str : GoString) (hs : d0.parseString = Res.ok dS str)
    (hlit : str ≠ [0x6E, 0x61, 0x6E] ∧ str ≠ [0x69, 0x6E, 0x66] ∧
      str ≠ [0x2D, 0x69, 0x6E, 0x66]) :
    parseTypeFloat parseFloat d0 val =
      if !val.canSet then Res.ok dS val.cur
      else
        match parseFloat (truncateAtZero str) with
        | none =>
          Res.ok (dS.saveError (.invalidFloat64 (truncateAtZero str))) val.cur
        | some f =>
          if val.elemKind = .interface then
            setOrPanic dS val .float64 (.float64 f)
          else if val.elemKind = .float64 then Res.ok dS (.float64 f)
          else
            Res.ok (dS.saveError (.unexpectedType val.elemKind.name "float64"))
              val.cur := by
  unfold parseTypeFloat floatOfString
  rw [hs]
  simp only [Res.ok, if_neg hlit.1, if_neg hlit.2.1, if_neg hlit.2.2]

theorem saveError_r (d : Decoder) (e : GoError) :
    (d.saveError e).r = d.r ∧
    (d.saveError e).savedError = (match d.savedError with | none => some e | some x => some x) := by
  unfold Decoder.saveError
  cases h : d.savedError <;> simp [h]

/-- C28. For a float value whose payload `str` is not one of the literals
`nan`, `inf`, `-inf`: the text given to `strconv.ParseFloat` is
`truncateAtZero str`, the bytes of `str` before its first zero byte (all of
`str` when it has none).  Hence for a second such value with the payload
`str2`, read by a decoder with the same error latch, that has the same text
before its first zero byte: both bind the same contents, panic alike, and
leave the same error latch; and each leaves unread exactly what follows its
whole payload. -/
theorem parseType_float_truncates (parseFloat : GoString → Option Nat)
    (d dS e eS : Decoder) (val : RValue) (rest rest2 : List Byte) (str str2 : GoString)
    (hr : d.r = typeFloat :: rest)
    (hs : ({ d with r := rest } : Decoder).parseString = Res.ok dS str)
    (hlit : str ≠ [0x6E, 0x61, 0x6E] ∧ str ≠ [0x69, 0x6E, 0x66] ∧
      str ≠ [0x2D, 0x69, 0x6E, 0x66])
    (hr2 : e.r = typeFloat :: rest2)
    (hs2 : ({ e with r := rest2 } : Decoder).parseString = Res.ok eS str2)
    (hlit2 : str2 ≠ [0x6E, 0x61, 0x6E] ∧ str2 ≠ [0x69, 0x6E, 0x66] ∧
      str2 ≠ [0x2D, 0x69, 0x6E, 0x66])
    (hagree : truncateAtZero str = truncateAtZero str2)
    (herr : d.savedError = e.savedError) :
    floatOfString parseFloat str = parseFloat (truncateAtZero str) ∧
    truncateAtZero str = str.takeWhile (fun c => decide (c ≠ 0)) ∧
    (∃ tail, str = truncateAtZero str ++ tail ∧ (tail = [] ∨ tail.head? = some 0)) ∧
    (d.parseType parseFloat val).val = (e.parseType parseFloat val).val ∧
    (d.parseType parseFloat val).panic = (e.parseType parseFloat val).panic ∧
    (d.parseType parseFloat val).d.savedError = (e.parseType parseFloat val).d.savedError ∧
    (d.parseType parseFloat val).d.r = dS.r ∧
    (e.parseType parseFloat val).d.r = eS.r := by
  have hsp := truncateAtZero_spec str
  have hdS : dS.savedError = d.savedError := by
    have h := parseString_savedError ({ d with r := rest } : Decoder)
    rw [hs] at h
    exact h
  have heS : eS.savedError = e.savedError := by
    have h := parseString_savedError ({ e with r := rest2 } : Decoder)
    rw [hs2] at h
    exact h
  have hSS : dS.savedError = eS.savedError := by rw [hdS, heS, herr]
  have hsave : ∀ x, (dS.saveError x).savedError = (eS.saveError x).savedError := by
    intro x
    rw [(saveError_r dS x).2, (saveError_r eS x).2, hSS]
  have L1 := parseTypeFloat_nonliteral parseFloat _ dS val str hs hlit
  have L2 := parseTypeFloat_nonliteral parseFloat _ eS val str2 hs2 hlit2
  rw [← hagree] at L2
  rw [parseType_tagFloat parseFloat d val rest hr, parseType_tagFloat parseFloat e val rest2 hr2,
    L1, L2]
  refine ⟨?_, hsp.1, hsp.2.2.1, ?_⟩
  · unfold floatOfString
    rw [if_neg hlit.1, if_neg hlit.2.1, if_neg hlit.2.2]
  · by_cases hc : (!val.canSet) = true
    · rw [if_pos hc, if_pos hc]
      exact ⟨rfl, rfl, hSS, rfl, rfl⟩
    · rw [if_neg hc, if_neg hc]
      cases parseFloat (truncateAtZero str) with
      | none =>
        exact ⟨rfl, rfl, hsave _, (saveError_r dS _).1, (saveError_r eS _).1⟩
      | some f =>
        dsimp only
        by_cases hi : val.elemKind = .interface
        · rw [if_pos hi, if_pos hi]
          unfold setOrPanic
          cases val.set .float64 (.float64 f) with
          | none => exact ⟨rfl, rfl, hSS, rfl, rfl⟩
          | some v => exact ⟨rfl, rfl, hSS, rfl, rfl⟩
        · rw [if_neg hi, if_neg hi]
          by_cases hf : val.elemKind = .float64
          · rw [if_pos hf, if_pos hf]
            exact ⟨rfl, rfl, hSS, rfl, rfl⟩
          · rw [if_neg hf, if_neg hf]
            exact ⟨rfl, rfl, hsave _, (saveError_r dS _).1, (saveError_r eS _).1⟩

theorem parseType_float_truncates_witness :
    ((NewDecoder [0x66, 0x08, 0x31, 0x00, 0x3C, 0x30]).parseType
        (fun s => if s = [0x31] then some 0x3FF0000000000000 else none)
        (RValue.addrOf .float64 (.float64 0))).val =
      ((NewDecoder [0x66, 0x06, 0x31]).parseType
        (fun s => if s = [0x31] then some 0x3FF0000000000000 else none)
        (RValue.addrOf .float64 (.float64 0))).val :=
  (parseType_float_truncates
    (fun s => if s = [0x31] then some 0x3FF0000000000000 else none)
    (NewDecoder [0x66, 0x08, 0x31, 0x00, 0x3C, 0x30])
    { r := [0x30], symbols := [], userDefinedLoadMap := fun _ => none, savedError := none }
    (NewDecoder [0x66, 0x06, 0x31])
    { r := [], symbols := [], userDefinedLoadMap := fun _ => none, savedError := none }
    (RValue.addrOf .float64 (.float64 0)) [0x08, 0x31, 0x00, 0x3C, 0x30] [0x06, 0x31]
    [0x31, 0x00, 0x3C] [0x31] rfl rfl (by decide) rfl rfl (by decide) rfl rfl).2.2.2.1

/-- The payload `1\0<` binds what the payload `1` binds and is consumed
whole; a payload that does not parse latches the error with the truncated
text; and the literal `inf` binds the largest finite number. -/
theorem parseType_float_examples :
    ((NewDecoder [0x66, 0x08, 0x31, 0x00, 0x3C, 0x30]).parseType
        (fun s => if s = [0x31] then some 0x3FF0000000000000 else none)
        (RValue.addrOf .float64 (.float64 0))) =
      Res.ok (NewDecoder [0x30]) (.float64 0x3FF0000000000000) ∧
    ((NewDecoder [0x66, 0x08, 0x78, 0x00, 0x3C, 0x30]).parseType
        (fun s => if s = [0x31] then some 0x3FF0000000000000 else none)
        (RValue.addrOf .float64 (.float64 0))).d.savedError =
      some (.invalidFloat64 [0x78]) ∧
    ((NewDecoder [0x66, 0x08, 0x78, 0x00, 0x3C, 0x30]).parseType
        (fun s => if s = [0x31] then some 0x3FF0000000000000 else none)
        (RValue.addrOf .float64 (.float64 0))).d.r = [0x30] ∧
    ((NewDecoder [0x66, 0x08, 0x69, 0x6E, 0x66]).parseType (fun _ => none)
        (RValue.addrOf .float64 (.float64 0))).val = .float64 float64Max := by
  refine ⟨rfl, by decide, by decide, rfl⟩

/-! ## Package `rmvx`: reading little-endian integers -/

theorem lor_shiftLeft_eq_add (x y k : Nat) (hx : x < 2 ^ k) :
    x ||| (y <<< k) = x + 2 ^ k * y := by
  rw [Nat.shiftLeft_eq, Nat.mul_comm, Nat.lor_comm, ← Nat.mul_add_lt_is_or hx, Nat.add_comm]

theorem lor_bytes2 (b0 b1 : Byte) :
    b0.val ||| (b1.val <<< 8) = leValue [b0, b1] := by
  have h0 := b0.isLt
  rw [lor_shiftLeft_eq_add _ _ 8 (by omega)]
  simp only [leValue]
  omega

theorem lor_bytes4 (b0 b1 b2 b3 : Byte) :
    b0.val ||| (b1.val <<< 8) ||| (b2.val <<< 16) ||| (b3.val <<< 24) =
      leValue [b0, b1, b2, b3] := by
  have h0 := b0.isLt
  have h1 := b1.isLt
  have h2 := b2.isLt
  rw [lor_shiftLeft_eq_add _ _ 8 (by omega), lor_shiftLeft_eq_add _ _ 16 (by omega),
    lor_shiftLeft_eq_add _ _ 24 (by omega)]
  simp only [leValue]
  omega

theorem mustReadInt32_append (h rest : List Byte) (hl : h.length = 4) :
    mustReadInt32 (h ++ rest) = some (wrapInt32 (leValue h), rest) := by
  match h, hl with
  | [b0, b1, b2, b3], _ =>
    simp only [mustReadInt32, List.cons_append, List.nil_append, readInto, List.take,
      List.length_cons, List.drop]
    have hz : 4 - (rest.length + 1 + 1 + 1 + 1) = 0 := by omega
    rw [hz]
    simp only [List.replicate_zero, List.append_nil, List.getD_cons_zero, List.getD_cons_succ]
    rw [lor_bytes4]
    rfl

theorem mustReadInt16_append (h rest : List Byte) (hl : h.length = 2) :
    mustReadInt16 (h ++ rest) = some (wrapInt16 (leValue h), rest) := by
  match h, hl with
  | [b0, b1], _ =>
    simp only [mustReadInt16, List.cons_append, List.nil_append, readInto, List.take,
      List.length_cons, List.drop]
    have hz : 2 - (rest.length + 1 + 1) = 0 := by omega
    rw [hz]
    simp only [List.replicate_zero, List.append_nil, List.getD_cons_zero, List.getD_cons_succ]
    rw [lor_bytes2]
    rfl

theorem readTableData_spec (n : Nat) :
    ∀ (body rest : List Byte), body.length = 2 * n →
      readTableData n (body ++ rest) = (some (int16sOf body), rest) := by
  induction n with
  | zero =>
    intro body rest hl
    have : body = [] := List.length_eq_zero.mp (by omega)
    subst this
    simp [readTableData, int16sOf]
  | succ n ih =>
    intro body rest hl
    match body, hl with
    | b0 :: b1 :: tl, hl =>
      have htl : tl.length = 2 * n := by
        simp only [List.length_cons] at hl; omega
      have h1 : (b0 :: b1 :: tl) ++ rest = [b0, b1] ++ (tl ++ rest) := by simp
      rw [h1]
      simp only [readTableData, mustReadInt16_append [b0, b1] (tl ++ rest) rfl, ih tl rest htl,
        int16sOf]

theorem int16sOf_length (n : Nat) :
    ∀ body : List Byte, body.length = 2 * n → (int16sOf body).length = n := by
  induction n with
  | zero =>
    intro body hl
    have : body = [] := List.length_eq_zero.mp (by omega)
    subst this
    simp [int16sOf]
  | succ n ih =>
    intro body hl
    match body, hl with
    | b0 :: b1 :: tl, hl =>
      have htl : tl.length = 2 * n := by
        simp only [List.length_cons] at hl; omega
      simp [int16sOf, ih tl htl]

theorem int16sOf_get (i : Nat) :
    ∀ body : List Byte, 2 * i + 1 < body.length →
      (int16sOf body).get? i =
        some (wrapInt16 (leValue [body.getD (2 * i) 0, body.getD (2 * i + 1) 0])) := by
  induction i with
  | zero =>
    intro body hl
    match body, hl with
    | b0 :: b1 :: tl, _ => simp [int16sOf]
  | succ i ih =>
    intro body hl
    match body, hl with
    | b0 :: b1 :: tl, hl =>
      have htl : 2 * i + 1 < tl.length := by
        simp only [List.length_cons] at hl; omega
      have e1 : 2 * (i + 1) = (2 * i) + 1 + 1 := by ring
      have e2 : 2 * (i + 1) + 1 = (2 * i + 1) + 1 + 1 := by ring
      rw [e2, e1]
      simp only [int16sOf, List.get?_cons_succ, List.getD_cons_succ]
      exact ih tl htl

/-! ## Package `rmvx`: the arithmetic of `int32` -/

theorem wrapInt32_emod (a : Int) : wrapInt32 a % 2 ^ 32 = a % 2 ^ 32 := by
  unfold wrapInt32
  split <;> omega

theorem wrapInt32_isInt32 (a : Int) : IsInt32 (wrapInt32 a) := by
  unfold wrapInt32 IsInt32
  split <;> constructor <;> omega

theorem wrapInt32_congr (a b : Int) (h : a % 2 ^ 32 = b % 2 ^ 32) :
    wrapInt32 a = wrapInt32 b := by
  unfold wrapInt32
  rw [h]

theorem wrapInt32_mul_left (a b : Int) : wrapInt32 (wrapInt32 a * b) = wrapInt32 (a * b) := by
  apply wrapInt32_congr
  rw [Int.mul_emod, wrapInt32_emod, ← Int.mul_emod]

theorem mulInt32_product (x y z n : Int) (hn : IsInt32 n) (h : n = x * y * z) :
    mulInt32 (mulInt32 x y) z = n := by
  unfold mulInt32
  rw [wrapInt32_mul_left, ← h]
  exact wrapInt32_of_fits n hn

/-! ## Package `rmvx`: `loadTable` -/

/-- The function `loadTable` on a payload that starts with the five groups
of four bytes of the header. -/
theorem loadTableRun_header (ha hx hy hz hn body : List Byte) (val : RValue)
    (la : ha.length = 4) (lx : hx.length = 4) (ly : hy.length = 4) (lz : hz.length = 4)
    (ln : hn.length = 4) :
    loadTableRun (ha ++ (hx ++ (hy ++ (hz ++ (hn ++ body))))) val =
      if wrapInt32 (leValue hn) ≠
          mulInt32 (mulInt32 (wrapInt32 (leValue hx)) (wrapInt32 (leValue hy)))
            (wrapInt32 (leValue hz)) then
        { panic := some "Table: bad file format", r := body, cur := val.cur }
      else if wrapInt32 (leValue hn) < 0 then
        { panic := some "makeslice: len out of range", r := body, cur := val.cur }
      else
        match readTableData (wrapInt32 (leValue hn)).toNat body with
        | (none, r6) => { panic := some "EOF", r := r6, cur := val.cur }
        | (some tableData, r6) =>
          bindTable val
            { X := wrapInt32 (leValue hx), Y := wrapInt32 (leValue hy),
              Z := wrapInt32 (leValue hz), Data := tableData } r6 := by
  unfold loadTableRun
  simp only [mustReadInt32_append ha _ la, mustReadInt32_append hx _ lx,
    mustReadInt32_append hy _ ly, mustReadInt32_append hz _ lz,
    mustReadInt32_append hn _ ln]

/-- A header whose count differs from the 32-bit product of its dimensions
makes `loadTable` panic right after the header: no byte of the elements was
read and the destination holds what it held.  The 32-bit product is the
product of the dimensions whenever that is an `int32`. -/
theorem loadTableRun_bad_count (ha hx hy hz hn body : List Byte) (val : RValue)
    (la : ha.length = 4) (lx : hx.length = 4) (ly : hy.length = 4) (lz : hz.length = 4)
    (ln : hn.length = 4) :
    (wrapInt32 (leValue hn) ≠
        mulInt32 (mulInt32 (wrapInt32 (leValue hx)) (wrapInt32 (leValue hy)))
          (wrapInt32 (leValue hz)) →
      loadTableRun (ha ++ (hx ++ (hy ++ (hz ++ (hn ++ body))))) val =
        { panic := some "Table: bad file format", r := body, cur := val.cur }) ∧
    (IsInt32 (wrapInt32 (leValue hx) * wrapInt32 (leValue hy) * wrapInt32 (leValue hz)) →
      wrapInt32 (leValue hn) ≠
        wrapInt32 (leValue hx) * wrapInt32 (leValue hy) * wrapInt32 (leValue hz) →
      loadTableRun (ha ++ (hx ++ (hy ++ (hz ++ (hn ++ body))))) val =
        { panic := some "Table: bad file format", r := body, cur := val.cur }) := by
  have key : ∀ h : wrapInt32 (leValue hn) ≠
      mulInt32 (mulInt32 (wrapInt32 (leValue hx)) (wrapInt32 (leValue hy)))
        (wrapInt32 (leValue hz)),
      loadTableRun (ha ++ (hx ++ (hy ++ (hz ++ (hn ++ body))))) val =
        { panic := some "Table: bad file format", r := body, cur := val.cur } := by
    intro h
    rw [loadTableRun_header ha hx hy hz hn body val la lx ly lz ln, if_pos h]
  refine ⟨key, ?_⟩
  intro hfit hne
  apply key
  rw [mulInt32_product _ _ _ _ hfit rfl]
  exact hne

/-- C24 (evaluation at the failing input). The header `(0, 65536, 65536, 1,
0)` declares the dimensions 65536, 65536, 1 and the count 0, which is not
their product; the product computed in `int32` is 0, so the check passes and
`loadTable` binds a `Table` with these dimensions and no element. -/
theorem loadTable_accepts_overflowing_dimensions :
    loadTableRun
        [0, 0, 0, 0, 0, 0, 1, 0, 0, 0, 1, 0, 1, 0, 0, 0, 0, 0, 0, 0]
        (RValue.addrOf tableType tableType.zero) =
      { panic := none, r := [],
        cur := Table.toValue { X := 65536, Y := 65536, Z := 1, Data := [] } } ∧
    (loadTable
        [0, 0, 0, 0, 0, 0, 1, 0, 0, 0, 1, 0, 1, 0, 0, 0, 0, 0, 0, 0]
        (RValue.addrOf tableType tableType.zero)).panic = none ∧
    (0 : Int) ≠ 65536 * 65536 * 1 ∧
    mulInt32 (mulInt32 65536 65536) 1 = 0 := by
  refine ⟨rfl, rfl, by decide, by decide⟩

theorem getD_append_add (l l2 : List Byte) (k : Nat) :
    (l ++ l2).getD (l.length + k) 0 = l2.getD k 0 := by
  induction l with
  | nil => simp
  | cons a l ih =>
    rw [List.cons_append, List.length_cons, show l.length + 1 + k = (l.length + k) + 1 by ring,
      List.getD_cons_succ]
    exact ih

/-- The final `switch` of `loadTable` for the three settable destinations
it accepts. -/
theorem bindTable_settable (val : RValue) (value : Table) (r : List Byte)
    (hset : val.canSet = true) :
    (val.elemType = tableType →
      bindTable val value r = { panic := none, r := r, cur := value.toValue }) ∧
    (val.elemType = .iface →
      bindTable val value r =
        { panic := none, r := r, cur := .iface (.ptr tableType) (.ptr value.toValue) }) ∧
    (val.elemType = .ptr tableType →
      bindTable val value r = { panic := none, r := r, cur := .ptr value.toValue }) := by
  have hnil : val.isNil = false := by
    simp [RValue.canSet] at hset; exact hset.1
  have hbeq : GoType.beq tableType tableType = true := goType_beq_refl tableType
  have hbeq2 : GoType.beq (.ptr tableType) (.ptr tableType) = true :=
    goType_beq_refl (.ptr tableType)
  refine ⟨?_, ?_, ?_⟩
  · intro ht
    have hk : val.elemKind = .struct := by
      simp [RValue.elemKind, hnil, ht, tableType, GoType.kind]
    simp [bindTable, hk, RValue.set, hset, ht, hbeq]
  · intro ht
    have hk : val.elemKind = .interface := by
      simp [RValue.elemKind, hnil, ht, GoType.kind]
    simp [bindTable, hk, RValue.set, hset, ht, GoType.beq, GoType.kind]
  · intro ht
    have hk : val.elemKind = .ptr := by
      simp [RValue.elemKind, hnil, ht, GoType.kind]
    simp [bindTable, hk, RValue.set, hset, ht, hbeq2]

/-- C26. For a payload made of five groups of four bytes, read in
little-endian order as the `int32` values `a`, `X`, `Y`, `Z`, `N`, with
`N = X * Y * Z ≥ 0`, followed by `2 * N` bytes: `loadTable` reads the whole
payload and, without a panic, binds to a settable destination of type
`Table`, `interface{}` or `*Table` the `Table` whose dimensions are `X`,
`Y`, `Z`, whatever `a` is, and whose `Data` has `N` elements, the element
`i` being the `int16` that the payload bytes `20 + 2 * i` and `21 + 2 * i`
denote in little-endian order. -/
theorem loadTable_binds_table (ha hx hy hz hn body data : List Byte) (val : RValue)
    (X Y Z N : Int) (la : ha.length = 4) (lx : hx.length = 4) (ly : hy.length = 4)
    (lz : hz.length = 4) (ln : hn.length = 4)
    (hdata : data = ha ++ (hx ++ (hy ++ (hz ++ (hn ++ body)))))
    (hX : X = wrapInt32 (leValue hx)) (hY : Y = wrapInt32 (leValue hy))
    (hZ : Z = wrapInt32 (leValue hz)) (hN : N = wrapInt32 (leValue hn))
    (hprod : N = X * Y * Z) (hpos : 0 ≤ N) (hbody : body.length = 2 * N.toNat)
    (hset : val.canSet = true) :
    (int16sOf body).length = N.toNat ∧
    (∀ i, i < N.toNat →
      (int16sOf body).get? i =
        some (wrapInt16 (leValue [data.getD (20 + 2 * i) 0, data.getD (21 + 2 * i) 0]))) ∧
    (val.elemType = tableType →
      loadTableRun data val =
        { panic := none, r := [],
          cur := Table.toValue { X := X, Y := Y, Z := Z, Data := int16sOf body } }) ∧
    (val.elemType = .iface →
      loadTableRun data val =
        { panic := none, r := [],
          cur := .iface (.ptr tableType)
            (.ptr (Table.toValue { X := X, Y := Y, Z := Z, Data := int16sOf body })) }) ∧
    (val.elemType = .ptr tableType →
      loadTableRun data val =
        { panic := none, r := [],
          cur := .ptr (Table.toValue { X := X, Y := Y, Z := Z, Data := int16sOf body }) }) ∧
    (val.elemType = tableType ∨ val.elemType = .iface ∨ val.elemType = .ptr tableType →
      (loadTable data val).panic = none ∧
      (loadTable data val).cur = (loadTableRun data val).cur) := by
  have hN32 : IsInt32 N := by rw [hN]; exact wrapInt32_isInt32 _
  have hmul : mulInt32 (mulInt32 X Y) Z = N := mulInt32_product X Y Z N hN32 hprod
  have hrun : loadTableRun data val =
      bindTable val { X := X, Y := Y, Z := Z, Data := int16sOf body } [] := by
    rw [hdata, loadTableRun_header ha hx hy hz hn body val la lx ly lz ln, ← hX, ← hY, ← hZ,
      ← hN, hmul, if_neg (by simp), if_neg (not_lt.mpr hpos)]
    have hread := readTableData_spec N.toNat body [] hbody
    rw [List.append_nil] at hread
    rw [hread]
  have hb := bindTable_settable val { X := X, Y := Y, Z := Z, Data := int16sOf body } [] hset
  refine ⟨int16sOf_length N.toNat body hbody, ?_, ?_, ?_, ?_, ?_⟩
  · intro i hi
    have hlen20 : (ha ++ (hx ++ (hy ++ (hz ++ hn)))).length = 20 := by
      simp [la, lx, ly, lz, ln]
    have hd : data = (ha ++ (hx ++ (hy ++ (hz ++ hn)))) ++ body := by
      rw [hdata]; simp
    have g0 : data.getD (20 + 2 * i) 0 = body.getD (2 * i) 0 := by
      rw [hd, ← hlen20]; exact getD_append_add _ _ _
    have g1 : data.getD (21 + 2 * i) 0 = body.getD (2 * i + 1) 0 := by
      rw [hd, show 21 + 2 * i = 20 + (2 * i + 1) by ring, ← hlen20]
      exact getD_append_add _ _ _
    rw [g0, g1]
    exact int16sOf_get i body (by omega)
  · intro ht; rw [hrun]; exact hb.1 ht
  · intro ht; rw [hrun]; exact hb.2.1 ht
  · intro ht; rw [hrun]; exact hb.2.2 ht
  · intro ht
    refine ⟨?_, rfl⟩
    show (loadTableRun data val).panic = none
    rw [hrun]
    rcases ht with ht | ht | ht
    · rw [hb.1 ht]
    · rw [hb.2.1 ht]
    · rw [hb.2.2 ht]

theorem loadTable_binds_table_witness :
    loadTableRun
        [2, 0, 0, 0, 2, 0, 0, 0, 1, 0, 0, 0, 1, 0, 0, 0, 2, 0, 0, 0, 0x34, 0x12, 0xFF, 0xFF]
        (RValue.addrOf tableType tableType.zero) =
      { panic := none, r := [],
        cur := Table.toValue { X := 2, Y := 1, Z := 1, Data := [0x1234, -1] } } :=
  (loadTable_binds_table [2, 0, 0, 0] [2, 0, 0, 0] [1, 0, 0, 0] [1, 0, 0, 0] [2, 0, 0, 0]
    [0x34, 0x12, 0xFF, 0xFF]
    [2, 0, 0, 0, 2, 0, 0, 0, 1, 0, 0, 0, 1, 0, 0, 0, 2, 0, 0, 0, 0x34, 0x12, 0xFF, 0xFF]
    (RValue.addrOf tableType tableType.zero) 2 1 1 2 rfl rfl rfl rfl rfl rfl
    (by decide) (by decide) (by decide) (by decide) (by decide) (by decide) rfl rfl).2.2.1 rfl

/-- The value `u :Table` with a payload of 24 bytes decoded with `loadTable`
registered for the class `Table`: `Decode` returns no error, reads the whole
buffer and binds the table of the payload. -/
theorem Decode_table_example :
    ((NewDecoder ([0x04, 0x08, 0x75, 0x3A, 0x0A, 0x54, 0x61, 0x62, 0x6C, 0x65, 0x1D] ++
          [2, 0, 0, 0, 2, 0, 0, 0, 1, 0, 0, 0, 1, 0, 0, 0, 2, 0, 0, 0,
            0x34, 0x12, 0xFF, 0xFF])).AddUserDefinedLoad
        [0x54, 0x61, 0x62, 0x6C, 0x65] loadTable).map
      (fun d => ((d.Decode (fun _ => none)
          (.pointer (RValue.addrOf tableType tableType.zero))).cur,
        (d.Decode (fun _ => none)
          (.pointer (RValue.addrOf tableType tableType.zero))).d.r,
        (d.Decode (fun _ => none)
          (.pointer (RValue.addrOf tableType tableType.zero))).err)) =
      some (Table.toValue { X := 2, Y := 1, Z := 1, Data := [0x1234, -1] }, [], none) := by
  rfl

/-! ## Package `rmvx`: the accessors of `Table` -/

/-- With `length(Data) = X * Y * Z` as integers, coordinates inside the
dimensions index inside `Data`, no `int32` operation of the index expression
wraps, and `Get` and `GetInt32` return the element at
`X * Y * z + X * y + x`. -/
theorem Table_Get_in_range (t : Table) (x y z : Int)
    (hlen : (t.Data.length : Int) = t.X * t.Y * t.Z)
    (h31 : (t.Data.length : Int) < 2147483648)
    (hx : 0 ≤ x ∧ x < t.X) (hy : 0 ≤ y ∧ y < t.Y) (hz : 0 ≤ z ∧ z < t.Z) :
    0 ≤ t.X * t.Y * z + t.X * y + x ∧
    t.X * t.Y * z + t.X * y + x < t.Data.length ∧
    t.Get x y z = t.Data.get? (t.X * t.Y * z + t.X * y + x).toNat ∧
    t.GetInt32 x y z = t.Data.get? (t.X * t.Y * z + t.X * y + x).toNat ∧
    (t.Get x y z).isSome = true := by
  obtain ⟨hx0, hx1⟩ := hx
  obtain ⟨hy0, hy1⟩ := hy
  obtain ⟨hz0, hz1⟩ := hz
  have hX : 0 < t.X := by omega
  have hY : 0 < t.Y := by omega
  have hZ : 0 < t.Z := by omega
  have hP : 0 < t.X * t.Y := mul_pos hX hY
  have a1 : t.X * y ≤ t.X * (t.Y - 1) := mul_le_mul_of_nonneg_left (by omega) hX.le
  have a2 : t.X * t.Y * z ≤ t.X * t.Y * (t.Z - 1) :=
    mul_le_mul_of_nonneg_left (by omega) hP.le
  have a3 : 0 ≤ t.X * y := mul_nonneg hX.le hy0
  have a4 : 0 ≤ t.X * t.Y * z := mul_nonneg hP.le hz0
  have e1 : t.X * (t.Y - 1) = t.X * t.Y - t.X := by ring
  have e2 : t.X * t.Y * (t.Z - 1) = t.X * t.Y * t.Z - t.X * t.Y := by ring
  have a5 : t.X * 1 ≤ t.X * t.Y := mul_le_mul_of_nonneg_left (by omega) hX.le
  have a6 : t.X * t.Y * 1 ≤ t.X * t.Y * t.Z := mul_le_mul_of_nonneg_left (by omega) hP.le
  have a7 : 1 * t.Y ≤ t.X * t.Y := mul_le_mul_of_nonneg_right (by omega) hY.le
  have a8 : 1 * t.Z ≤ t.X * t.Y * t.Z := mul_le_mul_of_nonneg_right (by omega) hZ.le
  rw [mul_one] at a5 a6
  rw [one_mul] at a7 a8
  rw [e1] at a1
  rw [e2] at a2
  have b0 : 0 ≤ t.X * t.Y * z + t.X * y + x := by linarith
  have b1 : t.X * t.Y * z + t.X * y + x < t.Data.length := by linarith
  have fits : ∀ v : Int, 0 ≤ v → v < 2147483648 → wrapInt32 v = v := fun v h0 h1 =>
    wrapInt32_of_fits v ⟨by omega, by omega⟩
  have w1 : wrapInt32 x = x := fits x hx0 (by linarith)
  have w2 : wrapInt32 y = y := fits y hy0 (by linarith)
  have w3 : wrapInt32 z = z := fits z hz0 (by linarith)
  have w4 : wrapInt32 (t.X * t.Y) = t.X * t.Y := fits _ hP.le (by linarith)
  have w5 : wrapInt32 (t.X * t.Y * z) = t.X * t.Y * z := fits _ a4 (by linarith)
  have w6 : wrapInt32 (t.X * y) = t.X * y := fits _ a3 (by linarith)
  have w7 : wrapInt32 (t.X * t.Y * z + t.X * y) = t.X * t.Y * z + t.X * y :=
    fits _ (by linarith) (by linarith)
  have w8 : wrapInt32 (t.X * t.Y * z + t.X * y + x) = t.X * t.Y * z + t.X * y + x :=
    fits _ b0 (by linarith)
  have hget : t.GetInt32 x y z = t.Data.get? (t.X * t.Y * z + t.X * y + x).toNat := by
    simp only [Table.GetInt32, mulInt32, addInt32, w4, w5, w6, w7, w8, Table.index]
    rw [if_neg (not_lt.mpr b0)]
  have hget2 : t.Get x y z = t.Data.get? (t.X * t.Y * z + t.X * y + x).toNat := by
    simp only [Table.Get, mulInt32, addInt32, w1, w2, w3, w4, w5, w6, w7, w8, Table.index]
    rw [if_neg (not_lt.mpr b0)]
  refine ⟨b0, b1, hget2, hget, ?_⟩
  rw [hget2]
  have hlt : (t.X * t.Y * z + t.X * y + x).toNat < t.Data.length := by omega
  rw [List.get?_eq_get hlt]
  rfl

/-- C29 (evaluation at the failing input). The header `(0, 65536, 32768, 2,
0)` passes the check of `loadTable`, because the product of the dimensions
computed in `int32` is 0; the `Table` it binds has no element although
`X * Y * Z` is not 0, and `Get` and `GetInt32` at the coordinates
`(0, 0, 0)`, which are inside the dimensions, index out of range. -/
theorem loadTable_then_Get_out_of_range :
    loadTableRun
        [0, 0, 0, 0, 0, 0, 1, 0, 0, 0x80, 0, 0, 2, 0, 0, 0, 0, 0, 0, 0]
        (RValue.addrOf tableType tableType.zero) =
      { panic := none, r := [],
        cur := Table.toValue { X := 65536, Y := 32768, Z := 2, Data := [] } } ∧
    ({ X := 65536, Y := 32768, Z := 2, Data := [] } : Table).Get 0 0 0 = none ∧
    ({ X := 65536, Y := 32768, Z := 2, Data := [] } : Table).GetInt32 0 0 0 = none ∧
    ((0 : Int) ≤ 0 ∧ (0 : Int) < 65536 ∧ (0 : Int) < 32768 ∧ (0 : Int) < 2) ∧
    ((([] : List Int).length : Int) ≠ 65536 * 32768 * 2) := by
  refine ⟨rfl, by decide, by decide, by decide, by decide⟩

theorem tmod_of_neg_small (x X : Int) (h1 : -X < x) (h2 : x < 0) : Int.tmod x X = x := by
  obtain ⟨n, hn⟩ := Int.eq_negSucc_of_lt_zero h2
  obtain ⟨m, hm⟩ := Int.eq_ofNat_of_zero_le (show 0 ≤ X by omega)
  have hn2 : x = -((n : Int) + 1) := by rw [hn, Int.negSucc_eq]
  have hlt : n + 1 < m := by omega
  subst hn
  subst hm
  show -((((n + 1) % m : Nat)) : Int) = Int.negSucc n
  rw [Nat.mod_eq_of_lt hlt]
  rfl

/-- The wrap of `GetWrappedInt32` is the reduction modulo the dimension only
for indices of absolute value smaller than the dimension. -/
theorem GetWrappedInt32_small (t : Table) (x y z : Int)
    (hX : 0 < t.X ∧ t.X < 2147483648) (hY : 0 < t.Y ∧ t.Y < 2147483648)
    (hx : -t.X < x ∧ x < t.X) (hy : -t.Y < y ∧ y < t.Y) :
    t.GetWrappedInt32 x y z =
      t.GetInt32 (((x % t.X) + t.X) % t.X) (((y % t.Y) + t.Y) % t.Y) z := by
  have key : ∀ (v D : Int), 0 < D → D < 2147483648 → -D < v → v < D →
      (if Int.tmod v D < 0 then addInt32 v D else v) = ((v % D) + D) % D := by
    intro v D hD hD2 h1 h2
    rw [Int.add_emod_self, Int.emod_emod_of_dvd v (dvd_refl D)]
    by_cases hv : v < 0
    · rw [tmod_of_neg_small v D h1 hv, if_pos hv]
      unfold addInt32
      rw [wrapInt32_of_fits _ ⟨by omega, by omega⟩, ← Int.add_emod_self,
        Int.emod_eq_of_lt (by omega) (by omega)]
    · have h0 : 0 ≤ v := not_lt.mp hv
      rw [Int.tmod_eq_of_lt h0 h2, if_neg hv, Int.emod_eq_of_lt h0 h2]
  unfold Table.GetWrappedInt32
  rw [if_neg (by omega), if_neg (by omega)]
  simp only [key x t.X hX.1 hX.2 hx.1 hx.2, key y t.Y hY.1 hY.2 hy.1 hy.2]

/-- C25 (evaluation at the failing inputs). In the table with `X = 2`,
`Y = 2`, `Z = 1` and the elements 10, 20, 30, 40, the index `x = 2` is not
wrapped to 0: `GetWrappedInt32 2 0 0` is the element 30 at index 2, whereas
`GetInt32` at the wrapped coordinates is the element 10.  The index
`x = -2` is not wrapped either, and neither is `x = -3` brought into
`0..X-1`: both index out of range. -/
theorem GetWrappedInt32_does_not_wrap :
    ({ X := 2, Y := 2, Z := 1, Data := [10, 20, 30, 40] } : Table).GetWrappedInt32 2 0 0 =
      some 30 ∧
    ({ X := 2, Y := 2, Z := 1, Data := [10, 20, 30, 40] } : Table).GetInt32
      (((2 % 2) + 2) % 2) (((0 % 2) + 2) % 2) 0 = some 10 ∧
    ({ X := 2, Y := 2, Z := 1, Data := [10, 20, 30, 40] } : Table).GetWrappedInt32 (-2) 0 0 =
      none ∧
    ({ X := 2, Y := 2, Z := 1, Data := [10, 20, 30, 40] } : Table).GetInt32
      (((-2 % 2) + 2) % 2) (((0 % 2) + 2) % 2) 0 = some 10 ∧
    ({ X := 2, Y := 2, Z := 1, Data := [10, 20, 30, 40] } : Table).GetWrappedInt32 (-3) 0 0 =
      none ∧
    ({ X := 2, Y := 2, Z := 1, Data := [10, 20, 30, 40] } : Table).GetInt32
      (((-3 % 2) + 2) % 2) (((0 % 2) + 2) % 2) 0 = some 20 ∧
    ({ X := 2, Y := 2, Z := 1, Data := [10, 20, 30, 40] } : Table).GetWrappedInt32 0 2 0 =
      none := by
  refine ⟨by decide, by decide, by decide, by decide, by decide, by decide, by decide⟩

/-! ## Package `rmvx`: `GetTileset` -/

/-- What `GetTileset` does for every id: the error for 0 and for an id
from the number of tilesets on, the tileset at the index for an id from 1
to that number less one, and for a negative id the panic of the index
expression. -/
theorem GetTileset_spec (project : Project) (id : Int) :
    (id = 0 ∨ (project.tilesets.length : Int) ≤ id →
      project.GetTileset id = .err "invalid tileset id given, out of bounds") ∧
    (1 ≤ id → id < project.tilesets.length →
      ∃ tileset, project.tilesets.get? id.toNat = some tileset ∧
        project.GetTileset id = .ok id.toNat tileset) ∧
    (id < 0 → project.GetTileset id = .indexPanic) := by
  refine ⟨?_, ?_, ?_⟩
  · intro h
    unfold Project.GetTileset
    rw [if_pos (by omega)]
  · intro h1 h2
    have hlt : id.toNat < project.tilesets.length := by omega
    refine ⟨project.tilesets.get ⟨id.toNat, hlt⟩, List.get?_eq_get hlt, ?_⟩
    unfold Project.GetTileset
    rw [if_neg (by omega), if_neg (by omega), List.get?_eq_get hlt]
  · intro h
    have h0 : (0 : Int) ≤ project.tilesets.length := Int.ofNat_nonneg _
    unfold Project.GetTileset
    rw [if_neg (by omega), if_pos h]

/-- C30 (evaluation at the failing input). With two loaded tilesets, the
negative id `-1` passes the check `id == 0 || id >= len(tilesets)` and the
index expression `tilesets[-1]` panics; no error is returned. -/
theorem GetTileset_negative_id_panics :
    (match ({ tilesets :=
          [{ ID := 0, Name := [], Mode := 0, Note := [], TilesetNames := [],
             Flags := { X := 0, Y := 0, Z := 0, Data := [] } },
           { ID := 1, Name := [0x41], Mode := 1, Note := [], TilesetNames := [],
             Flags := { X := 0, Y := 0, Z := 0, Data := [] } }] } : Project).GetTileset (-1) with
      | .indexPanic => true
      | _ => false) = true ∧
    (match ({ tilesets :=
          [{ ID := 0, Name := [], Mode := 0, Note := [], TilesetNames := [],
             Flags := { X := 0, Y := 0, Z := 0, Data := [] } },
           { ID := 1, Name := [0x41], Mode := 1, Note := [], TilesetNames := [],
             Flags := { X := 0, Y := 0, Z := 0, Data := [] } }] } : Project).GetTileset 1 with
      | .ok 1 tileset => tileset.ID == 1
      | _ => false) = true ∧
    (match ({ tilesets :=
          [{ ID := 0, Name := [], Mode := 0, Note := [], TilesetNames := [],
             Flags := { X := 0, Y := 0, Z := 0, Data := [] } },
           { ID := 1, Name := [0x41], Mode := 1, Note := [], TilesetNames := [],
             Flags := { X := 0, Y := 0, Z := 0, Data := [] } }] } : Project).GetTileset 2 with
      | .err _ => true
      | _ => false) = true := by
  refine ⟨rfl, rfl, rfl⟩


/-! ## The null value -/

theorem parseType_tagNull (parseFloat : GoString → Option Nat) (d : Decoder)
    (val : RValue) (rest : List Byte) (h : d.r = typeNull :: rest) :
    d.parseType parseFloat val = parseTypeNull { d with r := rest } val := by
  rw [parseType_eq_step parseFloat d val _ rfl, parseTypeStep_cons _ _ _ _ _ _ h, if_pos rfl]

/-- C31. For the tag `0` and a settable destination: when the kind of the
destination is interface, struct, string, int, int32 or int64, the
destination is set to the zero value of its type and the error latch is as
it was; for every other kind, among them bool, float64, slice and map, the
destination holds what it held and the type mismatch that names the kind is
given to `saveError`, which latches it when no error was latched.  In both
cases `parseType` returns without a panic and the unread bytes are those
after the tag byte. -/
theorem parseType_null (parseFloat : GoString → Option Nat) (d : Decoder)
    (val : RValue) (rest : List Byte) (hr : d.r = typeNull :: rest)
    (hset : val.canSet = true) :
    (val.elemKind = .interface ∨ val.elemKind = .struct ∨ val.elemKind = .string ∨
        val.elemKind = .int ∨ val.elemKind = .int32 ∨ val.elemKind = .int64 →
      d.parseType parseFloat val = Res.ok { d with r := rest } val.elemType.zero ∧
      (d.parseType parseFloat val).d.savedError = d.savedError) ∧
    (¬ (val.elemKind = .interface ∨ val.elemKind = .struct ∨ val.elemKind = .string ∨
        val.elemKind = .int ∨ val.elemKind = .int32 ∨ val.elemKind = .int64) →
      d.parseType parseFloat val =
        Res.ok (({ d with r := rest } : Decoder).saveError
          (.unexpectedType val.elemKind.name
            "pointer, struct, interface, string or integer")) val.cur ∧
      (d.parseType parseFloat val).val = val.cur ∧
      (d.savedError = none →
        (d.parseType parseFloat val).d.savedError =
          some (.unexpectedType val.elemKind.name
            "pointer, struct, interface, string or integer"))) ∧
    (val.elemType = .bool ∨ val.elemType = .float64 ∨ (∃ e, val.elemType = .slice e) ∨
        (∃ k e, val.elemType = .map k e) →
      ¬ (val.elemKind = .interface ∨ val.elemKind = .struct ∨ val.elemKind = .string ∨
        val.elemKind = .int ∨ val.elemKind = .int32 ∨ val.elemKind = .int64)) ∧
    (d.parseType parseFloat val).panic = none ∧
    (d.parseType parseFloat val).d.r = rest := by
  have hnot : (!val.canSet) = false := by simp [hset]
  have hnil : val.isNil = false := by
    simp [RValue.canSet] at hset; exact hset.1
  rw [parseType_tagNull parseFloat d val rest hr]
  unfold parseTypeNull
  rw [hnot]
  simp only [Bool.false_eq_true, if_false]
  refine ⟨?_, ?_, ?_, ?_, ?_⟩
  · intro hk
    rw [if_pos hk]
    exact ⟨rfl, rfl⟩
  · intro hk
    rw [if_neg hk]
    refine ⟨rfl, rfl, ?_⟩
    intro hnone
    simp [Res.ok, Decoder.saveError, hnone]
  · intro ht
    simp only [RValue.elemKind, hnil, Bool.false_eq_true, if_false]
    rcases ht with ht | ht | ⟨e, ht⟩ | ⟨k, e, ht⟩ <;> rw [ht] <;> simp [GoType.kind]
  · by_cases hk : val.elemKind = .interface ∨ val.elemKind = .struct ∨
        val.elemKind = .string ∨ val.elemKind = .int ∨ val.elemKind = .int32 ∨
        val.elemKind = .int64
    · rw [if_pos hk]; rfl
    · rw [if_neg hk]; rfl
  · by_cases hk : val.elemKind = .interface ∨ val.elemKind = .struct ∨
        val.elemKind = .string ∨ val.elemKind = .int ∨ val.elemKind = .int32 ∨
        val.elemKind = .int64
    · rw [if_pos hk]; rfl
    · rw [if_neg hk]
      exact (saveError_r _ _).1

theorem parseType_null_witness :
    (NewDecoder [0x30, 0x54]).parseType (fun _ => none) (RValue.addrOf .int (.int 7)) =
      Res.ok (NewDecoder [0x54]) (.int 0) :=
  ((parseType_null (fun _ => none) (NewDecoder [0x30, 0x54]) (RValue.addrOf .int (.int 7))
    [0x54] rfl rfl).1 (Or.inr (Or.inr (Or.inr (Or.inl rfl))))).1

/-- The null value decoded into an `interface{}` that held a string, into a
record, and into a `bool`, a `float64`, a slice and a map: the first two are
reset, the others keep their contents and the mismatch is returned. -/
theorem Decode_null_examples :
    ((NewDecoder [0x04, 0x08, 0x30]).Decode (fun _ => none)
        (.pointer (RValue.addrOf .iface (.iface .string (.string [0x61]))))).cur = .nil ∧
    ((NewDecoder [0x04, 0x08, 0x30]).Decode (fun _ => none)
        (.pointer (RValue.addrOf tableType
          (Table.toValue { X := 1, Y := 1, Z := 1, Data := [5] })))).cur =
      tableType.zero ∧
    ((NewDecoder [0x04, 0x08, 0x30]).Decode (fun _ => none)
        (.pointer (RValue.addrOf .bool (.bool true)))).cur = .bool true ∧
    ((NewDecoder [0x04, 0x08, 0x30]).Decode (fun _ => none)
        (.pointer (RValue.addrOf .bool (.bool true)))).err =
      some (.unexpectedType "bool" "pointer, struct, interface, string or integer") ∧
    ((NewDecoder [0x04, 0x08, 0x30]).Decode (fun _ => none)
        (.pointer (RValue.addrOf (.slice .int) (.slice [.int 1])))).err =
      some (.unexpectedType "slice" "pointer, struct, interface, string or integer") ∧
    ((NewDecoder [0x04, 0x08, 0x30]).Decode (fun _ => none)
        (.pointer (RValue.addrOf (.map .int .int) (.map [(.int 1, .int 2)])))).cur =
      .map [(.int 1, .int 2)] ∧
    ((NewDecoder [0x04, 0x08, 0x30]).Decode (fun _ => none)
        (.pointer (RValue.addrOf .float64 (.float64 5)))).err =
      some (.unexpectedType "float64" "pointer, struct, interface, string or integer") := by
  refine ⟨rfl, rfl, rfl, by decide, by decide, rfl, by decide⟩

/-! ## Termination: every call and every round of a loop reads a byte -/

theorem parseSymbolOrSymbolLink_strict (d : Decoder)
    (h : d.parseSymbolOrSymbolLink.panic = none) :
    d.parseSymbolOrSymbolLink.d.r.length < d.r.length := by
  have hm : d.MustReadByte.panic = none := by
    unfold Decoder.parseSymbolOrSymbolLink at h
    dsimp only at h
    cases hk : d.MustReadByte.panic with
    | none => rfl
    | some p => rw [hk] at h; simp [Res.fail] at h
  have hlen := MustReadByte_length d hm
  have hle : d.parseSymbolOrSymbolLink.d.r.length ≤ d.MustReadByte.d.r.length := by
    unfold Decoder.parseSymbolOrSymbolLink
    dsimp only
    rw [hm]
    dsimp only
    split
    · exact (parseSymbol_ext _).length_le
    · split
      · exact (parseIndexAndLookupSymbol_ext _).length_le
      · exact le_refl _
  omega

/-- After its tag byte was read, the body of `parseType` only moves
forward. -/
theorem parseTypeStep_after_tag {F : Nat} {rec : Rec} (h : RecSound F rec)
    (parseFloat : GoString → Option Nat) (d : Decoder) (val : RValue)
    (hne : d.MustReadByte.panic = none) :
    (parseTypeStep parseFloat rec d val).Sound F d.MustReadByte.d := by
  unfold parseTypeStep
  dsimp only
  rw [hne]
  dsimp only
  refine Res.Sound.ite (parseTypeNull_sound F _ _) ?_
  refine Res.Sound.ite (parseTypeBool_sound F _ _ _) ?_
  refine Res.Sound.ite (parseTypeBool_sound F _ _ _) ?_
  refine Res.Sound.ite (parseTypeFloat_sound F _ _ _) ?_
  refine Res.Sound.ite (parseTypeFixNum_sound F _ _) ?_
  refine Res.Sound.ite (parseTypeSymbol_sound F _ _) ?_
  refine Res.Sound.ite (parseTypeSymbolLink_sound F _ _) ?_
  refine Res.Sound.ite (parseTypeArray_sound h _ _) ?_
  refine Res.Sound.ite (parseTypeString_sound F _ _) ?_
  refine Res.Sound.ite (parseTypeIVar_sound F _ _) ?_
  refine Res.Sound.ite (parseTypeObject_sound h _ _) ?_
  refine Res.Sound.ite (parseTypeHash_sound h _ _) ?_
  refine Res.Sound.ite (parseTypeUserDefined_sound F _ _) ?_
  exact Res.Sound.fail (Decoder.Ext.refl _) (by simp) _

/-- A call of `parseType` on an exhausted buffer panics with `io.EOF` at
once; every other call leaves fewer unread bytes than it found, whether it
returns or panics. -/
theorem parseTypeAux_consumes (parseFloat : GoString → Option Nat) (fuel : Nat)
    (d : Decoder) (val : RValue) :
    (d.r = [] → parseTypeAux parseFloat (fuel + 1) d val = Res.fail .eof d val.cur) ∧
    (d.r ≠ [] → (parseTypeAux parseFloat (fuel + 1) d val).d.r.length < d.r.length) := by
  constructor
  · intro hr
    show parseTypeStep parseFloat _ d val = _
    unfold parseTypeStep Decoder.MustReadByte
    rw [hr]
  · intro hr
    obtain ⟨k, rest, hk⟩ := List.exists_cons_of_ne_nil hr
    have hm : d.MustReadByte = Res.ok { d with r := rest } k := MustReadByte_cons d k rest hk
    have hne : d.MustReadByte.panic = none := by rw [hm]; rfl
    have hs := parseTypeStep_after_tag (parseTypeAux_sound parseFloat fuel) parseFloat d val hne
    have hle := hs.ext.length_le
    have hlen := MustReadByte_length d hne
    show (parseTypeStep parseFloat _ d val).d.r.length < _
    omega

theorem parseTypeAux_strict (parseFloat : GoString → Option Nat) :
    ∀ fuel : Nat, RecStrict (parseTypeAux parseFloat fuel)
  | 0 => fun d val h => by simp [parseTypeAux, Res.fail] at h
  | fuel + 1 => fun d val h => by
    by_cases hr : d.r = []
    · rw [(parseTypeAux_consumes parseFloat fuel d val).1 hr] at h
      simp [Res.fail] at h
    · exact (parseTypeAux_consumes parseFloat fuel d val).2 hr

/-! ### The loops -/

theorem skipValues_used {rec : Rec} (hst : RecStrict rec) :
    ∀ (n : Nat) (d : Decoder) (e : GoValue), (skipValues rec n d e).Used n d := by
  intro n
  induction n with
  | zero => intro d e _; simp [skipValues, Res.ok]
  | succ n ih =>
    intro d e hp
    cases hr : (rec d (RValue.addrOf .iface e)).panic with
    | some p => simp only [skipValues, hr] at hp; cases hp
    | none =>
      simp only [skipValues, hr] at hp ⊢
      have h1 := hst d _ hr
      have h2 := ih _ _ hp
      omega

theorem skipFields_used {rec : Rec} (hst : RecStrict rec) :
    ∀ (n : Nat) (d : Decoder) (e : GoValue), (skipFields rec n d e).Used n d := by
  intro n
  induction n with
  | zero => intro d e _; simp [skipFields, Res.ok]
  | succ n ih =>
    intro d e hp
    cases hsym : d.parseSymbolOrSymbolLink.panic with
    | some p => simp [skipFields, hsym, Res.fail] at hp
    | none =>
      have h0 := parseSymbolOrSymbolLink_strict d hsym
      cases hr : (rec d.parseSymbolOrSymbolLink.d (RValue.addrOf .iface e)).panic with
      | some p => simp only [skipFields, hsym, hr] at hp; cases hp
      | none =>
        simp only [skipFields, hsym, hr] at hp ⊢
        have h1 := hst _ _ hr
        have h2 := ih _ _ hp
        omega

theorem skipPairs_used {rec : Rec} (hst : RecStrict rec) :
    ∀ (n : Nat) (d : Decoder) (e : GoValue), (skipPairs rec n d e).Used n d := by
  intro n
  induction n with
  | zero => intro d e _; simp [skipPairs, Res.ok]
  | succ n ih =>
    intro d e hp
    cases hk : (rec d (RValue.addrOf .iface e)).panic with
    | some p => simp only [skipPairs, hk] at hp; cases hp
    | none =>
      have h0 := hst d _ hk
      cases hv : (rec (rec d (RValue.addrOf .iface e)).d
          (RValue.addrOf .iface (rec d (RValue.addrOf .iface e)).val)).panic with
      | some p => simp only [skipPairs, hk, hv] at hp; cases hp
      | none =>
        simp only [skipPairs, hk, hv] at hp ⊢
        have h1 := hst _ _ hv
        have h2 := ih _ _ hp
        omega

theorem parseArrayItems_used {rec : Rec} (hst : RecStrict rec) :
    ∀ (n : Nat) (d : Decoder), (parseArrayItems rec n d).Used n d := by
  intro n
  induction n with
  | zero => intro d _; simp [parseArrayItems, Res.ok]
  | succ n ih =>
    intro d hp
    cases hr : (rec d RValue.emptyInterface).panic with
    | some p => simp [parseArrayItems, hr, Res.fail] at hp
    | none =>
      simp only [parseArrayItems, hr] at hp ⊢
      have h1 := hst d _ hr
      have h2 := ih _ hp
      omega

theorem sliceElemStep_strict {rec : Rec} (hst : RecStrict rec) (elem : GoType)
    (d : Decoder) (e : GoValue) (hp : (sliceElemStep rec elem d e).panic = none) :
    (sliceElemStep rec elem d e).d.r.length < d.r.length := by
  unfold sliceElemStep at hp ⊢
  split at hp
  · exact hst _ _ hp
  · exact hst _ _ hp

theorem parseSliceElems_used {rec : Rec} (hst : RecStrict rec) (elem : GoType) :
    ∀ (es : List GoValue) (d : Decoder),
      (parseSliceElems rec elem es d).Used es.length d := by
  intro es
  induction es with
  | nil => intro d _; simp [parseSliceElems, Res.ok]
  | cons e es ih =>
    intro d hp
    cases hr : (sliceElemStep rec elem d e).panic with
    | some p => simp [parseSliceElems, hr, Res.fail] at hp
    | none =>
      simp only [parseSliceElems, hr] at hp ⊢
      have h1 := sliceElemStep_strict hst elem d e hr
      have h2 := ih _ hp
      simp only [List.length_cons]
      omega

theorem parseObjectFields_used {rec : Rec} (hst : RecStrict rec) :
    ∀ (n : Nat) (d : Decoder) (obj : List (GoValue × GoValue)),
      (parseObjectFields rec n d obj).Used n d := by
  intro n
  induction n with
  | zero => intro d obj _; simp [parseObjectFields, Res.ok]
  | succ n ih =>
    intro d obj hp
    cases hsym : d.parseSymbolOrSymbolLink.panic with
    | some p => simp [parseObjectFields, hsym, Res.fail] at hp
    | none =>
      have h0 := parseSymbolOrSymbolLink_strict d hsym
      cases hr : (rec d.parseSymbolOrSymbolLink.d RValue.emptyInterface).panic with
      | some p => simp [parseObjectFields, hsym, hr, Res.fail] at hp
      | none =>
        simp only [parseObjectFields, hsym, hr] at hp ⊢
        have h1 := hst _ _ hr
        have h2 := ih _ _ hp
        omega

theorem parseStructFields_used {F : Nat} {rec : Rec} (hs : RecSound F rec)
    (refType : GoType) :
    ∀ (n : Nat) (d : Decoder) (st : List GoValue × List GoString),
      (parseStructFields rec refType n d st).Used n d := by
  intro n
  induction n with
  | zero => intro d st _; simp [parseStructFields, Res.ok]
  | succ n ih =>
    intro d st hp
    cases hsym : d.parseSymbolOrSymbolLink.panic with
    | some p => simp [parseStructFields, hsym, Res.fail] at hp
    | none =>
      have h0 := parseSymbolOrSymbolLink_strict d hsym
      have h1 := (structFieldStep_sound hs refType d.parseSymbolOrSymbolLink.val
        d.parseSymbolOrSymbolLink.d st).ext.length_le
      cases hr : (structFieldStep rec refType d.parseSymbolOrSymbolLink.val
          d.parseSymbolOrSymbolLink.d st).panic with
      | some p => simp only [parseStructFields, hsym, hr] at hp; cases hp
      | none =>
        simp only [parseStructFields, hsym, hr] at hp ⊢
        have h2 := ih _ _ hp
        omega

theorem parseHashPairs_used {rec : Rec} (hst : RecStrict rec) :
    ∀ (n : Nat) (d : Decoder) (hash : List (GoValue × GoValue)),
      (parseHashPairs rec n d hash).Used n d := by
  intro n
  induction n with
  | zero => intro d hash _; simp [parseHashPairs, Res.ok]
  | succ n ih =>
    intro d hash hp
    cases hk : (rec d RValue.emptyInterface).panic with
    | some p => simp [parseHashPairs, hk, Res.fail] at hp
    | none =>
      have h0 := hst d _ hk
      cases hv : (rec (rec d RValue.emptyInterface).d RValue.emptyInterface).panic with
      | some p => simp [parseHashPairs, hk, hv, Res.fail] at hp
      | none =>
        have h1 := hst _ _ hv
        simp only [parseHashPairs, hk, hv] at hp ⊢
        split at hp
        · have h2 := ih _ _ hp
          omega
        · have h2 := ih _ _ hp
          omega
        · simp [Res.fail] at hp

theorem parseMapPairs_used {rec : Rec} (hst : RecStrict rec) (keyT elemT : GoType) :
    ∀ (n : Nat) (d : Decoder) (es : List (GoValue × GoValue)),
      (parseMapPairs rec keyT elemT n d es).Used n d := by
  intro n
  induction n with
  | zero => intro d es _; simp [parseMapPairs, Res.ok]
  | succ n ih =>
    intro d es hp
    cases hk : (rec d RValue.emptyInterface).panic with
    | some p => simp [parseMapPairs, hk, Res.fail] at hp
    | none =>
      have h0 := hst d _ hk
      cases hv : (rec (rec d RValue.emptyInterface).d
          (RValue.addrOf elemT elemT.zero)).panic with
      | some p => simp [parseMapPairs, hk, hv, Res.fail] at hp
      | none =>
        have h1 := hst _ _ hv
        simp only [parseMapPairs, hk, hv] at hp ⊢
        by_cases hkind : (rec d RValue.emptyInterface).val.dynKind ≠ keyT.kind
        · rw [if_pos hkind] at hp ⊢
          have h2 := ih _ _ hp
          rw [(saveError_r _ _).1] at h2
          omega
        · rw [if_neg hkind] at hp ⊢
          revert hp
          split
          · intro hp; simp [Res.fail] at hp
          · intro hp
            have h2 := ih _ _ hp
            omega

theorem parseHashStructFields_used {F : Nat} {rec : Rec} (hs : RecSound F rec)
    (hst : RecStrict rec) (refType : GoType) :
    ∀ (n : Nat) (d : Decoder) (st : List GoValue × List GoString),
      (parseHashStructFields rec refType n d st).Used n d := by
  intro n
  induction n with
  | zero => intro d st _; simp [parseHashStructFields, Res.ok]
  | succ n ih =>
    intro d st hp
    cases hk : (rec d RValue.emptyInterface).panic with
    | some p => simp [parseHashStructFields, hk, Res.fail] at hp
    | none =>
      have h0 := hst d _ hk
      simp only [parseHashStructFields, hk] at hp ⊢
      revert hp
      split
      · rename_i fieldName hkv
        have h1 := (structFieldStep_sound hs refType fieldName
          (rec d RValue.emptyInterface).d st).ext.length_le
        cases hr : (structFieldStep rec refType fieldName
            (rec d RValue.emptyInterface).d st).panic with
        | some p => intro hp; rw [hr] at hp; cases hp
        | none =>
          intro hp
          dsimp only at hp ⊢
          have h2 := ih _ _ hp
          omega
      · intro hp; simp [Res.fail] at hp

/-- C33. The model of `parseType` is a total function whose nesting budget,
the number of unread bytes plus one, never runs out: the chain of nested
calls is never longer than the buffer.  A call on an exhausted buffer panics
with `io.EOF` at its first read, and every other call leaves fewer unread
bytes than it found.  Each of the ten loops of the array, hash and object
cases, run for `n` rounds, returns only after at least `n` bytes were read;
so with a count larger than the number of unread bytes the loop stops with a
panic, after at most as many rounds as bytes were left.  The user defined
load callbacks are total functions in the model. -/
theorem parseType_terminates (parseFloat : GoString → Option Nat) (d : Decoder)
    (val : RValue) :
    (d.parseType parseFloat val).panic ≠ some .fuel ∧
    (d.r = [] → d.parseType parseFloat val = Res.fail .eof d val.cur) ∧
    (d.r ≠ [] → (d.parseType parseFloat val).d.r.length < d.r.length) ∧
    (∀ (fuel n : Nat) (e : GoValue),
      (skipValues (parseTypeAux parseFloat fuel) n d e).Used n d ∧
      (skipFields (parseTypeAux parseFloat fuel) n d e).Used n d ∧
      (skipPairs (parseTypeAux parseFloat fuel) n d e).Used n d ∧
      (parseArrayItems (parseTypeAux parseFloat fuel) n d).Used n d) ∧
    (∀ (fuel : Nat) (elem : GoType) (es : List GoValue),
      (parseSliceElems (parseTypeAux parseFloat fuel) elem es d).Used es.length d) ∧
    (∀ (fuel n : Nat) (m : List (GoValue × GoValue)) (keyT elemT : GoType),
      (parseObjectFields (parseTypeAux parseFloat fuel) n d m).Used n d ∧
      (parseHashPairs (parseTypeAux parseFloat fuel) n d m).Used n d ∧
      (parseMapPairs (parseTypeAux parseFloat fuel) keyT elemT n d m).Used n d) ∧
    (∀ (fuel n : Nat) (refType : GoType) (st : List GoValue × List GoString),
      (parseStructFields (parseTypeAux parseFloat fuel) refType n d st).Used n d ∧
      (parseHashStructFields (parseTypeAux parseFloat fuel) refType n d st).Used n d) ∧
    (∀ (fuel n : Nat), d.r.length < n →
      (parseArrayItems (parseTypeAux parseFloat fuel) n d).panic ≠ none ∧
      (∀ e, (skipValues (parseTypeAux parseFloat fuel) n d e).panic ≠ none) ∧
      (∀ m, (parseObjectFields (parseTypeAux parseFloat fuel) n d m).panic ≠ none) ∧
      (∀ m, (parseHashPairs (parseTypeAux parseFloat fuel) n d m).panic ≠ none) ∧
      (∀ refType st,
        (parseStructFields (parseTypeAux parseFloat fuel) refType n d st).panic ≠ none)) := by
  have hS := parseTypeAux_sound parseFloat
  have hT := parseTypeAux_strict parseFloat
  refine ⟨parseType_ne_fuel parseFloat d val,
    (parseTypeAux_consumes parseFloat d.r.length d val).1,
    (parseTypeAux_consumes parseFloat d.r.length d val).2, ?_, ?_, ?_, ?_, ?_⟩
  · intro fuel n e
    exact ⟨skipValues_used (hT fuel) n d e, skipFields_used (hT fuel) n d e,
      skipPairs_used (hT fuel) n d e, parseArrayItems_used (hT fuel) n d⟩
  · intro fuel elem es
    exact parseSliceElems_used (hT fuel) elem es d
  · intro fuel n m keyT elemT
    exact ⟨parseObjectFields_used (hT fuel) n d m, parseHashPairs_used (hT fuel) n d m,
      parseMapPairs_used (hT fuel) keyT elemT n d m⟩
  · intro fuel n refType st
    exact ⟨parseStructFields_used (hS fuel) refType n d st,
      parseHashStructFields_used (hS fuel) (hT fuel) refType n d st⟩
  · intro fuel n hn
    refine ⟨?_, ?_, ?_, ?_, ?_⟩
    · intro hp
      have := parseArrayItems_used (hT fuel) n d hp
      omega
    · intro e hp
      have := skipValues_used (hT fuel) n d e hp
      omega
    · intro m hp
      have := parseObjectFields_used (hT fuel) n d m hp
      omega
    · intro m hp
      have := parseHashPairs_used (hT fuel) n d m hp
      omega
    · intro refType st hp
      have := parseStructFields_used (hS fuel) refType n d st hp
      omega

theorem parseType_terminates_witness :
    (NewDecoder []).parseType (fun _ => none) (RValue.addrOf .iface .nil) =
        Res.fail .eof (NewDecoder []) (RValue.addrOf .iface .nil).cur ∧
    ((NewDecoder [0x5B, 0x04, 0xFF, 0xFF, 0xFF, 0x3F, 0x30]).parseType (fun _ => none)
        (RValue.addrOf .iface .nil)).d.r.length < 7 :=
  ⟨(parseType_terminates (fun _ => none) (NewDecoder []) (RValue.addrOf .iface .nil)).2.1 rfl,
    (parseType_terminates (fun _ => none)
      (NewDecoder [0x5B, 0x04, 0xFF, 0xFF, 0xFF, 0x3F, 0x30])
      (RValue.addrOf .iface .nil)).2.2.1 (by simp [NewDecoder])⟩

/-- An array that declares 1073741823 elements and holds one: `parseType`
panics with `io.EOF` when the second element is to be read, for a dynamic
and for a mismatching destination alike; the nested arrays `[[[` on a buffer
of three tags and three counts panic at the fourth read. -/
theorem parseType_huge_count_example :
    ((NewDecoder [0x5B, 0x04, 0xFF, 0xFF, 0xFF, 0x3F, 0x30]).parseType (fun _ => none)
        (RValue.addrOf .iface .nil)).panic = some .eof ∧
    ((NewDecoder [0x5B, 0x04, 0xFF, 0xFF, 0xFF, 0x3F, 0x30]).parseType (fun _ => none)
        (RValue.addrOf .iface .nil)).d.r = [] ∧
    ((NewDecoder [0x5B, 0x04, 0xFF, 0xFF, 0xFF, 0x3F, 0x30]).parseType (fun _ => none)
        (RValue.addrOf .int (.int 0))).panic = some .eof ∧
    ((NewDecoder [0x5B, 0x06, 0x5B, 0x06, 0x5B, 0x06]).parseType (fun _ => none)
        (RValue.addrOf .iface .nil)).panic = some .eof := by
  refine ⟨by decide, by decide, by decide, by decide⟩

/-! ## Trailing bytes: complete values and the simulation of two runs -/

theorem WireValue.ne_nil {w : List Byte} (h : WireValue w) : w ≠ [] := by
  cases h <;> simp

theorem WireName.wireValue {w : List Byte} (h : WireName w) : WireValue w := by
  cases h with
  | symbol len s hl => exact WireValue.symbol len s hl
  | link idx i hi => exact WireValue.link idx i hi

theorem length_le_flatten (ws : List (List Byte)) (w : List Byte) (h : w ∈ ws) :
    w.length ≤ ws.flatten.length := by
  induction ws with
  | nil => cases h
  | cons a ws ih =>
    rw [List.flatten_cons, List.length_append]
    rcases List.mem_cons.mp h with rfl | h
    · omega
    · have := ih h
      omega

theorem Forest.nil (M : Nat) : Forest M [] := fun _ h => absurd h (List.not_mem_nil _)

theorem Forest.append {M : Nat} {a b : List (List Byte)} (ha : Forest M a) (hb : Forest M b) :
    Forest M (a ++ b) := by
  intro w hw
  rcases List.mem_append.mp hw with h | h
  · exact ha w h
  · exact hb w h

theorem Forest.mono {M N : Nat} {a : List (List Byte)} (ha : Forest M a) (h : M ≤ N) :
    Forest N a := fun w hw => ⟨(ha w hw).1, le_trans (ha w hw).2 h⟩

theorem Forest.tail {M : Nat} {w : List Byte} {ws : List (List Byte)}
    (h : Forest M (w :: ws)) : Forest M ws :=
  fun v hv => h v (List.mem_cons_of_mem _ hv)

theorem Forest.head {M : Nat} {w : List Byte} {ws : List (List Byte)}
    (h : Forest M (w :: ws)) : WireValue w ∧ w.length ≤ M :=
  h w (List.mem_cons_self _ _)

/-- The members of a value are shorter than the value. -/
theorem Forest.of_members {M : Nat} (ws : List (List Byte)) (hw : ∀ w ∈ ws, WireValue w)
    (hlen : ws.flatten.length ≤ M) : Forest M ws :=
  fun w h => ⟨hw w h, le_trans (length_le_flatten ws w h) hlen⟩

theorem flatPairs_members (pairs : List (List Byte × List Byte))
    (h1 : ∀ p ∈ pairs, WireValue p.1) (h2 : ∀ p ∈ pairs, WireValue p.2) :
    ∀ w ∈ flatPairs pairs, WireValue w := by
  intro w hw
  unfold flatPairs at hw
  rw [List.mem_flatMap] at hw
  obtain ⟨p, hp, hw⟩ := hw
  simp only [List.mem_cons, List.mem_singleton, List.not_mem_nil, or_false] at hw
  rcases hw with rfl | rfl
  · exact h1 p hp
  · exact h2 p hp

theorem flatPairs_length (pairs : List (List Byte × List Byte)) :
    (flatPairs pairs).length = 2 * pairs.length := by
  induction pairs with
  | nil => rfl
  | cons p ps ih =>
    simp only [flatPairs, List.flatMap_cons, List.length_append, List.length_cons,
      List.length_nil] at ih ⊢
    omega

theorem Decoder.setR_self (d : Decoder) (r : List Byte) (h : d.r = r) :
    ({ d with r := r } : Decoder) = d := by
  cases d
  simp only at h
  subst h
  rfl

theorem saveError_setR (D : Decoder) (r : List Byte) (e : GoError) :
    ({ D with r := r } : Decoder).saveError e = { D.saveError e with r := r } := by
  cases D with
  | mk r0 sy reg se => cases se <;> rfl

/-! ### Building simulations -/

theorem Sim.mk_ok {α : Type} {M : Nat} {x y : List Byte} (D : Decoder)
    (pre : List (List Byte)) (a : α) (h : Forest M pre) :
    Sim M pre.length x y (Res.ok { D with r := pre.flatten ++ x } a)
      (Res.ok { D with r := pre.flatten ++ y } a) :=
  ⟨pre, D, none, a, rfl, rfl, fun _ => ⟨h, le_refl _⟩⟩

theorem Sim.mk_ok_nil {α : Type} {M : Nat} {x y : List Byte} (D : Decoder) (a : α) :
    Sim M 0 x y (Res.ok { D with r := x } a) (Res.ok { D with r := y } a) :=
  ⟨[], D, none, a, rfl, rfl, fun _ => ⟨Forest.nil M, le_refl _⟩⟩

theorem Sim.mk_fail {α : Type} {M k : Nat} {x y : List Byte} (D : Decoder) (s : List Byte)
    (p : Panic) (a : α) :
    Sim M k x y (Res.fail p { D with r := s ++ x } a) (Res.fail p { D with r := s ++ y } a) :=
  ⟨[s], D, some p, a, by simp [Res.fail], by simp [Res.fail], fun h => by cases h⟩

theorem Sim.mk_fail_nil {α : Type} {M k : Nat} {x y : List Byte} (D : Decoder)
    (p : Panic) (a : α) :
    Sim M k x y (Res.fail p { D with r := x } a) (Res.fail p { D with r := y } a) :=
  ⟨[], D, some p, a, rfl, rfl, fun h => by cases h⟩

/-- A simulation with any outcome and no complete values left over. -/
theorem Sim.mk_nil {α : Type} {M : Nat} {x y : List Byte} (D : Decoder)
    (p : Option Panic) (a : α) :
    Sim M 0 x y { panic := p, d := { D with r := x }, val := a }
      { panic := p, d := { D with r := y }, val := a } :=
  ⟨[], D, p, a, rfl, rfl, fun _ => ⟨Forest.nil M, le_refl _⟩⟩

theorem Sim.weaken {α : Type} {M N k j : Nat} {x y : List Byte} {res1 res2 : Res α}
    (h : Sim M k x y res1 res2) (hMN : M ≤ N) (hjk : j ≤ k) : Sim N j x y res1 res2 := by
  obtain ⟨pre, D, p, a, h1, h2, hF⟩ := h
  exact ⟨pre, D, p, a, h1, h2, fun hp => ⟨(hF hp).1.mono hMN, le_trans hjk (hF hp).2⟩⟩

/-- What follows the values may itself start with complete values. -/
theorem Sim.shift {α : Type} {M k : Nat} {x y : List Byte} {res1 res2 : Res α}
    {ws : List (List Byte)} (h : Sim M k (ws.flatten ++ x) (ws.flatten ++ y) res1 res2)
    (hws : Forest M ws) : Sim M (k + ws.length) x y res1 res2 := by
  obtain ⟨pre, D, p, a, h1, h2, hF⟩ := h
  refine ⟨pre ++ ws, D, p, a, ?_, ?_, fun hp => ⟨(hF hp).1.append hws, ?_⟩⟩
  · rw [h1, List.flatten_append, List.append_assoc]
  · rw [h2, List.flatten_append, List.append_assoc]
  · have := (hF hp).2
    rw [List.length_append]
    omega

/-- The same outcome with another value. -/
theorem Sim.mapVal {α β : Type} {M k : Nat} {x y : List Byte} {res1 res2 : Res α}
    (h : Sim M k x y res1 res2) (f : α → β) :
    Sim M k x y { panic := res1.panic, d := res1.d, val := f res1.val }
      { panic := res2.panic, d := res2.d, val := f res2.val } := by
  obtain ⟨pre, D, p, a, h1, h2, hF⟩ := h
  exact ⟨pre, D, p, f a, by rw [h1], by rw [h2], hF⟩

/-- A unit of the forest: the call on the first value, with the rest of the
forest and `x` or `y` behind it. -/
theorem UnitSim.first {M : Nat} {rec1 rec2 : Rec} (h : UnitSim M rec1 rec2) (D : Decoder)
    (val : RValue) (w : List Byte) (ws : List (List Byte)) (x y : List Byte)
    (hF : Forest M (w :: ws)) :
    Sim M ws.length x y (rec1 { D with r := (w :: ws).flatten ++ x } val)
      (rec2 { D with r := (w :: ws).flatten ++ y } val) := by
  have h1 := h D val w (ws.flatten ++ x) (ws.flatten ++ y) hF.head.1 hF.head.2
  rw [List.flatten_cons, List.append_assoc, List.append_assoc]
  exact (h1.shift hF.tail).weaken (le_refl _) (by omega)

/-! ### The loops -/

theorem skipValues_sim {M : Nat} {rec1 rec2 : Rec} (h : UnitSim M rec1 rec2) :
    ∀ (n : Nat) (ws : List (List Byte)) (D : Decoder) (e : GoValue) (x y : List Byte),
      Forest M ws → n ≤ ws.length →
      Sim M (ws.length - n) x y (skipValues rec1 n { D with r := ws.flatten ++ x } e)
        (skipValues rec2 n { D with r := ws.flatten ++ y } e) := by
  intro n
  induction n with
  | zero =>
    intro ws D e x y hF _
    exact Sim.mk_ok D ws e hF
  | succ n ih =>
    intro ws D e x y hF hn
    match ws, hF, hn with
    | w :: ws, hF, hn =>
      obtain ⟨pre, D1, p, a, h1, h2, hP⟩ := h.first D (RValue.addrOf .iface e) w ws x y hF
      simp only [skipValues, h1, h2]
      cases p with
      | some q => exact ⟨pre, D1, some q, a, rfl, rfl, fun hp => by cases hp⟩
      | none =>
        have hlen : n ≤ pre.length := by
          have := (hP rfl).2
          simp only [List.length_cons] at hn
          omega
        refine (ih pre D1 a x y (hP rfl).1 hlen).weaken (le_refl _) ?_
        have := (hP rfl).2
        simp only [List.length_cons]
        omega

/-! ### The readers on complete values -/

theorem parseInt_encodes (D : Decoder) (bs : List Byte) (n : Int) (z : List Byte)
    (h : EncodesInt bs n) :
    ({ D with r := bs ++ z } : Decoder).parseInt = (n, { D with r := z }) := by
  have := parseInt_of_bytes ({ D with r := bs ++ z } : Decoder) n z (h z)
  rw [this]

theorem parseString_encodes (D : Decoder) (len : List Byte) (s : GoString) (z : List Byte)
    (h : EncodesInt len s.length) :
    ({ D with r := len ++ (s ++ z) } : Decoder).parseString = Res.ok { D with r := z } s := by
  have := parseString_of_parseInt ({ D with r := len ++ (s ++ z) } : Decoder) s z (h (s ++ z))
  rw [this]

theorem parseSymbolOrSymbolLink_cons (D : Decoder) (k : Byte) (rest : List Byte) :
    ({ D with r := k :: rest } : Decoder).parseSymbolOrSymbolLink =
      if k = typeSymbol then ({ D with r := rest } : Decoder).parseSymbol
      else if k = typeSymbolLink then ({ D with r := rest } : Decoder).parseIndexAndLookupSymbol
      else Res.fail (.expectedSymbol k) { D with r := rest } [] := by
  unfold Decoder.parseSymbolOrSymbolLink Decoder.MustReadByte
  rfl

theorem parseSymbol_encodes (D : Decoder) (len : List Byte) (s : GoString) (z : List Byte)
    (h : EncodesInt len s.length) :
    ({ D with r := len ++ (s ++ z) } : Decoder).parseSymbol =
      Res.ok { D with r := z, symbols := D.symbols ++ [s] } s := by
  unfold Decoder.parseSymbol
  rw [parseString_encodes D len s z h]
  rfl

theorem parseIndexAndLookupSymbol_encodes (D : Decoder) (idx : List Byte) (i : Int)
    (z : List Byte) (h : EncodesInt idx i) :
    (i < 0 → ({ D with r := idx ++ z } : Decoder).parseIndexAndLookupSymbol =
      Res.fail (.runtime "index out of range") { D with r := z } []) ∧
    (¬ i < 0 → D.symbols.get? i.toNat = none →
      ({ D with r := idx ++ z } : Decoder).parseIndexAndLookupSymbol =
        Res.fail (.runtime "index out of range") { D with r := z } []) ∧
    (∀ sym, ¬ i < 0 → D.symbols.get? i.toNat = some sym →
      ({ D with r := idx ++ z } : Decoder).parseIndexAndLookupSymbol =
        Res.ok { D with r := z } sym) := by
  refine ⟨?_, ?_, ?_⟩
  · intro hneg
    unfold Decoder.parseIndexAndLookupSymbol
    rw [parseInt_encodes D idx i z h]
    simp only [hneg, if_true]
  · intro hneg hget
    unfold Decoder.parseIndexAndLookupSymbol
    rw [parseInt_encodes D idx i z h]
    simp only [hneg, if_false, hget]
  · intro sym hneg hget
    unfold Decoder.parseIndexAndLookupSymbol
    rw [parseInt_encodes D idx i z h]
    simp only [hneg, if_false, hget]

/-- A class name or field name is read whole, whatever follows it, also
when the index of a symbol link is out of range. -/
theorem parseSymbolOrSymbolLink_name (D : Decoder) (nm : List Byte) (h : WireName nm) :
    ∃ (D1 : Decoder) (p : Option Panic) (a : GoString), ∀ z : List Byte,
      ({ D with r := nm ++ z } : Decoder).parseSymbolOrSymbolLink =
        { panic := p, d := { D1 with r := z }, val := a } := by
  cases h with
  | symbol len s hl =>
    refine ⟨{ D with symbols := D.symbols ++ [s] }, none, s, fun z => ?_⟩
    rw [List.cons_append, List.append_assoc, parseSymbolOrSymbolLink_cons, if_pos rfl,
      parseSymbol_encodes D len s z hl]
    rfl
  | link idx i hi =>
    by_cases hneg : i < 0
    · refine ⟨D, some (.runtime "index out of range"), [], fun z => ?_⟩
      rw [List.cons_append, parseSymbolOrSymbolLink_cons, if_neg (by decide), if_pos rfl,
        (parseIndexAndLookupSymbol_encodes D idx i z hi).1 hneg]
      rfl
    · cases hget : D.symbols.get? i.toNat with
      | none =>
        refine ⟨D, some (.runtime "index out of range"), [], fun z => ?_⟩
        rw [List.cons_append, parseSymbolOrSymbolLink_cons, if_neg (by decide), if_pos rfl,
          (parseIndexAndLookupSymbol_encodes D idx i z hi).2.1 hneg hget]
        rfl
      | some sym =>
        refine ⟨D, none, sym, fun z => ?_⟩
        rw [List.cons_append, parseSymbolOrSymbolLink_cons, if_neg (by decide), if_pos rfl,
          (parseIndexAndLookupSymbol_encodes D idx i z hi).2.2 sym hneg hget]
        rfl

/-- The reader of names on any complete value: a symbol or a symbol link
is read whole, and any other value makes it panic at the tag. -/
theorem parseSymbolOrSymbolLink_sim (M : Nat) (D : Decoder) (w x y : List Byte)
    (h : WireValue w) :
    Sim M 0 x y ({ D with r := w ++ x } : Decoder).parseSymbolOrSymbolLink
      ({ D with r := w ++ y } : Decoder).parseSymbolOrSymbolLink := by
  have name : ∀ nm, WireName nm →
      Sim M 0 x y ({ D with r := nm ++ x } : Decoder).parseSymbolOrSymbolLink
        ({ D with r := nm ++ y } : Decoder).parseSymbolOrSymbolLink := by
    intro nm hnm
    obtain ⟨D1, p, a, hz⟩ := parseSymbolOrSymbolLink_name D nm hnm
    rw [hz x, hz y]
    exact Sim.mk_nil D1 p a
  have other : ∀ (k : Byte) (body : List Byte), k ≠ typeSymbol → k ≠ typeSymbolLink →
      Sim M 0 x y ({ D with r := (k :: body) ++ x } : Decoder).parseSymbolOrSymbolLink
        ({ D with r := (k :: body) ++ y } : Decoder).parseSymbolOrSymbolLink := by
    intro k body h1 h2
    rw [List.cons_append, List.cons_append, parseSymbolOrSymbolLink_cons,
      parseSymbolOrSymbolLink_cons, if_neg h1, if_neg h2, if_neg h1, if_neg h2]
    exact Sim.mk_fail D body _ _
  cases h with
  | null => exact other _ _ (by decide) (by decide)
  | isTrue => exact other _ _ (by decide) (by decide)
  | isFalse => exact other _ _ (by decide) (by decide)
  | float len s hl => exact other _ _ (by decide) (by decide)
  | fixnum bs n hn => exact other _ _ (by decide) (by decide)
  | symbol len s hl => exact name _ (WireName.symbol len s hl)
  | link idx i hi => exact name _ (WireName.link idx i hi)
  | string len s hl => exact other _ _ (by decide) (by decide)
  | array cnt items hc hi => exact other _ _ (by decide) (by decide)
  | ivar len s cnt pairs hl hc hn hv => exact other _ _ (by decide) (by decide)
  | hash cnt pairs hc hk hv => exact other _ _ (by decide) (by decide)
  | object cls cnt fields hcls hc hn hv => exact other _ _ (by decide) (by decide)
  | userDefined cls len data hcls hl => exact other _ _ (by decide) (by decide)

theorem nameHead_sim (M : Nat) (D : Decoder) (w : List Byte) (ws : List (List Byte))
    (x y : List Byte) (hF : Forest M (w :: ws)) :
    Sim M ws.length x y
      ({ D with r := (w :: ws).flatten ++ x } : Decoder).parseSymbolOrSymbolLink
      ({ D with r := (w :: ws).flatten ++ y } : Decoder).parseSymbolOrSymbolLink := by
  have h1 := parseSymbolOrSymbolLink_sim M D w (ws.flatten ++ x) (ws.flatten ++ y) hF.head.1
  rw [List.flatten_cons, List.append_assoc, List.append_assoc]
  exact (h1.shift hF.tail).weaken (le_refl _) (by omega)

theorem skipFields_sim {M : Nat} {rec1 rec2 : Rec} (h : UnitSim M rec1 rec2) :
    ∀ (n : Nat) (ws : List (List Byte)) (D : Decoder) (e : GoValue) (x y : List Byte),
      Forest M ws → 2 * n ≤ ws.length →
      Sim M (ws.length - 2 * n) x y (skipFields rec1 n { D with r := ws.flatten ++ x } e)
        (skipFields rec2 n { D with r := ws.flatten ++ y } e) := by
  intro n
  induction n with
  | zero =>
    intro ws D e x y hF _
    exact Sim.mk_ok D ws e hF
  | succ n ih =>
    intro ws D e x y hF hn
    match ws, hF, hn with
    | w :: ws, hF, hn =>
      obtain ⟨pre, D1, p, a, h1, h2, hP⟩ := nameHead_sim M D w ws x y hF
      simp only [skipFields, h1, h2]
      cases p with
      | some q => exact ⟨pre, D1, some q, e, rfl, rfl, fun hp => by cases hp⟩
      | none =>
        have hpre := (hP rfl).2
        simp only [List.length_cons] at hn
        match pre, hP rfl with
        | [], hq => simp only [List.length_nil] at hpre hq; omega
        | v :: pre, hq =>
          obtain ⟨pre2, D2, p2, a2, g1, g2, hP2⟩ :=
            h.first D1 (RValue.addrOf .iface e) v pre x y hq.1
          simp only [g1, g2]
          cases p2 with
          | some q => exact ⟨pre2, D2, some q, a2, rfl, rfl, fun hp => by cases hp⟩
          | none =>
            have hlen2 := (hP2 rfl).2
            simp only [List.length_cons] at hpre
            refine (ih pre2 D2 a2 x y (hP2 rfl).1 (by omega)).weaken (le_refl _) ?_
            simp only [List.length_cons]
            omega

theorem skipPairs_sim {M : Nat} {rec1 rec2 : Rec} (h : UnitSim M rec1 rec2) :
    ∀ (n : Nat) (ws : List (List Byte)) (D : Decoder) (e : GoValue) (x y : List Byte),
      Forest M ws → 2 * n ≤ ws.length →
      Sim M (ws.length - 2 * n) x y (skipPairs rec1 n { D with r := ws.flatten ++ x } e)
        (skipPairs rec2 n { D with r := ws.flatten ++ y } e) := by
  intro n
  induction n with
  | zero =>
    intro ws D e x y hF _
    exact Sim.mk_ok D ws e hF
  | succ n ih =>
    intro ws D e x y hF hn
    match ws, hF, hn with
    | w :: ws, hF, hn =>
      obtain ⟨pre, D1, p, a, h1, h2, hP⟩ := h.first D (RValue.addrOf .iface e) w ws x y hF
      simp only [skipPairs, h1, h2]
      cases p with
      | some q => exact ⟨pre, D1, some q, a, rfl, rfl, fun hp => by cases hp⟩
      | none =>
        have hpre := (hP rfl).2
        simp only [List.length_cons] at hn
        match pre, hP rfl with
        | [], hq => simp only [List.length_nil] at hpre hq; omega
        | v :: pre, hq =>
          obtain ⟨pre2, D2, p2, a2, g1, g2, hP2⟩ :=
            h.first D1 (RValue.addrOf .iface a) v pre x y hq.1
          simp only [g1, g2]
          cases p2 with
          | some q => exact ⟨pre2, D2, some q, a2, rfl, rfl, fun hp => by cases hp⟩
          | none =>
            have hlen2 := (hP2 rfl).2
            simp only [List.length_cons] at hpre
            refine (ih pre2 D2 a2 x y (hP2 rfl).1 (by omega)).weaken (le_refl _) ?_
            simp only [List.length_cons]
            omega

theorem parseArrayItems_sim {M : Nat} {rec1 rec2 : Rec} (h : UnitSim M rec1 rec2) :
    ∀ (n : Nat) (ws : List (List Byte)) (D : Decoder) (x y : List Byte),
      Forest M ws → n ≤ ws.length →
      Sim M (ws.length - n) x y (parseArrayItems rec1 n { D with r := ws.flatten ++ x })
        (parseArrayItems rec2 n { D with r := ws.flatten ++ y }) := by
  intro n
  induction n with
  | zero =>
    intro ws D x y hF _
    exact Sim.mk_ok D ws [] hF
  | succ n ih =>
    intro ws D x y hF hn
    match ws, hF, hn with
    | w :: ws, hF, hn =>
      obtain ⟨pre, D1, p, a, h1, h2, hP⟩ := h.first D RValue.emptyInterface w ws x y hF
      simp only [parseArrayItems, h1, h2]
      cases p with
      | some q => exact ⟨pre, D1, some q, _, rfl, rfl, fun hp => by cases hp⟩
      | none =>
        have hpre := (hP rfl).2
        simp only [List.length_cons] at hn
        have hs := (ih pre D1 x y (hP rfl).1 (by omega)).mapVal (fun l => a :: l)
        refine hs.weaken (le_refl _) ?_
        simp only [List.length_cons]
        omega

theorem sliceElemStep_sim {M : Nat} {rec1 rec2 : Rec} (h : UnitSim M rec1 rec2)
    (elem : GoType) (D : Decoder) (e : GoValue) (w : List Byte) (ws : List (List Byte))
    (x y : List Byte) (hF : Forest M (w :: ws)) :
    Sim M ws.length x y
      (sliceElemStep rec1 elem { D with r := (w :: ws).flatten ++ x } e)
      (sliceElemStep rec2 elem { D with r := (w :: ws).flatten ++ y } e) := by
  cases elem with
  | ptr t =>
    simp only [sliceElemStep]
    exact (h.first D _ w ws x y hF).mapVal (fun _ => e)
  | _ =>
    simp only [sliceElemStep]
    exact h.first D _ w ws x y hF

theorem parseSliceElems_sim {M : Nat} {rec1 rec2 : Rec} (h : UnitSim M rec1 rec2)
    (elem : GoType) :
    ∀ (es : List GoValue) (ws : List (List Byte)) (D : Decoder) (x y : List Byte),
      Forest M ws → es.length ≤ ws.length →
      Sim M (ws.length - es.length) x y
        (parseSliceElems rec1 elem es { D with r := ws.flatten ++ x })
        (parseSliceElems rec2 elem es { D with r := ws.flatten ++ y }) := by
  intro es
  induction es with
  | nil =>
    intro ws D x y hF _
    exact Sim.mk_ok D ws [] hF
  | cons e es ih =>
    intro ws D x y hF hn
    match ws, hF, hn with
    | w :: ws, hF, hn =>
      obtain ⟨pre, D1, p, a, h1, h2, hP⟩ := sliceElemStep_sim h elem D e w ws x y hF
      simp only [parseSliceElems, h1, h2]
      cases p with
      | some q => exact ⟨pre, D1, some q, _, rfl, rfl, fun hp => by cases hp⟩
      | none =>
        have hpre := (hP rfl).2
        simp only [List.length_cons] at hn
        have hs := (ih pre D1 x y (hP rfl).1 (by omega)).mapVal (fun l => a :: l)
        refine hs.weaken (le_refl _) ?_
        simp only [List.length_cons]
        omega

theorem parseObjectFields_sim {M : Nat} {rec1 rec2 : Rec} (h : UnitSim M rec1 rec2) :
    ∀ (n : Nat) (ws : List (List Byte)) (D : Decoder) (obj : List (GoValue × GoValue))
      (x y : List Byte), Forest M ws → 2 * n ≤ ws.length →
      Sim M (ws.length - 2 * n) x y
        (parseObjectFields rec1 n { D with r := ws.flatten ++ x } obj)
        (parseObjectFields rec2 n { D with r := ws.flatten ++ y } obj) := by
  intro n
  induction n with
  | zero =>
    intro ws D obj x y hF _
    exact Sim.mk_ok D ws obj hF
  | succ n ih =>
    intro ws D obj x y hF hn
    match ws, hF, hn with
    | w :: ws, hF, hn =>
      obtain ⟨pre, D1, p, a, h1, h2, hP⟩ := nameHead_sim M D w ws x y hF
      simp only [parseObjectFields, h1, h2]
      cases p with
      | some q => exact ⟨pre, D1, some q, obj, rfl, rfl, fun hp => by cases hp⟩
      | none =>
        have hpre := (hP rfl).2
        simp only [List.length_cons] at hn
        match pre, hP rfl with
        | [], hq => simp only [List.length_nil] at hpre hq; omega
        | v :: pre, hq =>
          obtain ⟨pre2, D2, p2, a2, g1, g2, hP2⟩ :=
            h.first D1 RValue.emptyInterface v pre x y hq.1
          simp only [g1, g2]
          cases p2 with
          | some q => exact ⟨pre2, D2, some q, obj, rfl, rfl, fun hp => by cases hp⟩
          | none =>
            have hlen2 := (hP2 rfl).2
            simp only [List.length_cons] at hpre
            refine (ih pre2 D2 _ x y (hP2 rfl).1 (by omega)).weaken (le_refl _) ?_
            simp only [List.length_cons]
            omega

theorem structFieldStep_sim {M : Nat} {rec1 rec2 : Rec} (h : UnitSim M rec1 rec2)
    (refType : GoType) (fieldName : GoString) (D : Decoder)
    (st : List GoValue × List GoString) (w : List Byte) (ws : List (List Byte))
    (x y : List Byte) (hF : Forest M (w :: ws)) :
    Sim M ws.length x y
      (structFieldStep rec1 refType fieldName { D with r := (w :: ws).flatten ++ x } st)
      (structFieldStep rec2 refType fieldName { D with r := (w :: ws).flatten ++ y } st) := by
  unfold structFieldStep
  cases hl : lookupGet (getStructFieldMapFromType refType) fieldName with
  | none =>
    dsimp only
    exact (h.first D _ w ws x y hF).mapVal (fun _ => (st.1, st.2 ++ [fieldName]))
  | some sf =>
    obtain ⟨pre, D1, p, a, h1, h2, hP⟩ := h.first D (fieldAddr sf st.1) w ws x y hF
    simp only [h1, h2]
    cases p with
    | some q => exact ⟨pre, D1, some q, _, rfl, rfl, fun hp => by cases hp⟩
    | none =>
      cases D1 with
      | mk r0 sy reg se =>
        cases se with
        | none => exact ⟨pre, ⟨r0, sy, reg, none⟩, none, _, rfl, rfl, hP⟩
        | some err =>
          cases err with
          | unexpectedType got expected =>
            dsimp only
            by_cases hc : D.savedError ≠ some (.unexpectedType got expected)
            · rw [if_pos hc, if_pos hc]
              exact ⟨pre, ⟨r0, sy, reg, some (.fieldContext refType.typeName
                sf.name sf.type.typeString expected)⟩, none, _, rfl, rfl, hP⟩
            · rw [if_neg hc, if_neg hc]
              exact ⟨pre, ⟨r0, sy, reg, _⟩, none, _, rfl, rfl, hP⟩
          | invalidFloat64 v => exact ⟨pre, ⟨r0, sy, reg, _⟩, none, _, rfl, rfl, hP⟩
          | fieldContext s f t e => exact ⟨pre, ⟨r0, sy, reg, _⟩, none, _, rfl, rfl, hP⟩
          | text m => exact ⟨pre, ⟨r0, sy, reg, _⟩, none, _, rfl, rfl, hP⟩
          | rubyError q => exact ⟨pre, ⟨r0, sy, reg, _⟩, none, _, rfl, rfl, hP⟩

theorem parseStructFields_sim {M : Nat} {rec1 rec2 : Rec} (h : UnitSim M rec1 rec2)
    (refType : GoType) :
    ∀ (n : Nat) (ws : List (List Byte)) (D : Decoder) (st : List GoValue × List GoString)
      (x y : List Byte), Forest M ws → 2 * n ≤ ws.length →
      Sim M (ws.length - 2 * n) x y
        (parseStructFields rec1 refType n { D with r := ws.flatten ++ x } st)
        (parseStructFields rec2 refType n { D with r := ws.flatten ++ y } st) := by
  intro n
  induction n with
  | zero =>
    intro ws D st x y hF _
    exact Sim.mk_ok D ws st hF
  | succ n ih =>
    intro ws D st x y hF hn
    match ws, hF, hn with
    | w :: ws, hF, hn =>
      obtain ⟨pre, D1, p, a, h1, h2, hP⟩ := nameHead_sim M D w ws x y hF
      simp only [parseStructFields, h1, h2]
      cases p with
      | some q => exact ⟨pre, D1, some q, st, rfl, rfl, fun hp => by cases hp⟩
      | none =>
        have hpre := (hP rfl).2
        simp only [List.length_cons] at hn
        match pre, hP rfl with
        | [], hq => simp only [List.length_nil] at hpre hq; omega
        | v :: pre, hq =>
          obtain ⟨pre2, D2, p2, a2, g1, g2, hP2⟩ :=
            structFieldStep_sim h refType a D1 st v pre x y hq.1
          simp only [g1, g2]
          cases p2 with
          | some q => exact ⟨pre2, D2, some q, a2, rfl, rfl, fun hp => by cases hp⟩
          | none =>
            have hlen2 := (hP2 rfl).2
            simp only [List.length_cons] at hpre
            refine (ih pre2 D2 a2 x y (hP2 rfl).1 (by omega)).weaken (le_refl _) ?_
            simp only [List.length_cons]
            omega

theorem parseHashPairs_sim {M : Nat} {rec1 rec2 : Rec} (h : UnitSim M rec1 rec2) :
    ∀ (n : Nat) (ws : List (List Byte)) (D : Decoder) (hash : List (GoValue × GoValue))
      (x y : List Byte), Forest M ws → 2 * n ≤ ws.length →
      Sim M (ws.length - 2 * n) x y
        (parseHashPairs rec1 n { D with r := ws.flatten ++ x } hash)
        (parseHashPairs rec2 n { D with r := ws.flatten ++ y } hash) := by
  intro n
  induction n with
  | zero =>
    intro ws D hash x y hF _
    exact Sim.mk_ok D ws hash hF
  | succ n ih =>
    intro ws D hash x y hF hn
    match ws, hF, hn with
    | w :: ws, hF, hn =>
      obtain ⟨pre, D1, p, a, h1, h2, hP⟩ := h.first D RValue.emptyInterface w ws x y hF
      simp only [parseHashPairs, h1, h2]
      cases p with
      | some q => exact ⟨pre, D1, some q, hash, rfl, rfl, fun hp => by cases hp⟩
      | none =>
        have hpre := (hP rfl).2
        simp only [List.length_cons] at hn
        match pre, hP rfl with
        | [], hq => simp only [List.length_nil] at hpre hq; omega
        | v :: pre, hq =>
          obtain ⟨pre2, D2, p2, a2, g1, g2, hP2⟩ :=
            h.first D1 RValue.emptyInterface v pre x y hq.1
          simp only [g1, g2]
          cases p2 with
          | some q => exact ⟨pre2, D2, some q, hash, rfl, rfl, fun hp => by cases hp⟩
          | none =>
            have hlen2 := (hP2 rfl).2
            simp only [List.length_cons] at hpre
            have hnext : ∀ hash2, Sim M ((w :: ws).length - 2 * (n + 1)) x y
                (parseHashPairs rec1 n { D2 with r := pre2.flatten ++ x } hash2)
                (parseHashPairs rec2 n { D2 with r := pre2.flatten ++ y } hash2) := by
              intro hash2
              refine (ih pre2 D2 hash2 x y (hP2 rfl).1 (by omega)).weaken (le_refl _) ?_
              simp only [List.length_cons]
              omega
            dsimp only
            split
            · exact hnext _
            · exact hnext _
            · exact ⟨pre2, D2, some _, hash, rfl, rfl, fun hp => by cases hp⟩

theorem parseMapPairs_sim {M : Nat} {rec1 rec2 : Rec} (h : UnitSim M rec1 rec2)
    (keyT elemT : GoType) :
    ∀ (n : Nat) (ws : List (List Byte)) (D : Decoder) (es : List (GoValue × GoValue))
      (x y : List Byte), Forest M ws → 2 * n ≤ ws.length →
      Sim M (ws.length - 2 * n) x y
        (parseMapPairs rec1 keyT elemT n { D with r := ws.flatten ++ x } es)
        (parseMapPairs rec2 keyT elemT n { D with r := ws.flatten ++ y } es) := by
  intro n
  induction n with
  | zero =>
    intro ws D es x y hF _
    exact Sim.mk_ok D ws es hF
  | succ n ih =>
    intro ws D es x y hF hn
    match ws, hF, hn with
    | w :: ws, hF, hn =>
      obtain ⟨pre, D1, p, a, h1, h2, hP⟩ := h.first D RValue.emptyInterface w ws x y hF
      simp only [parseMapPairs, h1, h2]
      cases p with
      | some q => exact ⟨pre, D1, some q, es, rfl, rfl, fun hp => by cases hp⟩
      | none =>
        have hpre := (hP rfl).2
        simp only [List.length_cons] at hn
        match pre, hP rfl with
        | [], hq => simp only [List.length_nil] at hpre hq; omega
        | v :: pre, hq =>
          obtain ⟨pre2, D2, p2, a2, g1, g2, hP2⟩ :=
            h.first D1 (RValue.addrOf elemT elemT.zero) v pre x y hq.1
          simp only [g1, g2]
          cases p2 with
          | some q => exact ⟨pre2, D2, some q, es, rfl, rfl, fun hp => by cases hp⟩
          | none =>
            have hlen2 := (hP2 rfl).2
            simp only [List.length_cons] at hpre
            have hnext : ∀ (D3 : Decoder) es2, Sim M ((w :: ws).length - 2 * (n + 1)) x y
                (parseMapPairs rec1 keyT elemT n { D3 with r := pre2.flatten ++ x } es2)
                (parseMapPairs rec2 keyT elemT n { D3 with r := pre2.flatten ++ y } es2) := by
              intro D3 es2
              refine (ih pre2 D3 es2 x y (hP2 rfl).1 (by omega)).weaken (le_refl _) ?_
              simp only [List.length_cons]
              omega
            dsimp only
            by_cases hk : a.dynKind ≠ keyT.kind
            · rw [if_pos hk, if_pos hk, saveError_setR D2 (pre2.flatten ++ x),
                saveError_setR D2 (pre2.flatten ++ y)]
              exact hnext (D2.saveError _) es
            · rw [if_neg hk, if_neg hk]
              cases setMapIndex keyT elemT es a a2 with
              | none => exact ⟨pre2, D2, some _, es, rfl, rfl, fun hp => by cases hp⟩
              | some es1 => exact hnext _ _

theorem parseHashStructFields_sim {M : Nat} {rec1 rec2 : Rec} (h : UnitSim M rec1 rec2)
    (refType : GoType) :
    ∀ (n : Nat) (ws : List (List Byte)) (D : Decoder) (st : List GoValue × List GoString)
      (x y : List Byte), Forest M ws → 2 * n ≤ ws.length →
      Sim M (ws.length - 2 * n) x y
        (parseHashStructFields rec1 refType n { D with r := ws.flatten ++ x } st)
        (parseHashStructFields rec2 refType n { D with r := ws.flatten ++ y } st) := by
  intro n
  induction n with
  | zero =>
    intro ws D st x y hF _
    exact Sim.mk_ok D ws st hF
  | succ n ih =>
    intro ws D st x y hF hn
    match ws, hF, hn with
    | w :: ws, hF, hn =>
      obtain ⟨pre, D1, p, a, h1, h2, hP⟩ := h.first D RValue.emptyInterface w ws x y hF
      simp only [parseHashStructFields, h1, h2]
      cases p with
      | some q => exact ⟨pre, D1, some q, st, rfl, rfl, fun hp => by cases hp⟩
      | none =>
        have hpre := (hP rfl).2
        simp only [List.length_cons] at hn
        dsimp only
        split
        · rename_i fieldName
          match pre, hP rfl with
          | [], hq => simp only [List.length_nil] at hpre hq; omega
          | v :: pre, hq =>
            obtain ⟨pre2, D2, p2, a2, g1, g2, hP2⟩ :=
              structFieldStep_sim h refType fieldName D1 st v pre x y hq.1
            simp only [g1, g2]
            cases p2 with
            | some q => exact ⟨pre2, D2, some q, a2, rfl, rfl, fun hp => by cases hp⟩
            | none =>
              have hlen2 := (hP2 rfl).2
              simp only [List.length_cons] at hpre
              refine (ih pre2 D2 a2 x y (hP2 rfl).1 (by omega)).weaken (le_refl _) ?_
              simp only [List.length_cons]
              omega
        · exact ⟨pre, D1, some _, st, rfl, rfl, fun hp => by cases hp⟩

/-! ### The cases of `parseType` on a complete value -/

theorem parseTypeStep_at (parseFloat : GoString → Option Nat) (rec : Rec) (D : Decoder)
    (k : Byte) (rest : List Byte) (val : RValue) :
    parseTypeStep parseFloat rec { D with r := k :: rest } val =
      if k = typeNull then parseTypeNull { D with r := rest } val
      else if k = typeTrue then parseTypeBool true { D with r := rest } val
      else if k = typeFalse then parseTypeBool false { D with r := rest } val
      else if k = typeFloat then parseTypeFloat parseFloat { D with r := rest } val
      else if k = typeFixNum then parseTypeFixNum { D with r := rest } val
      else if k = typeSymbol then parseTypeSymbol { D with r := rest } val
      else if k = typeSymbolLink then parseTypeSymbolLink { D with r := rest } val
      else if k = typeArray then parseTypeArray rec { D with r := rest } val
      else if k = typeString then parseTypeString { D with r := rest } val
      else if k = typeIVar then parseTypeIVar { D with r := rest } val
      else if k = typeObject then parseTypeObject rec { D with r := rest } val
      else if k = typeHash then parseTypeHash rec { D with r := rest } val
      else if k = typeUserDefined then parseTypeUserDefined { D with r := rest } val
      else Res.fail (.unimplementedType k) { D with r := rest } val.cur :=
  parseTypeStep_cons parseFloat rec { D with r := k :: rest } val k rest rfl

/-- Returning with the values `pre` left unread. -/
theorem Sim.ok_pre {α : Type} {M : Nat} {x y : List Byte} (D : Decoder)
    (pre : List (List Byte)) (a : α) (h : Forest M pre) :
    Sim M 0 x y (Res.ok { D with r := pre.flatten ++ x } a)
      (Res.ok { D with r := pre.flatten ++ y } a) :=
  ⟨pre, D, none, a, rfl, rfl, fun _ => ⟨h, Nat.zero_le _⟩⟩

theorem Sim.ok_saveError {α : Type} {M : Nat} {x y : List Byte} (D : Decoder)
    (pre : List (List Byte)) (e : GoError) (a : α) (h : Forest M pre) :
    Sim M 0 x y (Res.ok (({ D with r := pre.flatten ++ x } : Decoder).saveError e) a)
      (Res.ok (({ D with r := pre.flatten ++ y } : Decoder).saveError e) a) := by
  rw [saveError_setR D (pre.flatten ++ x), saveError_setR D (pre.flatten ++ y)]
  exact Sim.ok_pre (D.saveError e) pre a h

theorem Sim.fail_pre {α : Type} {M : Nat} {x y : List Byte} (D : Decoder)
    (pre : List (List Byte)) (p : Panic) (a : α) :
    Sim M 0 x y (Res.fail p { D with r := pre.flatten ++ x } a)
      (Res.fail p { D with r := pre.flatten ++ y } a) :=
  ⟨pre, D, some p, a, rfl, rfl, fun hp => by cases hp⟩

theorem setOrPanic_sim {M : Nat} {x y : List Byte} (D : Decoder) (pre : List (List Byte))
    (val : RValue) (dyn : GoType) (v : GoValue) (h : Forest M pre) :
    Sim M 0 x y (setOrPanic { D with r := pre.flatten ++ x } val dyn v)
      (setOrPanic { D with r := pre.flatten ++ y } val dyn v) := by
  unfold setOrPanic
  cases val.set dyn v with
  | none => exact Sim.fail_pre D pre _ _
  | some u => exact Sim.ok_pre D pre u h

theorem bindString_sim {M : Nat} {x y : List Byte} (D : Decoder) (pre : List (List Byte))
    (val : RValue) (str : GoString) (h : Forest M pre) :
    Sim M 0 x y (bindString { D with r := pre.flatten ++ x } val str)
      (bindString { D with r := pre.flatten ++ y } val str) := by
  unfold bindString
  by_cases hc : val.elemKind ≠ .interface ∧ val.elemKind ≠ .string
  · rw [if_pos hc, if_pos hc]
    exact Sim.ok_saveError D pre _ _ h
  · rw [if_neg hc, if_neg hc]
    exact setOrPanic_sim D pre val _ _ h

theorem parseTypeNull_sim {M : Nat} {x y : List Byte} (D : Decoder) (val : RValue) :
    Sim M 0 x y (parseTypeNull { D with r := x } val) (parseTypeNull { D with r := y } val) := by
  unfold parseTypeNull
  by_cases h1 : (!val.canSet) = true
  · rw [if_pos h1, if_pos h1]
    exact Sim.ok_pre D [] _ (Forest.nil M)
  · rw [if_neg h1, if_neg h1]
    by_cases h2 : val.elemKind = .interface ∨ val.elemKind = .struct ∨
        val.elemKind = .string ∨ val.elemKind = .int ∨ val.elemKind = .int32 ∨
        val.elemKind = .int64
    · rw [if_pos h2, if_pos h2]
      exact Sim.ok_pre D [] _ (Forest.nil M)
    · rw [if_neg h2, if_neg h2]
      exact Sim.ok_saveError D [] _ _ (Forest.nil M)

theorem parseTypeBool_sim {M : Nat} {x y : List Byte} (D : Decoder) (val : RValue)
    (b : Bool) :
    Sim M 0 x y (parseTypeBool b { D with r := x } val)
      (parseTypeBool b { D with r := y } val) := by
  unfold parseTypeBool
  by_cases h1 : (!val.canSet) = true
  · rw [if_pos h1, if_pos h1]
    exact Sim.ok_pre D [] _ (Forest.nil M)
  · rw [if_neg h1, if_neg h1]
    by_cases h2 : val.elemKind = .interface ∨ val.elemKind = .bool
    · rw [if_pos h2, if_pos h2]
      exact setOrPanic_sim D [] val _ _ (Forest.nil M)
    · rw [if_neg h2, if_neg h2]
      exact Sim.ok_saveError D [] _ _ (Forest.nil M)

theorem parseTypeFloat_sim {M : Nat} {x y : List Byte} (parseFloat : GoString → Option Nat)
    (D : Decoder) (val : RValue) (len : List Byte) (s : GoString)
    (hl : EncodesInt len s.length) :
    Sim M 0 x y (parseTypeFloat parseFloat { D with r := (len ++ s) ++ x } val)
      (parseTypeFloat parseFloat { D with r := (len ++ s) ++ y } val) := by
  unfold parseTypeFloat
  rw [List.append_assoc, List.append_assoc, parseString_encodes D len s x hl,
    parseString_encodes D len s y hl]
  simp only [Res.ok]
  by_cases h1 : (!val.canSet) = true
  · rw [if_pos h1, if_pos h1]
    exact Sim.ok_pre D [] _ (Forest.nil M)
  · rw [if_neg h1, if_neg h1]
    cases floatOfString parseFloat s with
    | none => exact Sim.ok_saveError D [] _ _ (Forest.nil M)
    | some f =>
      dsimp only
      by_cases h2 : val.elemKind = .interface
      · rw [if_pos h2, if_pos h2]
        exact setOrPanic_sim D [] val _ _ (Forest.nil M)
      · rw [if_neg h2, if_neg h2]
        by_cases h3 : val.elemKind = .float64
        · rw [if_pos h3, if_pos h3]
          exact Sim.ok_pre D [] _ (Forest.nil M)
        · rw [if_neg h3, if_neg h3]
          exact Sim.ok_saveError D [] _ _ (Forest.nil M)

theorem parseTypeFixNum_sim {M : Nat} {x y : List Byte} (D : Decoder) (val : RValue)
    (bs : List Byte) (n : Int) (hn : EncodesInt bs n) :
    Sim M 0 x y (parseTypeFixNum { D with r := bs ++ x } val)
      (parseTypeFixNum { D with r := bs ++ y } val) := by
  unfold parseTypeFixNum
  rw [parseInt_encodes D bs n x hn, parseInt_encodes D bs n y hn]
  dsimp only
  by_cases h1 : (!val.canSet) = true
  · rw [if_pos h1, if_pos h1]
    exact Sim.ok_pre D [] _ (Forest.nil M)
  · rw [if_neg h1, if_neg h1]
    by_cases h2 : val.elemKind = .interface
    · rw [if_pos h2, if_pos h2]
      exact setOrPanic_sim D [] val _ _ (Forest.nil M)
    · rw [if_neg h2, if_neg h2]
      by_cases h3 : val.elemKind = .int ∨ val.elemKind = .int64
      · rw [if_pos h3, if_pos h3]
        exact Sim.ok_pre D [] _ (Forest.nil M)
      · rw [if_neg h3, if_neg h3]
        by_cases h4 : val.elemKind = .int32
        · rw [if_pos h4, if_pos h4]
          exact Sim.ok_pre D [] _ (Forest.nil M)
        · rw [if_neg h4, if_neg h4]
          exact Sim.ok_saveError D [] _ _ (Forest.nil M)

theorem parseTypeSymbol_sim {M : Nat} {x y : List Byte} (D : Decoder) (val : RValue)
    (len : List Byte) (s : GoString) (hl : EncodesInt len s.length) :
    Sim M 0 x y (parseTypeSymbol { D with r := (len ++ s) ++ x } val)
      (parseTypeSymbol { D with r := (len ++ s) ++ y } val) := by
  unfold parseTypeSymbol
  rw [List.append_assoc, List.append_assoc, parseSymbol_encodes D len s x hl,
    parseSymbol_encodes D len s y hl]
  simp only [Res.ok]
  exact setOrPanic_sim { D with symbols := D.symbols ++ [s] } [] val _ _ (Forest.nil M)

theorem parseTypeSymbolLink_sim {M : Nat} {x y : List Byte} (D : Decoder) (val : RValue)
    (idx : List Byte) (i : Int) (hi : EncodesInt idx i) :
    Sim M 0 x y (parseTypeSymbolLink { D with r := idx ++ x } val)
      (parseTypeSymbolLink { D with r := idx ++ y } val) := by
  unfold parseTypeSymbolLink
  have hx := parseIndexAndLookupSymbol_encodes D idx i x hi
  have hy := parseIndexAndLookupSymbol_encodes D idx i y hi
  by_cases hneg : i < 0
  · rw [hx.1 hneg, hy.1 hneg]
    exact Sim.fail_pre D [] _ _
  · cases hget : D.symbols.get? i.toNat with
    | none =>
      rw [hx.2.1 hneg hget, hy.2.1 hneg hget]
      exact Sim.fail_pre D [] _ _
    | some sym =>
      rw [hx.2.2 sym hneg hget, hy.2.2 sym hneg hget]
      exact setOrPanic_sim D [] val _ _ (Forest.nil M)

theorem parseTypeString_sim {M : Nat} {x y : List Byte} (D : Decoder) (val : RValue)
    (len : List Byte) (s : GoString) (hl : EncodesInt len s.length) :
    Sim M 0 x y (parseTypeString { D with r := (len ++ s) ++ x } val)
      (parseTypeString { D with r := (len ++ s) ++ y } val) := by
  unfold parseTypeString
  rw [List.append_assoc, List.append_assoc, parseString_encodes D len s x hl,
    parseString_encodes D len s y hl]
  simp only [Res.ok]
  exact bindString_sim D [] val s (Forest.nil M)

theorem bufferNext_exact (data z : List Byte) :
    bufferNext (data ++ z) ((data.length : Int)).toNat = (data, z) := by
  unfold bufferNext
  rw [Int.toNat_ofNat, List.take_left, List.drop_left]

theorem parseTypeUserDefined_sim {M : Nat} {x y : List Byte} (D : Decoder) (val : RValue)
    (cls len data : List Byte) (hcls : WireName cls) (hl : EncodesInt len data.length) :
    Sim M 0 x y (parseTypeUserDefined { D with r := (cls ++ (len ++ data)) ++ x } val)
      (parseTypeUserDefined { D with r := (cls ++ (len ++ data)) ++ y } val) := by
  obtain ⟨D1, p, a, hz⟩ := parseSymbolOrSymbolLink_name D cls hcls
  have e1 : ∀ z : List Byte, (cls ++ (len ++ data)) ++ z = cls ++ (len ++ (data ++ z)) := by
    intro z; simp only [List.append_assoc]
  unfold parseTypeUserDefined
  rw [e1 x, e1 y, hz, hz]
  cases p with
  | some q =>
    dsimp only
    have e2 : ∀ z : List Byte, len ++ (data ++ z) = (len ++ data) ++ z := by
      intro z; simp only [List.append_assoc]
    rw [e2 x, e2 y]
    exact Sim.mk_fail D1 (len ++ data) q val.cur
  | none =>
    dsimp only
    rw [parseInt_encodes D1 len _ (data ++ x) hl, parseInt_encodes D1 len _ (data ++ y) hl]
    dsimp only
    have hnot : ¬ ((data.length : Int) < 0) := by omega
    rw [if_neg hnot, if_neg hnot, bufferNext_exact data x, bufferNext_exact data y]
    dsimp only
    cases D1.userDefinedLoadMap a with
    | none => exact Sim.fail_pre D1 [] _ _
    | some f => exact Sim.mk_nil D1 _ _

theorem WireValue.cons_form {v : List Byte} (hv : WireValue v) :
    ∃ (k : Byte) (body : List Byte), v = k :: body ∧ (k = typeTrue → body = []) := by
  cases hv with
  | isTrue => exact ⟨_, _, rfl, fun _ => rfl⟩
  | null => exact ⟨_, _, rfl, fun h => absurd h (by decide)⟩
  | isFalse => exact ⟨_, _, rfl, fun h => absurd h (by decide)⟩
  | float len s hl => exact ⟨_, _, rfl, fun h => absurd h (by decide)⟩
  | fixnum bs n hn => exact ⟨_, _, rfl, fun h => absurd h (by decide)⟩
  | symbol len s hl => exact ⟨_, _, rfl, fun h => absurd h (by decide)⟩
  | link idx i hi => exact ⟨_, _, rfl, fun h => absurd h (by decide)⟩
  | string len s hl => exact ⟨_, _, rfl, fun h => absurd h (by decide)⟩
  | array cnt items hc hi => exact ⟨_, _, rfl, fun h => absurd h (by decide)⟩
  | ivar len s cnt pairs hl hc hn hv => exact ⟨_, _, rfl, fun h => absurd h (by decide)⟩
  | hash cnt pairs hc hk hv => exact ⟨_, _, rfl, fun h => absurd h (by decide)⟩
  | object cls cnt fields hcls hc hn hv => exact ⟨_, _, rfl, fun h => absurd h (by decide)⟩
  | userDefined cls len data hcls hl => exact ⟨_, _, rfl, fun h => absurd h (by decide)⟩

/-- The metadata of an instance-variable value: with one pair, the name is
read whole and the value has to be the tag `T`; with another count the pairs
are left unread. -/
theorem parseIVarMeta_sim {M : Nat} {x y : List Byte} (D : Decoder) (cnt : List Byte)
    (pairs : List (List Byte × List Byte)) (hc : EncodesInt cnt pairs.length)
    (hn : ∀ p ∈ pairs, WireName p.1) (hv : ∀ p ∈ pairs, WireValue p.2)
    (hF : Forest M (flatPairs pairs)) :
    Sim M 0 x y (parseIVarMeta { D with r := (cnt ++ (flatPairs pairs).flatten) ++ x })
      (parseIVarMeta { D with r := (cnt ++ (flatPairs pairs).flatten) ++ y }) := by
  unfold parseIVarMeta
  rw [List.append_assoc, List.append_assoc, parseInt_encodes D cnt _ _ hc,
    parseInt_encodes D cnt _ _ hc]
  dsimp only
  by_cases h1 : (pairs.length : Int) = 1
  · rw [if_pos h1, if_pos h1]
    have h1n : pairs.length = 1 := by omega
    match pairs, h1n, hn, hv with
    | [p], _, hn, hv =>
      obtain ⟨D1, q, a, hz⟩ := parseSymbolOrSymbolLink_name D p.1 (hn p (List.mem_singleton_self p))
      obtain ⟨k, body, hk, hT⟩ := (hv p (List.mem_singleton_self p)).cons_form
      have e1 : ∀ z : List Byte, (flatPairs [p]).flatten ++ z = p.1 ++ (k :: (body ++ z)) := by
        intro z
        simp [flatPairs, hk]
      rw [e1 x, e1 y, hz, hz]
      cases q with
      | some q =>
        dsimp only
        exact Sim.mk_fail D1 (k :: body) q ()
      | none =>
        dsimp only
        rw [MustReadByte_cons _ k (body ++ x) rfl, MustReadByte_cons _ k (body ++ y) rfl]
        dsimp only [Res.ok]
        by_cases hkT : k = typeTrue
        · have hb := hT hkT
          subst hb
          subst hkT
          simp only [ne_eq, not_true_eq_false, if_false]
          exact Sim.mk_nil D1 none ()
        · simp only [ne_eq, hkT, not_false_eq_true, if_true]
          exact Sim.mk_fail D1 body _ ()
  · rw [if_neg h1, if_neg h1]
    exact Sim.ok_pre D (flatPairs pairs) () hF

theorem parseTypeIVar_sim {M : Nat} {x y : List Byte} (D : Decoder) (val : RValue)
    (len : List Byte) (s : GoString) (cnt : List Byte)
    (pairs : List (List Byte × List Byte)) (hl : EncodesInt len s.length)
    (hc : EncodesInt cnt pairs.length) (hn : ∀ p ∈ pairs, WireName p.1)
    (hv : ∀ p ∈ pairs, WireValue p.2) (hF : Forest M (flatPairs pairs)) :
    Sim M 0 x y
      (parseTypeIVar
        { D with r := (typeString :: (len ++ (s ++ (cnt ++ (flatPairs pairs).flatten)))) ++ x }
        val)
      (parseTypeIVar
        { D with r := (typeString :: (len ++ (s ++ (cnt ++ (flatPairs pairs).flatten)))) ++ y }
        val) := by
  have e1 : ∀ z : List Byte,
      (typeString :: (len ++ (s ++ (cnt ++ (flatPairs pairs).flatten)))) ++ z =
        typeString :: (len ++ (s ++ ((cnt ++ (flatPairs pairs).flatten) ++ z))) := by
    intro z; simp only [List.cons_append, List.append_assoc]
  unfold parseTypeIVar
  rw [e1 x, e1 y, MustReadByte_cons _ typeString _ rfl, MustReadByte_cons _ typeString _ rfl]
  dsimp only [Res.ok]
  rw [if_neg (by simp), if_neg (by simp), parseString_encodes D len s _ hl,
    parseString_encodes D len s _ hl]
  dsimp only [Res.ok]
  obtain ⟨pre, D1, p, a, h1, h2, hP⟩ :=
    @parseIVarMeta_sim M x y D cnt pairs hc hn hv hF
  rw [h1, h2]
  cases p with
  | some q => exact ⟨pre, D1, some q, val.cur, rfl, rfl, fun hp => by cases hp⟩
  | none => exact bindString_sim D1 pre val s (hP rfl).1

theorem finishStruct_sim {M k : Nat} {x y : List Byte} (refType : GoType)
    {res1 res2 : Res (List GoValue × List GoString)} (h : Sim M k x y res1 res2) :
    Sim M 0 x y (finishStruct refType res1) (finishStruct refType res2) := by
  obtain ⟨pre, D, p, a, h1, h2, hP⟩ := h
  rw [h1, h2]
  unfold finishStruct
  cases p with
  | some q => exact Sim.fail_pre D pre _ _
  | none =>
    dsimp only
    by_cases hc : a.2.length > 0
    · rw [if_pos hc, if_pos hc]
      exact Sim.fail_pre D pre _ _
    · rw [if_neg hc, if_neg hc]
      exact Sim.ok_pre D pre _ (hP rfl).1

theorem parseTypeArray_sim {M : Nat} {x y : List Byte} {rec1 rec2 : Rec}
    (h : UnitSim M rec1 rec2) (D : Decoder) (val : RValue) (cnt : List Byte)
    (items : List (List Byte)) (hc : EncodesInt cnt items.length) (hF : Forest M items) :
    Sim M 0 x y (parseTypeArray rec1 { D with r := (cnt ++ items.flatten) ++ x } val)
      (parseTypeArray rec2 { D with r := (cnt ++ items.flatten) ++ y } val) := by
  unfold parseTypeArray
  rw [List.append_assoc, List.append_assoc, parseInt_encodes D cnt _ _ hc,
    parseInt_encodes D cnt _ _ hc]
  dsimp only
  rw [Int.toNat_ofNat]
  have hneg : ¬ ((items.length : Int) < 0) := by omega
  have hdef : Sim M 0 x y
      { panic := (skipValues rec1 items.length
          (({ D with r := items.flatten ++ x } : Decoder).saveError
            (.unexpectedType Kind.ptr.name "ptr interface or ptr slice")) .nil).panic,
        d := (skipValues rec1 items.length
          (({ D with r := items.flatten ++ x } : Decoder).saveError
            (.unexpectedType Kind.ptr.name "ptr interface or ptr slice")) .nil).d,
        val := val.cur }
      { panic := (skipValues rec2 items.length
          (({ D with r := items.flatten ++ y } : Decoder).saveError
            (.unexpectedType Kind.ptr.name "ptr interface or ptr slice")) .nil).panic,
        d := (skipValues rec2 items.length
          (({ D with r := items.flatten ++ y } : Decoder).saveError
            (.unexpectedType Kind.ptr.name "ptr interface or ptr slice")) .nil).d,
        val := val.cur } := by
    rw [saveError_setR D (items.flatten ++ x), saveError_setR D (items.flatten ++ y)]
    exact ((skipValues_sim h items.length items (D.saveError _) .nil x y hF
      (le_refl _)).mapVal (fun _ => val.cur)).weaken (le_refl _) (Nat.zero_le _)
  cases hnil : val.isNil <;> cases ht : val.elemType <;> dsimp only <;>
    first
    | exact hdef
    | skip
  · -- interface destination
    by_cases h0 : (items.length : Int) = 0
    · rw [if_pos h0, if_pos h0]
      exact setOrPanic_sim D items val _ _ hF
    · rw [if_neg h0, if_neg h0, if_neg hneg, if_neg hneg]
      cases val.set (.slice .iface) (.slice (List.replicate items.length GoValue.nil)) with
      | none => exact Sim.fail_pre D items _ _
      | some u =>
        dsimp only
        exact ((parseArrayItems_sim h items.length items D x y hF (le_refl _)).mapVal
          (fun l => GoValue.iface (.slice .iface) (.slice l))).weaken (le_refl _)
            (Nat.zero_le _)
  · -- slice destination
    rename_i elem
    by_cases h0 : (items.length : Int) = 0
    · rw [if_pos h0, if_pos h0]
      by_cases hs : (!val.canSet) = true
      · rw [if_pos hs, if_pos hs]
        exact Sim.fail_pre D items _ _
      · rw [if_neg hs, if_neg hs]
        exact Sim.ok_pre D items _ hF
    · rw [if_neg h0, if_neg h0, if_neg hneg, if_neg hneg]
      by_cases hs : (!val.canSet) = true
      · rw [if_pos hs, if_pos hs]
        exact Sim.fail_pre D items _ _
      · rw [if_neg hs, if_neg hs]
        exact ((parseSliceElems_sim h elem (List.replicate items.length elem.zero) items D x y
          hF (by simp)).mapVal (fun l => GoValue.slice l)).weaken (le_refl _) (Nat.zero_le _)

theorem parseTypeHash_sim {M : Nat} {x y : List Byte} {rec1 rec2 : Rec}
    (h : UnitSim M rec1 rec2) (D : Decoder) (val : RValue) (cnt : List Byte)
    (pairs : List (List Byte × List Byte)) (hc : EncodesInt cnt pairs.length)
    (hF : Forest M (flatPairs pairs)) :
    Sim M 0 x y (parseTypeHash rec1 { D with r := (cnt ++ (flatPairs pairs).flatten) ++ x } val)
      (parseTypeHash rec2 { D with r := (cnt ++ (flatPairs pairs).flatten) ++ y } val) := by
  have hlen : 2 * pairs.length ≤ (flatPairs pairs).length := by
    rw [flatPairs_length]
  unfold parseTypeHash
  rw [List.append_assoc, List.append_assoc, parseInt_encodes D cnt _ _ hc,
    parseInt_encodes D cnt _ _ hc]
  dsimp only
  rw [Int.toNat_ofNat]
  by_cases hs : (!val.canSet) = true
  · rw [if_pos hs, if_pos hs]
    exact ((skipPairs_sim h pairs.length (flatPairs pairs) D .nil x y hF hlen).mapVal
      (fun _ => val.cur)).weaken (le_refl _) (Nat.zero_le _)
  · rw [if_neg hs, if_neg hs]
    cases ht : val.elemType with
    | iface =>
      dsimp only
      exact ((parseHashPairs_sim h pairs.length (flatPairs pairs) D [] x y hF hlen).mapVal
        (fun l => GoValue.iface (.map .string .iface) (.map l))).weaken (le_refl _)
          (Nat.zero_le _)
    | map keyT elemT =>
      dsimp only
      exact ((parseMapPairs_sim h keyT elemT pairs.length (flatPairs pairs) D _ x y hF
        hlen).mapVal (fun l => GoValue.map l)).weaken (le_refl _) (Nat.zero_le _)
    | struct pkg name fields =>
      dsimp only
      exact finishStruct_sim _
        (parseHashStructFields_sim h _ pairs.length (flatPairs pairs) D _ x y hF hlen)
    | slice e =>
      dsimp only
      exact Sim.ok_saveError D (flatPairs pairs) _ _ hF
    | bool => exact Sim.fail_pre D (flatPairs pairs) _ _
    | int => exact Sim.fail_pre D (flatPairs pairs) _ _
    | int32 => exact Sim.fail_pre D (flatPairs pairs) _ _
    | int64 => exact Sim.fail_pre D (flatPairs pairs) _ _
    | float64 => exact Sim.fail_pre D (flatPairs pairs) _ _
    | string => exact Sim.fail_pre D (flatPairs pairs) _ _
    | ptr e => exact Sim.fail_pre D (flatPairs pairs) _ _
    | other k => exact Sim.fail_pre D (flatPairs pairs) _ _

theorem parseTypeObject_sim {M : Nat} {x y : List Byte} {rec1 rec2 : Rec}
    (h : UnitSim M rec1 rec2) (D : Decoder) (val : RValue) (cls cnt : List Byte)
    (fields : List (List Byte × List Byte)) (hcls : WireName cls)
    (hc : EncodesInt cnt fields.length) (hF : Forest M (flatPairs fields)) :
    Sim M 0 x y
      (parseTypeObject rec1 { D with r := (cls ++ (cnt ++ (flatPairs fields).flatten)) ++ x }
        val)
      (parseTypeObject rec2 { D with r := (cls ++ (cnt ++ (flatPairs fields).flatten)) ++ y }
        val) := by
  have hlen : 2 * fields.length ≤ (flatPairs fields).length := by
    rw [flatPairs_length]
  obtain ⟨D1, p, a, hz⟩ := parseSymbolOrSymbolLink_name D cls hcls
  have e1 : ∀ z : List Byte, (cls ++ (cnt ++ (flatPairs fields).flatten)) ++ z =
      cls ++ (cnt ++ ((flatPairs fields).flatten ++ z)) := by
    intro z; simp only [List.append_assoc]
  unfold parseTypeObject
  rw [e1 x, e1 y, hz, hz]
  cases p with
  | some q =>
    dsimp only
    have e2 : ∀ z : List Byte, cnt ++ ((flatPairs fields).flatten ++ z) =
        (cnt ++ (flatPairs fields).flatten) ++ z := by
      intro z; simp only [List.append_assoc]
    rw [e2 x, e2 y]
    exact Sim.mk_fail D1 _ q val.cur
  | none =>
    dsimp only
    rw [parseInt_encodes D1 cnt _ _ hc, parseInt_encodes D1 cnt _ _ hc]
    dsimp only
    rw [Int.toNat_ofNat]
    by_cases hs : (!val.canSet) = true
    · rw [if_pos hs, if_pos hs]
      exact ((skipFields_sim h fields.length (flatPairs fields) D1 .nil x y hF hlen).mapVal
        (fun _ => val.cur)).weaken (le_refl _) (Nat.zero_le _)
    · rw [if_neg hs, if_neg hs]
      cases ht : val.elemType with
      | iface =>
        dsimp only
        exact ((parseObjectFields_sim h fields.length (flatPairs fields) D1 [] x y hF
          hlen).mapVal (fun l => GoValue.iface (.map .string .iface) (.map l))).weaken
            (le_refl _) (Nat.zero_le _)
      | struct pkg name fs =>
        dsimp only
        exact finishStruct_sim _
          (parseStructFields_sim h _ fields.length (flatPairs fields) D1 _ x y hF hlen)
      | bool => exact Sim.ok_saveError D1 (flatPairs fields) _ _ hF
      | int => exact Sim.ok_saveError D1 (flatPairs fields) _ _ hF
      | int32 => exact Sim.ok_saveError D1 (flatPairs fields) _ _ hF
      | int64 => exact Sim.ok_saveError D1 (flatPairs fields) _ _ hF
      | float64 => exact Sim.ok_saveError D1 (flatPairs fields) _ _ hF
      | string => exact Sim.ok_saveError D1 (flatPairs fields) _ _ hF
      | slice e => exact Sim.ok_saveError D1 (flatPairs fields) _ _ hF
      | map k e => exact Sim.ok_saveError D1 (flatPairs fields) _ _ hF
      | ptr e => exact Sim.ok_saveError D1 (flatPairs fields) _ _ hF
      | other k => exact Sim.ok_saveError D1 (flatPairs fields) _ _ hF

/-! ### The dispatcher and the induction on the length of the value -/

theorem parseTypeStep_sim {M : Nat} {rec1 rec2 : Rec} (h : UnitSim M rec1 rec2)
    (parseFloat : GoString → Option Nat) :
    UnitSim (M + 1) (parseTypeStep parseFloat rec1) (parseTypeStep parseFloat rec2) := by
  intro D val w x y hw hlen
  have up : ∀ {res1 res2 : Res GoValue}, Sim M 0 x y res1 res2 → Sim (M + 1) 0 x y res1 res2 :=
    fun hs => hs.weaken (Nat.le_succ M) (le_refl _)
  have tag : ∀ (k : Byte) (body z : List Byte),
      parseTypeStep parseFloat rec1 { D with r := (k :: body) ++ z } val =
        parseTypeStep parseFloat rec1 { D with r := k :: (body ++ z) } val ∧
      parseTypeStep parseFloat rec2 { D with r := (k :: body) ++ z } val =
        parseTypeStep parseFloat rec2 { D with r := k :: (body ++ z) } val :=
    fun _ _ _ => ⟨rfl, rfl⟩
  cases hw with
  | null =>
    rw [(tag _ _ x).1, (tag _ _ y).2, parseTypeStep_at, parseTypeStep_at, if_pos rfl, if_pos rfl]
    exact up (parseTypeNull_sim D val)
  | isTrue =>
    rw [(tag _ _ x).1, (tag _ _ y).2, parseTypeStep_at, parseTypeStep_at,
      if_neg (by decide), if_pos rfl, if_neg (by decide), if_pos rfl]
    exact up (parseTypeBool_sim D val true)
  | isFalse =>
    rw [(tag _ _ x).1, (tag _ _ y).2, parseTypeStep_at, parseTypeStep_at,
      if_neg (by decide), if_neg (by decide), if_pos rfl,
      if_neg (by decide), if_neg (by decide), if_pos rfl]
    exact up (parseTypeBool_sim D val false)
  | float len s hl =>
    rw [(tag _ _ x).1, (tag _ _ y).2, parseTypeStep_at, parseTypeStep_at,
      if_neg (by decide), if_neg (by decide), if_neg (by decide), if_pos rfl,
      if_neg (by decide), if_neg (by decide), if_neg (by decide), if_pos rfl]
    exact up (parseTypeFloat_sim parseFloat D val len s hl)
  | fixnum bs n hn =>
    rw [(tag _ _ x).1, (tag _ _ y).2, parseTypeStep_at, parseTypeStep_at,
      if_neg (by decide), if_neg (by decide), if_neg (by decide), if_neg (by decide),
      if_pos rfl,
      if_neg (by decide), if_neg (by decide), if_neg (by decide), if_neg (by decide),
      if_pos rfl]
    exact up (parseTypeFixNum_sim D val bs n hn)
  | symbol len s hl =>
    rw [(tag _ _ x).1, (tag _ _ y).2, parseTypeStep_at, parseTypeStep_at,
      if_neg (by decide), if_neg (by decide), if_neg (by decide), if_neg (by decide),
      if_neg (by decide), if_pos rfl,
      if_neg (by decide), if_neg (by decide), if_neg (by decide), if_neg (by decide),
      if_neg (by decide), if_pos rfl]
    exact up (parseTypeSymbol_sim D val len s hl)
  | link idx i hi =>
    rw [(tag _ _ x).1, (tag _ _ y).2, parseTypeStep_at, parseTypeStep_at,
      if_neg (by decide), if_neg (by decide), if_neg (by decide), if_neg (by decide),
      if_neg (by decide), if_neg (by decide), if_pos rfl,
      if_neg (by decide), if_neg (by decide), if_neg (by decide), if_neg (by decide),
      if_neg (by decide), if_neg (by decide), if_pos rfl]
    exact up (parseTypeSymbolLink_sim D val idx i hi)
  | string len s hl =>
    rw [(tag _ _ x).1, (tag _ _ y).2, parseTypeStep_at, parseTypeStep_at,
      if_neg (by decide), if_neg (by decide), if_neg (by decide), if_neg (by decide),
      if_neg (by decide), if_neg (by decide), if_neg (by decide), if_neg (by decide),
      if_pos rfl,
      if_neg (by decide), if_neg (by decide), if_neg (by decide), if_neg (by decide),
      if_neg (by decide), if_neg (by decide), if_neg (by decide), if_neg (by decide),
      if_pos rfl]
    exact up (parseTypeString_sim D val len s hl)
  | array cnt items hc hi =>
    have hF : Forest M items := Forest.of_members items hi (by
      simp only [List.length_cons, List.length_append] at hlen
      omega)
    rw [(tag _ _ x).1, (tag _ _ y).2, parseTypeStep_at, parseTypeStep_at,
      if_neg (by decide), if_neg (by decide), if_neg (by decide), if_neg (by decide),
      if_neg (by decide), if_neg (by decide), if_neg (by decide), if_pos rfl,
      if_neg (by decide), if_neg (by decide), if_neg (by decide), if_neg (by decide),
      if_neg (by decide), if_neg (by decide), if_neg (by decide), if_pos rfl]
    exact up (parseTypeArray_sim h D val cnt items hc hF)
  | ivar len s cnt pairs hl hc hn hv =>
    have hF : Forest M (flatPairs pairs) :=
      Forest.of_members _ (flatPairs_members pairs (fun p hp => (hn p hp).wireValue) hv) (by
        simp only [List.length_cons, List.length_append] at hlen
        omega)
    rw [(tag _ _ x).1, (tag _ _ y).2, parseTypeStep_at, parseTypeStep_at,
      if_neg (by decide), if_neg (by decide), if_neg (by decide), if_neg (by decide),
      if_neg (by decide), if_neg (by decide), if_neg (by decide), if_neg (by decide),
      if_neg (by decide), if_pos rfl,
      if_neg (by decide), if_neg (by decide), if_neg (by decide), if_neg (by decide),
      if_neg (by decide), if_neg (by decide), if_neg (by decide), if_neg (by decide),
      if_neg (by decide), if_pos rfl]
    exact up (parseTypeIVar_sim D val len s cnt pairs hl hc hn hv hF)
  | hash cnt pairs hc hk hv =>
    have hF : Forest M (flatPairs pairs) :=
      Forest.of_members _ (flatPairs_members pairs hk hv) (by
        simp only [List.length_cons, List.length_append] at hlen
        omega)
    rw [(tag _ _ x).1, (tag _ _ y).2, parseTypeStep_at, parseTypeStep_at,
      if_neg (by decide), if_neg (by decide), if_neg (by decide), if_neg (by decide),
      if_neg (by decide), if_neg (by decide), if_neg (by decide), if_neg (by decide),
      if_neg (by decide), if_neg (by decide), if_neg (by decide), if_pos rfl,
      if_neg (by decide), if_neg (by decide), if_neg (by decide), if_neg (by decide),
      if_neg (by decide), if_neg (by decide), if_neg (by decide), if_neg (by decide),
      if_neg (by decide), if_neg (by decide), if_neg (by decide), if_pos rfl]
    exact up (parseTypeHash_sim h D val cnt pairs hc hF)
  | object cls cnt fields hcls hc hn hv =>
    have hF : Forest M (flatPairs fields) :=
      Forest.of_members _ (flatPairs_members fields (fun p hp => (hn p hp).wireValue) hv) (by
        simp only [List.length_cons, List.length_append] at hlen
        omega)
    rw [(tag _ _ x).1, (tag _ _ y).2, parseTypeStep_at, parseTypeStep_at,
      if_neg (by decide), if_neg (by decide), if_neg (by decide), if_neg (by decide),
      if_neg (by decide), if_neg (by decide), if_neg (by decide), if_neg (by decide),
      if_neg (by decide), if_neg (by decide), if_pos rfl,
      if_neg (by decide), if_neg (by decide), if_neg (by decide), if_neg (by decide),
      if_neg (by decide), if_neg (by decide), if_neg (by decide), if_neg (by decide),
      if_neg (by decide), if_neg (by decide), if_pos rfl]
    exact up (parseTypeObject_sim h D val cls cnt fields hcls hc hF)
  | userDefined cls len data hcls hl =>
    rw [(tag _ _ x).1, (tag _ _ y).2, parseTypeStep_at, parseTypeStep_at,
      if_neg (by decide), if_neg (by decide), if_neg (by decide), if_neg (by decide),
      if_neg (by decide), if_neg (by decide), if_neg (by decide), if_neg (by decide),
      if_neg (by decide), if_neg (by decide), if_neg (by decide), if_neg (by decide),
      if_pos rfl,
      if_neg (by decide), if_neg (by decide), if_neg (by decide), if_neg (by decide),
      if_neg (by decide), if_neg (by decide), if_neg (by decide), if_neg (by decide),
      if_neg (by decide), if_neg (by decide), if_neg (by decide), if_neg (by decide),
      if_pos rfl]
    exact up (parseTypeUserDefined_sim D val cls len data hcls hl)

/-- With budgets of at least `M`, two calls of `parseType` agree on every
complete value of at most `M` bytes, whatever follows it. -/
theorem parseTypeAux_sim (parseFloat : GoString → Option Nat) :
    ∀ (M f1 f2 : Nat), M ≤ f1 → M ≤ f2 →
      UnitSim M (parseTypeAux parseFloat f1) (parseTypeAux parseFloat f2)
  | 0, _, _, _, _ => fun D val w x y hw hlen => by
    have := hw.ne_nil
    have : w = [] := List.length_eq_zero.mp (Nat.le_zero.mp hlen)
    contradiction
  | M + 1, f1 + 1, f2 + 1, h1, h2 =>
    parseTypeStep_sim
      (parseTypeAux_sim parseFloat M f1 f2 (Nat.le_of_succ_le_succ h1)
        (Nat.le_of_succ_le_succ h2)) parseFloat

/-- The method `parseType` on a complete value followed by `t`: the
outcome is that on the value alone, with `t` behind the bytes that are left
unread. -/
theorem parseType_trailing (parseFloat : GoString → Option Nat) (D : Decoder)
    (val : RValue) (w t : List Byte) (hw : WireValue w) :
    ({ D with r := w ++ t } : Decoder).parseType parseFloat val =
      { panic := (({ D with r := w } : Decoder).parseType parseFloat val).panic,
        d := { (({ D with r := w } : Decoder).parseType parseFloat val).d with
          r := (({ D with r := w } : Decoder).parseType parseFloat val).d.r ++ t },
        val := (({ D with r := w } : Decoder).parseType parseFloat val).val } := by
  have hs := parseTypeAux_sim parseFloat w.length ((w ++ t).length + 1) (w.length + 1)
    (by rw [List.length_append]; omega) (by omega) D val w t [] hw (le_refl _)
  obtain ⟨pre, D1, p, a, h1, h2, _⟩ := hs
  have e1 : ({ D with r := w ++ t } : Decoder).parseType parseFloat val =
      parseTypeAux parseFloat ((w ++ t).length + 1) { D with r := w ++ t } val := rfl
  have e2 : ({ D with r := w } : Decoder).parseType parseFloat val =
      parseTypeAux parseFloat (w.length + 1) { D with r := w ++ [] } val := by
    rw [List.append_nil]
    rfl
  rw [e1, e2, h1, h2]
  simp only [List.append_nil]

/-- C32. `Decode` never looks at how much of the buffer is left.  For a
buffer `b` made of the two header bytes and one complete encoded value `w`,
for every destination and every decoder state, and for every byte string
`t`: `Decode` on `b ++ t` leaves in the destination what `Decode` on `b`
leaves, returns the same error or none, panics alike, and leaves the same
symbol table and error latch; the bytes it leaves unread are those that
`Decode` on `b` leaves unread, followed by `t`. -/
theorem Decode_ignores_trailing_bytes (parseFloat : GoString → Option Nat) (D : Decoder)
    (v : DecodeArg) (major minor : Byte) (w t : List Byte) (hw : WireValue w) :
    (({ D with r := (major :: minor :: w) ++ t } : Decoder).Decode parseFloat v).cur =
      (({ D with r := major :: minor :: w } : Decoder).Decode parseFloat v).cur ∧
    (({ D with r := (major :: minor :: w) ++ t } : Decoder).Decode parseFloat v).err =
      (({ D with r := major :: minor :: w } : Decoder).Decode parseFloat v).err ∧
    (({ D with r := (major :: minor :: w) ++ t } : Decoder).Decode parseFloat v).panic =
      (({ D with r := major :: minor :: w } : Decoder).Decode parseFloat v).panic ∧
    (({ D with r := (major :: minor :: w) ++ t } : Decoder).Decode parseFloat v).d.r =
      (({ D with r := major :: minor :: w } : Decoder).Decode parseFloat v).d.r ++ t ∧
    (({ D with r := (major :: minor :: w) ++ t } : Decoder).Decode parseFloat v).d.symbols =
      (({ D with r := major :: minor :: w } : Decoder).Decode parseFloat v).d.symbols ∧
    (({ D with r := (major :: minor :: w) ++ t } : Decoder).Decode parseFloat v).d.savedError =
      (({ D with r := major :: minor :: w } : Decoder).Decode parseFloat v).d.savedError := by
  cases v with
  | nonPointer k => simp [Decoder.Decode, DecodeResult.early]
  | pointer val =>
    have key := parseType_trailing parseFloat D val w t hw
    unfold Decoder.Decode
    dsimp only [List.cons_append]
    by_cases h1 : (!val.canSet) = true
    · rw [if_pos h1, if_pos h1]
      by_cases h2 : val.elemType.kind = .struct
      · rw [if_pos h2, if_pos h2]
        simp [DecodeResult.early]
      · rw [if_neg h2, if_neg h2]
        simp [DecodeResult.early]
    · rw [if_neg h1, if_neg h1]
      by_cases h3 : val.elemType.kind = .ptr
      · rw [if_pos h3, if_pos h3]
        simp [DecodeResult.early]
      · rw [if_neg h3, if_neg h3]
        by_cases hver : major.val ≠ supportedMajorVersion ∨ minor.val > supportedMinorVersion
        · rw [if_pos hver, if_pos hver]
          simp [DecodeResult.early]
        · rw [if_neg hver, if_neg hver]
          unfold Decoder.parseRootTypeAndRecoverPanic
          dsimp only
          rw [key]
          generalize ({ D with r := w } : Decoder).parseType parseFloat val = res
          obtain ⟨p, d, a⟩ := res
          cases p with
          | some q =>
            dsimp only
            by_cases hq : (!devMode) = true ∧ q.isRubyError = true
            · rw [if_pos hq, if_pos hq]
              simp
            · rw [if_neg hq, if_neg hq]
              simp
          | none =>
            dsimp only
            cases hse : d.savedError with
            | none => simp [hse]
            | some e => simp [hse]

theorem Decode_ignores_trailing_bytes_witness :
    WireValue [0x22, 0x06, 0x61] ∧
    (({ NewDecoder [] with r := ([0x04, 0x08, 0x22, 0x06, 0x61] : List Byte) ++ [0xFF, 0x00] } :
        Decoder).Decode (fun _ => none) (.pointer (RValue.addrOf .string (.string [])))).cur =
      (({ NewDecoder [] with r := [0x04, 0x08, 0x22, 0x06, 0x61] } : Decoder).Decode
        (fun _ => none) (.pointer (RValue.addrOf .string (.string [])))).cur ∧
    (({ NewDecoder [] with r := ([0x04, 0x08, 0x22, 0x06, 0x61] : List Byte) ++ [0xFF, 0x00] } :
        Decoder).Decode (fun _ => none) (.pointer (RValue.addrOf .string (.string [])))).err =
      (({ NewDecoder [] with r := [0x04, 0x08, 0x22, 0x06, 0x61] } : Decoder).Decode
        (fun _ => none) (.pointer (RValue.addrOf .string (.string [])))).err :=
  ⟨WireValue.string [0x06] [0x61] (fun rest => (parseIntBytes_small 0x06 rest).2.1 (by decide)),
    (Decode_ignores_trailing_bytes (fun _ => none) (NewDecoder [])
      (.pointer (RValue.addrOf .string (.string []))) 0x04 0x08 [0x22, 0x06, 0x61] [0xFF, 0x00]
      (WireValue.string [0x06] [0x61]
        (fun rest => (parseIntBytes_small 0x06 rest).2.1 (by decide)))).1,
    (Decode_ignores_trailing_bytes (fun _ => none) (NewDecoder [])
      (.pointer (RValue.addrOf .string (.string []))) 0x04 0x08 [0x22, 0x06, 0x61] [0xFF, 0x00]
      (WireValue.string [0x06] [0x61]
        (fun rest => (parseIntBytes_small 0x06 rest).2.1 (by decide)))).2.1⟩

/-- A string followed by two more bytes, decoded into a string: the string
is bound, no error is returned, and the two bytes are left unread. -/
theorem Decode_trailing_example :
    ((NewDecoder [0x04, 0x08, 0x22, 0x06, 0x61, 0xFF, 0x00]).Decode (fun _ => none)
        (.pointer (RValue.addrOf .string (.string [])))).cur = .string [0x61] ∧
    ((NewDecoder [0x04, 0x08, 0x22, 0x06, 0x61, 0xFF, 0x00]).Decode (fun _ => none)
        (.pointer (RValue.addrOf .string (.string [])))).err = none ∧
    ((NewDecoder [0x04, 0x08, 0x22, 0x06, 0x61, 0xFF, 0x00]).Decode (fun _ => none)
        (.pointer (RValue.addrOf .string (.string [])))).panic = none ∧
    ((NewDecoder [0x04, 0x08, 0x22, 0x06, 0x61, 0xFF, 0x00]).Decode (fun _ => none)
        (.pointer (RValue.addrOf .string (.string [])))).d.r = [0xFF, 0x00] := by
  refine ⟨rfl, rfl, rfl, rfl⟩

end Rubymarshal
